import Mathlib

/-!
# DBFM file manager: navigation state machine and file-operation engine

A shallow embedding of the C sources (`source/main.c`, `source/ui.c`,
`source/fs.c`, `source/input.c`, `libs/utils`, `libs/clipboard`,
`libs/paste`, `libs/move`, `libs/delete`, `libs/copy`, `libs/rename`,
`libs/launch`, `libs/install`) together with the properties proved about
them.

Conventions of the embedding.

* A C string is the list of its characters before the terminating NUL
  (`CStr`).  Writing a string into a `char[n]` buffer with `strncpy(.., n-1)`
  or `snprintf(.., n, ..)` keeps its first `n-1` characters (`List.take`).
* `int` fields are integers (`Int`).  Every increment in the embedded code is
  guarded by a comparison with a value that is itself an `int`, and a listing
  (272 bytes per entry) has far fewer than `2^31 - 20` entries, so no
  arithmetic of the embedded code leaves the 32-bit range.
* A pointer argument that every caller passes non-NULL is represented by its
  pointee; `FsDirectory*` and the clipboard path, which can be NULL, are
  `Option`s.
* Calls into the C library and libnx are fields of a record of primitives
  acting on an abstract world `σ`; the embedded functions thread the world.
-/

namespace DBFM

/-- C string: the characters before the terminating NUL. -/
abbrev CStr := List Char

/-! ## Data model (`include/fs.h`, `include/ui.h`) -/

/-- Struct `FsEntry` of `fs.h`. -/
structure FsEntry where
  name : CStr
  is_dir : Bool
  size : Nat
deriving DecidableEq, Repr

/-- Struct `FsDirectory` of `fs.h`: `entries` holds the `count` filled slots of the
array, `capacity` the allocated number of slots. -/
structure FsDirectory where
  entries : List FsEntry
  capacity : Nat
deriving DecidableEq, Repr

/-- The `count` field of an `FsDirectory`. -/
def FsDirectory.count (d : FsDirectory) : Int := d.entries.length

/-- Struct `UIState` of `ui.h`. -/
structure UIState where
  current_dir : Option FsDirectory
  selected_index : Int
  scroll_offset : Int
  current_path : CStr
  overlay_active : Int
  overlay_selected : Int
  overlay_count : Int
  overlay_codes : List Int
  overlay_labels : List CStr
  popup_active : Int
  popup_type : Int
  popup_message : CStr
  popup_timer : Int
deriving DecidableEq, Repr

def MAX_VISIBLE_ENTRIES : Int := 20

/-! ## Selection (`ui.c`, `ui_select_next` / `ui_select_prev`) -/

def ui_select_next (ui : UIState) : UIState :=
  match ui.current_dir with
  | none => ui
  | some d =>
    if ui.selected_index < d.count - 1 then
      let ui1 := { ui with selected_index := ui.selected_index + 1 }
      if ui1.selected_index ≥ ui1.scroll_offset + MAX_VISIBLE_ENTRIES then
        { ui1 with scroll_offset := ui1.scroll_offset + 1 }
      else ui1
    else ui

def ui_select_prev (ui : UIState) : UIState :=
  match ui.current_dir with
  | none => ui
  | some _ =>
    if ui.selected_index > 0 then
      let ui1 := { ui with selected_index := ui.selected_index - 1 }
      if ui1.selected_index < ui1.scroll_offset then
        { ui1 with scroll_offset := ui1.scroll_offset - 1 }
      else ui1
    else ui

/-- One selection key press. -/
inductive NavOp where
  | next
  | prev
deriving DecidableEq, Repr

def NavOp.apply : NavOp → UIState → UIState
  | .next, ui => ui_select_next ui
  | .prev, ui => ui_select_prev ui

/-- Run a finite sequence of selection key presses, first element first. -/
def runNav (ops : List NavOp) (ui : UIState) : UIState :=
  ops.foldl (fun s op => op.apply s) ui

/-- The scroll invariant of the 20-row window. -/
def ScrollInv (ui : UIState) : Prop :=
  0 ≤ ui.scroll_offset ∧ ui.scroll_offset ≤ ui.selected_index ∧
    ui.selected_index < ui.scroll_offset + 20

/-! ## String and path utilities (`libs/utils/utils.c`) -/

def str_len (s : CStr) : Int := s.length

/-- Function `str_copy(dest, src, dest_size)` for `dest_size > 0`: the return code and
the contents of `dest`. -/
def str_copy (src : CStr) (dest_size : Nat) : Int × CStr :=
  let dest := src.take (dest_size - 1)
  (if dest.length < src.length then -1 else 0, dest)

/-- The loop of `path_normalize` on the reversed string: drop trailing
slashes while more than one character is left. -/
def dropTrailingSlashes : List Char → List Char
  | c :: d :: rest => if c = '/' then dropTrailingSlashes (d :: rest) else c :: d :: rest
  | l => l

def path_normalize (path : CStr) : CStr :=
  (dropTrailingSlashes path.reverse).reverse

/-- The scan `for (i = len - 1; i >= 0; i--) if (s[i] == '/') ...` shared by
`path_get_parent` and `path_get_filename`: the index of the last slash among
the first `n` characters, or `-1`. -/
def find_last_slash (s : CStr) : Nat → Int
  | 0 => -1
  | i + 1 => if s.getD i ' ' = '/' then (i : Int) else find_last_slash s i

/-- Function `path_get_parent(path, dest)`: the return code and the contents of
`dest`. -/
def path_get_parent (path : CStr) : Int × CStr :=
  let dest := (str_copy path 512).2
  let dest := path_normalize dest
  let last_slash := find_last_slash dest dest.length
  if last_slash ≤ 0 then (-1, dest)
  else (0, dest.take last_slash.toNat)

def path_get_filename (path : CStr) : CStr :=
  let i := find_last_slash path path.length
  if i < 0 then path else path.drop (i.toNat + 1)

/-- Call `snprintf(buf, size, "%s/%s", a, b)`: the contents of `buf`. -/
def snprintf_join (size : Nat) (a b : CStr) : CStr :=
  (a ++ '/' :: b).take (size - 1)

/-! ## Directory listing (`source/fs.c`) -/

/-- The fields of `struct dirent` read by `fs_list_directory`. -/
structure Dirent where
  d_name : CStr
  d_type : Nat
deriving DecidableEq, Repr

/-- Value of `DT_DIR` in the C library header `dirent.h`. -/
def DT_DIR : Nat := 4

/-- The C library calls made by `fs.c`, acting on a world `σ`.  `opendir`
yields, for a directory that opens, the finite sequence of entries that the
following `readdir` calls return before NULL. `stat` yields `st_size` when
it returns 0. `alloc n` tells whether a `malloc`/`realloc` request for `n`
bytes succeeds. -/
structure Posix (σ : Type) where
  opendir : CStr → σ → Option (List Dirent) × σ
  closedir : σ → σ
  stat : CStr → σ → Option Nat × σ
  alloc : Nat → σ → Bool × σ

/-- Size in bytes of `FsEntry` (`char[256]`, `int`, padding, `uint64_t`). -/
def sizeof_FsEntry : Nat := 272
/-- Size in bytes of `FsDirectory` (pointer, two `int`s). -/
def sizeof_FsDirectory : Nat := 16

def is_dot_or_dotdot (name : CStr) : Bool :=
  name == ['.'] || name == ['.', '.']

/-- The `while ((entry = readdir(dir)) != NULL)` loop of `fs_list_directory`,
with the closing `closedir` and `return`. -/
def fs_list_loop {σ : Type} (px : Posix σ) (path : CStr) :
    List Dirent → FsDirectory → σ → FsDirectory × σ
  | [], fs_dir, w => (fs_dir, px.closedir w)
  | entry :: rest, fs_dir, w =>
    if is_dot_or_dotdot entry.d_name then fs_list_loop px path rest fs_dir w
    else
      let grow := decide (fs_dir.count ≥ (fs_dir.capacity : Int))
      let capacity := if grow then fs_dir.capacity * 2 else fs_dir.capacity
      let fs_dir := { fs_dir with capacity := capacity }
      let (ok, w) := if grow then px.alloc (sizeof_FsEntry * capacity) w else (true, w)
      if !ok then (fs_dir, px.closedir w)
      else
        let is_dir := decide (entry.d_type = DT_DIR)
        let (size, w) :=
          if is_dir then (0, w)
          else
            match px.stat (snprintf_join 512 path entry.d_name) w with
            | (some st_size, w) => (st_size, w)
            | (none, w) => (0, w)
        let cur_entry : FsEntry := { name := entry.d_name.take 255, is_dir := is_dir, size := size }
        fs_list_loop px path rest { fs_dir with entries := fs_dir.entries ++ [cur_entry] } w

/-- Function `fs_list_directory(path)`; `none` is the NULL result. -/
def fs_list_directory {σ : Type} (px : Posix σ) (path : CStr) (w : σ) :
    Option FsDirectory × σ :=
  match px.opendir path w with
  | (none, w) => (none, w)
  | (some stream, w) =>
    let (ok, w) := px.alloc sizeof_FsDirectory w
    if !ok then (none, px.closedir w)
    else
      let (ok, w) := px.alloc (sizeof_FsEntry * 32) w
      if !ok then (none, px.closedir w)
      else
        let (d, w) := fs_list_loop px path stream { entries := [], capacity := 32 } w
        (some d, w)

def fs_build_path (current_path entry_name : CStr) : CStr :=
  snprintf_join 512 current_path entry_name

def fs_is_valid_path {σ : Type} (px : Posix σ) (path : CStr) (w : σ) : Int × σ :=
  match px.opendir path w with
  | (none, w) => (0, w)
  | (some _, w) => (1, px.closedir w)

/-! ## Navigation (`source/ui.c`) -/

/-- Function `ui_get_selected_entry`; `none` is the NULL result.  (With a negative
`selected_index` the C code reads before the array; the embedding then
reads slot 0.) -/
def ui_get_selected_entry (ui : UIState) : Option FsEntry :=
  match ui.current_dir with
  | none => none
  | some d =>
    if ui.selected_index ≥ d.count then none
    else d.entries[ui.selected_index.toNat]?

/-- Function `ui_get_selected_path(ui_state, dest)`: the contents of `dest`. -/
def ui_get_selected_path (ui : UIState) : CStr :=
  match ui_get_selected_entry ui with
  | none => []
  | some entry => fs_build_path ui.current_path entry.name

def ui_enter_directory {σ : Type} (px : Posix σ) (ui : UIState) (w : σ) :
    Int × UIState × σ :=
  match ui_get_selected_entry ui with
  | none => (-1, ui, w)
  | some entry =>
    if !entry.is_dir then (-1, ui, w)
    else
      let new_path := ui_get_selected_path ui
      match fs_is_valid_path px new_path w with
      | (valid, w) =>
        if valid = 0 then (-1, ui, w)
        else
          match fs_list_directory px new_path w with
          | (none, w) => (-1, ui, w)
          | (some new_dir, w) =>
            (0, { ui with current_path := new_path, current_dir := some new_dir,
                          selected_index := 0, scroll_offset := 0 }, w)

def ui_go_back {σ : Type} (px : Posix σ) (ui : UIState) (w : σ) :
    Int × UIState × σ :=
  match path_get_parent ui.current_path with
  | (rc, parent_path) =>
    if rc ≠ 0 then (-1, ui, w)
    else
      match fs_list_directory px parent_path w with
      | (none, w) => (-1, ui, w)
      | (some parent_dir, w) =>
        (0, { ui with current_path := parent_path, current_dir := some parent_dir,
                      selected_index := 0, scroll_offset := 0 }, w)

/-! ## Clipboard (`libs/clipboard/clipboard.c`) -/

/-- Enum `ClipboardOp` of `clipboard.h`. -/
inductive ClipboardOp where
  | NONE
  | COPY
  | MOVE
deriving DecidableEq, Repr

/-- The two file-scope variables of `clipboard.c`. -/
structure Clipboard where
  g_clipboard_path : CStr
  g_clipboard_op : ClipboardOp
deriving DecidableEq, Repr

def clipboard_init (_ : Clipboard) : Clipboard :=
  { g_clipboard_path := [], g_clipboard_op := .NONE }

/-- Function `clipboard_set(path, op)` for a non-NULL `path`; it returns 0. -/
def clipboard_set (path : CStr) (op : ClipboardOp) (_ : Clipboard) : Clipboard :=
  { g_clipboard_path := path.take 511, g_clipboard_op := op }

/-- Function `clipboard_get_path`; `none` is the NULL result. -/
def clipboard_get_path (c : Clipboard) : Option CStr :=
  if c.g_clipboard_op = .NONE then none else some c.g_clipboard_path

def clipboard_get_operation (c : Clipboard) : ClipboardOp := c.g_clipboard_op

def clipboard_clear (_ : Clipboard) : Clipboard :=
  { g_clipboard_path := [], g_clipboard_op := .NONE }

def clipboard_has_item (c : Clipboard) : Bool :=
  decide (c.g_clipboard_op ≠ .NONE) && decide (c.g_clipboard_path ≠ [])

/-! ## The libnx file-system service -/

/-- The libnx type `Result`: 0 is success. -/
abbrev Result := Nat

def R_SUCCEEDED (rc : Result) : Bool := rc == 0
def R_FAILED (rc : Result) : Bool := rc != 0

/-- The fields of the libnx `FsDirectoryEntry` read by the sources. -/
structure FsDirectoryEntry where
  name : CStr
  type : Nat
deriving DecidableEq, Repr

/-- Value of the libnx enumerator `FsDirEntryType_Dir` (libnx header, outside
the repository). -/
def FsDirEntryType_Dir : Nat := 0
/-- Value of the libnx enumerator `FsDirEntryType_File`. -/
def FsDirEntryType_File : Nat := 1
/-- Value of the libnx flag `FsDirOpenMode_ReadDirs`. -/
def FsDirOpenMode_ReadDirs : Nat := 1
/-- Value of the libnx flag `FsDirOpenMode_ReadFiles`. -/
def FsDirOpenMode_ReadFiles : Nat := 2
/-- Value of the libnx flag `FsOpenMode_Read`. -/
def FsOpenMode_Read : Nat := 1
/-- Value of the libnx flag `FsOpenMode_Write`. -/
def FsOpenMode_Write : Nat := 2

/-- The libnx calls made by `libs/copy`, `libs/delete`, `libs/move` and
`libs/rename`, acting on a world `σ`; `δ` and `φ` are the directory and file
handles (`FsDir`, `FsFile`).  A call that fills a handle returns it next to its
`Result`; the handle means something only when the call succeeded.
`fsDirRead` is the call with `max_entries = 1`: it returns the entry read, or
`none` when it reports `total_entries = 0`.  `fsFileRead` returns the bytes it
placed in the buffer (`bytes_read` is their number). -/
structure Libnx (σ δ φ : Type) where
  fsOpenSdCardFileSystem : σ → Result × σ
  fsFsClose : σ → σ
  fsFsOpenDirectory : CStr → Nat → σ → Result × δ × σ
  fsDirRead : δ → σ → Result × Option FsDirectoryEntry × σ
  fsDirClose : δ → σ → σ
  fsFsCreateDirectory : CStr → σ → Result × σ
  fsFsDeleteDirectory : CStr → σ → Result × σ
  fsFsDeleteFile : CStr → σ → Result × σ
  fsFsCreateFile : CStr → σ → Result × σ
  fsFsOpenFile : CStr → Nat → σ → Result × φ × σ
  fsFileRead : φ → Nat → Nat → σ → Result × List Nat × σ
  fsFileWrite : φ → Nat → List Nat → σ → Result × σ
  fsFileClose : φ → σ → σ
  fsFsRenameFile : CStr → CStr → σ → Result × σ
  fsFsRenameDirectory : CStr → CStr → σ → Result × σ

/-- The helper `normalize_sd_path(in, out, outlen)` of `copy.c`, `delete.c`
and `rename.c` (and the same code inlined in `move.c`), for `outlen > 0`: the
contents of `out`. -/
def normalize_sd_path (inp : CStr) (outlen : Nat) : CStr :=
  let p := if ("sdmc:/".toList).isPrefixOf inp then inp.drop 6 else inp
  let p := if p.head? = some '/' then p.drop 1 else p
  p.take (outlen - 1)

section FileOps
variable {σ δ φ : Type}

/-! ### Delete (`libs/delete/delete.c`)

The recursion and the `while (1)` loop run on a fuel counter: one unit per
call and per loop iteration; `none` means the counter ran out. -/

mutual
/-- Function `delete_recursive_libnx(path)`. -/
def delete_recursive_libnx (api : Libnx σ δ φ) : Nat → CStr → σ → Option (Int × σ)
  | 0, _, _ => none
  | fuel + 1, path, w =>
    match api.fsOpenSdCardFileSystem w with
    | (rc, w) =>
      if R_FAILED rc then some (-1, w)
      else
        let path_n := normalize_sd_path path 512
        match api.fsFsOpenDirectory path_n (FsDirOpenMode_ReadDirs ||| FsDirOpenMode_ReadFiles) w with
        | (rc, dir, w) =>
          if R_SUCCEEDED rc then delete_children api fuel path path_n dir w
          else
            match api.fsFsDeleteFile path_n w with
            | (rc, w) =>
              let w := api.fsFsClose w
              if R_FAILED rc then some (-1, w) else some (0, w)
/-- The `while (1)` loop of `delete_recursive_libnx` and the code after it. -/
def delete_children (api : Libnx σ δ φ) : Nat → CStr → CStr → δ → σ → Option (Int × σ)
  | 0, _, _, _, _ => none
  | fuel + 1, path, path_n, dir, w =>
    match api.fsDirRead dir w with
    | (rc, entry, w) =>
      if R_FAILED rc then some (-1, api.fsFsClose (api.fsDirClose dir w))
      else
        match entry with
        | none =>
          let w := api.fsDirClose dir w
          match api.fsFsDeleteDirectory path_n w with
          | (rc, w) =>
            let w := api.fsFsClose w
            if R_FAILED rc then some (-1, w) else some (0, w)
        | some entry =>
          if is_dot_or_dotdot entry.name then delete_children api fuel path path_n dir w
          else
            let child := snprintf_join 512 path entry.name
            match delete_recursive_libnx api fuel child w with
            | none => none
            | some (rc, w) =>
              if rc ≠ 0 then some (-1, api.fsFsClose (api.fsDirClose dir w))
              else delete_children api fuel path path_n dir w
end

def delete_item (api : Libnx σ δ φ) (fuel : Nat) (path : CStr) (w : σ) : Option (Int × σ) :=
  delete_recursive_libnx api fuel path w

/-! ### Copy (`libs/copy/copy.c`) -/

/-- The `while (1)` loop of `copy_file_contents_libnx` and the code after it. -/
def copy_file_loop (api : Libnx σ δ φ) (inFile outFile : φ) :
    Nat → Nat → Nat → σ → Option (Int × σ)
  | 0, _, _, _ => none
  | fuel + 1, off_in, off_out, w =>
    match api.fsFileRead inFile off_in 4096 w with
    | (rc, buf, w) =>
      if R_FAILED rc then
        some (-1, api.fsFsClose (api.fsFileClose outFile (api.fsFileClose inFile w)))
      else if buf.length = 0 then
        some (0, api.fsFsClose (api.fsFileClose outFile (api.fsFileClose inFile w)))
      else
        match api.fsFileWrite outFile off_out buf w with
        | (rc, w) =>
          if R_FAILED rc then
            some (-1, api.fsFsClose (api.fsFileClose outFile (api.fsFileClose inFile w)))
          else copy_file_loop api inFile outFile fuel (off_in + buf.length) (off_out + buf.length) w

def copy_file_contents_libnx (api : Libnx σ δ φ) (fuel : Nat) (src dest : CStr) (w : σ) :
    Option (Int × σ) :=
  match api.fsOpenSdCardFileSystem w with
  | (rc, w) =>
    if R_FAILED rc then some (-1, w)
    else
      let src_n := normalize_sd_path src 512
      let dest_n := normalize_sd_path dest 512
      match api.fsFsOpenFile src_n FsOpenMode_Read w with
      | (rc, inFile, w) =>
        if R_FAILED rc then some (-1, api.fsFsClose w)
        else
          match api.fsFsCreateFile dest_n w with
          | (_, w) =>
            match api.fsFsOpenFile dest_n FsOpenMode_Write w with
            | (rc, outFile, w) =>
              if R_FAILED rc then some (-1, api.fsFsClose (api.fsFileClose inFile w))
              else copy_file_loop api inFile outFile fuel 0 0 w

mutual
/-- Function `copy_dir_recursive_libnx(src_dir, dest_dir)`. -/
def copy_dir_recursive_libnx (api : Libnx σ δ φ) : Nat → CStr → CStr → σ → Option (Int × σ)
  | 0, _, _, _ => none
  | fuel + 1, src_dir, dest_dir, w =>
    match api.fsOpenSdCardFileSystem w with
    | (rc, w) =>
      if R_FAILED rc then some (-1, w)
      else
        let src_n := normalize_sd_path src_dir 512
        let dest_n := normalize_sd_path dest_dir 512
        match api.fsFsCreateDirectory dest_n w with
        | (_, w) =>
          match api.fsFsOpenDirectory src_n (FsDirOpenMode_ReadDirs ||| FsDirOpenMode_ReadFiles) w with
          | (rc, dir, w) =>
            if R_FAILED rc then some (-1, api.fsFsClose w)
            else copy_children api fuel src_n dest_n dir w
/-- The `while (1)` loop of `copy_dir_recursive_libnx` and the code after it. -/
def copy_children (api : Libnx σ δ φ) : Nat → CStr → CStr → δ → σ → Option (Int × σ)
  | 0, _, _, _, _ => none
  | fuel + 1, src_n, dest_n, dir, w =>
    match api.fsDirRead dir w with
    | (rc, entry, w) =>
      if R_FAILED rc then some (-1, api.fsFsClose (api.fsDirClose dir w))
      else
        match entry with
        | none => some (0, api.fsFsClose (api.fsDirClose dir w))
        | some entry =>
          if is_dot_or_dotdot entry.name then copy_children api fuel src_n dest_n dir w
          else
            let child_src := snprintf_join 512 src_n entry.name
            let child_dest := snprintf_join 512 dest_n entry.name
            match (if entry.type = FsDirEntryType_Dir
                   then copy_dir_recursive_libnx api fuel child_src child_dest w
                   else copy_file_contents_libnx api fuel child_src child_dest w) with
            | none => none
            | some (rc, w) =>
              if rc ≠ 0 then some (-1, api.fsFsClose (api.fsDirClose dir w))
              else copy_children api fuel src_n dest_n dir w
end

def copy_item (api : Libnx σ δ φ) (fuel : Nat) (src dest_dir : CStr) (w : σ) :
    Option (Int × σ) :=
  let name := path_get_filename src
  let dest_path := snprintf_join 512 dest_dir name
  match api.fsOpenSdCardFileSystem w with
  | (rc, w) =>
    if R_FAILED rc then some (-1, w)
    else
      let src_n := normalize_sd_path src 512
      match api.fsFsOpenDirectory src_n (FsDirOpenMode_ReadDirs ||| FsDirOpenMode_ReadFiles) w with
      | (rc, dir, w) =>
        if R_SUCCEEDED rc then
          copy_dir_recursive_libnx api fuel src dest_path (api.fsFsClose (api.fsDirClose dir w))
        else copy_file_contents_libnx api fuel src dest_path (api.fsFsClose w)

/-! ### Move (`libs/move/move.c`) -/

/-- The first part of `move_file`, up to the comment `Fallback: copy then
delete`: whether it returned 0, and the world it leaves. -/
def move_file_rename (api : Libnx σ δ φ) (src dest_dir : CStr) (w : σ) : Bool × σ :=
  let filename := path_get_filename src
  let dest_path := snprintf_join 512 dest_dir filename
  match api.fsOpenSdCardFileSystem w with
  | (rc, w) =>
    if R_SUCCEEDED rc then
      let src_n := normalize_sd_path src 512
      let dest_n := normalize_sd_path dest_path 512
      match api.fsFsRenameFile src_n dest_n w with
      | (rc, w) => (R_SUCCEEDED rc, api.fsFsClose w)
    else (false, w)

def move_file (api : Libnx σ δ φ) (fuel : Nat) (src dest_dir : CStr) (w : σ) :
    Option (Int × σ) :=
  match move_file_rename api src dest_dir w with
  | (true, w) => some (0, w)
  | (false, w) =>
    match copy_item api fuel src dest_dir w with
    | none => none
    | some (rc, w) =>
      if rc ≠ 0 then some (-1, w)
      else
        match delete_item api fuel src w with
        | none => none
        | some (rc, w) => if rc ≠ 0 then some (-1, w) else some (0, w)

/-! ### Paste (`libs/paste/paste.c`) -/

/-- Function `paste_item(dest_dir)`; `dest_dir = none` is a NULL argument. -/
def paste_item (api : Libnx σ δ φ) (fuel : Nat) (dest_dir : Option CStr)
    (clip : Clipboard) (w : σ) : Option (Int × Clipboard × σ) :=
  match dest_dir with
  | none => some (-1, clip, w)
  | some dest_dir =>
    if !clipboard_has_item clip then some (-1, clip, w)
    else
      match clipboard_get_path clip with
      | none => some (-1, clip, w)
      | some path =>
        let op := clipboard_get_operation clip
        match (match op with
               | .COPY => copy_item api fuel path dest_dir w
               | .MOVE => move_file api fuel path dest_dir w
               | .NONE => some (-1, w)) with
        | none => none
        | some (rc, w) =>
          if rc = 0 then
            some (0, if op = .MOVE then clipboard_clear clip else clip, w)
          else some (-1, clip, w)

end FileOps

/-! ## Call traces

Any implementation of the libnx calls can be wrapped so that the world also
carries the list of calls made so far, oldest first. -/

/-- A libnx call with the arguments that identify it. -/
inductive Call where
  | fsOpenSdCardFileSystem
  | fsFsClose
  | fsFsOpenDirectory (path : CStr)
  | fsDirRead
  | fsDirClose
  | fsFsCreateDirectory (path : CStr)
  | fsFsDeleteDirectory (path : CStr)
  | fsFsDeleteFile (path : CStr)
  | fsFsCreateFile (path : CStr)
  | fsFsOpenFile (path : CStr) (mode : Nat)
  | fsFileRead (off : Nat)
  | fsFileWrite (off : Nat) (data : List Nat)
  | fsFileClose
  | fsFsRenameFile (old new : CStr)
  | fsFsRenameDirectory (old new : CStr)
deriving DecidableEq, Repr

/-- A call together with the `Result` it returned (0 for a `void` call). -/
structure Event where
  call : Call
  rc : Result
deriving DecidableEq, Repr

/-- The implementation `api` with every call appended to a trace. -/
def traced {σ δ φ : Type} (api : Libnx σ δ φ) : Libnx (σ × List Event) δ φ where
  fsOpenSdCardFileSystem := fun (w, t) =>
    match api.fsOpenSdCardFileSystem w with
    | (rc, w) => (rc, w, t ++ [⟨.fsOpenSdCardFileSystem, rc⟩])
  fsFsClose := fun (w, t) => (api.fsFsClose w, t ++ [⟨.fsFsClose, 0⟩])
  fsFsOpenDirectory := fun p m (w, t) =>
    match api.fsFsOpenDirectory p m w with
    | (rc, d, w) => (rc, d, w, t ++ [⟨.fsFsOpenDirectory p, rc⟩])
  fsDirRead := fun d (w, t) =>
    match api.fsDirRead d w with
    | (rc, e, w) => (rc, e, w, t ++ [⟨.fsDirRead, rc⟩])
  fsDirClose := fun d (w, t) => (api.fsDirClose d w, t ++ [⟨.fsDirClose, 0⟩])
  fsFsCreateDirectory := fun p (w, t) =>
    match api.fsFsCreateDirectory p w with
    | (rc, w) => (rc, w, t ++ [⟨.fsFsCreateDirectory p, rc⟩])
  fsFsDeleteDirectory := fun p (w, t) =>
    match api.fsFsDeleteDirectory p w with
    | (rc, w) => (rc, w, t ++ [⟨.fsFsDeleteDirectory p, rc⟩])
  fsFsDeleteFile := fun p (w, t) =>
    match api.fsFsDeleteFile p w with
    | (rc, w) => (rc, w, t ++ [⟨.fsFsDeleteFile p, rc⟩])
  fsFsCreateFile := fun p (w, t) =>
    match api.fsFsCreateFile p w with
    | (rc, w) => (rc, w, t ++ [⟨.fsFsCreateFile p, rc⟩])
  fsFsOpenFile := fun p m (w, t) =>
    match api.fsFsOpenFile p m w with
    | (rc, f, w) => (rc, f, w, t ++ [⟨.fsFsOpenFile p m, rc⟩])
  fsFileRead := fun f off n (w, t) =>
    match api.fsFileRead f off n w with
    | (rc, buf, w) => (rc, buf, w, t ++ [⟨.fsFileRead off, rc⟩])
  fsFileWrite := fun f off buf (w, t) =>
    match api.fsFileWrite f off buf w with
    | (rc, w) => (rc, w, t ++ [⟨.fsFileWrite off buf, rc⟩])
  fsFileClose := fun f (w, t) => (api.fsFileClose f w, t ++ [⟨.fsFileClose, 0⟩])
  fsFsRenameFile := fun a b (w, t) =>
    match api.fsFsRenameFile a b w with
    | (rc, w) => (rc, w, t ++ [⟨.fsFsRenameFile a b, rc⟩])
  fsFsRenameDirectory := fun a b (w, t) =>
    match api.fsFsRenameDirectory a b w with
    | (rc, w) => (rc, w, t ++ [⟨.fsFsRenameDirectory a b, rc⟩])

/-! ## A reference SD card

An idealised hierarchical file system that implements the libnx calls: a
finite table from paths (lists of names) to nodes, directory handles that
enumerate a snapshot taken when the directory is opened, and a schedule of
injected I/O failures, one flag consumed by each call that can fail. -/

/-- The pieces of a path string between slashes, empty pieces included. -/
def rawSplit : CStr → List CStr
  | [] => [[]]
  | c :: rest =>
    if c = '/' then [] :: rawSplit rest
    else
      match rawSplit rest with
      | x :: xs => (c :: x) :: xs
      | [] => [[c]]

/-- The names along a path string; empty pieces (leading, trailing or doubled
slashes) are skipped. -/
def components (p : CStr) : List CStr :=
  (rawSplit p).filter (fun x => x ≠ [])

/-- What a path names on the card. -/
inductive Node where
  | file (data : List Nat)
  | dir
deriving DecidableEq, Repr

abbrev Key := List CStr

structure Card where
  nodes : List (Key × Node)
  streams : List (List FsDirectoryEntry)
  handles : List Key
  faults : List Bool
deriving DecidableEq, Repr

namespace Card

def find (k : Key) : List (Key × Node) → Option Node
  | [] => none
  | (k1, n) :: rest => if k1 = k then some n else find k rest

def erase (k : Key) (nodes : List (Key × Node)) : List (Key × Node) :=
  nodes.filter (fun e => e.1 ≠ k)

/-- Whether `key` names a direct child of `k`. -/
def isChild (k key : Key) : Bool :=
  decide (key.length = k.length + 1) && k.isPrefixOf key

/-- Whether some node lies below `k`. -/
def hasChild (k : Key) (nodes : List (Key × Node)) : Bool :=
  nodes.any (fun e => k.isPrefixOf e.1 && decide (e.1 ≠ k))

def entryType : Node → Nat
  | .dir => FsDirEntryType_Dir
  | .file _ => FsDirEntryType_File

/-- The entries of directory `k` in table order, filtered by the open mode. -/
def listing (k : Key) (mode : Nat) (nodes : List (Key × Node)) : List FsDirectoryEntry :=
  nodes.filterMap (fun e =>
    if isChild k e.1 then
      match e.2 with
      | .dir =>
        if mode &&& FsDirOpenMode_ReadDirs ≠ 0
        then some ⟨e.1.getLastD [], FsDirEntryType_Dir⟩ else none
      | .file _ =>
        if mode &&& FsDirOpenMode_ReadFiles ≠ 0
        then some ⟨e.1.getLastD [], FsDirEntryType_File⟩ else none
    else none)

/-- Whether a new node may be created at `k`: nothing is there and its
parent is a directory. -/
def canCreate (k : Key) (nodes : List (Key × Node)) : Bool :=
  decide (k ≠ []) && decide (find k nodes = none) &&
    decide (find k.dropLast nodes = some .dir)

/-- Replace the leading `old` of every key under `old` by `new`. -/
def rekey (old new : Key) (nodes : List (Key × Node)) : List (Key × Node) :=
  nodes.map (fun e => if old.isPrefixOf e.1 then (new ++ e.1.drop old.length, e.2) else e)

/-- Consume the next failure flag of the schedule. -/
def popFault (c : Card) : Bool × Card :=
  match c.faults with
  | [] => (false, c)
  | b :: rest => (b, { c with faults := rest })

def setData (k : Key) (data : List Nat) (nodes : List (Key × Node)) : List (Key × Node) :=
  nodes.map (fun e => if e.1 = k then (e.1, Node.file data) else e)

/-- The reference implementation of the libnx calls. -/
def api : Libnx Card Nat Nat where
  fsOpenSdCardFileSystem := fun c =>
    match popFault c with
    | (true, c) => (1, c)
    | (false, c) => (0, c)
  fsFsClose := fun c => c
  fsFsOpenDirectory := fun p mode c =>
    match popFault c with
    | (true, c) => (1, 0, c)
    | (false, c) =>
      match find (components p) c.nodes with
      | some .dir =>
        (0, c.streams.length,
          { c with streams := c.streams ++ [listing (components p) mode c.nodes] })
      | _ => (1, 0, c)
  fsDirRead := fun h c =>
    match popFault c with
    | (true, c) => (1, none, c)
    | (false, c) =>
      match c.streams[h]? with
      | none => (1, none, c)
      | some [] => (0, none, c)
      | some (e :: rest) => (0, some e, { c with streams := c.streams.set h rest })
  fsDirClose := fun _ c => c
  fsFsCreateDirectory := fun p c =>
    match popFault c with
    | (true, c) => (1, c)
    | (false, c) =>
      if canCreate (components p) c.nodes
      then (0, { c with nodes := c.nodes ++ [(components p, .dir)] })
      else (1, c)
  fsFsDeleteDirectory := fun p c =>
    match popFault c with
    | (true, c) => (1, c)
    | (false, c) =>
      match find (components p) c.nodes with
      | some .dir =>
        if hasChild (components p) c.nodes then (1, c)
        else (0, { c with nodes := erase (components p) c.nodes })
      | _ => (1, c)
  fsFsDeleteFile := fun p c =>
    match popFault c with
    | (true, c) => (1, c)
    | (false, c) =>
      match find (components p) c.nodes with
      | some (.file _) => (0, { c with nodes := erase (components p) c.nodes })
      | _ => (1, c)
  fsFsCreateFile := fun p c =>
    match popFault c with
    | (true, c) => (1, c)
    | (false, c) =>
      if canCreate (components p) c.nodes
      then (0, { c with nodes := c.nodes ++ [(components p, .file [])] })
      else (1, c)
  fsFsOpenFile := fun p _ c =>
    match popFault c with
    | (true, c) => (1, 0, c)
    | (false, c) =>
      match find (components p) c.nodes with
      | some (.file _) => (0, c.handles.length, { c with handles := c.handles ++ [components p] })
      | _ => (1, 0, c)
  fsFileRead := fun h off n c =>
    match popFault c with
    | (true, c) => (1, [], c)
    | (false, c) =>
      match c.handles[h]? with
      | none => (1, [], c)
      | some k =>
        match find k c.nodes with
        | some (.file data) => (0, (data.drop off).take n, c)
        | _ => (1, [], c)
  fsFileWrite := fun h off buf c =>
    match popFault c with
    | (true, c) => (1, c)
    | (false, c) =>
      match c.handles[h]? with
      | none => (1, c)
      | some k =>
        match find k c.nodes with
        | some (.file data) =>
          if off ≤ data.length then
            let data1 := data.take off ++ buf ++ data.drop (off + buf.length)
            (0, { c with nodes := setData k data1 c.nodes })
          else (1, c)
        | _ => (1, c)
  fsFileClose := fun _ c => c
  fsFsRenameFile := fun a b c =>
    match popFault c with
    | (true, c) => (1, c)
    | (false, c) =>
      match find (components a) c.nodes with
      | some (.file _) =>
        if canCreate (components b) c.nodes
        then (0, { c with nodes := rekey (components a) (components b) c.nodes })
        else (1, c)
      | _ => (1, c)
  fsFsRenameDirectory := fun a b c =>
    match popFault c with
    | (true, c) => (1, c)
    | (false, c) =>
      match find (components a) c.nodes with
      | some .dir =>
        if canCreate (components b) c.nodes && !(components a).isPrefixOf (components b)
        then (0, { c with nodes := rekey (components a) (components b) c.nodes })
        else (1, c)
      | _ => (1, c)

end Card

namespace Card

def DT_REG : Nat := 8

/-- The reference implementation of the C library calls of `fs.c` on the
card: a directory stream starts with the two pseudo-entries, and allocation
always succeeds. -/
def posix : Posix Card where
  opendir := fun p c =>
    match find (components p) c.nodes with
    | some .dir =>
      (some (⟨['.'], DT_DIR⟩ :: ⟨['.', '.'], DT_DIR⟩ ::
        (listing (components p) 3 c.nodes).map
          (fun e => ⟨e.name, if e.type = FsDirEntryType_Dir then DT_DIR else DT_REG⟩)), c)
    | _ => (none, c)
  closedir := fun c => c
  stat := fun p c =>
    match find (components p) c.nodes with
    | some (.file data) => (some data.length, c)
    | some .dir => (some 0, c)
    | none => (none, c)
  alloc := fun _ c => (true, c)

end Card

/-! ## Sequences of pastes and sample data -/

/-- Paste the clipboard into each directory of a list in turn; the return
codes are collected in call order. -/
def paste_all {σ δ φ : Type} (api : Libnx σ δ φ) (fuel : Nat) :
    List CStr → Clipboard → σ → Option (List Int × Clipboard × σ)
  | [], clip, w => some ([], clip, w)
  | d :: rest, clip, w =>
    match paste_item api fuel (some d) clip w with
    | none => none
    | some (rc, clip, w) =>
      match paste_all api fuel rest clip w with
      | none => none
      | some (rcs, clip, w) => some (rc :: rcs, clip, w)

/-- A card holding `/a/f`, `/a/g` and the empty directories `/b` and `/c`. -/
def sampleCard : Card :=
  { nodes := [([], .dir), ([['a']], .dir), ([['a'], ['f']], .file [1, 2, 3]),
              ([['a'], ['g']], .file [4]), ([['b']], .dir), ([['c']], .dir)],
    streams := [], handles := [], faults := [] }

def sampleDir : FsDirectory :=
  { entries := [⟨['a'], true, 0⟩, ⟨['b'], true, 0⟩, ⟨['c'], true, 0⟩], capacity := 32 }

/-- The browser at the root of `sampleCard`, first entry selected. -/
def sampleUI : UIState :=
  { current_dir := some sampleDir, selected_index := 0, scroll_offset := 0,
    current_path := ['/'], overlay_active := 0, overlay_selected := 0, overlay_count := 0,
    overlay_codes := List.replicate 8 0, overlay_labels := List.replicate 8 [],
    popup_active := 0, popup_type := 0, popup_message := [], popup_timer := 0 }

/-! ## Shapes of call traces -/

/-- In a delete, an event that does not abort the operation: the call
succeeded, or it is the `fsFsOpenDirectory` probe (its failure only means
that the path is not a directory). -/
def Event.okD (e : Event) : Bool :=
  e.rc == 0 ||
    (match e.call with
     | .fsFsOpenDirectory _ => true
     | _ => false)

/-- A call that closes a handle or a session. -/
def Event.isClose (e : Event) : Bool :=
  match e.call with
  | .fsFsClose => true
  | .fsDirClose => true
  | .fsFileClose => true
  | _ => false

/-- A call that removes or renames a node. -/
def Event.isRemoval (e : Event) : Bool :=
  match e.call with
  | .fsFsDeleteFile _ => true
  | .fsFsDeleteDirectory _ => true
  | .fsFsRenameFile _ _ => true
  | .fsFsRenameDirectory _ _ => true
  | _ => false

/-- The calls of an aborted operation: a failed call followed by nothing but
closes. -/
def AbortedAt (okE : Event → Bool) (evs : List Event) : Prop :=
  ∃ pre bad post, evs = pre ++ bad :: post ∧ (∀ e ∈ pre, okE e = true) ∧
    okE bad = false ∧ ∀ e ∈ post, e.isClose = true

/-- The calls of an operation that returned `rc`: either it returned 0 and
no call aborted, or it returned -1 and stopped at the first failing call. -/
def OpShape (okE : Event → Bool) (rc : Int) (evs : List Event) : Prop :=
  (rc = 0 ∧ ∀ e ∈ evs, okE e = true) ∨ (rc = -1 ∧ AbortedAt okE evs)

/-- In a copy, an event that does not abort the operation: the call
succeeded, or it is one of the two creation calls, whose result the code
ignores. -/
def Event.okC (e : Event) : Bool :=
  e.rc == 0 ||
    (match e.call with
     | .fsFsCreateDirectory _ => true
     | .fsFsCreateFile _ => true
     | _ => false)

/-! ## Well-formed inputs of the tree operations -/

/-- A name that a directory entry can carry: non-empty, without a slash,
and not one of the two pseudo-entries. -/
def validName (n : CStr) : Bool :=
  decide (n ≠ []) && !n.contains '/' && !is_dot_or_dotdot n

/-- The device name alone, `sdmc:` without a slash.  The sources accept
`/switch/foo`, `sdmc:/switch/foo` and relative forms; the bare device name is
the one string whose children are assembled under a different device prefix
than the string itself. -/
def bareDevice (p : CStr) : Bool := p == "sdmc:".toList

/-- The length of the path string that the code assembles, starting from a
string of length `base`, by appending `"/" ++ name` for each name in turn. -/
def assembledLength (base : Nat) (names : List CStr) : Nat :=
  base + (names.map (fun n => n.length + 1)).sum

namespace Card

/-- The entries of the table that lie strictly below `k`. -/
def below (k : Key) (nodes : List (Key × Node)) : List (Key × Node) :=
  nodes.filter (fun e => k.isPrefixOf e.1 && decide (e.1 ≠ k))

/-- Every node at or below `k` is reached from the path string `path` through
valid names, and the path string assembled for it fits a 512-byte buffer. -/
def Fits (path : CStr) (k : Key) (nodes : List (Key × Node)) : Prop :=
  ∀ e ∈ nodes, k <+: e.1 →
    (∀ n ∈ e.1.drop k.length, validName n = true) ∧
      assembledLength path.length (e.1.drop k.length) ≤ 511

end Card

/-- A path of 511 characters, the longest a 512-byte buffer holds. -/
def longPath : CStr := '/' :: List.replicate 510 'a'

/-- A card on which `longPath` is a directory holding the file `x`. -/
def longCard : Card :=
  { nodes := [([], .dir), ([List.replicate 510 'a'], .dir),
              ([List.replicate 510 'a', ['x']], .file [])],
    streams := [], handles := [], faults := [] }

/-- The calls of a copy that returned `rc`: the shape of `OpShape`, and no
call removes or renames anything. -/
def CopyTrace (rc : Int) (evs : List Event) : Prop :=
  OpShape Event.okC rc evs ∧ ∀ e ∈ evs, e.isRemoval = false

/-- A destination directory path of 509 characters. -/
def truncDest : CStr := '/' :: List.replicate 508 'a'

/-- A card with that directory and the two-byte file `/fg`. -/
def truncCard : Card :=
  { nodes := [([], .dir), ([List.replicate 508 'a'], .dir), ([['f', 'g']], .file [1, 2])],
    streams := [], handles := [], faults := [] }

/-- The sample card with an I/O failure injected at the fifteenth call that
can fail. -/
def faultyCard : Card :=
  { sampleCard with faults := List.replicate 14 false ++ [true] }

/-! ## Overlay menu (`source/ui.c`, `include/ui.h`) -/

def UI_OP_COPY : Int := 0
def UI_OP_PASTE : Int := 1
def UI_OP_MOVE : Int := 2
def UI_OP_DELETE : Int := 3
def UI_OP_RENAME : Int := 4
def UI_OP_LAUNCH : Int := 5
def UI_OP_INSTALL : Int := 6

/-- The C library test `strcasecmp(a, b) == 0`: the two strings are equal once
the ASCII letters are lowered. -/
def strcasecmp_eq (a b : CStr) : Bool :=
  a.map Char.toLower == b.map Char.toLower

def has_extension (name ext : CStr) : Bool :=
  let len := name.length
  let elen := ext.length
  if len < elen then false
  else strcasecmp_eq (name.drop (len - elen)) ext

def is_nro_file (name : CStr) : Bool :=
  has_extension name ".nro".toList

def is_installer_file (name : CStr) : Bool :=
  has_extension name ".nsp".toList || has_extension name ".nsz".toList ||
    has_extension name ".xci".toList || has_extension name ".xcz".toList

/-- The four statements that `ui_open_overlay` repeats for each option: copy
the label into slot `overlay_count` of `overlay_labels` (`strncpy` of at most
31 characters), store the code in the same slot of `overlay_codes`, and
increment `overlay_count`. -/
def overlay_add (label : CStr) (code : Int) (ui : UIState) : UIState :=
  { ui with overlay_labels := ui.overlay_labels.set ui.overlay_count.toNat (label.take 31),
            overlay_codes := ui.overlay_codes.set ui.overlay_count.toNat code,
            overlay_count := ui.overlay_count + 1 }

/-- The arrays `basic_labels` and `basic_codes` of `ui_open_overlay`. -/
def basic_options : List (CStr × Int) :=
  [("Copy".toList, UI_OP_COPY), ("Paste".toList, UI_OP_PASTE), ("Move".toList, UI_OP_MOVE),
   ("Delete".toList, UI_OP_DELETE), ("Rename".toList, UI_OP_RENAME)]

def ui_open_overlay (ui : UIState) : UIState :=
  let ui := { ui with overlay_active := 1, overlay_selected := 0, overlay_count := 0 }
  match ui_get_selected_entry ui with
  | none => ui
  | some sel =>
    let ui := basic_options.foldl (fun u o => overlay_add o.1 o.2 u) ui
    if !sel.is_dir then
      let ui := if is_nro_file sel.name then overlay_add "Launch".toList UI_OP_LAUNCH ui else ui
      if is_installer_file sel.name then overlay_add "Install".toList UI_OP_INSTALL ui else ui
    else ui

def ui_close_overlay (ui : UIState) : UIState :=
  { ui with overlay_active := 0 }

def ui_overlay_select_next (ui : UIState) : UIState :=
  if ui.overlay_active = 0 then ui
  else if ui.overlay_selected < ui.overlay_count - 1 then
    { ui with overlay_selected := ui.overlay_selected + 1 }
  else ui

def ui_overlay_select_prev (ui : UIState) : UIState :=
  if ui.overlay_active = 0 then ui
  else if ui.overlay_selected > 0 then
    { ui with overlay_selected := ui.overlay_selected - 1 }
  else ui

def ui_overlay_get_selected (ui : UIState) : Int :=
  if ui.overlay_active = 0 then -1 else ui.overlay_selected

/-- One key press in the overlay. -/
inductive OverlayOp where
  | next
  | prev
deriving DecidableEq, Repr

def OverlayOp.apply : OverlayOp → UIState → UIState
  | .next, ui => ui_overlay_select_next ui
  | .prev, ui => ui_overlay_select_prev ui

/-- Run a finite sequence of overlay key presses, first element first. -/
def runOverlay (ops : List OverlayOp) (ui : UIState) : UIState :=
  ops.foldl (fun s op => op.apply s) ui

/-- The options shown by the overlay: the first `overlay_count` slots of the
two arrays. -/
def overlay_options (ui : UIState) : List (CStr × Int) :=
  (ui.overlay_labels.zip ui.overlay_codes).take ui.overlay_count.toNat

/-- Whether `name` ends with `ext` up to the case of ASCII letters. -/
def EndsWithNoCase (name ext : CStr) : Prop :=
  ∃ pre suf, name = pre ++ suf ∧ suf.map Char.toLower = ext.map Char.toLower

/-- The label and code of every base operation. -/
def baseMenu : List (CStr × Int) :=
  [("Copy".toList, 0), ("Paste".toList, 1), ("Move".toList, 2), ("Delete".toList, 3),
   ("Rename".toList, 4)]

/-- The browser on a directory with one entry, selected, and whatever the
option arrays held before. -/
def uiOn (e : FsEntry) : UIState :=
  { sampleUI with current_dir := some { entries := [e], capacity := 32 },
                  overlay_codes := [9, 9, 9, 9, 9, 9, 9, 9],
                  overlay_labels := List.replicate 8 "stale".toList,
                  overlay_count := 7, overlay_selected := 3 }

/-- The browser on an empty directory. -/
def emptyUI : UIState :=
  { sampleUI with current_dir := some { entries := [], capacity := 32 } }

/-! ## Rename (`libs/rename/rename.c`) -/

section RenameOps
variable {σ δ φ : Type}

def rename_item (api : Libnx σ δ φ) (path newname : CStr) (w : σ) : Int × σ :=
  match path_get_parent path with
  | (rc, parent) =>
    if rc ≠ 0 then (-1, w)
    else
      let dest_full := snprintf_join 512 parent newname
      match api.fsOpenSdCardFileSystem w with
      | (rc, w) =>
        if R_FAILED rc then (-1, w)
        else
          let src_n := normalize_sd_path path 512
          let dest_n := normalize_sd_path dest_full 512
          match api.fsFsOpenDirectory src_n FsDirOpenMode_ReadDirs w with
          | (rc, dir, w) =>
            match (if R_SUCCEEDED rc
                   then api.fsFsRenameDirectory src_n dest_n (api.fsDirClose dir w)
                   else api.fsFsRenameFile src_n dest_n w) with
            | (rc, w) =>
              let w := api.fsFsClose w
              if R_FAILED rc then (-1, w) else (0, w)

end RenameOps

/-- The contents of the buffer `dest_full` that `rename_item(path, newname)`
builds (lines 25 to 31 of `rename.c`), or `none` when it returns before,
`path_get_parent` having failed. -/
def rename_dest_full (path newname : CStr) : Option CStr :=
  match path_get_parent path with
  | (rc, parent) => if rc ≠ 0 then none else some (snprintf_join 512 parent newname)

namespace Card

/-- The table is a tree: every node other than the root lies in a directory
of the table. -/
def Closed (nodes : List (Key × Node)) : Prop :=
  ∀ e ∈ nodes, e.1 ≠ [] → find e.1.dropLast nodes = some .dir

end Card

/-- A path of 600 characters: the file `/a/bbb...` with 597 letters. -/
def longName : CStr := "/a/".toList ++ List.replicate 597 'b'

/-- A card on which the directory `a` holds a file whose name is the first
509 letters of that name. -/
def renameCard : Card :=
  { nodes := [([], .dir), ([['a']], .dir),
              ([['a'], List.replicate 509 'b'], .file [7])],
    streams := [], handles := [], faults := [] }

/-- The card `renameCard` once that file is called `c`. -/
def renamedCard : Card :=
  { nodes := [([], .dir), ([['a']], .dir), ([['a'], ['c']], .file [7])],
    streams := [], handles := [], faults := [] }

/-- The card `renameCard` once that file carries the first 508 letters only. -/
def renamedBackCard : Card :=
  { nodes := [([], .dir), ([['a']], .dir), ([['a'], List.replicate 508 'b'], .file [7])],
    streams := [], handles := [], faults := [] }

/-! ## Copy followed by delete -/

/-- Copy `A` into `D`, then delete `D/filename(A)`: the two return codes and
the world left, or `none` when a fuel counter ran out. -/
def copy_then_delete {σ δ φ : Type} (api : Libnx σ δ φ) (fuel : Nat) (A D : CStr) (w : σ) :
    Option (Int × Int × σ) :=
  match copy_item api fuel A D w with
  | none => none
  | some (rc1, w1) =>
    match delete_item api fuel (D ++ '/' :: path_get_filename A) w1 with
    | none => none
    | some (rc2, w2) => some (rc1, rc2, w2)

namespace Card

/-- The two tables agree outside the subtree at `k`. -/
def SameOutside (k : Key) (a b : List (Key × Node)) : Prop :=
  b.filter (fun e => !k.isPrefixOf e.1) = a.filter (fun e => !k.isPrefixOf e.1)

/-- The key names something below the root whose top-level directory is not
called `sdmc:`. -/
def plainKey : Key → Bool
  | [] => false
  | h :: _ => h != "sdmc:".toList

/-- Every node at or below `k` is reached through valid names, and the path
string assembled for it from a string of length `L` has at most 511
characters. -/
def FitsLen (L : Nat) (k : Key) (nodes : List (Key × Node)) : Prop :=
  ∀ e ∈ nodes, k <+: e.1 →
    (∀ n ∈ e.1.drop k.length, validName n = true) ∧
      assembledLength L (e.1.drop k.length) ≤ 511

/-- What a copy into `k` may do to the table: outside `k` nothing changes, a
tree stays a tree, and the names and lengths below `k` stay valid. -/
def Adds (k : Key) (L : Nat) (a b : List (Key × Node)) : Prop :=
  SameOutside k a b ∧ (Closed a → Closed b) ∧ (FitsLen L k a → FitsLen L k b)

end Card

/-- The sample card with a file `f` already present in `/b`. -/
def collideCard : Card :=
  { sampleCard with nodes := sampleCard.nodes ++ [([['b'], ['f']], .file [9])] }

/-- A card with the directory `truncDest`, holding the file `fg`, and the file
`/fgh`. -/
def shiftCard : Card :=
  { nodes := [([], .dir), ([List.replicate 508 'a'], .dir),
              ([List.replicate 508 'a', ['f', 'g']], .file [5]),
              ([['f', 'g', 'h']], .file [1, 2])],
    streams := [], handles := [], faults := [] }

/-- The sample card after `copy_item("//a", "//b")`. -/
def sampleCopied : Card :=
  ((copy_item Card.api 60 "//a".toList "//b".toList sampleCard).getD (-1, sampleCard)).2

/-- The card `sampleCopied` after `delete_item("//b/a")`. -/
def sampleRestored : Card :=
  ((delete_item Card.api 60 "//b/a".toList sampleCopied).getD (-1, sampleCopied)).2

/-- A card with the directory `/sdmc:/sdmc:` and the directory `/t/sdmc:`
holding the file `n`; both are ordinary directories that carry the name of
the device. -/
def deviceCard : Card :=
  { nodes := [([], .dir), (["sdmc:".toList], .dir), (["sdmc:".toList, "sdmc:".toList], .dir),
              ([['t']], .dir), ([['t'], "sdmc:".toList], .dir),
              ([['t'], "sdmc:".toList, ['n']], .file [3])],
    streams := [], handles := [], faults := [] }

/-! ## Popup (`source/ui.c`) and button state (`source/input.c`) -/

def POPUP_NONE : Int := 0
def POPUP_MESSAGE : Int := 1
def POPUP_RENAME : Int := 2

/-- What the functions of `input.c` return between two calls of
`input_update`: each field is the result of the function of that name, true
when its button is newly pressed. -/
structure Input where
  input_up : Bool
  input_down : Bool
  input_left : Bool
  input_right : Bool
  input_select : Bool
  input_back : Bool
  input_fileops : Bool
  input_exit : Bool
deriving DecidableEq, Repr

/-- No button is newly pressed. -/
def noInput : Input :=
  { input_up := false, input_down := false, input_left := false, input_right := false,
    input_select := false, input_back := false, input_fileops := false, input_exit := false }

/-- Function `ui_show_message(ui_state, msg, duration)` for a non-NULL `msg`. -/
def ui_show_message (ui : UIState) (msg : CStr) (duration : Int) : UIState :=
  { ui with popup_active := 1, popup_type := POPUP_MESSAGE,
            popup_message := msg.take 255, popup_timer := duration }

/-- The three statements `popup_active = 0; popup_type = POPUP_NONE; return 0;`
that `ui_process_popup_input` contains twice. -/
def popup_dismiss (ui : UIState) : Int × UIState :=
  (0, { ui with popup_active := 0, popup_type := POPUP_NONE })

/-- The part of `ui_process_popup_input` from the comment `check input` to
`return 1`. -/
def popup_check_input (inp : Input) (ui : UIState) : Int × UIState :=
  if inp.input_up || inp.input_down || inp.input_left || inp.input_right ||
      inp.input_select || inp.input_back || inp.input_fileops || inp.input_exit then
    popup_dismiss ui
  else (1, ui)

/-- Function `ui_process_popup_input(ui_state)`: the return code and the state. -/
def ui_process_popup_input (inp : Input) (ui : UIState) : Int × UIState :=
  if ui.popup_active = 0 then (0, ui)
  else if ui.popup_type = POPUP_MESSAGE then
    if ui.popup_timer > 0 then
      let ui := { ui with popup_timer := ui.popup_timer - 1 }
      if ui.popup_timer ≤ 0 then popup_dismiss ui
      else popup_check_input inp ui
    else popup_check_input inp ui
  else (0, ui)

/-- Call `ui_process_popup_input` once per element of the list, first element
first: the return codes in call order and the state left. -/
def popup_calls : List Input → UIState → List Int × UIState
  | [], ui => ([], ui)
  | inp :: rest, ui =>
    ((ui_process_popup_input inp ui).1 :: (popup_calls rest (ui_process_popup_input inp ui).2).1,
      (popup_calls rest (ui_process_popup_input inp ui).2).2)

/-! ## Size shown for a file (`source/ui.c`, `ui_render`) -/

/-- Conversion of an unsigned 64-bit value to `int`, as the compilers for the
console do it: the value modulo `2^32`, read in two's complement. -/
def to_int (n : Nat) : Int :=
  if n % 2 ^ 32 < 2 ^ 31 then ((n % 2 ^ 32 : Nat) : Int)
  else ((n % 2 ^ 32 : Nat) : Int) - 2 ^ 32

/-- Lines 85 to 95 of `ui_render` for a file of `size` bytes (`uint64_t`): the
values of `display_size` and `unit` that line 97 hands to `snprintf`. -/
def ui_render_size (size : Nat) : Int × CStr :=
  let unit := "B".toList
  let display_size := to_int size
  if size > 1024 * 1024 then (to_int (size / (1024 * 1024)), "MB".toList)
  else if size > 1024 then (to_int (size / 1024), "KB".toList)
  else (display_size, unit)

/-! ## Joining a path and a name, NULL arguments included (`source/fs.c`) -/

/-- Function `fs_build_path(current_path, entry_name, dest)` with its tests for
NULL (`none`) in the first two arguments, for a non-NULL `dest`: the
contents of `dest`. -/
def fs_build_path_ptr (current_path entry_name : Option CStr) : CStr :=
  match current_path, entry_name with
  | some current_path, some entry_name => fs_build_path current_path entry_name
  | _, _ => []

/-- Function `path_get_filename(path)` with its test for NULL (`none`). -/
def path_get_filename_ptr (path : Option CStr) : CStr :=
  match path with
  | none => []
  | some path => path_get_filename path

/-! ## The main loop (`source/main.c`)

One tick is one pass through the body of `while (appletMainLoop())`.  The
drawing calls write to the console only and are left out; `input_update`
fixes what the `input_*` functions return during the tick (`Input`). -/

/-- Value of the libnx enumerator `AppletType_SystemApplet` (libnx header,
outside the repository). -/
def AppletType_SystemApplet : Int := 1
/-- Value of the libnx enumerator `AppletType_LibraryApplet`. -/
def AppletType_LibraryApplet : Int := 2

/-- The calls of `main.c` and `libs/launch` into the system, acting on a world
`σ`.  `swkbdShow` takes the initial text of the keyboard and yields the
contents of the buffer `result` when the call returns.  `hbloaderLaunch` is
`none` when the weak symbol is not linked.  `strdup` tells whether the copy
was allocated. -/
structure Host (σ : Type) where
  swkbdShow : CStr → σ → CStr × σ
  appletGetAppletType : σ → Int × σ
  hbloaderLaunch : Option (CStr → σ → Int × σ)
  strdup : CStr → σ → Bool × σ

/-- Function `launch_nro(path)` for a non-NULL `path`; `none` when the process
ends in `svcExitProcess` and the call does not return. -/
def launch_nro {σ : Type} (host : Host σ) (path : CStr) (w : σ) : Option (Int × σ) :=
  match host.appletGetAppletType w with
  | (applet_type, w) =>
    if applet_type = AppletType_LibraryApplet ∨ applet_type = AppletType_SystemApplet then
      some (-1, w)
    else
      match host.hbloaderLaunch with
      | none => some (-1, w)
      | some hbloaderLaunch =>
        match host.strdup path w with
        | (false, w) => some (-1, w)
        | (true, w) =>
          match hbloaderLaunch path w with
          | (rc, w) => if rc = 0 then none else some (-1, w)

/-- Function `install_package(path)` for a non-NULL `path`. -/
def install_package (_ : CStr) : Int := -1

/-- The state that the main loop works on: the local `ui_state`, the
file-scope variables of `clipboard.c`, and the world behind the system
calls. -/
structure App (σ : Type) where
  ui_state : UIState
  clipboard : Clipboard
  world : σ

section MainLoop
variable {σ δ φ : Type}

/-- Lines 112 to 128 of `main.c`: the message shown after `paste_item`
returned `rc`, read from the clipboard as `paste_item` left it. -/
def paste_feedback (rc : Int) (clip : Clipboard) (ui : UIState) : UIState :=
  if rc = 0 then
    let clipPath := clipboard_get_path clip
    let op := clipboard_get_operation clip
    let name := path_get_filename_ptr clipPath
    if op = .COPY then ui_show_message ui (("Pasted: ".toList ++ name).take 255) 120
    else if op = .MOVE then ui_show_message ui (("Moved: ".toList ++ name).take 255) 120
    else ui
  else ui_show_message ui "Paste failed".toList 120

/-- The reload of the current directory after Paste and after Rename (lines
130 to 135 and 188 to 193): a listing that is not NULL replaces the current
one. -/
def reload_directory (px : Posix σ) (ui : UIState) (w : σ) : UIState × σ :=
  match fs_list_directory px ui.current_path w with
  | (none, w) => (ui, w)
  | (some new_dir, w) => ({ ui with current_dir := some new_dir }, w)

/-- The reload of the current directory after Delete (lines 156 to 165),
which also adjusts `selected_index`. -/
def reload_directory_clamped (px : Posix σ) (ui : UIState) (w : σ) : UIState × σ :=
  match fs_list_directory px ui.current_path w with
  | (none, w) => (ui, w)
  | (some new_dir, w) =>
    let ui := { ui with current_dir := some new_dir }
    if ui.selected_index ≥ new_dir.count ∧ new_dir.count > 0 then
      ({ ui with selected_index := new_dir.count - 1 }, w)
    else if new_dir.count = 0 then ({ ui with selected_index := 0 }, w)
    else (ui, w)

/-- The `switch (selected_op)` of `main.c` (lines 101 to 222), entered with a
selected entry `sel_entry` and the path `selected_path`; `none` when a fuel
counter ran out or the process ended inside `launch_nro`. -/
def overlay_confirm (api : Libnx σ δ φ) (px : Posix σ) (host : Host σ) (fuel : Nat)
    (selected_op : Int) (sel_entry : FsEntry) (selected_path : CStr) (s : App σ) :
    Option (App σ) :=
  if selected_op = UI_OP_COPY then
    some { s with
      clipboard := clipboard_set selected_path .COPY s.clipboard,
      ui_state := ui_show_message s.ui_state
        (("Copied: ".toList ++ sel_entry.name).take 255) 120 }
  else if selected_op = UI_OP_PASTE then
    if sel_entry.is_dir then
      match paste_item api fuel (some selected_path) s.clipboard s.world with
      | none => none
      | some (rc, clip, w) =>
        match reload_directory px (paste_feedback rc clip s.ui_state) w with
        | (ui, w) => some { ui_state := ui, clipboard := clip, world := w }
    else some s
  else if selected_op = UI_OP_MOVE then
    some { s with
      clipboard := clipboard_set selected_path .MOVE s.clipboard,
      ui_state := ui_show_message s.ui_state
        (("Marked to move: ".toList ++ sel_entry.name).take 255) 120 }
  else if selected_op = UI_OP_DELETE then
    match delete_item api fuel selected_path s.world with
    | none => none
    | some (rc, w) =>
      let ui :=
        if rc = 0 then
          ui_show_message s.ui_state (("Deleted: ".toList ++ sel_entry.name).take 255) 120
        else ui_show_message s.ui_state "Delete failed".toList 120
      match reload_directory_clamped px ui w with
      | (ui, w) => some { s with ui_state := ui, world := w }
  else if selected_op = UI_OP_RENAME then
    match host.swkbdShow sel_entry.name s.world with
    | (result, w) =>
      if result ≠ [] then
        let oldpath := ui_get_selected_path s.ui_state
        match rename_item api oldpath result w with
        | (rc, w) =>
          if rc = 0 then
            let ui := ui_show_message s.ui_state (("Renamed to: ".toList ++ result).take 255) 120
            match reload_directory px ui w with
            | (ui, w) => some { s with ui_state := ui, world := w }
          else
            some { s with ui_state := ui_show_message s.ui_state "Rename failed".toList 120,
                          world := w }
      else some { s with world := w }
  else if selected_op = UI_OP_LAUNCH then
    if !sel_entry.is_dir then
      match launch_nro host selected_path s.world with
      | none => none
      | some (rc, w) =>
        if rc = 0 then
          some { s with
            ui_state := ui_show_message s.ui_state
              (("Launched: ".toList ++ sel_entry.name).take 255) 120,
            world := w }
        else
          some { s with ui_state := ui_show_message s.ui_state "Launch failed".toList 120,
                        world := w }
    else some s
  else if selected_op = UI_OP_INSTALL then
    if !sel_entry.is_dir then
      if install_package selected_path = 0 then
        some { s with
          ui_state := ui_show_message s.ui_state
            (("Installed: ".toList ++ sel_entry.name).take 255) 120 }
      else some { s with ui_state := ui_show_message s.ui_state "Install failed".toList 120 }
    else some s
  else some s

/-- The handling of `input_down` and `input_up` while the overlay is open
(lines 82 to 88). -/
def overlay_keys (inp : Input) (ui : UIState) : UIState :=
  let ui := if inp.input_down then ui_overlay_select_next ui else ui
  if inp.input_up then ui_overlay_select_prev ui else ui

/-- The value of `selected_op` computed at lines 92 to 94; the slot read lies
within the arrays when `overlay_count` is at most 8. -/
def overlay_selected_op (ui : UIState) : Int :=
  let idx := ui_overlay_get_selected ui
  if idx ≥ 0 ∧ idx < ui.overlay_count then ui.overlay_codes.getD idx.toNat 0 else -1

/-- The body of `if (input_select())` in the overlay branch (lines 92 to
224). -/
def overlay_select (api : Libnx σ δ φ) (px : Posix σ) (host : Host σ) (fuel : Nat)
    (s : App σ) : Option (App σ) :=
  let selected_op := overlay_selected_op s.ui_state
  match ui_get_selected_entry s.ui_state with
  | none => some { s with ui_state := ui_close_overlay s.ui_state }
  | some sel_entry =>
    if selected_op ≠ -1 then
      match overlay_confirm api px host fuel selected_op sel_entry
          (ui_get_selected_path s.ui_state) s with
      | none => none
      | some s => some { s with ui_state := ui_close_overlay s.ui_state }
    else some { s with ui_state := ui_close_overlay s.ui_state }

/-- The branch `if (ui_state.overlay_active)` of the loop body (lines 81 to
230). -/
def overlay_tick (api : Libnx σ δ φ) (px : Posix σ) (host : Host σ) (fuel : Nat)
    (inp : Input) (s : App σ) : Option (App σ) :=
  let s := { s with ui_state := overlay_keys inp s.ui_state }
  match (if inp.input_select then overlay_select api px host fuel s else some s) with
  | none => none
  | some s =>
    some (if inp.input_back then { s with ui_state := ui_close_overlay s.ui_state } else s)

/-- The branch of the loop body for plain navigation (lines 233 to 272): the
state left, and whether the loop goes on (`false` is the `break` on
`input_exit`). -/
def nav_tick (px : Posix σ) (inp : Input) (s : App σ) : Bool × App σ :=
  let ui := if inp.input_down then ui_select_next s.ui_state else s.ui_state
  let ui := if inp.input_up then ui_select_prev ui else ui
  let r : UIState × σ :=
    if inp.input_select then
      match ui_get_selected_entry ui with
      | none => (ui, s.world)
      | some selected =>
        if selected.is_dir then (ui_enter_directory px ui s.world).2
        else (ui_open_overlay ui, s.world)
    else (ui, s.world)
  let r : UIState × σ := if inp.input_back then (ui_go_back px r.1 r.2).2 else r
  let ui :=
    if inp.input_fileops then
      match ui_get_selected_entry r.1 with
      | none => r.1
      | some selected => if selected.is_dir then ui_open_overlay r.1 else r.1
    else r.1
  (!inp.input_exit, { s with ui_state := ui, world := r.2 })

/-- One pass through the body of the main loop (lines 63 to 276), with
`input_power_pressed` returning 0 as it always does: the state left and
whether the loop goes on; `none` when the pass does not end (a fuel counter
ran out, or the process ended inside `launch_nro`). -/
def main_tick (api : Libnx σ δ φ) (px : Posix σ) (host : Host σ) (fuel : Nat)
    (inp : Input) (s : App σ) : Option (Bool × App σ) :=
  if s.ui_state.popup_active ≠ 0 then
    some (true, { s with ui_state := (ui_process_popup_input inp s.ui_state).2 })
  else if s.ui_state.overlay_active ≠ 0 then
    match overlay_tick api px host fuel inp s with
    | none => none
    | some s => some (true, s)
  else some (nav_tick px inp s)

end MainLoop

/-- A listing of 25 files. -/
def longDir : FsDirectory :=
  { entries := List.replicate 25 ⟨['e'], false, 0⟩, capacity := 32 }

/-- The browser on `longDir`, first entry selected. -/
def longUI : UIState := { sampleUI with current_dir := some longDir }

/-! ## Sample states of the main loop -/

/-- A system in which the keyboard returns `h` and no loader is linked. -/
def sampleHost : Host Card :=
  { swkbdShow := fun _ w => ("h".toList, w),
    appletGetAppletType := fun w => (0, w),
    hbloaderLaunch := none,
    strdup := fun _ w => (true, w) }

/-- A card with the file `/f` and the empty directory `/d`. -/
def moveCard : Card :=
  { nodes := [([], .dir), ([['f']], .file [1]), ([['d']], .dir)],
    streams := [], handles := [], faults := [] }

/-- The browser at the root of `moveCard` with the directory `d` selected and
the overlay open on its second option, Paste. -/
def pasteUI : UIState :=
  { ui_open_overlay
      { sampleUI with
        current_dir := some { entries := [⟨['f'], false, 1⟩, ⟨['d'], true, 0⟩], capacity := 32 },
        selected_index := 1 } with
    overlay_selected := 1 }

/-- The state `pasteUI` on `moveCard` after `/f` was marked to move. -/
def moveApp : App Card :=
  { ui_state := pasteUI, clipboard := clipboard_set "//f".toList .MOVE ⟨[], .NONE⟩,
    world := moveCard }

/-- The state `pasteUI` on `moveCard` after `/f` was copied to the clipboard. -/
def copyApp : App Card :=
  { ui_state := pasteUI, clipboard := clipboard_set "//f".toList .COPY ⟨[], .NONE⟩,
    world := moveCard }

/-- The state `pasteUI` on `moveCard` with an empty clipboard. -/
def emptyClipApp : App Card :=
  { ui_state := pasteUI, clipboard := ⟨[], .NONE⟩, world := moveCard }

/-- The sample browser showing the message of a copy, on the sample card. -/
def popupApp : App Card :=
  { ui_state := ui_show_message sampleUI "Copied: a".toList 120,
    clipboard := clipboard_set "//a".toList .COPY ⟨[], .NONE⟩, world := sampleCard }

/-- The button A alone. -/
def pressSelect : Input := { noInput with input_select := true }

/-- Every button at once. -/
def pressAll : Input :=
  { input_up := true, input_down := true, input_left := true, input_right := true,
    input_select := true, input_back := true, input_fileops := true, input_exit := true }

/-- The card `moveCard` after `/f` was moved into `/d`. -/
def movedCard : Card :=
  { nodes := [([], .dir), ([['d'], ['f']], .file [1]), ([['d']], .dir)],
    streams := [], handles := [], faults := [] }

/-! # Theorems -/

/-! ## Selection bounds and the scroll window -/

theorem ui_select_prev_at_zero (s : UIState) (h : s.selected_index = 0) :
    ui_select_prev s = s := by
  unfold ui_select_prev
  cases hd : s.current_dir with
  | none => rfl
  | some d => simp [h]

theorem ui_select_next_at_last (s : UIState) (d : FsDirectory)
    (hd : s.current_dir = some d) (h : s.selected_index = d.count - 1) :
    ui_select_next s = s := by
  unfold ui_select_next
  simp [hd, h]

theorem ui_select_next_dir (s : UIState) :
    (ui_select_next s).current_dir = s.current_dir := by
  unfold ui_select_next
  cases hd : s.current_dir with
  | none => simp [hd]
  | some d =>
    simp only
    split_ifs <;> simp [hd]

theorem ui_select_prev_dir (s : UIState) :
    (ui_select_prev s).current_dir = s.current_dir := by
  unfold ui_select_prev
  cases hd : s.current_dir with
  | none => simp [hd]
  | some d =>
    simp only
    split_ifs <;> simp [hd]

theorem ui_select_next_index (s : UIState) (d : FsDirectory)
    (hd : s.current_dir = some d) :
    (ui_select_next s).selected_index =
      if s.selected_index < d.count - 1 then s.selected_index + 1
      else s.selected_index := by
  unfold ui_select_next
  simp only [hd]
  split_ifs <;> rfl

theorem ui_select_prev_index (s : UIState) (d : FsDirectory)
    (hd : s.current_dir = some d) :
    (ui_select_prev s).selected_index =
      if s.selected_index > 0 then s.selected_index - 1
      else s.selected_index := by
  unfold ui_select_prev
  simp only [hd]
  split_ifs <;> rfl

theorem NavOp.apply_dir (op : NavOp) (s : UIState) :
    (op.apply s).current_dir = s.current_dir := by
  cases op
  · exact ui_select_next_dir s
  · exact ui_select_prev_dir s

theorem NavOp.apply_bounds (op : NavOp) (s : UIState) (d : FsDirectory)
    (hd : s.current_dir = some d)
    (h : 0 ≤ s.selected_index ∧ s.selected_index ≤ d.count - 1) :
    0 ≤ (op.apply s).selected_index ∧ (op.apply s).selected_index ≤ d.count - 1 := by
  cases op
  · have e := ui_select_next_index s d hd
    simp only [NavOp.apply]
    split_ifs at e <;> omega
  · have e := ui_select_prev_index s d hd
    simp only [NavOp.apply]
    split_ifs at e <;> omega

theorem runNav_bounds (ops : List NavOp) (s : UIState) (d : FsDirectory)
    (hd : s.current_dir = some d)
    (h : 0 ≤ s.selected_index ∧ s.selected_index ≤ d.count - 1) :
    (runNav ops s).current_dir = some d ∧
      0 ≤ (runNav ops s).selected_index ∧ (runNav ops s).selected_index ≤ d.count - 1 := by
  induction ops generalizing s with
  | nil => exact ⟨hd, h⟩
  | cons op ops ih =>
    have hd1 : (op.apply s).current_dir = some d := by rw [NavOp.apply_dir, hd]
    exact ih (op.apply s) hd1 (NavOp.apply_bounds op s d hd h)

/-- C1: on a listing with `count >= 1`, any finite sequence of
`ui_select_next` / `ui_select_prev` calls started at `selected_index = 0`,
`scroll_offset = 0` keeps `selected_index` in `[0, count-1]`; `ui_select_prev`
at index 0 and `ui_select_next` at index `count-1` return the state they were
given, every field included. -/
theorem selection_stays_in_bounds (ui : UIState) (d : FsDirectory) (ops : List NavOp)
    (hdir : ui.current_dir = some d) (hcount : 1 ≤ d.count)
    (hsel : ui.selected_index = 0) (hscroll : ui.scroll_offset = 0) :
    (0 ≤ (runNav ops ui).selected_index ∧ (runNav ops ui).selected_index ≤ d.count - 1) ∧
    (∀ s : UIState, s.selected_index = 0 → ui_select_prev s = s) ∧
    (∀ (s : UIState) (e : FsDirectory), s.current_dir = some e →
      s.selected_index = e.count - 1 → ui_select_next s = s) := by
  have _ := hscroll
  refine ⟨(runNav_bounds ops ui d hdir ⟨by omega, by omega⟩).2, ?_, ?_⟩
  · exact fun s h => ui_select_prev_at_zero s h
  · exact fun s e he h => ui_select_next_at_last s e he h

/-- C2: `ui_select_next` and `ui_select_prev` each preserve the scroll
invariant `0 <= scroll_offset <= selected_index < scroll_offset + 20`, for a
listing of any size and also when no listing is loaded. -/
theorem scroll_invariant_preserved (ui : UIState) (h : ScrollInv ui) :
    ScrollInv (ui_select_next ui) ∧ ScrollInv (ui_select_prev ui) := by
  unfold ScrollInv at *
  constructor
  · unfold ui_select_next
    cases hd : ui.current_dir with
    | none => exact h
    | some d =>
      simp only [MAX_VISIBLE_ENTRIES]
      split_ifs <;> first | omega | (dsimp only; omega)
  · unfold ui_select_prev
    cases hd : ui.current_dir with
    | none => exact h
    | some d =>
      simp only
      split_ifs <;> first | omega | (dsimp only; omega)

/-- Witness of C1: five key presses on the three-entry sample listing. -/
theorem selection_stays_in_bounds_witness :
    (0 ≤ (runNav [.next, .next, .next, .prev, .next] sampleUI).selected_index ∧
      (runNav [.next, .next, .next, .prev, .next] sampleUI).selected_index
        ≤ sampleDir.count - 1) ∧
    (∀ s : UIState, s.selected_index = 0 → ui_select_prev s = s) ∧
    (∀ (s : UIState) (e : FsDirectory), s.current_dir = some e →
      s.selected_index = e.count - 1 → ui_select_next s = s) :=
  selection_stays_in_bounds sampleUI sampleDir [.next, .next, .next, .prev, .next]
    rfl (by decide) rfl rfl

/-- Witness of C2: the initial sample state satisfies the scroll invariant. -/
theorem scroll_invariant_preserved_witness :
    ScrollInv (ui_select_next sampleUI) ∧ ScrollInv (ui_select_prev sampleUI) :=
  scroll_invariant_preserved sampleUI (by unfold ScrollInv; decide)

/-! ## Paste and the clipboard -/

section PasteTheorems
variable {σ δ φ : Type}

theorem paste_item_cases (api : Libnx σ δ φ) (fuel : Nat) (dest_dir : CStr)
    (clip : Clipboard) (w : σ) (hhas : clipboard_has_item clip = true) :
    paste_item api fuel (some dest_dir) clip w =
      match (match clip.g_clipboard_op with
             | .COPY => copy_item api fuel clip.g_clipboard_path dest_dir w
             | .MOVE => move_file api fuel clip.g_clipboard_path dest_dir w
             | .NONE => some (-1, w)) with
      | none => none
      | some (rc, w1) =>
        if rc = 0 then
          some (0, if clip.g_clipboard_op = .MOVE then clipboard_clear clip else clip, w1)
        else some (-1, clip, w1) := by
  have hop : clip.g_clipboard_op ≠ .NONE := by
    intro h
    simp [clipboard_has_item, h] at hhas
  simp [paste_item, hhas, clipboard_get_path, hop, clipboard_get_operation]

theorem paste_item_empty (api : Libnx σ δ φ) (fuel : Nat) (dest_dir : Option CStr)
    (clip : Clipboard) (w : σ) (hhas : clipboard_has_item clip = false) :
    paste_item api fuel dest_dir clip w = some (-1, clip, w) := by
  cases dest_dir with
  | none => rfl
  | some d => simp [paste_item, hhas]

theorem paste_item_clip (api : Libnx σ δ φ) (fuel : Nat) (dest_dir : Option CStr)
    (clip : Clipboard) (w : σ) (rc : Int) (clip1 : Clipboard) (w1 : σ)
    (h : paste_item api fuel dest_dir clip w = some (rc, clip1, w1)) :
    (rc = 0 ∨ rc = -1) ∧
    (rc = 0 → clipboard_has_item clip = true) ∧
    clip1 = (if clip.g_clipboard_op = .MOVE ∧ rc = 0 then clipboard_clear clip else clip) := by
  cases hd : dest_dir with
  | none =>
    subst hd
    simp [paste_item] at h
    obtain ⟨h1, h2, _⟩ := h
    subst h1 h2
    simp
  | some d =>
    subst hd
    cases hhas : clipboard_has_item clip with
    | false =>
      rw [paste_item_empty api fuel (some d) clip w hhas] at h
      simp at h
      obtain ⟨h1, h2, _⟩ := h
      subst h1 h2
      simp
    | true =>
      rw [paste_item_cases api fuel d clip w hhas] at h
      split at h
      · exact absurd h (by simp)
      · rename_i rc0 w0 _
        by_cases hz : rc0 = 0
        · simp [hz] at h
          obtain ⟨h1, h2, _⟩ := h
          subst h1 h2
          by_cases hm : clip.g_clipboard_op = .MOVE <;> simp [hm]
        · simp [hz] at h
          obtain ⟨h1, h2, _⟩ := h
          subst h1 h2
          simp

theorem paste_all_copy_keeps (api : Libnx σ δ φ) (fuel : Nat) (dests : List CStr)
    (clip : Clipboard) (w : σ) (hcopy : clip.g_clipboard_op = .COPY)
    (rcs : List Int) (clipN : Clipboard) (wN : σ)
    (h : paste_all api fuel dests clip w = some (rcs, clipN, wN)) : clipN = clip := by
  induction dests generalizing w rcs clipN wN with
  | nil =>
    simp [paste_all] at h
    exact h.2.1.symm
  | cons d rest ih =>
    simp only [paste_all] at h
    cases h1 : paste_item api fuel (some d) clip w with
    | none => simp [h1] at h
    | some r1 =>
      obtain ⟨rc1, clip1, w1⟩ := r1
      have hc := (paste_item_clip api fuel (some d) clip w rc1 clip1 w1 h1).2.2
      simp [hcopy] at hc
      subst hc
      simp only [h1] at h
      cases h2 : paste_all api fuel rest clip1 w1 with
      | none => simp [h2] at h
      | some r2 =>
        obtain ⟨rcs2, clip2, w2⟩ := r2
        simp [h2] at h
        obtain ⟨_, hc2, _⟩ := h
        subst hc2
        exact ih w1 rcs2 clip2 w2 h2

/-- C3: after `paste_item` returns `rc`, a clipboard that held an entry is
empty exactly when the entry was a Move entry and `rc = 0`; in that case both
clipboard variables are reset, and in every other case (successful Copy paste,
failed paste, empty clipboard) path and operation are as before the call; a
Copy entry is therefore still there after any number of pastes. -/
theorem paste_clipboard_lifecycle (api : Libnx σ δ φ) (fuel : Nat) (dest_dir : Option CStr)
    (clip : Clipboard) (w : σ) (rc : Int) (clip1 : Clipboard) (w1 : σ)
    (h : paste_item api fuel dest_dir clip w = some (rc, clip1, w1)) :
    (clipboard_has_item clip = true →
      (clipboard_has_item clip1 = false ↔ (clip.g_clipboard_op = .MOVE ∧ rc = 0))) ∧
    ((clip.g_clipboard_op = .MOVE ∧ rc = 0) →
      clip1.g_clipboard_path = [] ∧ clip1.g_clipboard_op = .NONE) ∧
    (¬ (clip.g_clipboard_op = .MOVE ∧ rc = 0) →
      clip1.g_clipboard_path = clip.g_clipboard_path ∧
      clip1.g_clipboard_op = clip.g_clipboard_op) ∧
    (∀ (dests : List CStr) (rcs : List Int) (clipN : Clipboard) (wN : σ),
      clip.g_clipboard_op = .COPY →
      paste_all api fuel dests clip w = some (rcs, clipN, wN) →
      clipN = clip ∧ clipboard_get_path clipN = some clip.g_clipboard_path ∧
        clipboard_get_operation clipN = .COPY) := by
  have hc := (paste_item_clip api fuel dest_dir clip w rc clip1 w1 h).2.2
  refine ⟨?_, ?_, ?_, ?_⟩
  · intro hhas
    by_cases hm : clip.g_clipboard_op = .MOVE ∧ rc = 0
    · rw [if_pos hm] at hc
      subst hc
      simp [hm, clipboard_has_item, clipboard_clear]
    · rw [if_neg hm] at hc
      subst hc
      simp [hm, hhas]
  · intro hm
    rw [if_pos hm] at hc
    subst hc
    simp [clipboard_clear]
  · intro hm
    rw [if_neg hm] at hc
    subst hc
    simp
  · intro dests rcs clipN wN hcopy hall
    have e := paste_all_copy_keeps api fuel dests clip w hcopy rcs clipN wN hall
    subst e
    simp [clipboard_get_path, clipboard_get_operation, hcopy]

/-- C4: `paste_item(dest_dir)` returns 0 exactly when the clipboard holds an
item and the operation dispatched on its entry (`copy_item` for Copy,
`move_file` for Move, called with the clipboard path and `dest_dir`) returns
0, and it then leaves the world that operation left; its only other return
value is -1; with an empty clipboard it returns -1 for any fuel without making
a single libnx call: world and call trace are returned as they were; so does
a call with a NULL `dest_dir`. -/
theorem paste_item_returns_zero_iff (api : Libnx σ δ φ) (fuel : Nat) (dest_dir : CStr)
    (clip : Clipboard) (w : σ) :
    (∀ w1 : σ,
      (∃ clip1, paste_item api fuel (some dest_dir) clip w = some (0, clip1, w1)) ↔
      (clipboard_has_item clip = true ∧
        (match clip.g_clipboard_op with
         | .COPY => copy_item api fuel clip.g_clipboard_path dest_dir w
         | .MOVE => move_file api fuel clip.g_clipboard_path dest_dir w
         | .NONE => some (-1, w)) = some (0, w1))) ∧
    (∀ (rc : Int) (clip1 : Clipboard) (w1 : σ),
      paste_item api fuel (some dest_dir) clip w = some (rc, clip1, w1) → rc = 0 ∨ rc = -1) ∧
    (clipboard_has_item clip = false →
      paste_item api fuel (some dest_dir) clip w = some (-1, clip, w) ∧
      ∀ t : List Event,
        paste_item (traced api) fuel (some dest_dir) clip (w, t) = some (-1, clip, (w, t))) ∧
    paste_item api fuel none clip w = some (-1, clip, w) := by
  refine ⟨?_, ?_, ?_, rfl⟩
  · intro w1
    constructor
    · rintro ⟨clip1, h⟩
      have hhas := (paste_item_clip api fuel (some dest_dir) clip w 0 clip1 w1 h).2.1 rfl
      refine ⟨hhas, ?_⟩
      rw [paste_item_cases api fuel dest_dir clip w hhas] at h
      split at h
      · exact absurd h (by simp)
      · rename_i rc0 w0 heq
        by_cases hz : rc0 = 0
        · simp [hz] at h
          rw [heq, hz, h.2]
        · simp [hz] at h
    · rintro ⟨hhas, hop⟩
      rw [paste_item_cases api fuel dest_dir clip w hhas, hop]
      simp
  · intro rc clip1 w1 h
    exact (paste_item_clip api fuel (some dest_dir) clip w rc clip1 w1 h).1
  · intro hhas
    exact ⟨paste_item_empty api fuel _ clip w hhas,
      fun t => paste_item_empty (traced api) fuel _ clip (w, t) hhas⟩

end PasteTheorems

/-- Witness of C3: a Move entry for `//a/f` pasted into `//b` on the sample
card empties the clipboard. -/
theorem paste_clipboard_lifecycle_witness :
    (clipboard_has_item ⟨"//a/f".toList, .MOVE⟩ = true →
      (clipboard_has_item ⟨[], .NONE⟩ = false ↔
        ((⟨"//a/f".toList, .MOVE⟩ : Clipboard).g_clipboard_op = .MOVE ∧ (0 : Int) = 0))) ∧
    (((⟨"//a/f".toList, .MOVE⟩ : Clipboard).g_clipboard_op = .MOVE ∧ (0 : Int) = 0) →
      (⟨[], .NONE⟩ : Clipboard).g_clipboard_path = [] ∧
      (⟨[], .NONE⟩ : Clipboard).g_clipboard_op = .NONE) ∧
    (¬ ((⟨"//a/f".toList, .MOVE⟩ : Clipboard).g_clipboard_op = .MOVE ∧ (0 : Int) = 0) →
      (⟨[], .NONE⟩ : Clipboard).g_clipboard_path
        = (⟨"//a/f".toList, .MOVE⟩ : Clipboard).g_clipboard_path ∧
      (⟨[], .NONE⟩ : Clipboard).g_clipboard_op
        = (⟨"//a/f".toList, .MOVE⟩ : Clipboard).g_clipboard_op) ∧
    (∀ (dests : List CStr) (rcs : List Int) (clipN : Clipboard) (wN : Card),
      (⟨"//a/f".toList, .MOVE⟩ : Clipboard).g_clipboard_op = .COPY →
      paste_all Card.api 10 dests ⟨"//a/f".toList, .MOVE⟩ sampleCard = some (rcs, clipN, wN) →
      clipN = ⟨"//a/f".toList, .MOVE⟩ ∧
        clipboard_get_path clipN
          = some (⟨"//a/f".toList, .MOVE⟩ : Clipboard).g_clipboard_path ∧
        clipboard_get_operation clipN = .COPY) :=
  paste_clipboard_lifecycle Card.api 10 (some "//b".toList) ⟨"//a/f".toList, .MOVE⟩
    sampleCard 0 ⟨[], .NONE⟩
    { sampleCard with nodes := [([], .dir), ([['a']], .dir), ([['b'], ['f']], .file [1, 2, 3]),
        ([['a'], ['g']], .file [4]), ([['b']], .dir), ([['c']], .dir)] }
    (by decide)

/-- Witness of C4: with the empty clipboard, pasting into `//b` on the sample
card returns -1 and records no call. -/
theorem paste_item_returns_zero_iff_witness :
    clipboard_has_item ⟨[], .NONE⟩ = false ∧
    paste_item Card.api 10 (some "//b".toList) ⟨[], .NONE⟩ sampleCard
      = some (-1, ⟨[], .NONE⟩, sampleCard) ∧
    paste_item (traced Card.api) 10 (some "//b".toList) ⟨[], .NONE⟩ (sampleCard, [])
      = some (-1, ⟨[], .NONE⟩, (sampleCard, [])) :=
  ⟨by decide,
   ((paste_item_returns_zero_iff Card.api 10 "//b".toList ⟨[], .NONE⟩ sampleCard).2.2.1
      (by decide)).1,
   ((paste_item_returns_zero_iff Card.api 10 "//b".toList ⟨[], .NONE⟩ sampleCard).2.2.1
      (by decide)).2 []⟩

/-! ## Entering and leaving directories -/

section NavTheorems
variable {σ : Type}

theorem ui_enter_directory_spec (px : Posix σ) (ui : UIState) (w : σ) :
    ((ui_enter_directory px ui w).1 = -1 ∧ (ui_enter_directory px ui w).2.1 = ui) ∨
    ((ui_enter_directory px ui w).1 = 0 ∧
      ∃ entry new_dir,
        ui_get_selected_entry ui = some entry ∧ entry.is_dir = true ∧
        (fs_is_valid_path px (fs_build_path ui.current_path entry.name) w).1 ≠ 0 ∧
        fs_list_directory px (fs_build_path ui.current_path entry.name)
            (fs_is_valid_path px (fs_build_path ui.current_path entry.name) w).2
          = (some new_dir, (ui_enter_directory px ui w).2.2) ∧
        (ui_enter_directory px ui w).2.1 =
          { ui with current_path := fs_build_path ui.current_path entry.name,
                    current_dir := some new_dir,
                    selected_index := 0, scroll_offset := 0 }) := by
  unfold ui_enter_directory
  cases he : ui_get_selected_entry ui with
  | none => left; simp
  | some entry =>
    have hp : ui_get_selected_path ui = fs_build_path ui.current_path entry.name := by
      simp [ui_get_selected_path, he]
    simp only [hp]
    cases hdir : entry.is_dir with
    | false => left; simp
    | true =>
      simp only [Bool.not_true, Bool.false_eq_true, if_false]
      rcases hv : fs_is_valid_path px (fs_build_path ui.current_path entry.name) w with ⟨valid, w1⟩
      simp only
      by_cases hz : valid = 0
      · left; simp [hz]
      · simp only [hz, if_false]
        rcases hl : fs_list_directory px (fs_build_path ui.current_path entry.name) w1
          with ⟨dir, w2⟩
        cases dir with
        | none => left; simp
        | some new_dir =>
          right
          refine ⟨rfl, entry, new_dir, rfl, hdir, ?_, ?_, rfl⟩
          · simpa [hv] using hz
          · simp [hv, hl]

theorem ui_go_back_spec (px : Posix σ) (ui : UIState) (w : σ) :
    ((ui_go_back px ui w).1 = -1 ∧ (ui_go_back px ui w).2.1 = ui ∧
      ((path_get_parent ui.current_path).1 ≠ 0 → (ui_go_back px ui w).2.2 = w)) ∨
    ((ui_go_back px ui w).1 = 0 ∧
      ∃ parent_dir,
        (path_get_parent ui.current_path).1 = 0 ∧
        fs_list_directory px (path_get_parent ui.current_path).2 w
          = (some parent_dir, (ui_go_back px ui w).2.2) ∧
        (ui_go_back px ui w).2.1 =
          { ui with current_path := (path_get_parent ui.current_path).2,
                    current_dir := some parent_dir,
                    selected_index := 0, scroll_offset := 0 }) := by
  unfold ui_go_back
  rcases hp : path_get_parent ui.current_path with ⟨rc, parent_path⟩
  simp only
  by_cases hz : rc = 0
  · simp only [hz, ne_eq, not_true_eq_false, if_false]
    rcases hl : fs_list_directory px parent_path w with ⟨dir, w2⟩
    cases dir with
    | none => left; simp
    | some parent_dir =>
      right
      refine ⟨rfl, parent_dir, ?_, ?_, ?_⟩
      · simp [hz]
      · simp [hl]
      · simp
  · left; simp [hz]

/-- C5: whenever `ui_enter_directory` or `ui_go_back` returns -1, whatever the
UI state and whatever the C library calls answer, the state handed back is
the state passed in: `current_path`, `current_dir`, `selected_index`,
`scroll_offset` (and every other field) are as before the call; the two
functions return nothing but 0 and -1. -/
theorem failed_navigation_keeps_state (px : Posix σ) (ui : UIState) (w : σ) :
    ((ui_enter_directory px ui w).1 = -1 →
      (ui_enter_directory px ui w).2.1 = ui ∧
      (ui_enter_directory px ui w).2.1.current_path = ui.current_path ∧
      (ui_enter_directory px ui w).2.1.current_dir = ui.current_dir ∧
      (ui_enter_directory px ui w).2.1.selected_index = ui.selected_index ∧
      (ui_enter_directory px ui w).2.1.scroll_offset = ui.scroll_offset) ∧
    ((ui_go_back px ui w).1 = -1 →
      (ui_go_back px ui w).2.1 = ui ∧
      (ui_go_back px ui w).2.1.current_path = ui.current_path ∧
      (ui_go_back px ui w).2.1.current_dir = ui.current_dir ∧
      (ui_go_back px ui w).2.1.selected_index = ui.selected_index ∧
      (ui_go_back px ui w).2.1.scroll_offset = ui.scroll_offset) ∧
    ((ui_enter_directory px ui w).1 = 0 ∨ (ui_enter_directory px ui w).1 = -1) ∧
    ((ui_go_back px ui w).1 = 0 ∨ (ui_go_back px ui w).1 = -1) := by
  refine ⟨?_, ?_, ?_, ?_⟩
  · intro h
    rcases ui_enter_directory_spec px ui w with ⟨_, h2⟩ | ⟨h1, _⟩
    · rw [h2]; exact ⟨rfl, rfl, rfl, rfl, rfl⟩
    · rw [h1] at h; exact absurd h (by decide)
  · intro h
    rcases ui_go_back_spec px ui w with ⟨_, h2, _⟩ | ⟨h1, _⟩
    · rw [h2]; exact ⟨rfl, rfl, rfl, rfl, rfl⟩
    · rw [h1] at h; exact absurd h (by decide)
  · rcases ui_enter_directory_spec px ui w with ⟨h1, _⟩ | ⟨h1, _⟩
    · exact Or.inr h1
    · exact Or.inl h1
  · rcases ui_go_back_spec px ui w with ⟨h1, _⟩ | ⟨h1, _⟩
    · exact Or.inr h1
    · exact Or.inl h1

/-- C6: when `current_path` is the root `"/"`, `ui_go_back` returns -1 with
the UI state unchanged and the world untouched: it makes no C library call,
so no directory listing is requested. -/
theorem go_back_at_root (px : Posix σ) (ui : UIState) (w : σ)
    (hroot : ui.current_path = ['/']) :
    ui_go_back px ui w = (-1, ui, w) := by
  have hp : path_get_parent ui.current_path = (-1, ['/']) := by
    rw [hroot]; decide
  unfold ui_go_back
  rw [hp]
  simp

/-- C7: whenever `ui_enter_directory` or `ui_go_back` returns 0, the new state
has `selected_index = 0` and `scroll_offset = 0`, `current_dir` is the
listing that `fs_list_directory` just produced for the new `current_path`,
and `current_path` is `fs_build_path` of the old path and the name of the
entry that was selected, a directory (enter), or the parent computed by
`path_get_parent` from the old path (back). -/
theorem successful_navigation_resets (px : Posix σ) (ui : UIState) (w : σ) :
    ((ui_enter_directory px ui w).1 = 0 →
      (ui_enter_directory px ui w).2.1.selected_index = 0 ∧
      (ui_enter_directory px ui w).2.1.scroll_offset = 0 ∧
      ∃ entry,
        ui_get_selected_entry ui = some entry ∧ entry.is_dir = true ∧
        (ui_enter_directory px ui w).2.1.current_path
          = fs_build_path ui.current_path entry.name ∧
        (fs_list_directory px (ui_enter_directory px ui w).2.1.current_path
            (fs_is_valid_path px (ui_enter_directory px ui w).2.1.current_path w).2).1
          = (ui_enter_directory px ui w).2.1.current_dir ∧
        (ui_enter_directory px ui w).2.1.current_dir ≠ none) ∧
    ((ui_go_back px ui w).1 = 0 →
      (ui_go_back px ui w).2.1.selected_index = 0 ∧
      (ui_go_back px ui w).2.1.scroll_offset = 0 ∧
      (path_get_parent ui.current_path).1 = 0 ∧
      (ui_go_back px ui w).2.1.current_path = (path_get_parent ui.current_path).2 ∧
      (fs_list_directory px (ui_go_back px ui w).2.1.current_path w).1
        = (ui_go_back px ui w).2.1.current_dir ∧
      (ui_go_back px ui w).2.1.current_dir ≠ none) := by
  constructor
  · intro h
    rcases ui_enter_directory_spec px ui w with ⟨h1, _⟩ | ⟨_, entry, new_dir, he, hd, _, hl, hs⟩
    · rw [h1] at h; exact absurd h (by decide)
    · rw [hs]
      refine ⟨rfl, rfl, entry, he, hd, rfl, ?_, by simp⟩
      simp only [hl]
  · intro h
    rcases ui_go_back_spec px ui w with ⟨h1, _⟩ | ⟨_, parent_dir, hp, hl, hs⟩
    · rw [h1] at h; exact absurd h (by decide)
    · rw [hs]
      refine ⟨rfl, rfl, hp, rfl, ?_, by simp⟩
      simp only [hl]

end NavTheorems

/-- Witness of C5: on the sample card, entering fails inside `//a` (a file is
selected) and going back fails at the root. -/
theorem failed_navigation_keeps_state_witness :
    (ui_enter_directory Card.posix
        { sampleUI with current_path := "//a".toList,
                        current_dir := some ⟨[⟨['f'], false, 3⟩, ⟨['g'], false, 1⟩], 32⟩ }
        sampleCard).2.1
      = { sampleUI with current_path := "//a".toList,
                        current_dir := some ⟨[⟨['f'], false, 3⟩, ⟨['g'], false, 1⟩], 32⟩ } ∧
    (ui_go_back Card.posix sampleUI sampleCard).2.1 = sampleUI :=
  ⟨((failed_navigation_keeps_state Card.posix
        { sampleUI with current_path := "//a".toList,
                        current_dir := some ⟨[⟨['f'], false, 3⟩, ⟨['g'], false, 1⟩], 32⟩ }
        sampleCard).1 (by decide)).1,
   ((failed_navigation_keeps_state Card.posix sampleUI sampleCard).2.1 (by decide)).1⟩

/-- Witness of C6: the sample state is at the root. -/
theorem go_back_at_root_witness :
    sampleUI.current_path = ['/'] ∧
    ui_go_back Card.posix sampleUI sampleCard = (-1, sampleUI, sampleCard) :=
  ⟨rfl, go_back_at_root Card.posix sampleUI sampleCard rfl⟩

/-- Witness of C7: entering `a` from the root of the sample card, and going
back from `//a`. -/
theorem successful_navigation_resets_witness :
    ((ui_enter_directory Card.posix sampleUI sampleCard).2.1.selected_index = 0 ∧
      (ui_enter_directory Card.posix sampleUI sampleCard).2.1.current_path = "//a".toList) ∧
    ((ui_go_back Card.posix { sampleUI with current_path := "//a".toList }
        sampleCard).2.1.selected_index = 0 ∧
      (ui_go_back Card.posix { sampleUI with current_path := "//a".toList }
        sampleCard).2.1.current_path = ['/']) :=
  ⟨⟨((successful_navigation_resets Card.posix sampleUI sampleCard).1 (by decide)).1, by decide⟩,
   ⟨((successful_navigation_resets Card.posix { sampleUI with current_path := "//a".toList }
        sampleCard).2 (by decide)).1, by decide⟩⟩

/-! ## Move -/

section MoveTheorems
variable {σ δ φ : Type}

theorem move_file_rename_eq (api : Libnx σ δ φ) (src dest_dir : CStr) (w : σ) :
    move_file_rename api src dest_dir w =
      if R_SUCCEEDED (api.fsOpenSdCardFileSystem w).1 = true then
        (R_SUCCEEDED (api.fsFsRenameFile (normalize_sd_path src 512)
            (normalize_sd_path (snprintf_join 512 dest_dir (path_get_filename src)) 512)
            (api.fsOpenSdCardFileSystem w).2).1,
          api.fsFsClose (api.fsFsRenameFile (normalize_sd_path src 512)
            (normalize_sd_path (snprintf_join 512 dest_dir (path_get_filename src)) 512)
            (api.fsOpenSdCardFileSystem w).2).2)
      else (false, (api.fsOpenSdCardFileSystem w).2) := rfl

theorem traced_fsOpenSdCardFileSystem (api : Libnx σ δ φ) (w : σ) (t : List Event) :
    (traced api).fsOpenSdCardFileSystem (w, t) =
      ((api.fsOpenSdCardFileSystem w).1, (api.fsOpenSdCardFileSystem w).2,
        t ++ [⟨.fsOpenSdCardFileSystem, (api.fsOpenSdCardFileSystem w).1⟩]) := rfl

theorem traced_fsFsRenameFile (api : Libnx σ δ φ) (a b : CStr) (w : σ) (t : List Event) :
    (traced api).fsFsRenameFile a b (w, t) =
      ((api.fsFsRenameFile a b w).1, (api.fsFsRenameFile a b w).2,
        t ++ [⟨.fsFsRenameFile a b, (api.fsFsRenameFile a b w).1⟩]) := rfl

theorem traced_fsFsClose (api : Libnx σ δ φ) (w : σ) (t : List Event) :
    (traced api).fsFsClose (w, t) = (api.fsFsClose w, t ++ [⟨.fsFsClose, 0⟩]) := rfl

theorem move_file_rename_ok_iff (api : Libnx σ δ φ) (src dest_dir : CStr) (w : σ) :
    (move_file_rename api src dest_dir w).1 = true ↔
      (R_SUCCEEDED (api.fsOpenSdCardFileSystem w).1 = true ∧
        R_SUCCEEDED (api.fsFsRenameFile (normalize_sd_path src 512)
          (normalize_sd_path (snprintf_join 512 dest_dir (path_get_filename src)) 512)
          (api.fsOpenSdCardFileSystem w).2).1 = true) := by
  rw [move_file_rename_eq]
  by_cases hs : R_SUCCEEDED (api.fsOpenSdCardFileSystem w).1 = true
  · simp only [hs, if_true, true_and]
  · simp [hs]

theorem move_file_rename_traced (api : Libnx σ δ φ) (src dest_dir : CStr) (w : σ)
    (t : List Event) (h : (move_file_rename api src dest_dir w).1 = true) :
    move_file_rename (traced api) src dest_dir (w, t) =
      (true, (move_file_rename api src dest_dir w).2,
        t ++ [⟨.fsOpenSdCardFileSystem, 0⟩,
              ⟨.fsFsRenameFile (normalize_sd_path src 512)
                (normalize_sd_path (snprintf_join 512 dest_dir (path_get_filename src)) 512), 0⟩,
              ⟨.fsFsClose, 0⟩]) := by
  obtain ⟨h1, h2⟩ := (move_file_rename_ok_iff api src dest_dir w).1 h
  have e1 : (api.fsOpenSdCardFileSystem w).1 = 0 := by simpa [R_SUCCEEDED] using h1
  have e2 : (api.fsFsRenameFile (normalize_sd_path src 512)
          (normalize_sd_path (snprintf_join 512 dest_dir (path_get_filename src)) 512)
          (api.fsOpenSdCardFileSystem w).2).1 = 0 := by simpa [R_SUCCEEDED] using h2
  rw [move_file_rename_eq, move_file_rename_eq]
  simp only [traced_fsOpenSdCardFileSystem, traced_fsFsRenameFile, traced_fsFsClose, h1, h2,
    e1, e2, if_true, List.append_assoc, List.singleton_append]
  have e3 : R_SUCCEEDED 0 = true := rfl
  simp [e3]

/-- C8: `move_file(src, dest_dir)` returns 0 exactly when its rename attempt
(session opened and `fsFsRenameFile` of `src` to `dest_dir/filename(src)`,
both paths as held in their 512-byte buffers) succeeds, or that attempt does
not succeed and `copy_item(src, dest_dir)` returns 0 and then
`delete_item(src)` returns 0.  When the rename succeeds the call makes exactly
three libnx calls (open, rename, close), so `copy_item` is not run; when
`copy_item` returns non-zero the result is -1 in the world `copy_item` left, so
`delete_item` is not run; when the copy succeeds and `delete_item` returns
non-zero the result is -1 in the world `delete_item` left: nothing is done to
the copy. -/
theorem move_file_returns_zero_iff (api : Libnx σ δ φ) (fuel : Nat) (src dest_dir : CStr)
    (w : σ) :
    (∀ w3 : σ, move_file api fuel src dest_dir w = some (0, w3) ↔
      (((move_file_rename api src dest_dir w).1 = true ∧
          w3 = (move_file_rename api src dest_dir w).2) ∨
        ((move_file_rename api src dest_dir w).1 = false ∧
          ∃ w2, copy_item api fuel src dest_dir (move_file_rename api src dest_dir w).2
                  = some (0, w2) ∧
                delete_item api fuel src w2 = some (0, w3)))) ∧
    ((move_file_rename api src dest_dir w).1 = true ↔
      (R_SUCCEEDED (api.fsOpenSdCardFileSystem w).1 = true ∧
        R_SUCCEEDED (api.fsFsRenameFile (normalize_sd_path src 512)
          (normalize_sd_path (snprintf_join 512 dest_dir (path_get_filename src)) 512)
          (api.fsOpenSdCardFileSystem w).2).1 = true)) ∧
    ((move_file_rename api src dest_dir w).1 = true →
      ∀ t : List Event,
        move_file (traced api) fuel src dest_dir (w, t) =
          some (0, (move_file_rename api src dest_dir w).2,
            t ++ [⟨.fsOpenSdCardFileSystem, 0⟩,
                  ⟨.fsFsRenameFile (normalize_sd_path src 512)
                    (normalize_sd_path (snprintf_join 512 dest_dir (path_get_filename src)) 512),
                    0⟩,
                  ⟨.fsFsClose, 0⟩])) ∧
    ((move_file_rename api src dest_dir w).1 = false →
      ∀ (rc : Int) (w2 : σ),
        copy_item api fuel src dest_dir (move_file_rename api src dest_dir w).2 = some (rc, w2) →
        rc ≠ 0 → move_file api fuel src dest_dir w = some (-1, w2)) ∧
    ((move_file_rename api src dest_dir w).1 = false →
      ∀ (w2 : σ) (rc : Int) (w3 : σ),
        copy_item api fuel src dest_dir (move_file_rename api src dest_dir w).2 = some (0, w2) →
        delete_item api fuel src w2 = some (rc, w3) →
        rc ≠ 0 → move_file api fuel src dest_dir w = some (-1, w3)) := by
  refine ⟨?_, move_file_rename_ok_iff api src dest_dir w, ?_, ?_, ?_⟩
  · intro w3
    unfold move_file
    rcases hr : move_file_rename api src dest_dir w with ⟨ok, w1⟩
    cases ok with
    | true => simp [eq_comm]
    | false =>
      simp only [Bool.false_eq_true, false_and, false_or, true_and]
      cases hc : copy_item api fuel src dest_dir w1 with
      | none => simp
      | some r =>
        obtain ⟨rc, w2⟩ := r
        by_cases hz : rc = 0
        · subst hz
          simp only [ne_eq, not_true_eq_false, if_false, Option.some.injEq, Prod.mk.injEq,
            true_and, exists_eq_left']
          cases hd : delete_item api fuel src w2 with
          | none => simp
          | some r2 =>
            obtain ⟨rc2, w4⟩ := r2
            by_cases hz2 : rc2 = 0
            · subst hz2
              simp
            · simp [hz2]
        · simp [hz]
  · intro h t
    unfold move_file
    rw [move_file_rename_traced api src dest_dir w t h]
  · intro h rc w2 hc hz
    unfold move_file
    rcases hr : move_file_rename api src dest_dir w with ⟨ok, w1⟩
    rw [hr] at h hc
    simp only at h hc
    subst h
    simp [hc, hz]
  · intro h w2 rc w3 hc hd hz
    unfold move_file
    rcases hr : move_file_rename api src dest_dir w with ⟨ok, w1⟩
    rw [hr] at h hc
    simp only at h hc
    subst h
    simp [hc, hd, hz]

end MoveTheorems

/-- Witness of C8: on the sample card the file `//a/f` is moved into `//b`
by the rename, with three libnx calls. -/
theorem move_file_returns_zero_iff_witness :
    (move_file_rename Card.api "//a/f".toList "//b".toList sampleCard).1 = true ∧
    move_file (traced Card.api) 10 "//a/f".toList "//b".toList (sampleCard, []) =
      some (0, (move_file_rename Card.api "//a/f".toList "//b".toList sampleCard).2,
        [] ++ [⟨.fsOpenSdCardFileSystem, 0⟩,
               ⟨.fsFsRenameFile (normalize_sd_path "//a/f".toList 512)
                 (normalize_sd_path
                   (snprintf_join 512 "//b".toList (path_get_filename "//a/f".toList)) 512), 0⟩,
               ⟨.fsFsClose, 0⟩]) :=
  ⟨by decide,
   (move_file_returns_zero_iff Card.api 10 "//a/f".toList "//b".toList sampleCard).2.2.1
     (by decide) []⟩

/-! ## Delete: call traces for every implementation of the libnx calls -/

section DeleteTrace
variable {σ δ φ : Type}

theorem traced_fsFsOpenDirectory (api : Libnx σ δ φ) (p : CStr) (m : Nat) (w : σ)
    (t : List Event) :
    (traced api).fsFsOpenDirectory p m (w, t) =
      ((api.fsFsOpenDirectory p m w).1, (api.fsFsOpenDirectory p m w).2.1,
        (api.fsFsOpenDirectory p m w).2.2,
        t ++ [⟨.fsFsOpenDirectory p, (api.fsFsOpenDirectory p m w).1⟩]) := rfl

theorem traced_fsDirRead (api : Libnx σ δ φ) (d : δ) (w : σ) (t : List Event) :
    (traced api).fsDirRead d (w, t) =
      ((api.fsDirRead d w).1, (api.fsDirRead d w).2.1, (api.fsDirRead d w).2.2,
        t ++ [⟨.fsDirRead, (api.fsDirRead d w).1⟩]) := rfl

theorem traced_fsDirClose (api : Libnx σ δ φ) (d : δ) (w : σ) (t : List Event) :
    (traced api).fsDirClose d (w, t) = (api.fsDirClose d w, t ++ [⟨.fsDirClose, 0⟩]) := rfl

theorem traced_fsFsDeleteFile (api : Libnx σ δ φ) (p : CStr) (w : σ) (t : List Event) :
    (traced api).fsFsDeleteFile p (w, t) =
      ((api.fsFsDeleteFile p w).1, (api.fsFsDeleteFile p w).2,
        t ++ [⟨.fsFsDeleteFile p, (api.fsFsDeleteFile p w).1⟩]) := rfl

theorem traced_fsFsDeleteDirectory (api : Libnx σ δ φ) (p : CStr) (w : σ) (t : List Event) :
    (traced api).fsFsDeleteDirectory p (w, t) =
      ((api.fsFsDeleteDirectory p w).1, (api.fsFsDeleteDirectory p w).2,
        t ++ [⟨.fsFsDeleteDirectory p, (api.fsFsDeleteDirectory p w).1⟩]) := rfl

theorem R_FAILED_iff (rc : Result) : R_FAILED rc = true ↔ rc ≠ 0 := by
  simp [R_FAILED]

theorem R_SUCCEEDED_iff (rc : Result) : R_SUCCEEDED rc = true ↔ rc = 0 := by
  simp [R_SUCCEEDED]

theorem R_SUCCEEDED_false_iff (rc : Result) : R_SUCCEEDED rc = false ↔ rc ≠ 0 := by
  simp [R_SUCCEEDED]

theorem R_FAILED_false_iff (rc : Result) : R_FAILED rc = false ↔ rc = 0 := by
  simp [R_FAILED]

theorem OpShape.ok_append {okE : Event → Bool} {rc : Int} {a b : List Event}
    (ha : ∀ e ∈ a, okE e = true) (hb : OpShape okE rc b) : OpShape okE rc (a ++ b) := by
  rcases hb with ⟨h0, hall⟩ | ⟨h1, pre, bad, post, he, hpre, hbad, hpost⟩
  · left
    refine ⟨h0, ?_⟩
    intro e he
    rcases List.mem_append.1 he with h | h
    · exact ha e h
    · exact hall e h
  · right
    refine ⟨h1, a ++ pre, bad, post, ?_, ?_, hbad, hpost⟩
    · rw [he, List.append_assoc]
    · intro e he
      rcases List.mem_append.1 he with h | h
      · exact ha e h
      · exact hpre e h

theorem OpShape.abort_closes {okE : Event → Bool} {rc : Int} {a cl : List Event}
    (ha : OpShape okE rc a) (hrc : rc ≠ 0) (hcl : ∀ e ∈ cl, e.isClose = true) :
    OpShape okE (-1) (a ++ cl) := by
  rcases ha with ⟨h0, _⟩ | ⟨_, pre, bad, post, he, hpre, hbad, hpost⟩
  · exact absurd h0 hrc
  · right
    refine ⟨rfl, pre, bad, post ++ cl, ?_, hpre, hbad, ?_⟩
    · rw [he]; simp
    · intro e he
      rcases List.mem_append.1 he with h | h
      · exact hpost e h
      · exact hcl e h

theorem OpShape.fail_now {okE : Event → Bool} (pre : List Event) (bad : Event) (post : List Event)
    (hpre : ∀ e ∈ pre, okE e = true) (hbad : okE bad = false)
    (hpost : ∀ e ∈ post, e.isClose = true) :
    OpShape okE (-1) (pre ++ bad :: post) :=
  Or.inr ⟨rfl, pre, bad, post, rfl, hpre, hbad, hpost⟩

theorem OpShape.zero_iff {okE : Event → Bool} {rc : Int} {evs : List Event} (h : OpShape okE rc evs) :
    rc = 0 ↔ ∀ e ∈ evs, okE e = true := by
  rcases h with ⟨h0, hall⟩ | ⟨h1, pre, bad, post, he, _, hbad, _⟩
  · exact ⟨fun _ => hall, fun _ => h0⟩
  · constructor
    · intro h; rw [h1] at h; exact absurd h (by decide)
    · intro hall
      have : okE bad = true := hall bad (by rw [he]; simp)
      rw [hbad] at this
      exact absurd this (by decide)

/-- The trace statement proved by induction on the fuel, for the function and
for its loop together. -/
theorem delete_trace_aux (api : Libnx σ δ φ) (n : Nat) :
    (∀ (path : CStr) (w : σ) (t : List Event) (rc : Int) (w1 : σ) (t1 : List Event),
      delete_recursive_libnx (traced api) n path (w, t) = some (rc, w1, t1) →
      ∃ evs, t1 = t ++ evs ∧ OpShape Event.okD rc evs) ∧
    (∀ (path path_n : CStr) (dir : δ) (w : σ) (t : List Event) (rc : Int) (w1 : σ)
      (t1 : List Event),
      delete_children (traced api) n path path_n dir (w, t) = some (rc, w1, t1) →
      ∃ evs, t1 = t ++ evs ∧ OpShape Event.okD rc evs ∧
        (rc = 0 → ∃ mid, evs = mid ++
          [⟨.fsDirClose, 0⟩, ⟨.fsFsDeleteDirectory path_n, 0⟩, ⟨.fsFsClose, 0⟩])) := by
  induction n with
  | zero =>
    constructor
    · intro path w t rc w1 t1 h
      simp [delete_recursive_libnx] at h
    · intro path path_n dir w t rc w1 t1 h
      simp [delete_children] at h
  | succ n ih =>
    obtain ⟨ihr, ihc⟩ := ih
    constructor
    · intro path w t rc w1 t1 h
      rw [delete_recursive_libnx] at h
      simp only [traced_fsOpenSdCardFileSystem, traced_fsFsOpenDirectory,
        traced_fsFsDeleteFile, traced_fsFsClose] at h
      generalize api.fsOpenSdCardFileSystem w = r1 at h
      obtain ⟨rc1, wa⟩ := r1
      simp only at h
      by_cases hf1 : R_FAILED rc1 = true
      · simp only [hf1, if_true, Option.some.injEq, Prod.mk.injEq] at h
        obtain ⟨e1, _, e3⟩ := h
        subst e1 e3
        refine ⟨[⟨.fsOpenSdCardFileSystem, rc1⟩], rfl, ?_⟩
        refine OpShape.fail_now [] _ [] (by simp) ?_ (by simp)
        have := (R_FAILED_iff rc1).1 hf1
        simp [Event.okD, this]
      · have hz1 : rc1 = 0 := (R_FAILED_false_iff rc1).1 (by simpa using hf1)
        subst hz1
        simp only [hf1, Bool.false_eq_true, if_false] at h
        generalize api.fsFsOpenDirectory (normalize_sd_path path 512)
          (FsDirOpenMode_ReadDirs ||| FsDirOpenMode_ReadFiles) wa = r2 at h
        obtain ⟨rc2, dir, wb⟩ := r2
        simp only at h
        by_cases hs2 : R_SUCCEEDED rc2 = true
        · simp only [hs2, if_true] at h
          obtain ⟨evs, he, hshape, _⟩ := ihc _ _ _ _ _ _ _ _ h
          refine ⟨[⟨.fsOpenSdCardFileSystem, 0⟩,
            ⟨.fsFsOpenDirectory (normalize_sd_path path 512), rc2⟩] ++ evs, ?_, ?_⟩
          · rw [he]; simp
          · exact OpShape.ok_append (by simp [Event.okD]) hshape
        · simp only [hs2, Bool.false_eq_true, if_false] at h
          generalize api.fsFsDeleteFile (normalize_sd_path path 512) wb = r3 at h
          obtain ⟨rc3, wc⟩ := r3
          simp only at h
          by_cases hf3 : R_FAILED rc3 = true
          · simp only [hf3, if_true, Option.some.injEq, Prod.mk.injEq] at h
            obtain ⟨e1, _, e3⟩ := h
            subst e1 e3
            refine ⟨[⟨.fsOpenSdCardFileSystem, 0⟩,
              ⟨.fsFsOpenDirectory (normalize_sd_path path 512), rc2⟩,
              ⟨.fsFsDeleteFile (normalize_sd_path path 512), rc3⟩, ⟨.fsFsClose, 0⟩], by simp, ?_⟩
            refine OpShape.fail_now [_, _] _ [_] (by simp [Event.okD]) ?_
              (by simp [Event.isClose])
            have := (R_FAILED_iff rc3).1 hf3
            simp [Event.okD, this]
          · have hz3 : rc3 = 0 := (R_FAILED_false_iff rc3).1 (by simpa using hf3)
            subst hz3
            simp only [hf3, Bool.false_eq_true, if_false, Option.some.injEq, Prod.mk.injEq] at h
            obtain ⟨e1, _, e3⟩ := h
            subst e1 e3
            refine ⟨[⟨.fsOpenSdCardFileSystem, 0⟩,
              ⟨.fsFsOpenDirectory (normalize_sd_path path 512), rc2⟩,
              ⟨.fsFsDeleteFile (normalize_sd_path path 512), 0⟩, ⟨.fsFsClose, 0⟩], by simp, ?_⟩
            left
            exact ⟨rfl, by simp [Event.okD]⟩
    · intro path path_n dir w t rc w1 t1 h
      rw [delete_children] at h
      simp only [traced_fsDirRead, traced_fsDirClose, traced_fsFsDeleteDirectory,
        traced_fsFsClose] at h
      generalize api.fsDirRead dir w = r1 at h
      obtain ⟨rc1, entry, wa⟩ := r1
      simp only at h
      by_cases hf1 : R_FAILED rc1 = true
      · simp only [hf1, if_true, Option.some.injEq, Prod.mk.injEq] at h
        obtain ⟨e1, _, e3⟩ := h
        subst e1 e3
        refine ⟨[⟨.fsDirRead, rc1⟩, ⟨.fsDirClose, 0⟩, ⟨.fsFsClose, 0⟩], by simp, ?_,
          fun h => absurd h (by decide)⟩
        refine OpShape.fail_now [] _ [_, _] (by simp) ?_ (by simp [Event.isClose])
        have := (R_FAILED_iff rc1).1 hf1
        simp [Event.okD, this]
      · have hz1 : rc1 = 0 := (R_FAILED_false_iff rc1).1 (by simpa using hf1)
        subst hz1
        simp only [hf1, Bool.false_eq_true, if_false] at h
        cases entry with
        | none =>
          simp only at h
          generalize api.fsFsDeleteDirectory path_n (api.fsDirClose dir wa) = r2 at h
          obtain ⟨rc2, wb⟩ := r2
          simp only at h
          by_cases hf2 : R_FAILED rc2 = true
          · simp only [hf2, if_true, Option.some.injEq, Prod.mk.injEq] at h
            obtain ⟨e1, _, e3⟩ := h
            subst e1 e3
            refine ⟨[⟨.fsDirRead, 0⟩, ⟨.fsDirClose, 0⟩, ⟨.fsFsDeleteDirectory path_n, rc2⟩,
              ⟨.fsFsClose, 0⟩], by simp, ?_, fun h => absurd h (by decide)⟩
            refine OpShape.fail_now [_, _] _ [_] (by simp [Event.okD]) ?_
              (by simp [Event.isClose])
            have := (R_FAILED_iff rc2).1 hf2
            simp [Event.okD, this]
          · have hz2 : rc2 = 0 := (R_FAILED_false_iff rc2).1 (by simpa using hf2)
            subst hz2
            simp only [hf2, Bool.false_eq_true, if_false, Option.some.injEq, Prod.mk.injEq] at h
            obtain ⟨e1, _, e3⟩ := h
            subst e1 e3
            refine ⟨[⟨.fsDirRead, 0⟩, ⟨.fsDirClose, 0⟩, ⟨.fsFsDeleteDirectory path_n, 0⟩,
              ⟨.fsFsClose, 0⟩], by simp, ?_, fun _ => ⟨[⟨.fsDirRead, 0⟩], by simp⟩⟩
            left
            exact ⟨rfl, by simp [Event.okD]⟩
        | some entry =>
          simp only at h
          by_cases hdot : is_dot_or_dotdot entry.name = true
          · simp only [hdot, if_true] at h
            obtain ⟨evs, he, hshape, hlast⟩ := ihc _ _ _ _ _ _ _ _ h
            refine ⟨[⟨.fsDirRead, 0⟩] ++ evs, by rw [he]; simp, ?_, ?_⟩
            · exact OpShape.ok_append (by simp [Event.okD]) hshape
            · intro hz
              obtain ⟨mid, hm⟩ := hlast hz
              exact ⟨[⟨.fsDirRead, 0⟩] ++ mid, by rw [hm]; simp⟩
          · simp only [hdot, Bool.false_eq_true, if_false] at h
            cases hchild : delete_recursive_libnx (traced api) n
                (snprintf_join 512 path entry.name) (wa, t ++ [⟨.fsDirRead, 0⟩]) with
            | none => simp [hchild] at h
            | some r =>
              obtain ⟨rcc, wc, tc⟩ := r
              obtain ⟨evc, hec, hshc⟩ := ihr _ _ _ _ _ _ hchild
              simp only [hchild] at h
              by_cases hz : rcc = 0
              · subst hz
                simp only [ne_eq, not_true_eq_false, if_false] at h
                obtain ⟨evs, he, hshape, hlast⟩ := ihc _ _ _ _ _ _ _ _ h
                refine ⟨[⟨.fsDirRead, 0⟩] ++ evc ++ evs, by rw [he, hec]; simp, ?_, ?_⟩
                · have hallc := (OpShape.zero_iff hshc).1 rfl
                  refine OpShape.ok_append ?_ hshape
                  intro e he
                  rcases List.mem_append.1 he with h1 | h1
                  · simp at h1; subst h1; simp [Event.okD]
                  · exact hallc e h1
                · intro hz
                  obtain ⟨mid, hm⟩ := hlast hz
                  exact ⟨[⟨.fsDirRead, 0⟩] ++ evc ++ mid, by rw [hm]; simp⟩
              · simp only [ne_eq, hz, not_false_eq_true, if_true, Option.some.injEq,
                  Prod.mk.injEq, traced_fsDirClose, traced_fsFsClose] at h
                obtain ⟨e1, _, e3⟩ := h
                subst e1 e3
                refine ⟨[⟨.fsDirRead, 0⟩] ++ (evc ++ [⟨.fsDirClose, 0⟩, ⟨.fsFsClose, 0⟩]),
                  by rw [hec]; simp, ?_, fun h => absurd h (by decide)⟩
                refine OpShape.ok_append (by simp [Event.okD]) ?_
                exact OpShape.abort_closes hshc hz (by simp [Event.isClose])

end DeleteTrace

/-! ## Path strings and their components -/

theorem rawSplit_ne_nil (p : CStr) : rawSplit p ≠ [] := by
  cases p with
  | nil => simp [rawSplit]
  | cons c rest =>
    simp only [rawSplit]
    split_ifs
    · simp
    · split <;> simp

theorem rawSplit_append_slash (a b : CStr) :
    rawSplit (a ++ '/' :: b) = rawSplit a ++ rawSplit b := by
  induction a with
  | nil => simp [rawSplit]
  | cons c a ih =>
    simp only [List.cons_append, rawSplit]
    by_cases hc : c = '/'
    · simp [hc, ih]
    · simp only [hc, if_false]
      have ih2 : rawSplit (a.append ('/' :: b)) = rawSplit a ++ rawSplit b := ih
      rw [ih2]
      cases hra : rawSplit a with
      | nil => exact absurd hra (rawSplit_ne_nil a)
      | cons x xs => simp

theorem rawSplit_noslash (n : CStr) (h : '/' ∉ n) : rawSplit n = [n] := by
  induction n with
  | nil => rfl
  | cons c n ih =>
    have hc : c ≠ '/' := fun e => h (by simp [e])
    have hn : '/' ∉ n := fun e => h (by simp [e])
    simp [rawSplit, hc, ih hn]

theorem validName_spec (n : CStr) (h : validName n = true) :
    n ≠ [] ∧ '/' ∉ n ∧ is_dot_or_dotdot n = false := by
  simp [validName] at h
  exact ⟨h.1.1, h.1.2, h.2⟩

theorem components_append_name (a n : CStr) (h : validName n = true) :
    components (a ++ '/' :: n) = components a ++ [n] := by
  obtain ⟨h1, h2, _⟩ := validName_spec n h
  simp [components, rawSplit_append_slash, rawSplit_noslash n h2, h1]

theorem components_cons_slash (p : CStr) : components ('/' :: p) = components p := by
  simp [components, rawSplit]

theorem components_drop_slash (p : CStr) :
    components (if p.head? = some '/' then p.drop 1 else p) = components p := by
  cases p with
  | nil => simp
  | cons c rest =>
    by_cases hc : c = '/'
    · subst hc; simp [components_cons_slash]
    · simp [hc]

/-- With room in the buffer, normalising a path only strips the device name
and one leading slash. -/
theorem normalize_sd_path_components (p : CStr) (hlen : p.length ≤ 511) :
    components (normalize_sd_path p 512) =
      components (if ("sdmc:/".toList).isPrefixOf p then p.drop 6 else p) := by
  have hq : (if ("sdmc:/".toList).isPrefixOf p then p.drop 6 else p).length ≤ 511 := by
    split_ifs
    · simp only [List.length_drop]; omega
    · exact hlen
  unfold normalize_sd_path
  simp only
  generalize (if ("sdmc:/".toList).isPrefixOf p then p.drop 6 else p) = q at hq ⊢
  have hr : (if q.head? = some '/' then q.drop 1 else q).length ≤ 512 - 1 := by
    split_ifs
    · simp only [List.length_drop]; omega
    · omega
  rw [List.take_of_length_le hr]
  exact components_drop_slash q

theorem sdmc_isPrefixOf_child (path n : CStr) (hdev : bareDevice path = false) :
    ("sdmc:/".toList).isPrefixOf (path ++ '/' :: n) = ("sdmc:/".toList).isPrefixOf path := by
  have hne : path ≠ "sdmc:".toList := by
    intro h
    simp [bareDevice, h] at hdev
  rcases path with _ | ⟨c1, _ | ⟨c2, _ | ⟨c3, _ | ⟨c4, _ | ⟨c5, _ | ⟨c6, rest⟩⟩⟩⟩⟩⟩
  · simp [List.isPrefixOf]
  · simp [List.isPrefixOf]
  · simp [List.isPrefixOf]
  · simp [List.isPrefixOf]
  · simp [List.isPrefixOf]
  · simp [List.isPrefixOf]
    intro h1 h2 h3 h4 h5
    exact hne (by simp [← h1, ← h2, ← h3, ← h4, ← h5])
  · simp [List.isPrefixOf]

theorem bareDevice_child (path n : CStr) : bareDevice (path ++ '/' :: n) = false := by
  simp only [bareDevice, beq_eq_false_iff_ne, ne_eq]
  intro h
  have hm : '/' ∈ path ++ '/' :: n := by simp
  rw [h] at hm
  simp at hm

/-- The path string assembled for a child names the child of the node that
the parent string names. -/
theorem components_child (path n : CStr) (habs : bareDevice path = false)
    (hn : validName n = true) (hlen : (path ++ '/' :: n).length ≤ 511) :
    snprintf_join 512 path n = path ++ '/' :: n ∧
    components (normalize_sd_path (snprintf_join 512 path n) 512) =
      components (normalize_sd_path path 512) ++ [n] := by
  have hj : snprintf_join 512 path n = path ++ '/' :: n := by
    unfold snprintf_join
    exact List.take_of_length_le (by simpa using hlen)
  refine ⟨hj, ?_⟩
  have hlen2 : path.length ≤ 511 := by simp at hlen; omega
  rw [hj, normalize_sd_path_components _ hlen, normalize_sd_path_components _ hlen2,
    sdmc_isPrefixOf_child path n habs]
  by_cases hp : ("sdmc:/".toList).isPrefixOf path = true
  · simp only [hp, if_true]
    have h6 : 6 ≤ path.length := by
      have := (List.isPrefixOf_iff_prefix.1 hp).length_le
      simpa using this
    rw [List.drop_append_of_le_length h6]
    exact components_append_name _ n hn
  · simp only [hp, Bool.false_eq_true, if_false]
    exact components_append_name _ n hn

/-! ## The reference card: what each call does to the table -/

namespace Card

theorem find_filter (key : Key) (P : Key × Node → Bool) (nodes : List (Key × Node))
    (h : ∀ n, P (key, n) = true) : find key (nodes.filter P) = find key nodes := by
  induction nodes with
  | nil => rfl
  | cons e rest ih =>
    obtain ⟨k1, n1⟩ := e
    by_cases hk : k1 = key
    · subst hk
      simp [List.filter_cons, h n1, find]
    · by_cases hp : P (k1, n1) = true
      · simp [List.filter_cons, hp, find, hk, ih]
      · simp [List.filter_cons, hp, find, hk, ih]

theorem find_mem (key : Key) (n : Node) (nodes : List (Key × Node))
    (h : find key nodes = some n) : (key, n) ∈ nodes := by
  induction nodes with
  | nil => simp [find] at h
  | cons e rest ih =>
    obtain ⟨k1, n1⟩ := e
    by_cases hk : k1 = key
    · subst hk
      simp [find] at h
      subst h
      simp
    · simp [find, hk] at h
      exact List.mem_cons_of_mem _ (ih h)

theorem erase_eq_filter (k : Key) (nodes : List (Key × Node)) :
    erase k nodes = nodes.filter (fun e => decide (e.1 ∉ [k])) := by
  unfold erase
  congr 1
  funext e
  simp

theorem filter_notin_append (D1 D2 : List Key) (nodes : List (Key × Node)) :
    (nodes.filter (fun e => decide (e.1 ∉ D1))).filter (fun e => decide (e.1 ∉ D2)) =
      nodes.filter (fun e => decide (e.1 ∉ D1 ++ D2)) := by
  rw [List.filter_filter]
  congr 1
  funext e
  simp [not_or, Bool.and_comm]

theorem filter_notin_nil (nodes : List (Key × Node)) :
    nodes = nodes.filter (fun e => decide (e.1 ∉ ([] : List Key))) := by
  simp

theorem popFault_spec (c : Card) :
    (popFault c).2.nodes = c.nodes ∧ (popFault c).2.streams = c.streams := by
  unfold popFault
  cases c.faults <;> simp

theorem open_spec (c : Card) :
    ∃ rc c1, api.fsOpenSdCardFileSystem c = (rc, c1) ∧ c1.nodes = c.nodes ∧
      c1.streams = c.streams := by
  have hp := popFault_spec c
  show ∃ rc c1, (match popFault c with
    | (true, c) => ((1 : Result), c)
    | (false, c) => (0, c)) = (rc, c1) ∧ _
  rcases hpf : popFault c with ⟨b, c0⟩
  rw [hpf] at hp
  cases b
  · exact ⟨0, c0, rfl, hp.1, hp.2⟩
  · exact ⟨1, c0, rfl, hp.1, hp.2⟩

theorem openDirectory_spec (p : CStr) (m : Nat) (c : Card) :
    ∃ rc h c1, api.fsFsOpenDirectory p m c = (rc, h, c1) ∧ c1.nodes = c.nodes ∧
      ((R_SUCCEEDED rc = false ∧ c1.streams = c.streams) ∨
       (R_SUCCEEDED rc = true ∧ find (components p) c.nodes = some .dir ∧
         h = c.streams.length ∧
         c1.streams = c.streams ++ [listing (components p) m c.nodes])) := by
  have hp := popFault_spec c
  show ∃ rc h c1, (match popFault c with
    | (true, c) => ((1 : Result), (0 : Nat), c)
    | (false, c) =>
      match find (components p) c.nodes with
      | some .dir =>
        (0, c.streams.length,
          { c with streams := c.streams ++ [listing (components p) m c.nodes] })
      | _ => (1, 0, c)) = (rc, h, c1) ∧ _
  rcases hpf : popFault c with ⟨b, c0⟩
  rw [hpf] at hp
  obtain ⟨hp1, hp2⟩ := hp
  simp only at hp1 hp2
  cases b
  · simp only
    cases hf : find (components p) c0.nodes with
    | none => exact ⟨1, 0, c0, rfl, hp1, Or.inl ⟨rfl, hp2⟩⟩
    | some nd =>
      cases nd with
      | file d => exact ⟨1, 0, c0, rfl, hp1, Or.inl ⟨rfl, hp2⟩⟩
      | dir =>
        refine ⟨0, c0.streams.length, _, rfl, hp1, Or.inr ⟨rfl, ?_, ?_, ?_⟩⟩
        · rw [← hp1]; exact hf
        · rw [hp2]
        · simp [hp1, hp2]
  · exact ⟨1, 0, c0, rfl, hp1, Or.inl ⟨rfl, hp2⟩⟩

theorem dirRead_spec (h : Nat) (c : Card) :
    ∃ rc e c1, api.fsDirRead h c = (rc, e, c1) ∧ c1.nodes = c.nodes ∧
      ((R_FAILED rc = true ∧ c1.streams = c.streams) ∨
       (R_FAILED rc = false ∧
         ((e = none ∧ c1.streams = c.streams ∧ c.streams[h]? = some []) ∨
          (∃ x rest, e = some x ∧ c.streams[h]? = some (x :: rest) ∧
            c1.streams = c.streams.set h rest)))) := by
  have hp := popFault_spec c
  show ∃ rc e c1, (match popFault c with
    | (true, c) => ((1 : Result), (none : Option FsDirectoryEntry), c)
    | (false, c) =>
      match c.streams[h]? with
      | none => (1, none, c)
      | some [] => (0, none, c)
      | some (e :: rest) => (0, some e, { c with streams := c.streams.set h rest }))
        = (rc, e, c1) ∧ _
  rcases hpf : popFault c with ⟨b, c0⟩
  rw [hpf] at hp
  obtain ⟨hp1, hp2⟩ := hp
  simp only at hp1 hp2
  cases b
  · simp only
    cases hs : c0.streams[h]? with
    | none => exact ⟨1, none, c0, rfl, hp1, Or.inl ⟨rfl, hp2⟩⟩
    | some l =>
      cases l with
      | nil =>
        refine ⟨0, none, c0, rfl, hp1, Or.inr ⟨rfl, Or.inl ⟨rfl, hp2, ?_⟩⟩⟩
        rw [← hp2]; exact hs
      | cons x rest =>
        refine ⟨0, some x, _, rfl, hp1, Or.inr ⟨rfl, Or.inr ⟨x, rest, rfl, ?_, ?_⟩⟩⟩
        · rw [← hp2]; exact hs
        · simp [hp2]
  · exact ⟨1, none, c0, rfl, hp1, Or.inl ⟨rfl, hp2⟩⟩

theorem deleteFile_spec (p : CStr) (c : Card) :
    ∃ rc c1, api.fsFsDeleteFile p c = (rc, c1) ∧ c1.streams = c.streams ∧
      ((R_FAILED rc = true ∧ c1.nodes = c.nodes) ∨
       (R_FAILED rc = false ∧ (∃ d, find (components p) c.nodes = some (.file d)) ∧
         c1.nodes = erase (components p) c.nodes)) := by
  have hp := popFault_spec c
  show ∃ rc c1, (match popFault c with
    | (true, c) => ((1 : Result), c)
    | (false, c) =>
      match find (components p) c.nodes with
      | some (.file _) => (0, { c with nodes := erase (components p) c.nodes })
      | _ => (1, c)) = (rc, c1) ∧ _
  rcases hpf : popFault c with ⟨b, c0⟩
  rw [hpf] at hp
  obtain ⟨hp1, hp2⟩ := hp
  simp only at hp1 hp2
  cases b
  · simp only
    cases hf : find (components p) c0.nodes with
    | none => exact ⟨1, c0, rfl, hp2, Or.inl ⟨rfl, hp1⟩⟩
    | some nd =>
      cases nd with
      | dir => exact ⟨1, c0, rfl, hp2, Or.inl ⟨rfl, hp1⟩⟩
      | file d =>
        refine ⟨0, _, rfl, hp2, Or.inr ⟨rfl, ⟨d, ?_⟩, ?_⟩⟩
        · rw [← hp1]; exact hf
        · simp [hp1]
  · exact ⟨1, c0, rfl, hp2, Or.inl ⟨rfl, hp1⟩⟩

theorem deleteDirectory_spec (p : CStr) (c : Card) :
    ∃ rc c1, api.fsFsDeleteDirectory p c = (rc, c1) ∧ c1.streams = c.streams ∧
      ((R_FAILED rc = true ∧ c1.nodes = c.nodes) ∨
       (R_FAILED rc = false ∧ find (components p) c.nodes = some .dir ∧
         hasChild (components p) c.nodes = false ∧
         c1.nodes = erase (components p) c.nodes)) := by
  have hp := popFault_spec c
  show ∃ rc c1, (match popFault c with
    | (true, c) => ((1 : Result), c)
    | (false, c) =>
      match find (components p) c.nodes with
      | some .dir =>
        if hasChild (components p) c.nodes then (1, c)
        else (0, { c with nodes := erase (components p) c.nodes })
      | _ => (1, c)) = (rc, c1) ∧ _
  rcases hpf : popFault c with ⟨b, c0⟩
  rw [hpf] at hp
  obtain ⟨hp1, hp2⟩ := hp
  simp only at hp1 hp2
  cases b
  · simp only
    cases hf : find (components p) c0.nodes with
    | none => exact ⟨1, c0, rfl, hp2, Or.inl ⟨rfl, hp1⟩⟩
    | some nd =>
      cases nd with
      | file d => exact ⟨1, c0, rfl, hp2, Or.inl ⟨rfl, hp1⟩⟩
      | dir =>
        simp only
        by_cases hc : hasChild (components p) c0.nodes = true
        · simp only [hc, if_true]
          exact ⟨1, c0, rfl, hp2, Or.inl ⟨rfl, hp1⟩⟩
        · simp only [hc, Bool.false_eq_true, if_false]
          refine ⟨0, _, rfl, hp2, Or.inr ⟨rfl, ?_, ?_, ?_⟩⟩
          · rw [← hp1]; exact hf
          · rw [← hp1]; simpa using hc
          · simp [hp1]
  · exact ⟨1, c0, rfl, hp2, Or.inl ⟨rfl, hp1⟩⟩

theorem fsFsClose_eq (c : Card) : api.fsFsClose c = c := rfl

theorem fsDirClose_eq (h : Nat) (c : Card) : api.fsDirClose h c = c := rfl

end Card

namespace Card

theorem isChild_spec (k key : Key) (h : isChild k key = true) :
    key = k ++ [key.getLastD []] := by
  simp only [isChild, Bool.and_eq_true, decide_eq_true_eq] at h
  obtain ⟨hlen, hpre⟩ := h
  obtain ⟨t, rfl⟩ := List.isPrefixOf_iff_prefix.1 hpre
  have ht : t.length = 1 := by simp at hlen; omega
  match t, ht with
  | [x], _ => simp

theorem mem_listing (k : Key) (m : Nat) (nodes : List (Key × Node)) (e : FsDirectoryEntry)
    (h : e ∈ listing k m nodes) : ∃ nd ∈ nodes, nd.1 = k ++ [e.name] := by
  unfold listing at h
  rw [List.mem_filterMap] at h
  obtain ⟨nd, hmem, hsome⟩ := h
  refine ⟨nd, hmem, ?_⟩
  by_cases hc : isChild k nd.1 = true
  · have hk := isChild_spec k nd.1 hc
    simp only [hc, if_true] at hsome
    have hname : e.name = nd.1.getLastD [] := by
      cases hnd : nd.2 with
      | dir =>
        simp only [hnd] at hsome
        split_ifs at hsome
        simp only [Option.some.injEq] at hsome
        rw [← hsome]
      | file d =>
        simp only [hnd] at hsome
        split_ifs at hsome
        simp only [Option.some.injEq] at hsome
        rw [← hsome]
    rw [hname]
    exact hk
  · simp [hc] at hsome

theorem listing_length_le (k : Key) (m : Nat) (nodes : List (Key × Node)) :
    (listing k m nodes).length ≤ nodes.length :=
  List.length_filterMap_le _ _

theorem below_length_le (k : Key) (nodes : List (Key × Node)) :
    (below k nodes).length ≤ nodes.length :=
  List.length_filter_le _ _

theorem below_filter_le (k : Key) (P : Key × Node → Bool) (nodes : List (Key × Node)) :
    (below k (nodes.filter P)).length ≤ (below k nodes).length := by
  unfold below
  rw [List.filter_filter]
  have : nodes.filter (fun a => (k.isPrefixOf a.1 && decide (a.1 ≠ k)) && P a) =
      (nodes.filter (fun e => k.isPrefixOf e.1 && decide (e.1 ≠ k))).filter P := by
    rw [List.filter_filter]
    congr 1
    funext a
    exact Bool.and_comm _ _
  rw [this]
  exact List.length_filter_le _ _

theorem below_child_lt (k : Key) (n : CStr) (nd : Node) (nodes : List (Key × Node))
    (h : (k ++ [n], nd) ∈ nodes) :
    (below (k ++ [n]) nodes).length < (below k nodes).length := by
  have hsub : below (k ++ [n]) nodes =
      (below k nodes).filter (fun e => (k ++ [n]).isPrefixOf e.1 && decide (e.1 ≠ k ++ [n])) := by
    unfold below
    rw [List.filter_filter]
    apply List.filter_congr
    intro e _
    by_cases hp : (k ++ [n]).isPrefixOf e.1 = true
    · have hp2 := List.isPrefixOf_iff_prefix.1 hp
      have hk : k <+: e.1 := (List.prefix_append k [n]).trans hp2
      have hk2 : k.isPrefixOf e.1 = true := List.isPrefixOf_iff_prefix.2 hk
      by_cases hne : e.1 = k ++ [n]
      · simp [hp, hne]
      · have hnek : e.1 ≠ k := by
          intro heq
          have := hp2.length_le
          rw [heq] at this
          simp at this
        simp [hp, hk2, hne, hnek]
    · simp [hp]
  rw [hsub]
  apply List.length_filter_lt_length_iff_exists.2
  refine ⟨(k ++ [n], nd), ?_, by simp⟩
  unfold below
  rw [List.mem_filter]
  refine ⟨h, ?_⟩
  have : k.isPrefixOf (k ++ [n]) = true :=
    List.isPrefixOf_iff_prefix.2 (List.prefix_append k [n])
  simp [this]

theorem Fits.filter {path : CStr} {k : Key} {nodes : List (Key × Node)}
    (h : Fits path k nodes) (P : Key × Node → Bool) : Fits path k (nodes.filter P) :=
  fun e he hk => h e (List.mem_of_mem_filter he) hk

theorem Fits.child {path : CStr} {k : Key} {nodes : List (Key × Node)}
    (h : Fits path k nodes) (n : CStr) : Fits (path ++ '/' :: n) (k ++ [n]) nodes := by
  intro e he hk
  have hk1 : k <+: e.1 := (List.prefix_append k [n]).trans hk
  obtain ⟨hv, hl⟩ := h e he hk1
  obtain ⟨t, ht⟩ := hk
  have hd : e.1.drop k.length = n :: t := by
    rw [← ht]; simp
  have hd2 : e.1.drop (k ++ [n]).length = t := by
    rw [← ht]; simp
  rw [hd] at hv hl
  rw [hd2]
  refine ⟨fun x hx => hv x (List.mem_cons_of_mem _ hx), ?_⟩
  simp only [assembledLength, List.map_cons, List.sum_cons, List.length_append,
    List.length_cons] at hl ⊢
  omega

theorem Fits.entry {path : CStr} {k : Key} {nodes : List (Key × Node)}
    (h : Fits path k nodes) (n : CStr) (nd : Node) (hmem : (k ++ [n], nd) ∈ nodes) :
    validName n = true ∧ (path ++ '/' :: n).length ≤ 511 := by
  obtain ⟨hv, hl⟩ := h _ hmem (List.prefix_append k [n])
  simp only [List.drop_left] at hv hl
  refine ⟨hv n (by simp), ?_⟩
  simp only [assembledLength, List.map_cons, List.map_nil, List.sum_cons, List.sum_nil] at hl
  simp only [List.length_append, List.length_cons]
  omega

end Card

/-! ## Delete: one step of the function and of its loop -/

section DeleteSteps
variable {σ δ φ : Type}

theorem delete_recursive_succ (api : Libnx σ δ φ) (n : Nat) (path : CStr) (w : σ) :
    delete_recursive_libnx api (n + 1) path w =
      if R_FAILED (api.fsOpenSdCardFileSystem w).1 = true then
        some (-1, (api.fsOpenSdCardFileSystem w).2)
      else if R_SUCCEEDED (api.fsFsOpenDirectory (normalize_sd_path path 512)
                (FsDirOpenMode_ReadDirs ||| FsDirOpenMode_ReadFiles)
                (api.fsOpenSdCardFileSystem w).2).1 = true then
        delete_children api n path (normalize_sd_path path 512)
          (api.fsFsOpenDirectory (normalize_sd_path path 512)
            (FsDirOpenMode_ReadDirs ||| FsDirOpenMode_ReadFiles)
            (api.fsOpenSdCardFileSystem w).2).2.1
          (api.fsFsOpenDirectory (normalize_sd_path path 512)
            (FsDirOpenMode_ReadDirs ||| FsDirOpenMode_ReadFiles)
            (api.fsOpenSdCardFileSystem w).2).2.2
      else if R_FAILED (api.fsFsDeleteFile (normalize_sd_path path 512)
                (api.fsFsOpenDirectory (normalize_sd_path path 512)
                  (FsDirOpenMode_ReadDirs ||| FsDirOpenMode_ReadFiles)
                  (api.fsOpenSdCardFileSystem w).2).2.2).1 = true then
        some (-1, api.fsFsClose (api.fsFsDeleteFile (normalize_sd_path path 512)
                (api.fsFsOpenDirectory (normalize_sd_path path 512)
                  (FsDirOpenMode_ReadDirs ||| FsDirOpenMode_ReadFiles)
                  (api.fsOpenSdCardFileSystem w).2).2.2).2)
      else
        some (0, api.fsFsClose (api.fsFsDeleteFile (normalize_sd_path path 512)
                (api.fsFsOpenDirectory (normalize_sd_path path 512)
                  (FsDirOpenMode_ReadDirs ||| FsDirOpenMode_ReadFiles)
                  (api.fsOpenSdCardFileSystem w).2).2.2).2) := rfl

theorem delete_children_succ (api : Libnx σ δ φ) (n : Nat) (path path_n : CStr)
    (dir : δ) (w : σ) :
    delete_children api (n + 1) path path_n dir w =
      if R_FAILED (api.fsDirRead dir w).1 = true then
        some (-1, api.fsFsClose (api.fsDirClose dir (api.fsDirRead dir w).2.2))
      else
        match (api.fsDirRead dir w).2.1 with
        | none =>
          if R_FAILED (api.fsFsDeleteDirectory path_n
              (api.fsDirClose dir (api.fsDirRead dir w).2.2)).1 = true then
            some (-1, api.fsFsClose (api.fsFsDeleteDirectory path_n
              (api.fsDirClose dir (api.fsDirRead dir w).2.2)).2)
          else
            some (0, api.fsFsClose (api.fsFsDeleteDirectory path_n
              (api.fsDirClose dir (api.fsDirRead dir w).2.2)).2)
        | some entry =>
          if is_dot_or_dotdot entry.name = true then
            delete_children api n path path_n dir (api.fsDirRead dir w).2.2
          else
            match delete_recursive_libnx api n (snprintf_join 512 path entry.name)
                (api.fsDirRead dir w).2.2 with
            | none => none
            | some (rc, w2) =>
              if rc ≠ 0 then some (-1, api.fsFsClose (api.fsDirClose dir w2))
              else delete_children api n path path_n dir w2 := rfl

theorem delete_recursive_step (api : Libnx σ δ φ) (n : Nat) (path : CStr) (w : σ)
    (rc1 : Result) (w1 : σ) (ho : api.fsOpenSdCardFileSystem w = (rc1, w1))
    (rc2 : Result) (dir : δ) (w2 : σ)
    (hod : api.fsFsOpenDirectory (normalize_sd_path path 512)
      (FsDirOpenMode_ReadDirs ||| FsDirOpenMode_ReadFiles) w1 = (rc2, dir, w2))
    (rc3 : Result) (w3 : σ)
    (hdf : api.fsFsDeleteFile (normalize_sd_path path 512) w2 = (rc3, w3)) :
    delete_recursive_libnx api (n + 1) path w =
      if R_FAILED rc1 = true then some (-1, w1)
      else if R_SUCCEEDED rc2 = true then
        delete_children api n path (normalize_sd_path path 512) dir w2
      else if R_FAILED rc3 = true then some (-1, api.fsFsClose w3)
      else some (0, api.fsFsClose w3) := by
  have e := delete_recursive_succ api n path w
  rw [ho] at e
  dsimp only at e
  rw [hod] at e
  dsimp only at e
  rw [hdf] at e
  exact e

theorem delete_children_step_fail (api : Libnx σ δ φ) (n : Nat) (path path_n : CStr)
    (dir : δ) (w : σ) (rc1 : Result) (entry : Option FsDirectoryEntry) (w1 : σ)
    (hr : api.fsDirRead dir w = (rc1, entry, w1)) (hf : R_FAILED rc1 = true) :
    delete_children api (n + 1) path path_n dir w =
      some (-1, api.fsFsClose (api.fsDirClose dir w1)) := by
  have e := delete_children_succ api n path path_n dir w
  rw [hr] at e
  dsimp only at e
  rw [if_pos hf] at e
  exact e

theorem delete_children_step_end (api : Libnx σ δ φ) (n : Nat) (path path_n : CStr)
    (dir : δ) (w : σ) (rc1 : Result) (w1 : σ)
    (hr : api.fsDirRead dir w = (rc1, none, w1)) (hf : R_FAILED rc1 = false)
    (rc2 : Result) (w2 : σ)
    (hdd : api.fsFsDeleteDirectory path_n (api.fsDirClose dir w1) = (rc2, w2)) :
    delete_children api (n + 1) path path_n dir w =
      if R_FAILED rc2 = true then some (-1, api.fsFsClose w2)
      else some (0, api.fsFsClose w2) := by
  have e := delete_children_succ api n path path_n dir w
  rw [hr] at e
  dsimp only at e
  rw [if_neg (by simp [hf]), hdd] at e
  exact e

theorem delete_children_step_dot (api : Libnx σ δ φ) (n : Nat) (path path_n : CStr)
    (dir : δ) (w : σ) (rc1 : Result) (entry : FsDirectoryEntry) (w1 : σ)
    (hr : api.fsDirRead dir w = (rc1, some entry, w1)) (hf : R_FAILED rc1 = false)
    (hdot : is_dot_or_dotdot entry.name = true) :
    delete_children api (n + 1) path path_n dir w =
      delete_children api n path path_n dir w1 := by
  have e := delete_children_succ api n path path_n dir w
  rw [hr] at e
  dsimp only at e
  rw [if_neg (by simp [hf]), if_pos hdot] at e
  exact e

theorem delete_children_step_entry (api : Libnx σ δ φ) (n : Nat) (path path_n : CStr)
    (dir : δ) (w : σ) (rc1 : Result) (entry : FsDirectoryEntry) (w1 : σ)
    (hr : api.fsDirRead dir w = (rc1, some entry, w1)) (hf : R_FAILED rc1 = false)
    (hdot : is_dot_or_dotdot entry.name = false) :
    delete_children api (n + 1) path path_n dir w =
      match delete_recursive_libnx api n (snprintf_join 512 path entry.name) w1 with
      | none => none
      | some (rc, w2) =>
        if rc ≠ 0 then some (-1, api.fsFsClose (api.fsDirClose dir w2))
        else delete_children api n path path_n dir w2 := by
  have e := delete_children_succ api n path path_n dir w
  rw [hr] at e
  dsimp only at e
  rw [if_neg (by simp [hf]), if_neg (by simp [hdot])] at e
  exact e

end DeleteSteps

namespace Card

theorem set_append_set (l e : List (List FsDirectoryEntry)) (h : Nat)
    (a b : List FsDirectoryEntry) (hh : h < l.length) :
    (l.set h a ++ e).set h b = l.set h b ++ e := by
  rw [List.set_append_left _ _ (by simpa using hh), List.set_set]

theorem getElem?_set_append (l e : List (List FsDirectoryEntry)) (h : Nat)
    (a : List FsDirectoryEntry) (hh : h < l.length) :
    (l.set h a ++ e)[h]? = some a := by
  rw [List.getElem?_append_left (by simpa using hh)]
  simp [hh]

theorem set_self {l : List (List FsDirectoryEntry)} {h : Nat}
    {a : List FsDirectoryEntry} (hs : l[h]? = some a) : l = l.set h a := by
  apply List.ext_getElem?
  intro i
  by_cases hi : i = h
  · subst hi
    rw [hs]
    have hlt : i < l.length := by
      by_contra hc
      rw [List.getElem?_eq_none (by omega)] at hs
      exact absurd hs (by simp)
    simp [hlt]
  · rw [List.getElem?_set_ne (Ne.symm hi)]

theorem lt_of_getElem?_eq_some {l : List (List FsDirectoryEntry)} {h : Nat}
    {a : List FsDirectoryEntry} (hs : l[h]? = some a) : h < l.length := by
  by_contra hc
  rw [List.getElem?_eq_none (by omega)] at hs
  exact absurd hs (by simp)

/-- On the reference card, with enough fuel, a delete returns; it removes
only nodes at or below the path it was given; when it returns 0 nothing is
left there. The statement for the loop carries the directory handle. -/
theorem delete_aux (n : Nat) :
    (∀ (path : CStr) (c : Card) (N : Nat),
      bareDevice path = false →
      Fits path (components (normalize_sd_path path 512)) c.nodes →
      c.nodes.length ≤ N →
      ((below (components (normalize_sd_path path 512)) c.nodes).length + 1) * (N + 2) ≤ n →
      ∃ (rc : Int) (c1 : Card) (ext : List (List FsDirectoryEntry)) (D : List Key),
        delete_recursive_libnx api n path c = some (rc, c1) ∧
        (rc = 0 ∨ rc = -1) ∧
        c1.streams = c.streams ++ ext ∧
        (∀ d ∈ D, components (normalize_sd_path path 512) <+: d) ∧
        c1.nodes = c.nodes.filter (fun e => decide (e.1 ∉ D)) ∧
        (rc = 0 →
          (∀ e ∈ c1.nodes, e.1 ≠ components (normalize_sd_path path 512)) ∧
          (find (components (normalize_sd_path path 512)) c.nodes = some .dir →
            ∀ e ∈ c1.nodes, ¬ components (normalize_sd_path path 512) <+: e.1))) ∧
    (∀ (path : CStr) (h : Nat) (c : Card) (N B : Nat) (rest : List FsDirectoryEntry),
      bareDevice path = false →
      c.streams[h]? = some rest →
      (∀ e ∈ rest, validName e.name = true ∧ (path ++ '/' :: e.name).length ≤ 511 ∧
        (below (components (normalize_sd_path path 512) ++ [e.name]) c.nodes).length + 1 ≤ B) →
      Fits path (components (normalize_sd_path path 512)) c.nodes →
      c.nodes.length ≤ N →
      B * (N + 2) + rest.length + 1 ≤ n →
      ∃ (rc : Int) (c1 : Card) (r : List FsDirectoryEntry)
        (ext : List (List FsDirectoryEntry)) (D : List Key),
        delete_children api n path (normalize_sd_path path 512) h c = some (rc, c1) ∧
        (rc = 0 ∨ rc = -1) ∧
        c1.streams = c.streams.set h r ++ ext ∧
        (∀ d ∈ D, components (normalize_sd_path path 512) <+: d) ∧
        c1.nodes = c.nodes.filter (fun e => decide (e.1 ∉ D)) ∧
        (rc = 0 → ∀ e ∈ c1.nodes, ¬ components (normalize_sd_path path 512) <+: e.1)) := by
  induction n with
  | zero =>
    constructor
    · intro path c N _ _ _ hfuel
      simp at hfuel
    · intro path h c N B rest _ _ _ _ _ hfuel
      simp at hfuel
  | succ n ih =>
    obtain ⟨ihr, ihc⟩ := ih
    constructor
    · intro path c N habs hfit hN hfuel
      obtain ⟨rc1, c1, ho, hn1, hs1⟩ := open_spec c
      obtain ⟨rc2, h, c2, hod, hn2, hcase2⟩ := openDirectory_spec (normalize_sd_path path 512)
        (FsDirOpenMode_ReadDirs ||| FsDirOpenMode_ReadFiles) c1
      obtain ⟨rc3, c3, hdf, hs3, hcase3⟩ := deleteFile_spec (normalize_sd_path path 512) c2
      rw [delete_recursive_step api n path c rc1 c1 ho rc2 h c2 hod rc3 c3 hdf]
      generalize hk : components (normalize_sd_path path 512) = k at *
      by_cases hf1 : R_FAILED rc1 = true
      · simp only [hf1, if_true]
        exact ⟨-1, c1, [], [], rfl, Or.inr rfl, by simp [hs1], by simp, by simp [hn1],
          fun h => absurd h (by decide)⟩
      · simp only [hf1, Bool.false_eq_true, if_false]
        rcases hcase2 with ⟨hs2f, hs2⟩ | ⟨hs2t, hdir, hh, hs2⟩
        · -- not opened as a directory: delete as a file
          simp only [hs2f, Bool.false_eq_true, if_false, fsFsClose_eq]
          rcases hcase3 with ⟨hf3, hn3⟩ | ⟨hf3, ⟨d, hfile⟩, hn3⟩
          · simp only [hf3, if_true]
            exact ⟨-1, c3, [], [], rfl, Or.inr rfl, by simp [hs3, hs2, hs1], by simp,
              by simp [hn3, hn2, hn1], fun h => absurd h (by decide)⟩
          · simp only [hf3, Bool.false_eq_true, if_false]
            refine ⟨0, c3, [], [k], rfl, Or.inl rfl, by simp [hs3, hs2, hs1], by simp, ?_, ?_⟩
            · rw [hn3, hn2, hn1, erase_eq_filter]
            · intro _
              have hn : c3.nodes = erase k c.nodes := by rw [hn3, hn2, hn1]
              constructor
              · intro e he
                rw [hn] at he
                simpa [erase] using (List.mem_filter.1 he).2
              · intro hd
                rw [hn2, hn1] at hfile
                rw [hfile] at hd
                exact absurd hd (by simp)
        · -- opened as a directory: run the loop on the new handle
          simp only [hs2t, if_true]
          rw [hn1] at hdir
          have hN2 : c2.nodes.length ≤ N := by rw [hn2, hn1]; exact hN
          have hfit2 : Fits path k c2.nodes := by rw [hn2, hn1]; exact hfit
          have hstream : c2.streams[h]? = some (listing k
              (FsDirOpenMode_ReadDirs ||| FsDirOpenMode_ReadFiles) c.nodes) := by
            rw [hs2, hh, hn1]
            simp
          have hent : ∀ e ∈ listing k (FsDirOpenMode_ReadDirs ||| FsDirOpenMode_ReadFiles)
              c.nodes, validName e.name = true ∧ (path ++ '/' :: e.name).length ≤ 511 ∧
              (below (k ++ [e.name]) c2.nodes).length + 1 ≤ (below k c.nodes).length := by
            intro e he
            obtain ⟨nd, hmem, hkey⟩ := mem_listing k _ c.nodes e he
            have hmem2 : (k ++ [e.name], nd.2) ∈ c.nodes := by
              rw [← hkey]; exact hmem
            obtain ⟨hv, hl⟩ := hfit.entry e.name nd.2 hmem2
            refine ⟨hv, hl, ?_⟩
            rw [hn2, hn1]
            exact below_child_lt k e.name nd.2 c.nodes hmem2
          have hlist := listing_length_le k (FsDirOpenMode_ReadDirs ||| FsDirOpenMode_ReadFiles)
            c.nodes
          have hfuel2 : (below k c.nodes).length * (N + 2) +
              (listing k (FsDirOpenMode_ReadDirs ||| FsDirOpenMode_ReadFiles) c.nodes).length
                + 1 ≤ n := by
            have : ((below k c.nodes).length + 1) * (N + 2) =
                (below k c.nodes).length * (N + 2) + (N + 2) := by ring
            omega
          have hloop := ihc path h c2 N (below k c.nodes).length _ habs hstream
            (by rw [hk]; exact hent) (by rw [hk]; exact hfit2) hN2 hfuel2
          rw [hk] at hloop
          obtain ⟨rc, c4, r, ext, D, hrun, hrc, hs4, hD, hn4, hgone⟩ := hloop
          refine ⟨rc, c4, [r] ++ ext, D, hrun, hrc, ?_, hD, ?_, ?_⟩
          · rw [hs4, hs2, hh, hs1]
            simp
          · rw [hn4, hn2, hn1]
          · intro hz
            refine ⟨?_, fun _ => hgone hz⟩
            intro e he heq
            exact hgone hz e he (by rw [heq])
    · intro path h c N B rest habs hstream hent hfit hN hfuel
      have hlt := lt_of_getElem?_eq_some hstream
      have hsame : c.streams = c.streams.set h rest := set_self hstream
      obtain ⟨rc1, entry, c1, hread, hn1, hcase1⟩ := dirRead_spec h c
      rcases hcase1 with ⟨hf1, hs1⟩ | ⟨hf1, hcase1⟩
      · rw [delete_children_step_fail api n path _ h c rc1 entry c1 hread hf1]
        simp only [fsFsClose_eq, fsDirClose_eq]
        refine ⟨-1, c1, rest, [], [], rfl, Or.inr rfl, ?_, by simp, by simp [hn1],
          fun h => absurd h (by decide)⟩
        rw [hs1, List.append_nil]
        exact hsame
      · rcases hcase1 with ⟨he, hs1, _⟩ | ⟨x, rest1, he, hsx, hs1⟩
        · -- end of the directory: delete it
          subst he
          obtain ⟨rc2, c2, hdd, hs2, hcase2⟩ :=
            deleteDirectory_spec (normalize_sd_path path 512) (api.fsDirClose h c1)
          rw [delete_children_step_end api n path _ h c rc1 c1 hread hf1 rc2 c2 hdd]
          simp only [fsFsClose_eq, fsDirClose_eq] at hs2 hcase2 ⊢
          generalize hk : components (normalize_sd_path path 512) = k at *
          rcases hcase2 with ⟨hf2, hn2⟩ | ⟨hf2, _, hnc, hn2⟩
          · simp only [hf2, if_true]
            refine ⟨-1, c2, rest, [], [], rfl, Or.inr rfl, ?_, by simp, by simp [hn2, hn1],
              fun h => absurd h (by decide)⟩
            rw [hs2, hs1, List.append_nil]
            exact hsame
          · simp only [hf2, Bool.false_eq_true, if_false]
            refine ⟨0, c2, rest, [], [k], rfl, Or.inl rfl, ?_, by simp, ?_, ?_⟩
            · rw [hs2, hs1, List.append_nil]
              exact hsame
            · rw [hn2, hn1, erase_eq_filter]
            · intro _ e he hpre
              rw [hn2] at he
              rw [hn1] at he hnc
              have hme := List.mem_filter.1 he
              have hne : e.1 ≠ k := by simpa [erase] using hme.2
              have : hasChild k c.nodes = true := by
                unfold hasChild
                rw [List.any_eq_true]
                exact ⟨e, hme.1, by simp [List.isPrefixOf_iff_prefix.2 hpre, hne]⟩
              rw [hnc] at this
              exact absurd this (by decide)
        · -- an entry: delete the child, then go on
          subst he
          rw [hstream] at hsx
          simp only [Option.some.injEq] at hsx
          subst hsx
          obtain ⟨hv, hl, hB⟩ := hent x (by simp)
          obtain ⟨_, _, hdot⟩ := validName_spec x.name hv
          rw [delete_children_step_entry api n path _ h c rc1 x c1 hread hf1 hdot]
          simp only [fsFsClose_eq, fsDirClose_eq]
          obtain ⟨hj, hck⟩ := components_child path x.name habs hv hl
          generalize hk : components (normalize_sd_path path 512) = k at *
          have hfuel1 : ((below (k ++ [x.name]) c1.nodes).length + 1) * (N + 2) ≤ n := by
            rw [hn1]
            have := Nat.mul_le_mul_right (N + 2) hB
            simp only [List.length_cons] at hfuel
            omega
          have hchild := ihr (snprintf_join 512 path x.name) c1 N
            (by rw [hj]; exact bareDevice_child path x.name)
            (by rw [hck, hj, hn1]; exact hfit.child x.name)
            (by rw [hn1]; exact hN)
            (by rw [hck]; exact hfuel1)
          rw [hck] at hchild
          obtain ⟨rcc, c2, ext1, D1, hrun1, hrc1, hs2, hD1, hn2, _⟩ := hchild
          rw [hrun1]
          simp only
          have hD1k : ∀ d ∈ D1, k <+: d :=
            fun d hd => (List.prefix_append k [x.name]).trans (hD1 d hd)
          by_cases hz : rcc = 0
          · subst hz
            simp only [ne_eq, not_true_eq_false, if_false]
            have hstream2 : c2.streams[h]? = some rest1 := by
              rw [hs2, hs1]
              exact getElem?_set_append _ _ _ _ hlt
            have hnodes2 : c2.nodes = c.nodes.filter (fun e => decide (e.1 ∉ D1)) := by
              rw [hn2, hn1]
            have hloop := ihc path h c2 N B rest1 habs hstream2
              (by
                rw [hk]
                intro e he
                obtain ⟨hv', hl', hB'⟩ := hent e (List.mem_cons_of_mem _ he)
                refine ⟨hv', hl', ?_⟩
                rw [hnodes2]
                exact le_trans (Nat.add_le_add_right (below_filter_le _ _ _) 1) hB')
              (by rw [hk, hnodes2]; exact hfit.filter _)
              (by rw [hnodes2]; exact le_trans (List.length_filter_le _ _) hN)
              (by simp only [List.length_cons] at hfuel; omega)
            rw [hk] at hloop
            obtain ⟨rc, c3, r, ext2, D2, hrun2, hrc2, hs3, hD2, hn3, hgone⟩ := hloop
            refine ⟨rc, c3, r, ext1 ++ ext2, D1 ++ D2, hrun2, hrc2, ?_, ?_, ?_, hgone⟩
            · rw [hs3, hs2, hs1, set_append_set _ _ _ _ _ hlt, List.append_assoc]
            · intro d hd
              rcases List.mem_append.1 hd with h1 | h1
              · exact hD1k d h1
              · exact hD2 d h1
            · rw [hn3, hnodes2, filter_notin_append]
          · have hm1 : rcc = -1 := by
              rcases hrc1 with h0 | h1
              · exact absurd h0 hz
              · exact h1
            simp only [ne_eq, hz, not_false_eq_true, if_true]
            refine ⟨-1, c2, rest1, ext1, D1, rfl, Or.inr rfl, ?_, hD1k, by rw [hn2, hn1],
              fun h => absurd h (by decide)⟩
            rw [hs2, hs1]

end Card

namespace Card

theorem popFault_nofault (c : Card) (hf : c.faults = []) : popFault c = (false, c) := by
  unfold popFault
  rw [hf]

theorem open_nofault (c : Card) (hf : c.faults = []) :
    api.fsOpenSdCardFileSystem c = (0, c) := by
  show (match popFault c with
    | (true, c) => ((1 : Result), c)
    | (false, c) => (0, c)) = _
  rw [popFault_nofault c hf]

theorem openDirectory_nofault (p : CStr) (m : Nat) (c : Card) (hf : c.faults = [])
    (hd : find (components p) c.nodes = some .dir) :
    api.fsFsOpenDirectory p m c =
      (0, c.streams.length,
        { c with streams := c.streams ++ [listing (components p) m c.nodes] }) := by
  show (match popFault c with
    | (true, c) => ((1 : Result), (0 : Nat), c)
    | (false, c) =>
      match find (components p) c.nodes with
      | some .dir =>
        (0, c.streams.length,
          { c with streams := c.streams ++ [listing (components p) m c.nodes] })
      | _ => (1, 0, c)) = _
  rw [popFault_nofault c hf]
  simp only [hd]

theorem dirRead_nofault (h : Nat) (c : Card) (hf : c.faults = [])
    (e : FsDirectoryEntry) (rest : List FsDirectoryEntry)
    (hs : c.streams[h]? = some (e :: rest)) :
    api.fsDirRead h c = (0, some e, { c with streams := c.streams.set h rest }) := by
  show (match popFault c with
    | (true, c) => ((1 : Result), (none : Option FsDirectoryEntry), c)
    | (false, c) =>
      match c.streams[h]? with
      | none => (1, none, c)
      | some [] => (0, none, c)
      | some (e :: rest) => (0, some e, { c with streams := c.streams.set h rest })) = _
  rw [popFault_nofault c hf]
  simp only [hs]

/-- When the path assembled for the first entry of a directory is the path
of the directory itself, the delete never returns, whatever the fuel. -/
theorem delete_never_returns (P : CStr) (nodes : List (Key × Node)) (x : FsDirectoryEntry)
    (rest : List FsDirectoryEntry)
    (hd : find (components (normalize_sd_path P 512)) nodes = some .dir)
    (hl : listing (components (normalize_sd_path P 512))
      (FsDirOpenMode_ReadDirs ||| FsDirOpenMode_ReadFiles) nodes = x :: rest)
    (hdot : is_dot_or_dotdot x.name = false)
    (hj : snprintf_join 512 P x.name = P) (n : Nat) :
    (∀ c : Card, c.nodes = nodes → c.faults = [] →
      delete_recursive_libnx api n P c = none) ∧
    (∀ (c : Card) (h : Nat), c.nodes = nodes → c.faults = [] →
      c.streams[h]? = some (x :: rest) →
      delete_children api n P (normalize_sd_path P 512) h c = none) := by
  induction n with
  | zero => exact ⟨fun _ _ _ => rfl, fun _ _ _ _ _ => rfl⟩
  | succ n ih =>
    obtain ⟨ihr, ihc⟩ := ih
    constructor
    · intro c hn hf
      have ho := open_nofault c hf
      have hod := openDirectory_nofault (normalize_sd_path P 512)
        (FsDirOpenMode_ReadDirs ||| FsDirOpenMode_ReadFiles) c hf (by rw [hn]; exact hd)
      rw [delete_recursive_step api n P c 0 c ho 0 _ _ hod _ _ rfl]
      have h0 : R_FAILED 0 = false := rfl
      have h1 : R_SUCCEEDED 0 = true := rfl
      simp only [h0, h1, Bool.false_eq_true, if_false, if_true]
      refine ihc _ _ hn hf ?_
      simp only [hn, hl]
      simp
    · intro c h hn hf hs
      have hr := dirRead_nofault h c hf x rest hs
      rw [delete_children_step_entry api n P _ h c 0 x _ hr rfl hdot, hj,
        ihr { c with streams := c.streams.set h rest } hn hf]

end Card

/-- The claim C9 read for every tree fails: on `longCard` no amount of fuel
makes `delete_item(longPath)` return, because the 512-byte buffer cuts the
child path `longPath/x` back to `longPath`. -/
theorem delete_item_long_path_diverges :
    ¬ ∃ fuel : Nat, (delete_item Card.api fuel longPath longCard).isSome = true := by
  rintro ⟨fuel, h⟩
  have hnone := (Card.delete_never_returns longPath longCard.nodes ⟨['x'], FsDirEntryType_File⟩ []
    (by set_option maxRecDepth 100000 in decide)
    (by set_option maxRecDepth 100000 in decide)
    (by decide)
    (by set_option maxRecDepth 100000 in decide) fuel).1 longCard rfl rfl
  unfold delete_item at h
  rw [hnone] at h
  exact absurd h (by decide)

section DeleteClaim
variable {σ δ φ : Type}

theorem delete_recursive_traced_succ (api : Libnx σ δ φ) (n : Nat) (path : CStr) (w : σ)
    (t : List Event) :
    delete_recursive_libnx (traced api) (n + 1) path (w, t) =
      if R_FAILED (api.fsOpenSdCardFileSystem w).1 = true then
        some (-1, (api.fsOpenSdCardFileSystem w).2,
          t ++ [⟨.fsOpenSdCardFileSystem, (api.fsOpenSdCardFileSystem w).1⟩])
      else if R_SUCCEEDED (api.fsFsOpenDirectory (normalize_sd_path path 512)
                (FsDirOpenMode_ReadDirs ||| FsDirOpenMode_ReadFiles)
                (api.fsOpenSdCardFileSystem w).2).1 = true then
        delete_children (traced api) n path (normalize_sd_path path 512)
          (api.fsFsOpenDirectory (normalize_sd_path path 512)
            (FsDirOpenMode_ReadDirs ||| FsDirOpenMode_ReadFiles)
            (api.fsOpenSdCardFileSystem w).2).2.1
          ((api.fsFsOpenDirectory (normalize_sd_path path 512)
            (FsDirOpenMode_ReadDirs ||| FsDirOpenMode_ReadFiles)
            (api.fsOpenSdCardFileSystem w).2).2.2,
           t ++ [⟨.fsOpenSdCardFileSystem, (api.fsOpenSdCardFileSystem w).1⟩,
                 ⟨.fsFsOpenDirectory (normalize_sd_path path 512),
                   (api.fsFsOpenDirectory (normalize_sd_path path 512)
                     (FsDirOpenMode_ReadDirs ||| FsDirOpenMode_ReadFiles)
                     (api.fsOpenSdCardFileSystem w).2).1⟩])
      else
        some (if R_FAILED (api.fsFsDeleteFile (normalize_sd_path path 512)
                (api.fsFsOpenDirectory (normalize_sd_path path 512)
                  (FsDirOpenMode_ReadDirs ||| FsDirOpenMode_ReadFiles)
                  (api.fsOpenSdCardFileSystem w).2).2.2).1 = true then -1 else 0,
          api.fsFsClose (api.fsFsDeleteFile (normalize_sd_path path 512)
                (api.fsFsOpenDirectory (normalize_sd_path path 512)
                  (FsDirOpenMode_ReadDirs ||| FsDirOpenMode_ReadFiles)
                  (api.fsOpenSdCardFileSystem w).2).2.2).2,
          t ++ [⟨.fsOpenSdCardFileSystem, (api.fsOpenSdCardFileSystem w).1⟩,
                ⟨.fsFsOpenDirectory (normalize_sd_path path 512),
                  (api.fsFsOpenDirectory (normalize_sd_path path 512)
                    (FsDirOpenMode_ReadDirs ||| FsDirOpenMode_ReadFiles)
                    (api.fsOpenSdCardFileSystem w).2).1⟩,
                ⟨.fsFsDeleteFile (normalize_sd_path path 512),
                  (api.fsFsDeleteFile (normalize_sd_path path 512)
                    (api.fsFsOpenDirectory (normalize_sd_path path 512)
                      (FsDirOpenMode_ReadDirs ||| FsDirOpenMode_ReadFiles)
                      (api.fsOpenSdCardFileSystem w).2).2.2).1⟩,
                ⟨.fsFsClose, 0⟩]) := by
  rw [delete_recursive_succ]
  simp only [traced_fsOpenSdCardFileSystem, traced_fsFsOpenDirectory, traced_fsFsDeleteFile,
    traced_fsFsClose, List.append_assoc, List.singleton_append]
  split_ifs <;> rfl

end DeleteClaim

section TraceAdequacy
variable {σ δ φ : Type}

/-- Recording the calls does not change what a delete does: the traced run
returns exactly when the plain run does, with the same code and world. -/
theorem traced_delete_adequate (api : Libnx σ δ φ) (n : Nat) :
    (∀ (path : CStr) (w : σ) (t : List Event),
      (delete_recursive_libnx (traced api) n path (w, t)).map (fun r => (r.1, r.2.1)) =
        delete_recursive_libnx api n path w) ∧
    (∀ (path path_n : CStr) (dir : δ) (w : σ) (t : List Event),
      (delete_children (traced api) n path path_n dir (w, t)).map (fun r => (r.1, r.2.1)) =
        delete_children api n path path_n dir w) := by
  induction n with
  | zero => exact ⟨fun _ _ _ => rfl, fun _ _ _ _ _ => rfl⟩
  | succ n ih =>
    obtain ⟨ihr, ihc⟩ := ih
    constructor
    · intro path w t
      rw [delete_recursive_succ (traced api), delete_recursive_succ api]
      simp only [traced_fsOpenSdCardFileSystem, traced_fsFsOpenDirectory, traced_fsFsDeleteFile,
        traced_fsFsClose]
      split_ifs
      · rfl
      · exact ihc _ _ _ _ _
      · rfl
      · rfl
    · intro path path_n dir w t
      rw [delete_children_succ (traced api), delete_children_succ api]
      simp only [traced_fsDirRead, traced_fsDirClose, traced_fsFsDeleteDirectory,
        traced_fsFsClose]
      by_cases hf : R_FAILED (api.fsDirRead dir w).1 = true
      · rw [if_pos hf, if_pos hf]
        rfl
      · rw [if_neg hf, if_neg hf]
        cases (api.fsDirRead dir w).2.1 with
        | none =>
          simp only
          split_ifs <;> rfl
        | some entry =>
          simp only
          by_cases hdot : is_dot_or_dotdot entry.name = true
          · rw [if_pos hdot, if_pos hdot]
            exact ihc _ _ _ _ _
          · rw [if_neg hdot, if_neg hdot]
            have hch := ihr (snprintf_join 512 path entry.name) (api.fsDirRead dir w).2.2
              (t ++ [⟨.fsDirRead, (api.fsDirRead dir w).1⟩])
            cases hrun : delete_recursive_libnx (traced api) n
                (snprintf_join 512 path entry.name)
                ((api.fsDirRead dir w).2.2, t ++ [⟨.fsDirRead, (api.fsDirRead dir w).1⟩]) with
            | none =>
              rw [hrun] at hch
              simp only [Option.map_none'] at hch
              rw [← hch]
              rfl
            | some r =>
              obtain ⟨rc, w2, t2⟩ := r
              rw [hrun] at hch
              simp only [Option.map_some'] at hch
              rw [← hch]
              simp only
              by_cases hz : rc ≠ 0
              · rw [if_pos hz, if_pos hz]
                rfl
              · rw [if_neg hz, if_neg hz]
                exact ihc _ _ _ _ _

end TraceAdequacy

section DeleteClaim2
variable {σ δ φ : Type}

theorem Card.delete_item_returns (fuel : Nat) (path : CStr) (c : Card)
    (habs : bareDevice path = false)
    (hfit : Card.Fits path (components (normalize_sd_path path 512)) c.nodes)
    (hfuel : (c.nodes.length + 1) * (c.nodes.length + 2) ≤ fuel) :
    ∃ (rc : Int) (c1 : Card),
      delete_item Card.api fuel path c = some (rc, c1) ∧ (rc = 0 ∨ rc = -1) ∧
      (∀ key : Key, ¬ components (normalize_sd_path path 512) <+: key →
        Card.find key c1.nodes = Card.find key c.nodes) ∧
      (∀ e ∈ c1.nodes, e ∈ c.nodes) ∧
      (rc = 0 →
        (∀ e ∈ c1.nodes, e.1 ≠ components (normalize_sd_path path 512)) ∧
        (Card.find (components (normalize_sd_path path 512)) c.nodes = some .dir →
          ∀ e ∈ c1.nodes, ¬ components (normalize_sd_path path 512) <+: e.1)) := by
  have hb := Card.below_length_le (components (normalize_sd_path path 512)) c.nodes
  have hfuel2 : ((Card.below (components (normalize_sd_path path 512)) c.nodes).length + 1) *
      (c.nodes.length + 2) ≤ fuel :=
    le_trans (Nat.mul_le_mul_right _ (Nat.add_le_add_right hb 1)) hfuel
  obtain ⟨rc, c1, _, D, hrun, hrc, _, hD, hn, hgone⟩ :=
    (Card.delete_aux fuel).1 path c c.nodes.length habs hfit le_rfl hfuel2
  refine ⟨rc, c1, hrun, hrc, ?_, ?_, hgone⟩
  · intro key hkey
    rw [hn]
    apply Card.find_filter
    intro nd
    have : key ∉ D := fun hmem => hkey (hD key hmem)
    simpa using this
  · intro e he
    rw [hn] at he
    exact List.mem_of_mem_filter he

/-- C9, amended: on every finite table of nodes in which the directory tree
at `path` is reached through valid names and every path string the code
assembles for it fits the 512-byte buffers, `delete_item(path)` returns (0 or
-1) once the fuel exceeds a bound quadratic in the size of the table; it
never touches a node outside the subtree, and when it returns 0 the node at
`path` is gone together with everything below a directory.  For every
implementation of the libnx calls: it returns 0 exactly when no read, no
deletion and no session open failed; otherwise it returns -1 and the first
failing call is followed by closes only (no further sibling, not the
directory); a directory is deleted by the last call but one, after all that
was done for its children; a path that does not open as a directory costs the
single call `fsFsDeleteFile` on it.  Recording the calls changes neither the
return code nor the world, so the trace statements apply to the run on the
card as well. -/
theorem delete_item_post_order (api : Libnx σ δ φ) (fuel : Nat) (path : CStr) (w : σ)
    (t : List Event) (c : Card)
    (habs : bareDevice path = false)
    (hfit : Card.Fits path (components (normalize_sd_path path 512)) c.nodes)
    (hfuel : (c.nodes.length + 1) * (c.nodes.length + 2) ≤ fuel) :
    (∃ (rc : Int) (c1 : Card),
      delete_item Card.api fuel path c = some (rc, c1) ∧ (rc = 0 ∨ rc = -1) ∧
      (∀ key : Key, ¬ components (normalize_sd_path path 512) <+: key →
        Card.find key c1.nodes = Card.find key c.nodes) ∧
      (∀ e ∈ c1.nodes, e ∈ c.nodes) ∧
      (rc = 0 →
        (∀ e ∈ c1.nodes, e.1 ≠ components (normalize_sd_path path 512)) ∧
        (Card.find (components (normalize_sd_path path 512)) c.nodes = some .dir →
          ∀ e ∈ c1.nodes, ¬ components (normalize_sd_path path 512) <+: e.1))) ∧
    (∀ (rc : Int) (w1 : σ) (t1 : List Event),
      delete_item (traced api) fuel path (w, t) = some (rc, w1, t1) →
      ∃ evs, t1 = t ++ evs ∧
        (rc = 0 ↔ ∀ e ∈ evs, e.okD = true) ∧
        (rc ≠ 0 → rc = -1 ∧ AbortedAt Event.okD evs) ∧
        (rc = 0 →
          R_SUCCEEDED (api.fsFsOpenDirectory (normalize_sd_path path 512)
            (FsDirOpenMode_ReadDirs ||| FsDirOpenMode_ReadFiles)
            (api.fsOpenSdCardFileSystem w).2).1 = true →
          ∃ mid, evs = mid ++ [⟨.fsDirClose, 0⟩,
            ⟨.fsFsDeleteDirectory (normalize_sd_path path 512), 0⟩, ⟨.fsFsClose, 0⟩]) ∧
        (R_FAILED (api.fsOpenSdCardFileSystem w).1 = false →
          R_SUCCEEDED (api.fsFsOpenDirectory (normalize_sd_path path 512)
            (FsDirOpenMode_ReadDirs ||| FsDirOpenMode_ReadFiles)
            (api.fsOpenSdCardFileSystem w).2).1 = false →
          ∃ rc2 rc3, evs = [⟨.fsOpenSdCardFileSystem, 0⟩,
            ⟨.fsFsOpenDirectory (normalize_sd_path path 512), rc2⟩,
            ⟨.fsFsDeleteFile (normalize_sd_path path 512), rc3⟩, ⟨.fsFsClose, 0⟩])) ∧
    (delete_item (traced api) fuel path (w, t)).map (fun r => (r.1, r.2.1)) =
      delete_item api fuel path w := by
  refine ⟨Card.delete_item_returns fuel path c habs hfit hfuel, ?_,
    (traced_delete_adequate api fuel).1 path w t⟩
  intro rc w1 t1 hrun
  unfold delete_item at hrun
  obtain ⟨evs, he, hshape⟩ := (delete_trace_aux api fuel).1 path w t rc w1 t1 hrun
  have hevs : ∀ evs2, t1 = t ++ evs2 → evs2 = evs := by
    intro evs2 h2
    rw [he] at h2
    exact (List.append_cancel_left h2).symm
  refine ⟨evs, he, OpShape.zero_iff hshape, ?_, ?_, ?_⟩
  · intro hne
    rcases hshape with ⟨h0, _⟩ | ⟨h1, hab⟩
    · exact absurd h0 hne
    · exact ⟨h1, hab⟩
  · intro hz hdir
    cases fuel with
    | zero => simp [delete_recursive_libnx] at hrun
    | succ n =>
      rw [delete_recursive_traced_succ] at hrun
      by_cases hf1 : R_FAILED (api.fsOpenSdCardFileSystem w).1 = true
      · rw [if_pos hf1] at hrun
        simp only [Option.some.injEq, Prod.mk.injEq] at hrun
        rw [hz] at hrun
        exact absurd hrun.1 (by decide)
      · rw [if_neg hf1, if_pos hdir] at hrun
        obtain ⟨evs2, he2, _, hlast⟩ := (delete_trace_aux api n).2 _ _ _ _ _ _ _ _ hrun
        obtain ⟨mid, hm⟩ := hlast hz
        refine ⟨[⟨.fsOpenSdCardFileSystem, (api.fsOpenSdCardFileSystem w).1⟩,
          ⟨.fsFsOpenDirectory (normalize_sd_path path 512),
            (api.fsFsOpenDirectory (normalize_sd_path path 512)
              (FsDirOpenMode_ReadDirs ||| FsDirOpenMode_ReadFiles)
              (api.fsOpenSdCardFileSystem w).2).1⟩] ++ mid, ?_⟩
        have hall : t1 = t ++ ([⟨.fsOpenSdCardFileSystem, (api.fsOpenSdCardFileSystem w).1⟩,
          ⟨.fsFsOpenDirectory (normalize_sd_path path 512),
            (api.fsFsOpenDirectory (normalize_sd_path path 512)
              (FsDirOpenMode_ReadDirs ||| FsDirOpenMode_ReadFiles)
              (api.fsOpenSdCardFileSystem w).2).1⟩] ++ mid ++ [⟨.fsDirClose, 0⟩,
            ⟨.fsFsDeleteDirectory (normalize_sd_path path 512), 0⟩, ⟨.fsFsClose, 0⟩]) := by
          rw [he2, hm]
          simp only [List.append_assoc]
        exact (hevs _ hall).symm
  · intro hf1 hndir
    cases fuel with
    | zero => simp [delete_recursive_libnx] at hrun
    | succ n =>
      rw [delete_recursive_traced_succ] at hrun
      rw [if_neg (by simp [hf1]), if_neg (by simp [hndir])] at hrun
      simp only [Option.some.injEq, Prod.mk.injEq] at hrun
      obtain ⟨_, _, ht⟩ := hrun
      have h0 : (api.fsOpenSdCardFileSystem w).1 = 0 := (R_FAILED_false_iff _).1 hf1
      refine ⟨(api.fsFsOpenDirectory (normalize_sd_path path 512)
          (FsDirOpenMode_ReadDirs ||| FsDirOpenMode_ReadFiles)
          (api.fsOpenSdCardFileSystem w).2).1,
        (api.fsFsDeleteFile (normalize_sd_path path 512)
          (api.fsFsOpenDirectory (normalize_sd_path path 512)
            (FsDirOpenMode_ReadDirs ||| FsDirOpenMode_ReadFiles)
            (api.fsOpenSdCardFileSystem w).2).2.2).1, ?_⟩
      rw [← hevs _ ht.symm, h0]

end DeleteClaim2

/-- Witness of C9: deleting the directory `//a` of the sample card. -/
theorem delete_item_post_order_witness :
    ∃ (rc : Int) (c1 : Card),
      delete_item Card.api 60 "//a".toList sampleCard = some (rc, c1) ∧ (rc = 0 ∨ rc = -1) ∧
      (∀ key : Key, ¬ components (normalize_sd_path "//a".toList 512) <+: key →
        Card.find key c1.nodes = Card.find key sampleCard.nodes) ∧
      (∀ e ∈ c1.nodes, e ∈ sampleCard.nodes) ∧
      (rc = 0 →
        (∀ e ∈ c1.nodes, e.1 ≠ components (normalize_sd_path "//a".toList 512)) ∧
        (Card.find (components (normalize_sd_path "//a".toList 512)) sampleCard.nodes
            = some .dir →
          ∀ e ∈ c1.nodes, ¬ components (normalize_sd_path "//a".toList 512) <+: e.1)) :=
  (delete_item_post_order Card.api 60 "//a".toList sampleCard [] sampleCard
    (by decide) (by unfold Card.Fits; decide) (by decide)).1

/-! ## Copy: call traces for every implementation of the libnx calls -/

section CopyTraceTheorems
variable {σ δ φ : Type}

theorem traced_fsFsCreateDirectory (api : Libnx σ δ φ) (p : CStr) (w : σ) (t : List Event) :
    (traced api).fsFsCreateDirectory p (w, t) =
      ((api.fsFsCreateDirectory p w).1, (api.fsFsCreateDirectory p w).2,
        t ++ [⟨.fsFsCreateDirectory p, (api.fsFsCreateDirectory p w).1⟩]) := rfl

theorem traced_fsFsCreateFile (api : Libnx σ δ φ) (p : CStr) (w : σ) (t : List Event) :
    (traced api).fsFsCreateFile p (w, t) =
      ((api.fsFsCreateFile p w).1, (api.fsFsCreateFile p w).2,
        t ++ [⟨.fsFsCreateFile p, (api.fsFsCreateFile p w).1⟩]) := rfl

theorem traced_fsFsOpenFile (api : Libnx σ δ φ) (p : CStr) (m : Nat) (w : σ)
    (t : List Event) :
    (traced api).fsFsOpenFile p m (w, t) =
      ((api.fsFsOpenFile p m w).1, (api.fsFsOpenFile p m w).2.1, (api.fsFsOpenFile p m w).2.2,
        t ++ [⟨.fsFsOpenFile p m, (api.fsFsOpenFile p m w).1⟩]) := rfl

theorem traced_fsFileRead (api : Libnx σ δ φ) (f : φ) (off n : Nat) (w : σ)
    (t : List Event) :
    (traced api).fsFileRead f off n (w, t) =
      ((api.fsFileRead f off n w).1, (api.fsFileRead f off n w).2.1,
        (api.fsFileRead f off n w).2.2,
        t ++ [⟨.fsFileRead off, (api.fsFileRead f off n w).1⟩]) := rfl

theorem traced_fsFileWrite (api : Libnx σ δ φ) (f : φ) (off : Nat) (buf : List Nat) (w : σ)
    (t : List Event) :
    (traced api).fsFileWrite f off buf (w, t) =
      ((api.fsFileWrite f off buf w).1, (api.fsFileWrite f off buf w).2,
        t ++ [⟨.fsFileWrite off buf, (api.fsFileWrite f off buf w).1⟩]) := rfl

theorem traced_fsFileClose (api : Libnx σ δ φ) (f : φ) (w : σ) (t : List Event) :
    (traced api).fsFileClose f (w, t) = (api.fsFileClose f w, t ++ [⟨.fsFileClose, 0⟩]) := rfl

theorem Event.isRemoval_of_isClose (e : Event) (h : e.isClose = true) :
    e.isRemoval = false := by
  obtain ⟨call, rc⟩ := e
  cases call <;> simp_all [Event.isClose, Event.isRemoval]

theorem CopyTrace.append_ok {rc : Int} {a b : List Event}
    (ha : ∀ e ∈ a, e.okC = true ∧ e.isRemoval = false) (hb : CopyTrace rc b) :
    CopyTrace rc (a ++ b) := by
  refine ⟨OpShape.ok_append (fun e he => (ha e he).1) hb.1, ?_⟩
  intro e he
  rcases List.mem_append.1 he with h | h
  · exact (ha e h).2
  · exact hb.2 e h

theorem CopyTrace.closes_after_abort {rc : Int} {a cl : List Event}
    (ha : CopyTrace rc a) (hrc : rc ≠ 0) (hcl : ∀ e ∈ cl, e.isClose = true) :
    CopyTrace (-1) (a ++ cl) := by
  refine ⟨OpShape.abort_closes ha.1 hrc hcl, ?_⟩
  intro e he
  rcases List.mem_append.1 he with h | h
  · exact ha.2 e h
  · exact Event.isRemoval_of_isClose e (hcl e h)

theorem CopyTrace.fails_now (pre : List Event) (bad : Event) (post : List Event)
    (hpre : ∀ e ∈ pre, e.okC = true ∧ e.isRemoval = false)
    (hbad : bad.okC = false ∧ bad.isRemoval = false)
    (hpost : ∀ e ∈ post, e.isClose = true) :
    CopyTrace (-1) (pre ++ bad :: post) := by
  refine ⟨OpShape.fail_now pre bad post (fun e he => (hpre e he).1) hbad.1 hpost, ?_⟩
  intro e he
  rcases List.mem_append.1 he with h | h
  · exact (hpre e h).2
  · rcases List.mem_cons.1 h with h1 | h1
    · rw [h1]; exact hbad.2
    · exact Event.isRemoval_of_isClose e (hpost e h1)

theorem CopyTrace.done (evs : List Event)
    (h : ∀ e ∈ evs, e.okC = true ∧ e.isRemoval = false) : CopyTrace 0 evs :=
  ⟨Or.inl ⟨rfl, fun e he => (h e he).1⟩, fun e he => (h e he).2⟩

theorem copy_file_loop_trace (api : Libnx σ δ φ) (inFile outFile : φ) (n : Nat) :
    ∀ (off_in off_out : Nat) (w : σ) (t : List Event) (rc : Int) (w1 : σ) (t1 : List Event),
      copy_file_loop (traced api) inFile outFile n off_in off_out (w, t) = some (rc, w1, t1) →
      ∃ evs, t1 = t ++ evs ∧ CopyTrace rc evs := by
  induction n with
  | zero =>
    intro off_in off_out w t rc w1 t1 h
    simp [copy_file_loop] at h
  | succ n ih =>
    intro off_in off_out w t rc w1 t1 h
    rw [copy_file_loop] at h
    simp only [traced_fsFileRead, traced_fsFileWrite, traced_fsFileClose, traced_fsFsClose] at h
    generalize api.fsFileRead inFile off_in 4096 w = r1 at h
    obtain ⟨rc1, buf, wa⟩ := r1
    simp only at h
    by_cases hf1 : R_FAILED rc1 = true
    · simp only [hf1, if_true, Option.some.injEq, Prod.mk.injEq] at h
      obtain ⟨e1, _, e3⟩ := h
      subst e1 e3
      refine ⟨[⟨.fsFileRead off_in, rc1⟩, ⟨.fsFileClose, 0⟩, ⟨.fsFileClose, 0⟩, ⟨.fsFsClose, 0⟩],
        by simp, ?_⟩
      refine CopyTrace.fails_now [] _ [_, _, _] (by simp) ?_ (by simp [Event.isClose])
      have := (R_FAILED_iff rc1).1 hf1
      simp [Event.okC, Event.isRemoval, this]
    · have hz1 : rc1 = 0 := (R_FAILED_false_iff rc1).1 (by simpa using hf1)
      subst hz1
      simp only [hf1, Bool.false_eq_true, if_false] at h
      by_cases hlen : buf.length = 0
      · simp only [hlen, if_true, Option.some.injEq, Prod.mk.injEq] at h
        obtain ⟨e1, _, e3⟩ := h
        subst e1 e3
        refine ⟨[⟨.fsFileRead off_in, 0⟩, ⟨.fsFileClose, 0⟩, ⟨.fsFileClose, 0⟩,
          ⟨.fsFsClose, 0⟩], by simp, ?_⟩
        exact CopyTrace.done _ (by simp [Event.okC, Event.isRemoval])
      · simp only [hlen, if_false] at h
        generalize api.fsFileWrite outFile off_out buf wa = r2 at h
        obtain ⟨rc2, wb⟩ := r2
        simp only at h
        by_cases hf2 : R_FAILED rc2 = true
        · simp only [hf2, if_true, Option.some.injEq, Prod.mk.injEq] at h
          obtain ⟨e1, _, e3⟩ := h
          subst e1 e3
          refine ⟨[⟨.fsFileRead off_in, 0⟩, ⟨.fsFileWrite off_out buf, rc2⟩,
            ⟨.fsFileClose, 0⟩, ⟨.fsFileClose, 0⟩, ⟨.fsFsClose, 0⟩], by simp, ?_⟩
          refine CopyTrace.fails_now [_] _ [_, _, _] (by simp [Event.okC, Event.isRemoval]) ?_
            (by simp [Event.isClose])
          have := (R_FAILED_iff rc2).1 hf2
          simp [Event.okC, Event.isRemoval, this]
        · have hz2 : rc2 = 0 := (R_FAILED_false_iff rc2).1 (by simpa using hf2)
          subst hz2
          simp only [hf2, Bool.false_eq_true, if_false] at h
          obtain ⟨evs, he, hsh⟩ := ih _ _ _ _ _ _ _ h
          refine ⟨[⟨.fsFileRead off_in, 0⟩, ⟨.fsFileWrite off_out buf, 0⟩] ++ evs,
            by rw [he]; simp, ?_⟩
          exact CopyTrace.append_ok (by simp [Event.okC, Event.isRemoval]) hsh

theorem copy_file_contents_trace (api : Libnx σ δ φ) (n : Nat) (src dest : CStr) (w : σ)
    (t : List Event) (rc : Int) (w1 : σ) (t1 : List Event)
    (h : copy_file_contents_libnx (traced api) n src dest (w, t) = some (rc, w1, t1)) :
    ∃ evs, t1 = t ++ evs ∧ CopyTrace rc evs ∧
      ((∃ rc1, rc1 ≠ 0 ∧ rc = -1 ∧ evs = [⟨.fsOpenSdCardFileSystem, rc1⟩]) ∨
       (∃ rc2, rc2 ≠ 0 ∧ rc = -1 ∧ evs =
          [⟨.fsOpenSdCardFileSystem, 0⟩,
           ⟨.fsFsOpenFile (normalize_sd_path src 512) FsOpenMode_Read, rc2⟩,
           ⟨.fsFsClose, 0⟩]) ∨
       (∃ rc3 rc4 rest, evs =
          [⟨.fsOpenSdCardFileSystem, 0⟩,
           ⟨.fsFsOpenFile (normalize_sd_path src 512) FsOpenMode_Read, 0⟩,
           ⟨.fsFsCreateFile (normalize_sd_path dest 512), rc3⟩,
           ⟨.fsFsOpenFile (normalize_sd_path dest 512) FsOpenMode_Write, rc4⟩] ++ rest)) := by
  rw [copy_file_contents_libnx] at h
  simp only [traced_fsOpenSdCardFileSystem, traced_fsFsOpenFile, traced_fsFsCreateFile,
    traced_fsFileClose, traced_fsFsClose] at h
  generalize api.fsOpenSdCardFileSystem w = r1 at h
  obtain ⟨rc1, wa⟩ := r1
  simp only at h
  by_cases hf1 : R_FAILED rc1 = true
  · simp only [hf1, if_true, Option.some.injEq, Prod.mk.injEq] at h
    obtain ⟨e1, _, e3⟩ := h
    subst e1 e3
    have hne := (R_FAILED_iff rc1).1 hf1
    refine ⟨[⟨.fsOpenSdCardFileSystem, rc1⟩], rfl, ?_, Or.inl ⟨rc1, hne, rfl, rfl⟩⟩
    refine CopyTrace.fails_now [] _ [] (by simp) ?_ (by simp)
    simp [Event.okC, Event.isRemoval, hne]
  · have hz1 : rc1 = 0 := (R_FAILED_false_iff rc1).1 (by simpa using hf1)
    subst hz1
    simp only [hf1, Bool.false_eq_true, if_false] at h
    generalize api.fsFsOpenFile (normalize_sd_path src 512) FsOpenMode_Read wa = r2 at h
    obtain ⟨rc2, inFile, wb⟩ := r2
    simp only at h
    by_cases hf2 : R_FAILED rc2 = true
    · simp only [hf2, if_true, Option.some.injEq, Prod.mk.injEq] at h
      obtain ⟨e1, _, e3⟩ := h
      subst e1 e3
      have hne := (R_FAILED_iff rc2).1 hf2
      refine ⟨[⟨.fsOpenSdCardFileSystem, 0⟩,
        ⟨.fsFsOpenFile (normalize_sd_path src 512) FsOpenMode_Read, rc2⟩, ⟨.fsFsClose, 0⟩],
        by simp, ?_, Or.inr (Or.inl ⟨rc2, hne, rfl, rfl⟩)⟩
      refine CopyTrace.fails_now [_] _ [_] (by simp [Event.okC, Event.isRemoval]) ?_
        (by simp [Event.isClose])
      simp [Event.okC, Event.isRemoval, hne]
    · have hz2 : rc2 = 0 := (R_FAILED_false_iff rc2).1 (by simpa using hf2)
      subst hz2
      simp only [hf2, Bool.false_eq_true, if_false] at h
      generalize api.fsFsCreateFile (normalize_sd_path dest 512) wb = r3 at h
      obtain ⟨rc3, wc⟩ := r3
      simp only at h
      generalize api.fsFsOpenFile (normalize_sd_path dest 512) FsOpenMode_Write wc = r4 at h
      obtain ⟨rc4, outFile, wd⟩ := r4
      simp only at h
      by_cases hf4 : R_FAILED rc4 = true
      · simp only [hf4, if_true, Option.some.injEq, Prod.mk.injEq] at h
        obtain ⟨e1, _, e3⟩ := h
        subst e1 e3
        refine ⟨[⟨.fsOpenSdCardFileSystem, 0⟩,
          ⟨.fsFsOpenFile (normalize_sd_path src 512) FsOpenMode_Read, 0⟩,
          ⟨.fsFsCreateFile (normalize_sd_path dest 512), rc3⟩,
          ⟨.fsFsOpenFile (normalize_sd_path dest 512) FsOpenMode_Write, rc4⟩,
          ⟨.fsFileClose, 0⟩, ⟨.fsFsClose, 0⟩], by simp, ?_,
          Or.inr (Or.inr ⟨rc3, rc4, [⟨.fsFileClose, 0⟩, ⟨.fsFsClose, 0⟩], rfl⟩)⟩
        refine CopyTrace.fails_now [_, _, _] _ [_, _] (by simp [Event.okC, Event.isRemoval]) ?_
          (by simp [Event.isClose])
        have := (R_FAILED_iff rc4).1 hf4
        simp [Event.okC, Event.isRemoval, this]
      · have hz4 : rc4 = 0 := (R_FAILED_false_iff rc4).1 (by simpa using hf4)
        subst hz4
        simp only [hf4, Bool.false_eq_true, if_false] at h
        obtain ⟨evs, he, hsh⟩ := copy_file_loop_trace api _ _ n _ _ _ _ _ _ _ h
        refine ⟨[⟨.fsOpenSdCardFileSystem, 0⟩,
          ⟨.fsFsOpenFile (normalize_sd_path src 512) FsOpenMode_Read, 0⟩,
          ⟨.fsFsCreateFile (normalize_sd_path dest 512), rc3⟩,
          ⟨.fsFsOpenFile (normalize_sd_path dest 512) FsOpenMode_Write, 0⟩] ++ evs,
          by rw [he]; simp, ?_, Or.inr (Or.inr ⟨rc3, 0, evs, rfl⟩)⟩
        exact CopyTrace.append_ok (by simp [Event.okC, Event.isRemoval]) hsh

end CopyTraceTheorems

section CopyTraceTheorems2
variable {σ δ φ : Type}

/-- The trace statement for `copy_dir_recursive_libnx` and its loop, by
induction on the fuel: the shape of the trace and, for the function, its
first three calls (session, creation of the destination, opening of the
source). -/
theorem copy_trace_aux (api : Libnx σ δ φ) (n : Nat) :
    (∀ (src dest : CStr) (w : σ) (t : List Event) (rc : Int) (w1 : σ) (t1 : List Event),
      copy_dir_recursive_libnx (traced api) n src dest (w, t) = some (rc, w1, t1) →
      ∃ evs, t1 = t ++ evs ∧ CopyTrace rc evs ∧
        ((∃ rc1, rc1 ≠ 0 ∧ rc = -1 ∧ evs = [⟨.fsOpenSdCardFileSystem, rc1⟩]) ∨
         (∃ rcC rcO rest, evs =
            [⟨.fsOpenSdCardFileSystem, 0⟩,
             ⟨.fsFsCreateDirectory (normalize_sd_path dest 512), rcC⟩,
             ⟨.fsFsOpenDirectory (normalize_sd_path src 512), rcO⟩] ++ rest))) ∧
    (∀ (src_n dest_n : CStr) (dir : δ) (w : σ) (t : List Event) (rc : Int) (w1 : σ)
      (t1 : List Event),
      copy_children (traced api) n src_n dest_n dir (w, t) = some (rc, w1, t1) →
      ∃ evs, t1 = t ++ evs ∧ CopyTrace rc evs) := by
  induction n with
  | zero =>
    constructor
    · intro src dest w t rc w1 t1 h
      simp [copy_dir_recursive_libnx] at h
    · intro src_n dest_n dir w t rc w1 t1 h
      simp [copy_children] at h
  | succ n ih =>
    obtain ⟨ihr, ihc⟩ := ih
    constructor
    · intro src dest w t rc w1 t1 h
      rw [copy_dir_recursive_libnx] at h
      simp only [traced_fsOpenSdCardFileSystem, traced_fsFsCreateDirectory,
        traced_fsFsOpenDirectory, traced_fsFsClose] at h
      generalize api.fsOpenSdCardFileSystem w = r1 at h
      obtain ⟨rc1, wa⟩ := r1
      simp only at h
      by_cases hf1 : R_FAILED rc1 = true
      · simp only [hf1, if_true, Option.some.injEq, Prod.mk.injEq] at h
        obtain ⟨e1, _, e3⟩ := h
        subst e1 e3
        have hne := (R_FAILED_iff rc1).1 hf1
        refine ⟨[⟨.fsOpenSdCardFileSystem, rc1⟩], rfl, ?_, Or.inl ⟨rc1, hne, rfl, rfl⟩⟩
        refine CopyTrace.fails_now [] _ [] (by simp) ?_ (by simp)
        simp [Event.okC, Event.isRemoval, hne]
      · have hz1 : rc1 = 0 := (R_FAILED_false_iff rc1).1 (by simpa using hf1)
        subst hz1
        simp only [hf1, Bool.false_eq_true, if_false] at h
        generalize api.fsFsCreateDirectory (normalize_sd_path dest 512) wa = r2 at h
        obtain ⟨rc2, wb⟩ := r2
        simp only at h
        generalize api.fsFsOpenDirectory (normalize_sd_path src 512)
          (FsDirOpenMode_ReadDirs ||| FsDirOpenMode_ReadFiles) wb = r3 at h
        obtain ⟨rc3, dir, wc⟩ := r3
        simp only at h
        by_cases hf3 : R_FAILED rc3 = true
        · simp only [hf3, if_true, Option.some.injEq, Prod.mk.injEq] at h
          obtain ⟨e1, _, e3⟩ := h
          subst e1 e3
          refine ⟨[⟨.fsOpenSdCardFileSystem, 0⟩,
            ⟨.fsFsCreateDirectory (normalize_sd_path dest 512), rc2⟩,
            ⟨.fsFsOpenDirectory (normalize_sd_path src 512), rc3⟩, ⟨.fsFsClose, 0⟩],
            by simp, ?_, Or.inr ⟨rc2, rc3, [⟨.fsFsClose, 0⟩], rfl⟩⟩
          refine CopyTrace.fails_now [_, _] _ [_] (by simp [Event.okC, Event.isRemoval]) ?_
            (by simp [Event.isClose])
          have := (R_FAILED_iff rc3).1 hf3
          simp [Event.okC, Event.isRemoval, this]
        · have hz3 : rc3 = 0 := (R_FAILED_false_iff rc3).1 (by simpa using hf3)
          subst hz3
          simp only [hf3, Bool.false_eq_true, if_false] at h
          obtain ⟨evs, he, hsh⟩ := ihc _ _ _ _ _ _ _ _ h
          refine ⟨[⟨.fsOpenSdCardFileSystem, 0⟩,
            ⟨.fsFsCreateDirectory (normalize_sd_path dest 512), rc2⟩,
            ⟨.fsFsOpenDirectory (normalize_sd_path src 512), 0⟩] ++ evs,
            by rw [he]; simp, ?_, Or.inr ⟨rc2, 0, evs, rfl⟩⟩
          exact CopyTrace.append_ok (by simp [Event.okC, Event.isRemoval]) hsh
    · intro src_n dest_n dir w t rc w1 t1 h
      rw [copy_children] at h
      simp only [traced_fsDirRead, traced_fsDirClose, traced_fsFsClose] at h
      generalize api.fsDirRead dir w = r1 at h
      obtain ⟨rc1, entry, wa⟩ := r1
      simp only at h
      by_cases hf1 : R_FAILED rc1 = true
      · simp only [hf1, if_true, Option.some.injEq, Prod.mk.injEq] at h
        obtain ⟨e1, _, e3⟩ := h
        subst e1 e3
        refine ⟨[⟨.fsDirRead, rc1⟩, ⟨.fsDirClose, 0⟩, ⟨.fsFsClose, 0⟩], by simp, ?_⟩
        refine CopyTrace.fails_now [] _ [_, _] (by simp) ?_ (by simp [Event.isClose])
        have := (R_FAILED_iff rc1).1 hf1
        simp [Event.okC, Event.isRemoval, this]
      · have hz1 : rc1 = 0 := (R_FAILED_false_iff rc1).1 (by simpa using hf1)
        subst hz1
        simp only [hf1, Bool.false_eq_true, if_false] at h
        cases entry with
        | none =>
          simp only [Option.some.injEq, Prod.mk.injEq] at h
          obtain ⟨e1, _, e3⟩ := h
          subst e1 e3
          refine ⟨[⟨.fsDirRead, 0⟩, ⟨.fsDirClose, 0⟩, ⟨.fsFsClose, 0⟩], by simp, ?_⟩
          exact CopyTrace.done _ (by simp [Event.okC, Event.isRemoval])
        | some entry =>
          simp only at h
          by_cases hdot : is_dot_or_dotdot entry.name = true
          · simp only [hdot, if_true] at h
            obtain ⟨evs, he, hsh⟩ := ihc _ _ _ _ _ _ _ _ h
            exact ⟨[⟨.fsDirRead, 0⟩] ++ evs, by rw [he]; simp,
              CopyTrace.append_ok (by simp [Event.okC, Event.isRemoval]) hsh⟩
          · simp only [hdot, Bool.false_eq_true, if_false] at h
            have hchild : ∀ (rcc : Int) (wc : σ) (tc : List Event),
                (if entry.type = FsDirEntryType_Dir then
                  copy_dir_recursive_libnx (traced api) n (snprintf_join 512 src_n entry.name)
                    (snprintf_join 512 dest_n entry.name) (wa, t ++ [⟨.fsDirRead, 0⟩])
                else
                  copy_file_contents_libnx (traced api) n (snprintf_join 512 src_n entry.name)
                    (snprintf_join 512 dest_n entry.name) (wa, t ++ [⟨.fsDirRead, 0⟩]))
                  = some (rcc, wc, tc) →
                ∃ evc, tc = t ++ [⟨.fsDirRead, 0⟩] ++ evc ∧ CopyTrace rcc evc := by
              intro rcc wc tc hc
              by_cases hty : entry.type = FsDirEntryType_Dir
              · rw [if_pos hty] at hc
                obtain ⟨evc, hec, hshc, _⟩ := ihr _ _ _ _ _ _ _ hc
                exact ⟨evc, hec, hshc⟩
              · rw [if_neg hty] at hc
                obtain ⟨evc, hec, hshc, _⟩ := copy_file_contents_trace api n _ _ _ _ _ _ _ hc
                exact ⟨evc, hec, hshc⟩
            generalize hcr : (if entry.type = FsDirEntryType_Dir then
                  copy_dir_recursive_libnx (traced api) n (snprintf_join 512 src_n entry.name)
                    (snprintf_join 512 dest_n entry.name) (wa, t ++ [⟨.fsDirRead, 0⟩])
                else
                  copy_file_contents_libnx (traced api) n (snprintf_join 512 src_n entry.name)
                    (snprintf_join 512 dest_n entry.name) (wa, t ++ [⟨.fsDirRead, 0⟩])) = cr
              at h hchild
            cases cr with
            | none => simp at h
            | some r =>
              obtain ⟨rcc, wc, tc⟩ := r
              obtain ⟨evc, hec, hshc⟩ := hchild rcc wc tc rfl
              simp only at h
              by_cases hz : rcc = 0
              · subst hz
                simp only [ne_eq, not_true_eq_false, if_false] at h
                obtain ⟨evs, he, hsh⟩ := ihc _ _ _ _ _ _ _ _ h
                refine ⟨[⟨.fsDirRead, 0⟩] ++ evc ++ evs, by rw [he, hec]; simp, ?_⟩
                rw [List.append_assoc]
                refine CopyTrace.append_ok (by simp [Event.okC, Event.isRemoval]) ?_
                have hallc : ∀ e ∈ evc, e.okC = true ∧ e.isRemoval = false :=
                  fun e he => ⟨(OpShape.zero_iff hshc.1).1 rfl e he, hshc.2 e he⟩
                exact CopyTrace.append_ok hallc hsh
              · simp only [ne_eq, hz, not_false_eq_true, if_true, Option.some.injEq,
                  Prod.mk.injEq, traced_fsDirClose, traced_fsFsClose] at h
                obtain ⟨e1, _, e3⟩ := h
                subst e1 e3
                refine ⟨[⟨.fsDirRead, 0⟩] ++ (evc ++ [⟨.fsDirClose, 0⟩, ⟨.fsFsClose, 0⟩]),
                  by rw [hec]; simp, ?_⟩
                refine CopyTrace.append_ok (by simp [Event.okC, Event.isRemoval]) ?_
                exact CopyTrace.closes_after_abort hshc hz (by simp [Event.isClose])

end CopyTraceTheorems2

section CopyClaim
variable {σ δ φ : Type}

theorem copy_children_succ (api : Libnx σ δ φ) (n : Nat) (src_n dest_n : CStr)
    (dir : δ) (w : σ) :
    copy_children api (n + 1) src_n dest_n dir w =
      if R_FAILED (api.fsDirRead dir w).1 = true then
        some (-1, api.fsFsClose (api.fsDirClose dir (api.fsDirRead dir w).2.2))
      else
        match (api.fsDirRead dir w).2.1 with
        | none => some (0, api.fsFsClose (api.fsDirClose dir (api.fsDirRead dir w).2.2))
        | some entry =>
          if is_dot_or_dotdot entry.name = true then
            copy_children api n src_n dest_n dir (api.fsDirRead dir w).2.2
          else
            match (if entry.type = FsDirEntryType_Dir then
                copy_dir_recursive_libnx api n (snprintf_join 512 src_n entry.name)
                  (snprintf_join 512 dest_n entry.name) (api.fsDirRead dir w).2.2
              else
                copy_file_contents_libnx api n (snprintf_join 512 src_n entry.name)
                  (snprintf_join 512 dest_n entry.name) (api.fsDirRead dir w).2.2) with
            | none => none
            | some (rc, w2) =>
              if rc ≠ 0 then some (-1, api.fsFsClose (api.fsDirClose dir w2))
              else copy_children api n src_n dest_n dir w2 := rfl

theorem copy_children_abort (api : Libnx σ δ φ) (n : Nat) (src_n dest_n : CStr)
    (dir : δ) (w : σ) (rc1 : Result) (entry : FsDirectoryEntry) (w1 : σ)
    (hr : api.fsDirRead dir w = (rc1, some entry, w1)) (hf : R_FAILED rc1 = false)
    (hdot : is_dot_or_dotdot entry.name = false) (rcc : Int) (w2 : σ)
    (hc : (if entry.type = FsDirEntryType_Dir then
            copy_dir_recursive_libnx api n (snprintf_join 512 src_n entry.name)
              (snprintf_join 512 dest_n entry.name) w1
          else
            copy_file_contents_libnx api n (snprintf_join 512 src_n entry.name)
              (snprintf_join 512 dest_n entry.name) w1) = some (rcc, w2))
    (hne : rcc ≠ 0) :
    copy_children api (n + 1) src_n dest_n dir w =
      some (-1, api.fsFsClose (api.fsDirClose dir w2)) := by
  have e := copy_children_succ api n src_n dest_n dir w
  rw [hr] at e
  dsimp only at e
  rw [if_neg (by simp [hf]), if_neg (by simp [hdot]), hc] at e
  dsimp only at e
  rw [if_pos hne] at e
  exact e

theorem copy_item_traced (api : Libnx σ δ φ) (fuel : Nat) (src dest_dir : CStr) (w : σ)
    (t : List Event) :
    copy_item (traced api) fuel src dest_dir (w, t) =
      if R_FAILED (api.fsOpenSdCardFileSystem w).1 = true then
        some (-1, (api.fsOpenSdCardFileSystem w).2,
          t ++ [⟨.fsOpenSdCardFileSystem, (api.fsOpenSdCardFileSystem w).1⟩])
      else if R_SUCCEEDED (api.fsFsOpenDirectory (normalize_sd_path src 512)
                (FsDirOpenMode_ReadDirs ||| FsDirOpenMode_ReadFiles)
                (api.fsOpenSdCardFileSystem w).2).1 = true then
        copy_dir_recursive_libnx (traced api) fuel src
          (snprintf_join 512 dest_dir (path_get_filename src))
          (api.fsFsClose (api.fsDirClose
            (api.fsFsOpenDirectory (normalize_sd_path src 512)
              (FsDirOpenMode_ReadDirs ||| FsDirOpenMode_ReadFiles)
              (api.fsOpenSdCardFileSystem w).2).2.1
            (api.fsFsOpenDirectory (normalize_sd_path src 512)
              (FsDirOpenMode_ReadDirs ||| FsDirOpenMode_ReadFiles)
              (api.fsOpenSdCardFileSystem w).2).2.2),
           t ++ [⟨.fsOpenSdCardFileSystem, (api.fsOpenSdCardFileSystem w).1⟩,
                 ⟨.fsFsOpenDirectory (normalize_sd_path src 512),
                   (api.fsFsOpenDirectory (normalize_sd_path src 512)
                     (FsDirOpenMode_ReadDirs ||| FsDirOpenMode_ReadFiles)
                     (api.fsOpenSdCardFileSystem w).2).1⟩,
                 ⟨.fsDirClose, 0⟩, ⟨.fsFsClose, 0⟩])
      else
        copy_file_contents_libnx (traced api) fuel src
          (snprintf_join 512 dest_dir (path_get_filename src))
          (api.fsFsClose
            (api.fsFsOpenDirectory (normalize_sd_path src 512)
              (FsDirOpenMode_ReadDirs ||| FsDirOpenMode_ReadFiles)
              (api.fsOpenSdCardFileSystem w).2).2.2,
           t ++ [⟨.fsOpenSdCardFileSystem, (api.fsOpenSdCardFileSystem w).1⟩,
                 ⟨.fsFsOpenDirectory (normalize_sd_path src 512),
                   (api.fsFsOpenDirectory (normalize_sd_path src 512)
                     (FsDirOpenMode_ReadDirs ||| FsDirOpenMode_ReadFiles)
                     (api.fsOpenSdCardFileSystem w).2).1⟩,
                 ⟨.fsFsClose, 0⟩]) := by
  have e : copy_item (traced api) fuel src dest_dir (w, t) =
      if R_FAILED ((traced api).fsOpenSdCardFileSystem (w, t)).1 = true then
        some (-1, ((traced api).fsOpenSdCardFileSystem (w, t)).2)
      else if R_SUCCEEDED ((traced api).fsFsOpenDirectory (normalize_sd_path src 512)
                (FsDirOpenMode_ReadDirs ||| FsDirOpenMode_ReadFiles)
                ((traced api).fsOpenSdCardFileSystem (w, t)).2).1 = true then
        copy_dir_recursive_libnx (traced api) fuel src
          (snprintf_join 512 dest_dir (path_get_filename src))
          ((traced api).fsFsClose ((traced api).fsDirClose
            ((traced api).fsFsOpenDirectory (normalize_sd_path src 512)
              (FsDirOpenMode_ReadDirs ||| FsDirOpenMode_ReadFiles)
              ((traced api).fsOpenSdCardFileSystem (w, t)).2).2.1
            ((traced api).fsFsOpenDirectory (normalize_sd_path src 512)
              (FsDirOpenMode_ReadDirs ||| FsDirOpenMode_ReadFiles)
              ((traced api).fsOpenSdCardFileSystem (w, t)).2).2.2))
      else
        copy_file_contents_libnx (traced api) fuel src
          (snprintf_join 512 dest_dir (path_get_filename src))
          ((traced api).fsFsClose
            ((traced api).fsFsOpenDirectory (normalize_sd_path src 512)
              (FsDirOpenMode_ReadDirs ||| FsDirOpenMode_ReadFiles)
              ((traced api).fsOpenSdCardFileSystem (w, t)).2).2.2) := rfl
  rw [e]
  simp only [traced_fsOpenSdCardFileSystem, traced_fsFsOpenDirectory, traced_fsDirClose,
    traced_fsFsClose, List.append_assoc, List.singleton_append, List.cons_append,
    List.nil_append]

end CopyClaim

section CopyClaim2
variable {σ δ φ : Type}

theorem OpShape.rc_cases {okE : Event → Bool} {rc : Int} {evs : List Event}
    (h : OpShape okE rc evs) : rc = 0 ∨ rc = -1 := by
  rcases h with ⟨h0, _⟩ | ⟨h1, _⟩
  · exact Or.inl h0
  · exact Or.inr h1

/-- C10, amended: `copy_item(src, dest_dir)` copies to the path held in its
512-byte buffer, the first 511 characters of `dest_dir + "/" + filename(src)`
(the whole string whenever it fits).  For every implementation of the libnx
calls: after the probe of the source, a directory source is handled by
`copy_dir_recursive_libnx`, whose calls at every level start with the session,
then `fsFsCreateDirectory` on the destination, then the opening of the source,
before any entry is read (pre-order); a file source is created and opened for
writing at the destination path; the call returns only 0 or -1, it never
removes or renames anything, and when it returns -1 the first failing call is
followed by closes only.  In the loop, when the copy of an entry returns
non-zero, the loop returns -1 in the world that copy left, after closing the
directory and the session: no later entry is read and nothing is undone. -/
theorem copy_item_pre_order (api : Libnx σ δ φ) (fuel : Nat) (src dest_dir : CStr) (w : σ)
    (t : List Event) :
    (snprintf_join 512 dest_dir (path_get_filename src)
        = (dest_dir ++ '/' :: path_get_filename src).take 511 ∧
      ((dest_dir ++ '/' :: path_get_filename src).length ≤ 511 →
        snprintf_join 512 dest_dir (path_get_filename src)
          = dest_dir ++ '/' :: path_get_filename src)) ∧
    (∀ (rc : Int) (w1 : σ) (t1 : List Event),
      copy_item (traced api) fuel src dest_dir (w, t) = some (rc, w1, t1) →
      (rc = 0 ∨ rc = -1) ∧
      ∃ evs, t1 = t ++ evs ∧ (∀ e ∈ evs, e.isRemoval = false) ∧
        ((∃ rc1, rc1 ≠ 0 ∧ rc = -1 ∧ evs = [⟨.fsOpenSdCardFileSystem, rc1⟩]) ∨
         (∃ rest, evs = [⟨.fsOpenSdCardFileSystem, 0⟩,
              ⟨.fsFsOpenDirectory (normalize_sd_path src 512), 0⟩,
              ⟨.fsDirClose, 0⟩, ⟨.fsFsClose, 0⟩] ++ rest ∧
            CopyTrace rc rest ∧
            ((∃ rc1, rc1 ≠ 0 ∧ rc = -1 ∧ rest = [⟨.fsOpenSdCardFileSystem, rc1⟩]) ∨
             (∃ rcC rcO more, rest =
                [⟨.fsOpenSdCardFileSystem, 0⟩,
                 ⟨.fsFsCreateDirectory (normalize_sd_path
                    (snprintf_join 512 dest_dir (path_get_filename src)) 512), rcC⟩,
                 ⟨.fsFsOpenDirectory (normalize_sd_path src 512), rcO⟩] ++ more))) ∨
         (∃ rcP rest, rcP ≠ 0 ∧ evs = [⟨.fsOpenSdCardFileSystem, 0⟩,
              ⟨.fsFsOpenDirectory (normalize_sd_path src 512), rcP⟩,
              ⟨.fsFsClose, 0⟩] ++ rest ∧
            CopyTrace rc rest ∧
            ((∃ rc1, rc1 ≠ 0 ∧ rc = -1 ∧ rest = [⟨.fsOpenSdCardFileSystem, rc1⟩]) ∨
             (∃ rc2, rc2 ≠ 0 ∧ rc = -1 ∧ rest =
                [⟨.fsOpenSdCardFileSystem, 0⟩,
                 ⟨.fsFsOpenFile (normalize_sd_path src 512) FsOpenMode_Read, rc2⟩,
                 ⟨.fsFsClose, 0⟩]) ∨
             (∃ rc3 rc4 more, rest =
                [⟨.fsOpenSdCardFileSystem, 0⟩,
                 ⟨.fsFsOpenFile (normalize_sd_path src 512) FsOpenMode_Read, 0⟩,
                 ⟨.fsFsCreateFile (normalize_sd_path
                    (snprintf_join 512 dest_dir (path_get_filename src)) 512), rc3⟩,
                 ⟨.fsFsOpenFile (normalize_sd_path
                    (snprintf_join 512 dest_dir (path_get_filename src)) 512)
                    FsOpenMode_Write, rc4⟩] ++ more))))) ∧
    (∀ (n : Nat) (s d : CStr) (w0 : σ) (t0 : List Event) (rc : Int) (w1 : σ)
      (t1 : List Event),
      copy_dir_recursive_libnx (traced api) n s d (w0, t0) = some (rc, w1, t1) →
      ∃ evs, t1 = t0 ++ evs ∧ CopyTrace rc evs ∧
        ((∃ rc1, rc1 ≠ 0 ∧ rc = -1 ∧ evs = [⟨.fsOpenSdCardFileSystem, rc1⟩]) ∨
         (∃ rcC rcO rest, evs =
            [⟨.fsOpenSdCardFileSystem, 0⟩,
             ⟨.fsFsCreateDirectory (normalize_sd_path d 512), rcC⟩,
             ⟨.fsFsOpenDirectory (normalize_sd_path s 512), rcO⟩] ++ rest))) ∧
    (∀ (n : Nat) (src_n dest_n : CStr) (dir : δ) (w0 : σ) (rc1 : Result)
      (entry : FsDirectoryEntry) (w1 : σ) (rcc : Int) (w2 : σ),
      api.fsDirRead dir w0 = (rc1, some entry, w1) → R_FAILED rc1 = false →
      is_dot_or_dotdot entry.name = false →
      (if entry.type = FsDirEntryType_Dir then
          copy_dir_recursive_libnx api n (snprintf_join 512 src_n entry.name)
            (snprintf_join 512 dest_n entry.name) w1
        else
          copy_file_contents_libnx api n (snprintf_join 512 src_n entry.name)
            (snprintf_join 512 dest_n entry.name) w1) = some (rcc, w2) →
      rcc ≠ 0 →
      copy_children api (n + 1) src_n dest_n dir w0 =
        some (-1, api.fsFsClose (api.fsDirClose dir w2))) := by
  refine ⟨⟨rfl, fun hlen => List.take_of_length_le (by simpa using hlen)⟩, ?_,
    fun n s d w0 t0 rc w1 t1 h => (copy_trace_aux api n).1 s d w0 t0 rc w1 t1 h,
    fun n src_n dest_n dir w0 rc1 entry w1 rcc w2 hr hf hdot hc hne =>
      copy_children_abort api n src_n dest_n dir w0 rc1 entry w1 hr hf hdot rcc w2 hc hne⟩
  intro rc w1 t1 hrun
  rw [copy_item_traced] at hrun
  by_cases hf1 : R_FAILED (api.fsOpenSdCardFileSystem w).1 = true
  · rw [if_pos hf1] at hrun
    simp only [Option.some.injEq, Prod.mk.injEq] at hrun
    obtain ⟨e1, _, e3⟩ := hrun
    have hne := (R_FAILED_iff _).1 hf1
    refine ⟨Or.inr e1.symm, [⟨.fsOpenSdCardFileSystem, (api.fsOpenSdCardFileSystem w).1⟩],
      e3.symm, by simp [Event.isRemoval], Or.inl ⟨_, hne, e1.symm, rfl⟩⟩
  · rw [if_neg hf1] at hrun
    have h0 : (api.fsOpenSdCardFileSystem w).1 = 0 :=
      (R_FAILED_false_iff _).1 (by simpa using hf1)
    by_cases hs2 : R_SUCCEEDED (api.fsFsOpenDirectory (normalize_sd_path src 512)
        (FsDirOpenMode_ReadDirs ||| FsDirOpenMode_ReadFiles)
        (api.fsOpenSdCardFileSystem w).2).1 = true
    · rw [if_pos hs2] at hrun
      have h2 := (R_SUCCEEDED_iff _).1 hs2
      obtain ⟨evs, he, hsh, hfirst⟩ := (copy_trace_aux api fuel).1 _ _ _ _ _ _ _ hrun
      rw [h0, h2] at he
      refine ⟨hsh.1.rc_cases, [⟨.fsOpenSdCardFileSystem, 0⟩,
        ⟨.fsFsOpenDirectory (normalize_sd_path src 512), 0⟩,
        ⟨.fsDirClose, 0⟩, ⟨.fsFsClose, 0⟩] ++ evs, by rw [he, List.append_assoc], ?_,
        Or.inr (Or.inl ⟨evs, rfl, hsh, hfirst⟩)⟩
      intro e hmem
      rcases List.mem_append.1 hmem with h | h
      · simp at h
        rcases h with h | h | h | h <;> (rw [h]; rfl)
      · exact hsh.2 e h
    · rw [if_neg hs2] at hrun
      have h2 := (R_SUCCEEDED_false_iff _).1 (by simpa using hs2)
      obtain ⟨evs, he, hsh, hfirst⟩ := copy_file_contents_trace api fuel _ _ _ _ _ _ _ hrun
      rw [h0] at he
      refine ⟨hsh.1.rc_cases, [⟨.fsOpenSdCardFileSystem, 0⟩,
        ⟨.fsFsOpenDirectory (normalize_sd_path src 512),
          (api.fsFsOpenDirectory (normalize_sd_path src 512)
            (FsDirOpenMode_ReadDirs ||| FsDirOpenMode_ReadFiles)
            (api.fsOpenSdCardFileSystem w).2).1⟩,
        ⟨.fsFsClose, 0⟩] ++ evs, by rw [he, List.append_assoc], ?_,
        Or.inr (Or.inr ⟨_, evs, h2, rfl, hsh, hfirst⟩)⟩
      intro e hmem
      rcases List.mem_append.1 hmem with h | h
      · simp at h
        rcases h with h | h | h <;> (rw [h]; rfl)
      · exact hsh.2 e h

end CopyClaim2

/-- The claim C10 read for every path fails: copying `/fg` into the
509-character directory `truncDest` returns 0 but leaves nothing at
`truncDest/fg`; the two bytes are written to `truncDest/f`, the path cut to
511 characters. -/
theorem copy_item_long_path_truncates :
    (copy_item Card.api 10 "/fg".toList truncDest truncCard).map
      (fun r => (r.1,
        Card.find (components (truncDest ++ '/' :: path_get_filename "/fg".toList)) r.2.nodes,
        Card.find [List.replicate 508 'a', ['f']] r.2.nodes))
      = some (0, none, some (.file [1, 2])) := by
  set_option maxRecDepth 100000 in decide

/-- Witness of C10: on the sample card `//b/a` is the whole destination
path; with a failure injected while the second file of `//a` is copied into
`//b`, the call returns -1, the first file stays copied and the second is
absent. -/
theorem copy_item_pre_order_witness :
    snprintf_join 512 "//b".toList (path_get_filename "//a".toList) = "//b/a".toList ∧
    (copy_item Card.api 20 "//a".toList "//b".toList faultyCard).map
      (fun r => (r.1, Card.find [['b'], ['a']] r.2.nodes,
        Card.find [['b'], ['a'], ['f']] r.2.nodes,
        Card.find [['b'], ['a'], ['g']] r.2.nodes))
      = some (-1, some .dir, some (.file [1, 2, 3]), none) :=
  ⟨(copy_item_pre_order Card.api 20 "//a".toList "//b".toList faultyCard []).1.2 (by decide),
   by decide⟩

/-! ## Path utilities -/

theorem find_last_slash_none (s : CStr) (n : Nat)
    (h : ∀ i, i < n → s.getD i ' ' ≠ '/') : find_last_slash s n = -1 := by
  induction n with
  | zero => rfl
  | succ n ih =>
    unfold find_last_slash
    rw [if_neg (h n (Nat.lt_succ_self n))]
    exact ih (fun i hi => h i (Nat.lt_succ_of_lt hi))

theorem getD_of_not_mem (s : CStr) (h : '/' ∉ s) (i : Nat) : s.getD i ' ' ≠ '/' := by
  intro hc
  by_cases hi : i < s.length
  · rw [List.getD_eq_getElem _ _ hi] at hc
    exact h (hc ▸ List.getElem_mem hi)
  · rw [List.getD_eq_default _ _ (by omega)] at hc
    exact absurd hc (by decide)

theorem find_last_slash_not_mem (s : CStr) (h : '/' ∉ s) :
    find_last_slash s s.length = -1 :=
  find_last_slash_none s s.length (fun i _ => getD_of_not_mem s h i)

theorem find_last_slash_append (pre suf : CStr) (h : '/' ∉ suf) (k : Nat) (hk : k ≤ suf.length) :
    find_last_slash (pre ++ '/' :: suf) (pre.length + 1 + k) = (pre.length : Int) := by
  induction k with
  | zero =>
    show find_last_slash (pre ++ '/' :: suf) (pre.length + 1) = _
    unfold find_last_slash
    have : (pre ++ '/' :: suf).getD pre.length ' ' = '/' := by
      simp only [List.getD_eq_getElem?_getD]
      rw [List.getElem?_append_right (le_refl _)]
      simp
    rw [if_pos this]
  | succ k ih =>
    show find_last_slash (pre ++ '/' :: suf) ((pre.length + 1 + k) + 1) = _
    unfold find_last_slash
    have hne : (pre ++ '/' :: suf).getD (pre.length + 1 + k) ' ' ≠ '/' := by
      have e : (pre ++ '/' :: suf).getD (pre.length + 1 + k) ' ' = suf.getD k ' ' := by
        simp only [List.getD_eq_getElem?_getD]
        rw [List.getElem?_append_right (by omega)]
        have : pre.length + 1 + k - pre.length = k + 1 := by omega
        rw [this]
        simp
      rw [e]
      exact getD_of_not_mem suf h k
    rw [if_neg hne]
    exact ih (by omega)

theorem find_last_slash_split (pre suf : CStr) (h : '/' ∉ suf) :
    find_last_slash (pre ++ '/' :: suf) (pre ++ '/' :: suf).length = (pre.length : Int) := by
  have := find_last_slash_append pre suf h suf.length (le_refl _)
  simpa [Nat.add_assoc, Nat.add_comm 1] using this

/-- Every string either has no slash or splits at its last slash. -/
theorem last_slash_decomp (s : CStr) :
    '/' ∉ s ∨ ∃ pre suf, s = pre ++ '/' :: suf ∧ '/' ∉ suf := by
  induction s with
  | nil => left; simp
  | cons c t ih =>
    rcases ih with h | ⟨pre, suf, hs, hn⟩
    · by_cases hc : c = '/'
      · right
        exact ⟨[], t, by simp [hc], h⟩
      · left
        simp only [List.mem_cons, not_or]
        exact ⟨fun e => hc e.symm, h⟩
    · right
      exact ⟨c :: pre, suf, by simp [hs], hn⟩

theorem dropTrailingSlashes_spec (l : List Char) :
    ∃ k, l = List.replicate k '/' ++ dropTrailingSlashes l ∧
      (dropTrailingSlashes l = [] → l = []) ∧
      (∀ t, dropTrailingSlashes l = '/' :: t → t = []) := by
  induction l with
  | nil => exact ⟨0, rfl, fun _ => rfl, fun t h => by simp [dropTrailingSlashes] at h⟩
  | cons c t ih =>
    cases t with
    | nil =>
      refine ⟨0, rfl, fun h => by simp [dropTrailingSlashes] at h, fun t h => ?_⟩
      simp only [dropTrailingSlashes, List.cons.injEq] at h
      exact h.2.symm
    | cons d rest =>
      by_cases hc : c = '/'
      · obtain ⟨k, hk, he, hs⟩ := ih
        have e : dropTrailingSlashes (c :: d :: rest) = dropTrailingSlashes (d :: rest) := by
          simp [dropTrailingSlashes, hc]
        rw [e]
        refine ⟨k + 1, ?_, fun h => absurd (he h) (by simp), hs⟩
        rw [List.replicate_succ, List.cons_append, ← hk, hc]
      · have e : dropTrailingSlashes (c :: d :: rest) = c :: d :: rest := by
          simp [dropTrailingSlashes, hc]
        rw [e]
        refine ⟨0, rfl, fun h => h, fun t h => ?_⟩
        simp only [List.cons.injEq] at h
        exact absurd h.1 hc

theorem dropTrailingSlashes_fixed (l : List Char) (h : l.head? ≠ some '/') :
    dropTrailingSlashes l = l := by
  match l with
  | [] => rfl
  | [c] => rfl
  | c :: d :: rest =>
    have hc : c ≠ '/' := by simpa using h
    simp [dropTrailingSlashes, hc]

theorem path_normalize_spec (path : CStr) :
    ∃ k, path = path_normalize path ++ List.replicate k '/' ∧
      (path_normalize path = [] → path = []) ∧
      (∀ t, path_normalize path = t ++ ['/'] → t = []) := by
  obtain ⟨k, hk, he, hs⟩ := dropTrailingSlashes_spec path.reverse
  refine ⟨k, ?_, ?_, ?_⟩
  · have := congrArg List.reverse hk
    simpa [path_normalize] using this
  · intro h
    have : dropTrailingSlashes path.reverse = [] := by
      simpa [path_normalize] using h
    simpa using he this
  · intro t h
    have : dropTrailingSlashes path.reverse = '/' :: t.reverse := by
      have := congrArg List.reverse h
      simpa [path_normalize] using this
    simpa using hs _ this

/-- A string that does not end with a slash is left as it is. -/
theorem path_normalize_fixed (path : CStr) (h : path.getLast? ≠ some '/') :
    path_normalize path = path := by
  unfold path_normalize
  rw [dropTrailingSlashes_fixed _ (by simpa [List.head?_reverse] using h), List.reverse_reverse]

theorem path_normalize_root : path_normalize ['/'] = ['/'] := rfl

theorem path_normalize_idem (path : CStr) :
    path_normalize (path_normalize path) = path_normalize path := by
  by_cases h : (path_normalize path).getLast? = some '/'
  · obtain ⟨k, _, _, hs⟩ := path_normalize_spec path
    obtain ⟨t, ht⟩ : ∃ t, path_normalize path = t ++ ['/'] := by
      rcases List.eq_nil_or_concat (path_normalize path) with hn | ⟨t, c, hc⟩
      · rw [hn] at h; simp at h
      · rw [hc] at h
        simp at h
        exact ⟨t, by rw [hc, h]; simp⟩
    have := hs t ht
    subst this
    rw [ht]
    rfl
  · exact path_normalize_fixed _ h

/-- C20: `path_normalize` removes the trailing slashes of a path, except that a
path made only of slashes becomes the root `/`: the input is the result
followed by slashes only, the result ends with a slash only when it is
exactly `/`, the empty path stays empty, and normalising twice is the same
as normalising once. -/
theorem path_normalize_strips_trailing (path : CStr) :
    (∃ k, path = path_normalize path ++ List.replicate k '/') ∧
    path_normalize path <+: path ∧
    ((path_normalize path).getLast? = some '/' → path_normalize path = ['/']) ∧
    (path ≠ [] → (∀ c ∈ path, c = '/') → path_normalize path = ['/']) ∧
    path_normalize [] = [] ∧
    path_normalize (path_normalize path) = path_normalize path := by
  obtain ⟨k, hk, he, hs⟩ := path_normalize_spec path
  have hlast : (path_normalize path).getLast? = some '/' → path_normalize path = ['/'] := by
    intro h
    rcases List.eq_nil_or_concat (path_normalize path) with hn | ⟨t, c, hc⟩
    · rw [hn] at h; simp at h
    · rw [List.concat_eq_append] at hc
      rw [hc] at h
      simp at h
      subst h
      have := hs t hc
      subst this
      exact hc
  refine ⟨⟨k, hk⟩, ⟨List.replicate k '/', hk.symm⟩, hlast, ?_, rfl, path_normalize_idem path⟩
  intro hne hall
  apply hlast
  have hnn : path_normalize path ≠ [] := fun h => hne (he h)
  have hsub : ∀ x, x ∈ path_normalize path → x ∈ path := by
    intro x hx
    rw [hk]
    exact List.mem_append_left _ hx
  have hmem : (path_normalize path).getLast hnn ∈ path := hsub _ (List.getLast_mem hnn)
  rw [List.getLast?_eq_getLast _ hnn, hall _ hmem]

/-- C19: `path_get_filename` returns what follows the last slash of the path,
or the whole path when it has no slash: the result has no slash, the path is
a prefix that is empty or ends with a slash followed by the result, and the
result is empty when the path ends with a slash. -/
theorem path_get_filename_is_last_component (path : CStr) :
    '/' ∉ path_get_filename path ∧
    (∃ pre, path = pre ++ path_get_filename path ∧
      (pre = [] ∨ pre.getLast? = some '/')) ∧
    ('/' ∉ path → path_get_filename path = path) ∧
    (path.getLast? = some '/' → path_get_filename path = []) := by
  rcases last_slash_decomp path with h | ⟨pre, suf, hs, hn⟩
  · have e : path_get_filename path = path := by
      unfold path_get_filename
      rw [find_last_slash_not_mem path h]
      rfl
    rw [e]
    refine ⟨h, ⟨[], rfl, Or.inl rfl⟩, fun _ => rfl, fun hl => ?_⟩
    exact absurd (List.mem_of_getLast?_eq_some hl) h
  · have e : path_get_filename path = suf := by
      unfold path_get_filename
      rw [hs, find_last_slash_split pre suf hn]
      simp
    rw [e]
    refine ⟨hn, ⟨pre ++ ['/'], by simp [hs], Or.inr (by simp)⟩, fun h => ?_, fun hl => ?_⟩
    · exact absurd (by simp [hs]) h
    · rcases List.eq_nil_or_concat suf with hnil | ⟨t, c, hc⟩
      · exact hnil
      · rw [List.concat_eq_append] at hc
        rw [hs, hc] at hl
        have hcs : c = '/' := by
          have : (pre ++ '/' :: (t ++ [c])) = (pre ++ '/' :: t) ++ [c] := by simp
          rw [this, List.getLast?_concat] at hl
          simpa using hl
        exact absurd (by simp [hc, hcs]) hn

/-- C17: the clipboard holds one (path, operation) pair.  After `clipboard_set`
with a Copy or Move operation and a non-empty path shorter than 512 bytes
the getters return that pair and `clipboard_has_item` is true, whatever was
stored before; after `clipboard_init` or `clipboard_clear` the path is NULL,
the operation is NONE and `clipboard_has_item` is false. -/
theorem clipboard_single_slot (old : Clipboard) (p : CStr) (op : ClipboardOp)
    (hop : op = .COPY ∨ op = .MOVE) (hne : p ≠ []) (hlen : p.length < 512) :
    (clipboard_get_path (clipboard_set p op old) = some p ∧
      clipboard_get_operation (clipboard_set p op old) = op ∧
      clipboard_has_item (clipboard_set p op old) = true) ∧
    (clipboard_get_path (clipboard_init old) = none ∧
      clipboard_get_operation (clipboard_init old) = .NONE ∧
      clipboard_has_item (clipboard_init old) = false) ∧
    (clipboard_get_path (clipboard_clear old) = none ∧
      clipboard_get_operation (clipboard_clear old) = .NONE ∧
      clipboard_has_item (clipboard_clear old) = false) := by
  have ht : p.take 511 = p := List.take_of_length_le (by omega)
  have hnone : op ≠ .NONE := by
    rcases hop with h | h <;> rw [h] <;> decide
  refine ⟨⟨?_, rfl, ?_⟩, ⟨rfl, rfl, rfl⟩, ⟨rfl, rfl, rfl⟩⟩
  · simp [clipboard_get_path, clipboard_set, hnone, ht]
  · simp [clipboard_has_item, clipboard_set, hnone, ht, hne]

theorem clipboard_single_slot_witness :
    (clipboard_get_path (clipboard_set "/a/f".toList .MOVE ⟨"/old".toList, .COPY⟩)
        = some "/a/f".toList ∧
      clipboard_get_operation (clipboard_set "/a/f".toList .MOVE ⟨"/old".toList, .COPY⟩)
        = .MOVE ∧
      clipboard_has_item (clipboard_set "/a/f".toList .MOVE ⟨"/old".toList, .COPY⟩) = true) ∧
    (clipboard_get_path (clipboard_init ⟨"/old".toList, .COPY⟩) = none ∧
      clipboard_get_operation (clipboard_init ⟨"/old".toList, .COPY⟩) = .NONE ∧
      clipboard_has_item (clipboard_init ⟨"/old".toList, .COPY⟩) = false) ∧
    (clipboard_get_path (clipboard_clear ⟨"/old".toList, .COPY⟩) = none ∧
      clipboard_get_operation (clipboard_clear ⟨"/old".toList, .COPY⟩) = .NONE ∧
      clipboard_has_item (clipboard_clear ⟨"/old".toList, .COPY⟩) = false) :=
  clipboard_single_slot ⟨"/old".toList, .COPY⟩ "/a/f".toList .MOVE (Or.inr rfl)
    (by decide) (by decide)

theorem getLast?_split (pre suf : CStr) (hn : '/' ∉ suf) (hne : suf ≠ []) :
    (pre ++ '/' :: suf).getLast? ≠ some '/' := by
  intro h
  rcases List.eq_nil_or_concat suf with hnil | ⟨t, c, hc⟩
  · exact hne hnil
  · rw [List.concat_eq_append] at hc
    subst hc
    have e : pre ++ '/' :: (t ++ [c]) = (pre ++ '/' :: t) ++ [c] := by simp
    rw [e, List.getLast?_concat] at h
    simp only [Option.some.injEq] at h
    exact hn (by simp [h])

/-- What `path_get_parent` computes for a path that fits the buffer and does
not end with a slash, split at its last slash. -/
theorem path_get_parent_split (pre suf : CStr) (hn : '/' ∉ suf) (hne : suf ≠ [])
    (hlen : (pre ++ '/' :: suf).length ≤ 511) :
    path_get_parent (pre ++ '/' :: suf) =
      if pre = [] then (-1, pre ++ '/' :: suf) else (0, pre) := by
  unfold path_get_parent str_copy
  simp only
  rw [List.take_of_length_le (by omega),
    path_normalize_fixed _ (getLast?_split pre suf hn hne), find_last_slash_split pre suf hn]
  by_cases hp : pre = []
  · subst hp
    simp
  · have hpos : 0 < pre.length := List.length_pos.2 hp
    have : ¬ ((pre.length : Int) ≤ 0) := by omega
    rw [if_neg this, if_neg hp]
    simp

/-- C18: for an entry directly under the root, written `/name`,
`path_get_parent` returns -1 and leaves the whole path in `dest`; it does
not return 0 with `dest = "/"`. -/
theorem path_get_parent_root_child (name : CStr) (hne : name ≠ []) (hn : '/' ∉ name)
    (hlen : name.length ≤ 510) :
    path_get_parent ('/' :: name) = (-1, '/' :: name) ∧
      path_get_parent ('/' :: name) ≠ (0, ['/']) := by
  have h := path_get_parent_split [] name hn hne (by simpa using by omega)
  simp only [List.nil_append, if_true] at h
  rw [h]
  exact ⟨rfl, by simp⟩

theorem path_get_parent_root_child_witness :
    path_get_parent "/name".toList = (-1, "/name".toList) ∧
      path_get_parent "/name".toList ≠ (0, ['/']) :=
  path_get_parent_root_child "name".toList (by decide) (by decide) (by decide)

/-! ## Overlay menu -/

theorem list_length_eight {α : Type} (l : List α) (h : l.length = 8) :
    ∃ a b c d e f g i, l = [a, b, c, d, e, f, g, i] := by
  match l, h with
  | [a, b, c, d, e, f, g, i], _ => exact ⟨a, b, c, d, e, f, g, i, rfl⟩

theorem has_extension_iff (name ext : CStr) :
    has_extension name ext = true ↔ EndsWithNoCase name ext := by
  unfold has_extension EndsWithNoCase strcasecmp_eq
  simp only
  constructor
  · intro h
    by_cases hl : name.length < ext.length
    · rw [if_pos hl] at h
      exact absurd h (by decide)
    · rw [if_neg hl] at h
      exact ⟨name.take (name.length - ext.length), name.drop (name.length - ext.length),
        (List.take_append_drop _ _).symm, by simpa using h⟩
  · rintro ⟨pre, suf, hn, hs⟩
    have hlen : suf.length = ext.length := by
      have := congrArg List.length hs
      simpa using this
    have hnl : name.length = pre.length + ext.length := by
      rw [hn, List.length_append, hlen]
    rw [if_neg (by omega)]
    have hd : name.drop (name.length - ext.length) = suf := by
      have : name.length - ext.length = pre.length := by omega
      rw [this, hn, List.drop_left]
    rw [hd]
    simpa using hs

/-- The state after the five base options have been added. -/
theorem overlay_base (ui : UIState) (a b c d e f g i : Int) (la lb lc ld le lf lg li : CStr)
    (hc : ui.overlay_codes = [a, b, c, d, e, f, g, i])
    (hl : ui.overlay_labels = [la, lb, lc, ld, le, lf, lg, li]) :
    basic_options.foldl (fun u o => overlay_add o.1 o.2 u)
        { ui with overlay_active := 1, overlay_selected := 0, overlay_count := 0 } =
      { ui with overlay_active := 1, overlay_selected := 0, overlay_count := 5,
                overlay_codes := [0, 1, 2, 3, 4, f, g, i],
                overlay_labels := ["Copy".toList, "Paste".toList, "Move".toList,
                  "Delete".toList, "Rename".toList, lf, lg, li] } := by
  simp only [basic_options, List.foldl, overlay_add, hc, hl]
  rfl

theorem ui_open_overlay_eq (ui : UIState) :
    ui_open_overlay ui =
      match ui_get_selected_entry ui with
      | none => { ui with overlay_active := 1, overlay_selected := 0, overlay_count := 0 }
      | some sel =>
        if !sel.is_dir then
          if is_installer_file sel.name then
            overlay_add "Install".toList UI_OP_INSTALL
              (if is_nro_file sel.name then
                overlay_add "Launch".toList UI_OP_LAUNCH
                  (basic_options.foldl (fun u o => overlay_add o.1 o.2 u)
                    { ui with overlay_active := 1, overlay_selected := 0, overlay_count := 0 })
               else basic_options.foldl (fun u o => overlay_add o.1 o.2 u)
                    { ui with overlay_active := 1, overlay_selected := 0, overlay_count := 0 })
          else
            (if is_nro_file sel.name then
                overlay_add "Launch".toList UI_OP_LAUNCH
                  (basic_options.foldl (fun u o => overlay_add o.1 o.2 u)
                    { ui with overlay_active := 1, overlay_selected := 0, overlay_count := 0 })
               else basic_options.foldl (fun u o => overlay_add o.1 o.2 u)
                    { ui with overlay_active := 1, overlay_selected := 0, overlay_count := 0 })
        else basic_options.foldl (fun u o => overlay_add o.1 o.2 u)
              { ui with overlay_active := 1, overlay_selected := 0, overlay_count := 0 } := rfl

/-- C13: for a selected directory, whatever its name, `ui_open_overlay` leaves
the overlay active with `overlay_selected = 0` and `overlay_count = 5`, and
the options are Copy, Paste, Move, Delete, Rename (labels and codes 0..4) in
that order. -/
theorem overlay_for_directory (ui : UIState) (sel : FsEntry)
    (hc : ui.overlay_codes.length = 8) (hl : ui.overlay_labels.length = 8)
    (hsel : ui_get_selected_entry ui = some sel) (hdir : sel.is_dir = true) :
    (ui_open_overlay ui).overlay_active = 1 ∧
    (ui_open_overlay ui).overlay_selected = 0 ∧
    (ui_open_overlay ui).overlay_count = 5 ∧
    overlay_options (ui_open_overlay ui) = baseMenu ∧
    (ui_open_overlay ui).overlay_codes.take 5 =
      [UI_OP_COPY, UI_OP_PASTE, UI_OP_MOVE, UI_OP_DELETE, UI_OP_RENAME] ∧
    (ui_open_overlay ui).overlay_labels.take 5 =
      ["Copy".toList, "Paste".toList, "Move".toList, "Delete".toList, "Rename".toList] := by
  obtain ⟨a, b, c, d, e, f, g, i, hcs⟩ := list_length_eight _ hc
  obtain ⟨la, lb, lc, ld, le, lf, lg, li, hls⟩ := list_length_eight _ hl
  rw [ui_open_overlay_eq, hsel]
  simp only [hdir, Bool.not_true, Bool.false_eq_true, if_false]
  rw [overlay_base ui a b c d e f g i la lb lc ld le lf lg li hcs hls]
  refine ⟨rfl, rfl, rfl, rfl, rfl, rfl⟩

theorem overlay_for_directory_witness :
    (ui_open_overlay (uiOn ⟨"pack.nro".toList, true, 0⟩)).overlay_active = 1 ∧
    (ui_open_overlay (uiOn ⟨"pack.nro".toList, true, 0⟩)).overlay_selected = 0 ∧
    (ui_open_overlay (uiOn ⟨"pack.nro".toList, true, 0⟩)).overlay_count = 5 ∧
    overlay_options (ui_open_overlay (uiOn ⟨"pack.nro".toList, true, 0⟩)) = baseMenu ∧
    (ui_open_overlay (uiOn ⟨"pack.nro".toList, true, 0⟩)).overlay_codes.take 5 =
      [UI_OP_COPY, UI_OP_PASTE, UI_OP_MOVE, UI_OP_DELETE, UI_OP_RENAME] ∧
    (ui_open_overlay (uiOn ⟨"pack.nro".toList, true, 0⟩)).overlay_labels.take 5 =
      ["Copy".toList, "Paste".toList, "Move".toList, "Delete".toList, "Rename".toList] :=
  overlay_for_directory (uiOn ⟨"pack.nro".toList, true, 0⟩) ⟨"pack.nro".toList, true, 0⟩
    rfl rfl rfl rfl

theorem nro_not_installer (name : CStr) (h1 : is_nro_file name = true) :
    is_installer_file name = false := by
  unfold is_nro_file has_extension strcasecmp_eq at h1
  simp only at h1
  by_cases hl : name.length < 4
  · have e : ∀ ext : CStr, ext.length = 4 → has_extension name ext = false := by
      intro ext he
      unfold has_extension
      simp only [he, hl, if_true]
    unfold is_installer_file
    rw [e ".nsp".toList rfl, e ".nsz".toList rfl, e ".xci".toList rfl,
      e ".xcz".toList rfl]
    rfl
  · have hl2 : ¬ name.length < ".nro".toList.length := hl
    rw [if_neg hl2] at h1
    have h4 : ".nro".toList.length = 4 := rfl
    rw [h4] at h1
    have h1b : (name.drop (name.length - 4)).map Char.toLower = ".nro".toList := by
      simpa using h1
    have e : ∀ ext : CStr, ext.length = 4 → ext.map Char.toLower ≠ ".nro".toList →
        has_extension name ext = false := by
      intro ext he hne
      unfold has_extension strcasecmp_eq
      simp only [he, hl, if_false]
      rw [h1b]
      simpa using fun h => hne h.symm
    unfold is_installer_file
    rw [e ".nsp".toList rfl (by decide), e ".nsz".toList rfl (by decide),
      e ".xci".toList rfl (by decide), e ".xcz".toList rfl (by decide)]
    rfl

/-- C14: for a selected file, `ui_open_overlay` lists the five base operations,
then Launch exactly when the name ends with `.nro`, then Install exactly
when the name ends with `.nsp`, `.nsz`, `.xci` or `.xcz`, the extension being
compared without regard to letter case; Launch and Install never appear
together. -/
theorem overlay_for_file (ui : UIState) (sel : FsEntry)
    (hc : ui.overlay_codes.length = 8) (hl : ui.overlay_labels.length = 8)
    (hsel : ui_get_selected_entry ui = some sel) (hfile : sel.is_dir = false) :
    ∃ launch install : Bool,
      (launch = true ↔ EndsWithNoCase sel.name ".nro".toList) ∧
      (install = true ↔ (EndsWithNoCase sel.name ".nsp".toList ∨
        EndsWithNoCase sel.name ".nsz".toList ∨ EndsWithNoCase sel.name ".xci".toList ∨
        EndsWithNoCase sel.name ".xcz".toList)) ∧
      ¬ (launch = true ∧ install = true) ∧
      overlay_options (ui_open_overlay ui) =
        baseMenu ++ (if launch then [("Launch".toList, UI_OP_LAUNCH)] else []) ++
          (if install then [("Install".toList, UI_OP_INSTALL)] else []) ∧
      (ui_open_overlay ui).overlay_count =
        5 + (if launch then 1 else 0) + (if install then 1 else 0) ∧
      (ui_open_overlay ui).overlay_active = 1 ∧
      (ui_open_overlay ui).overlay_selected = 0 := by
  obtain ⟨a, b, c, d, e, f, g, i, hcs⟩ := list_length_eight _ hc
  obtain ⟨la, lb, lc, ld, le, lf, lg, li, hls⟩ := list_length_eight _ hl
  refine ⟨is_nro_file sel.name, is_installer_file sel.name, has_extension_iff _ _, ?_, ?_, ?_⟩
  · unfold is_installer_file
    simp only [Bool.or_eq_true, has_extension_iff, or_assoc]
  · rintro ⟨h1, h2⟩
    rw [nro_not_installer _ h1] at h2
    exact absurd h2 (by decide)
  · rw [ui_open_overlay_eq, hsel]
    simp only [hfile, Bool.not_false, if_true]
    rw [overlay_base ui a b c d e f g i la lb lc ld le lf lg li hcs hls]
    have hex := nro_not_installer sel.name
    cases h1 : is_nro_file sel.name <;> cases h2 : is_installer_file sel.name
    · exact ⟨rfl, rfl, rfl, rfl⟩
    · exact ⟨rfl, rfl, rfl, rfl⟩
    · exact ⟨rfl, rfl, rfl, rfl⟩
    · rw [hex h1] at h2
      exact absurd h2 (by decide)

theorem overlay_for_file_witness :
    ∃ launch install : Bool,
      (launch = true ↔ EndsWithNoCase "Game.XCI".toList ".nro".toList) ∧
      (install = true ↔ (EndsWithNoCase "Game.XCI".toList ".nsp".toList ∨
        EndsWithNoCase "Game.XCI".toList ".nsz".toList ∨
        EndsWithNoCase "Game.XCI".toList ".xci".toList ∨
        EndsWithNoCase "Game.XCI".toList ".xcz".toList)) ∧
      ¬ (launch = true ∧ install = true) ∧
      overlay_options (ui_open_overlay (uiOn ⟨"Game.XCI".toList, false, 7⟩)) =
        baseMenu ++ (if launch then [("Launch".toList, UI_OP_LAUNCH)] else []) ++
          (if install then [("Install".toList, UI_OP_INSTALL)] else []) ∧
      (ui_open_overlay (uiOn ⟨"Game.XCI".toList, false, 7⟩)).overlay_count =
        5 + (if launch then 1 else 0) + (if install then 1 else 0) ∧
      (ui_open_overlay (uiOn ⟨"Game.XCI".toList, false, 7⟩)).overlay_active = 1 ∧
      (ui_open_overlay (uiOn ⟨"Game.XCI".toList, false, 7⟩)).overlay_selected = 0 :=
  overlay_for_file (uiOn ⟨"Game.XCI".toList, false, 7⟩) ⟨"Game.XCI".toList, false, 7⟩
    rfl rfl rfl rfl

theorem overlay_add_count (l : CStr) (c : Int) (u : UIState) :
    (overlay_add l c u).overlay_count = u.overlay_count + 1 ∧
    (overlay_add l c u).overlay_selected = u.overlay_selected ∧
    (overlay_add l c u).overlay_active = u.overlay_active := ⟨rfl, rfl, rfl⟩

theorem ui_open_overlay_count (ui : UIState) :
    (ui_open_overlay ui).overlay_selected = 0 ∧ (ui_open_overlay ui).overlay_active = 1 ∧
    (ui_get_selected_entry ui = none → (ui_open_overlay ui).overlay_count = 0) ∧
    (ui_get_selected_entry ui ≠ none →
      5 ≤ (ui_open_overlay ui).overlay_count ∧ (ui_open_overlay ui).overlay_count ≤ 7) := by
  rw [ui_open_overlay_eq]
  rcases hsel : ui_get_selected_entry ui with _ | sel
  · exact ⟨rfl, rfl, fun _ => rfl, fun h => absurd rfl h⟩
  · simp only
    cases sel.is_dir <;> cases is_nro_file sel.name <;> cases is_installer_file sel.name <;>
      refine ⟨rfl, rfl, fun h => absurd h (by simp), fun _ => ?_⟩ <;>
      first
        | exact (show (5 : Int) ≤ 5 ∧ (5 : Int) ≤ 7 from by decide)
        | exact (show (5 : Int) ≤ 6 ∧ (6 : Int) ≤ 7 from by decide)
        | exact (show (5 : Int) ≤ 7 ∧ (7 : Int) ≤ 7 from by decide)

/-- What one overlay key press keeps. -/
theorem OverlayOp.apply_keeps (op : OverlayOp) (s : UIState)
    (h0 : 0 ≤ s.overlay_selected)
    (h1 : s.overlay_selected ≤ s.overlay_count - 1 ∨ s.overlay_selected = 0) :
    (op.apply s).overlay_count = s.overlay_count ∧
    (op.apply s).overlay_active = s.overlay_active ∧
    0 ≤ (op.apply s).overlay_selected ∧
    ((op.apply s).overlay_selected ≤ s.overlay_count - 1 ∨ (op.apply s).overlay_selected = 0) := by
  cases op
  · simp only [OverlayOp.apply, ui_overlay_select_next]
    split_ifs with ha hb
    · exact ⟨rfl, rfl, h0, h1⟩
    · refine ⟨rfl, rfl, ?_, Or.inl ?_⟩
      · show 0 ≤ s.overlay_selected + 1
        omega
      · show s.overlay_selected + 1 ≤ s.overlay_count - 1
        omega
    · exact ⟨rfl, rfl, h0, h1⟩
  · simp only [OverlayOp.apply, ui_overlay_select_prev]
    split_ifs with ha hb
    · exact ⟨rfl, rfl, h0, h1⟩
    · refine ⟨rfl, rfl, ?_, ?_⟩
      · show 0 ≤ s.overlay_selected - 1
        omega
      · show s.overlay_selected - 1 ≤ s.overlay_count - 1 ∨ s.overlay_selected - 1 = 0
        omega
    · exact ⟨rfl, rfl, h0, h1⟩

theorem runOverlay_keeps (ops : List OverlayOp) (s : UIState)
    (h0 : 0 ≤ s.overlay_selected)
    (h1 : s.overlay_selected ≤ s.overlay_count - 1 ∨ s.overlay_selected = 0) :
    (runOverlay ops s).overlay_count = s.overlay_count ∧
    (runOverlay ops s).overlay_active = s.overlay_active ∧
    0 ≤ (runOverlay ops s).overlay_selected ∧
    ((runOverlay ops s).overlay_selected ≤ s.overlay_count - 1 ∨
      (runOverlay ops s).overlay_selected = 0) := by
  induction ops generalizing s with
  | nil => exact ⟨rfl, rfl, h0, h1⟩
  | cons op rest ih =>
    obtain ⟨hc, ha, h0a, h1a⟩ := op.apply_keeps s h0 h1
    have := ih (op.apply s) h0a (by rw [hc]; exact h1a)
    rw [hc, ha] at this
    exact this

/-- C15: after `ui_open_overlay` and any sequence of `ui_overlay_select_next` /
`ui_overlay_select_prev` calls the option count is the one set on opening,
at most 7 of the 8 slots; when an entry is selected the count is at least 5
and `overlay_selected` lies in `[0, overlay_count - 1]`; when no entry is
selected the count is 0 and `overlay_selected` stays 0; in every case
`0 ≤ overlay_selected < 8`.  `ui_overlay_select_prev` at 0 and
`ui_overlay_select_next` at `overlay_count - 1` change nothing, and a call
moves the selection by at most one. -/
theorem overlay_selection_clamped (ui : UIState) (ops : List OverlayOp) :
    (runOverlay ops (ui_open_overlay ui)).overlay_count = (ui_open_overlay ui).overlay_count ∧
    (ui_get_selected_entry ui ≠ none →
      5 ≤ (runOverlay ops (ui_open_overlay ui)).overlay_count ∧
      (runOverlay ops (ui_open_overlay ui)).overlay_count ≤ 7 ∧
      0 ≤ (runOverlay ops (ui_open_overlay ui)).overlay_selected ∧
      (runOverlay ops (ui_open_overlay ui)).overlay_selected ≤
        (runOverlay ops (ui_open_overlay ui)).overlay_count - 1) ∧
    (ui_get_selected_entry ui = none →
      (runOverlay ops (ui_open_overlay ui)).overlay_count = 0 ∧
      (runOverlay ops (ui_open_overlay ui)).overlay_selected = 0) ∧
    (0 ≤ (runOverlay ops (ui_open_overlay ui)).overlay_selected ∧
      (runOverlay ops (ui_open_overlay ui)).overlay_selected < 8 ∧
      (runOverlay ops (ui_open_overlay ui)).overlay_count ≤ 7) ∧
    (∀ s : UIState, s.overlay_selected = 0 → ui_overlay_select_prev s = s) ∧
    (∀ s : UIState, s.overlay_selected = s.overlay_count - 1 → ui_overlay_select_next s = s) ∧
    (∀ s : UIState,
      ((ui_overlay_select_next s).overlay_selected = s.overlay_selected ∨
        (ui_overlay_select_next s).overlay_selected = s.overlay_selected + 1) ∧
      ((ui_overlay_select_prev s).overlay_selected = s.overlay_selected ∨
        (ui_overlay_select_prev s).overlay_selected = s.overlay_selected - 1)) := by
  obtain ⟨hs, _, hnone, hsome⟩ := ui_open_overlay_count ui
  obtain ⟨hc, _, h0, h1⟩ := runOverlay_keeps ops (ui_open_overlay ui) (by rw [hs])
    (Or.inr hs)
  refine ⟨hc, ?_, ?_, ?_, ?_, ?_, ?_⟩
  · intro hne
    obtain ⟨h5, h7⟩ := hsome hne
    rw [hc]
    refine ⟨h5, h7, h0, ?_⟩
    omega
  · intro hn
    rw [hc]
    have := hnone hn
    refine ⟨this, ?_⟩
    omega
  · rw [hc]
    by_cases hn : ui_get_selected_entry ui = none
    · have := hnone hn
      omega
    · obtain ⟨h5, h7⟩ := hsome hn
      omega
  · intro s h
    unfold ui_overlay_select_prev
    split_ifs with ha hb
    · rfl
    · omega
    · rfl
  · intro s h
    unfold ui_overlay_select_next
    split_ifs with ha hb
    · rfl
    · omega
    · rfl
  · intro s
    constructor
    · unfold ui_overlay_select_next
      split_ifs
      · exact Or.inl rfl
      · exact Or.inr rfl
      · exact Or.inl rfl
    · unfold ui_overlay_select_prev
      split_ifs
      · exact Or.inl rfl
      · exact Or.inr rfl
      · exact Or.inl rfl

/-- C15, as stated, fails on an empty directory: the overlay opens with no
option, and `overlay_selected = 0` is then above `overlay_count - 1 = -1`. -/
theorem overlay_selection_empty_directory :
    ¬ (0 ≤ (runOverlay [.next, .prev] (ui_open_overlay emptyUI)).overlay_selected ∧
        (runOverlay [.next, .prev] (ui_open_overlay emptyUI)).overlay_selected ≤
          (runOverlay [.next, .prev] (ui_open_overlay emptyUI)).overlay_count - 1) := by
  decide

/-! ## Directory listing -/

section ListingTheorems
variable {σ : Type}

theorem fs_list_loop_entries (px : Posix σ) (path : CStr)
    (halloc : ∀ n w, (px.alloc n w).1 = true) (stream : List Dirent) :
    ∀ (fs_dir : FsDirectory) (w : σ),
      (fs_list_loop px path stream fs_dir w).1.entries.map (fun e => (e.name, e.is_dir)) =
        fs_dir.entries.map (fun e => (e.name, e.is_dir)) ++
          (stream.filter (fun e => decide (e.d_name ≠ ['.'] ∧ e.d_name ≠ ['.', '.']))).map
            (fun e => (e.d_name.take 255, decide (e.d_type = DT_DIR))) := by
  induction stream with
  | nil =>
    intro fs_dir w
    simp [fs_list_loop]
  | cons entry rest ih =>
    intro fs_dir w
    rw [fs_list_loop]
    by_cases hdot : is_dot_or_dotdot entry.d_name = true
    · rw [if_pos hdot, ih]
      have : decide (entry.d_name ≠ ['.'] ∧ entry.d_name ≠ ['.', '.']) = false := by
        simp only [is_dot_or_dotdot, Bool.or_eq_true, beq_iff_eq] at hdot
        simp only [decide_eq_false_iff_not]
        tauto
      rw [List.filter_cons_of_neg (by simpa using this)]
    · rw [if_neg hdot]
      have hkeep : decide (entry.d_name ≠ ['.'] ∧ entry.d_name ≠ ['.', '.']) = true := by
        simp only [is_dot_or_dotdot, Bool.or_eq_true, beq_iff_eq] at hdot
        simp only [decide_eq_true_eq]
        tauto
      rw [List.filter_cons, if_pos hkeep]
      simp only
      generalize hr : (if decide (fs_dir.count ≥ (fs_dir.capacity : Int)) = true
        then px.alloc (sizeof_FsEntry *
          (if decide (fs_dir.count ≥ (fs_dir.capacity : Int)) = true then fs_dir.capacity * 2
            else fs_dir.capacity)) w else (true, w)) = r
      have hok : r.1 = true := by
        rw [← hr]
        split_ifs
        · exact halloc _ _
        · rfl
      obtain ⟨ok, w2⟩ := r
      simp only at hok
      subst hok
      simp only [Bool.not_true, Bool.false_eq_true, if_false]
      rw [ih]
      simp

theorem fs_list_directory_open (px : Posix σ) (path : CStr) (w w1 : σ) (stream : List Dirent)
    (hopen : px.opendir path w = (some stream, w1)) :
    fs_list_directory px path w =
      if !((px.alloc sizeof_FsDirectory w1).1) then
        (none, px.closedir (px.alloc sizeof_FsDirectory w1).2)
      else if !((px.alloc (sizeof_FsEntry * 32) (px.alloc sizeof_FsDirectory w1).2).1) then
        (none, px.closedir (px.alloc (sizeof_FsEntry * 32) (px.alloc sizeof_FsDirectory w1).2).2)
      else
        (some (fs_list_loop px path stream { entries := [], capacity := 32 }
            (px.alloc (sizeof_FsEntry * 32) (px.alloc sizeof_FsDirectory w1).2).2).1,
          (fs_list_loop px path stream { entries := [], capacity := 32 }
            (px.alloc (sizeof_FsEntry * 32) (px.alloc sizeof_FsDirectory w1).2).2).2) := by
  unfold fs_list_directory
  rw [hopen]

/-- C16: when the directory opens and no allocation fails, `fs_list_directory`
returns the children that the enumeration produced, without `.` and `..`,
in enumeration order (names and directory flags), and `count` is their
number. -/
theorem fs_list_directory_children (px : Posix σ) (path : CStr) (w w1 : σ)
    (stream : List Dirent)
    (hopen : px.opendir path w = (some stream, w1))
    (halloc : ∀ n w, (px.alloc n w).1 = true)
    (hname : ∀ e ∈ stream, e.d_name.length ≤ 255) :
    ∃ d, (fs_list_directory px path w).1 = some d ∧
      d.entries.map (fun e => e.name) =
        (stream.filter (fun e => decide (e.d_name ≠ ['.'] ∧ e.d_name ≠ ['.', '.']))).map
          (fun e => e.d_name) ∧
      d.entries.map (fun e => e.is_dir) =
        (stream.filter (fun e => decide (e.d_name ≠ ['.'] ∧ e.d_name ≠ ['.', '.']))).map
          (fun e => decide (e.d_type = DT_DIR)) ∧
      d.count =
        ((stream.filter (fun e => decide (e.d_name ≠ ['.'] ∧ e.d_name ≠ ['.', '.']))).length
          : Int) ∧
      (∀ e ∈ d.entries, e.name ≠ ['.'] ∧ e.name ≠ ['.', '.']) := by
  have hloop := fun w2 => fs_list_loop_entries px path halloc stream
    { entries := [], capacity := 32 } w2
  rw [fs_list_directory_open px path w w1 stream hopen, if_neg (by simp [halloc]),
    if_neg (by simp [halloc])]
  generalize (px.alloc (sizeof_FsEntry * 32) (px.alloc sizeof_FsDirectory w1).2).2 = w3
  have h := hloop w3
  simp only [List.map_nil, List.nil_append] at h
  generalize fs_list_loop px path stream { entries := [], capacity := 32 } w3 = res at h ⊢
  obtain ⟨d, w4⟩ := res
  simp only at h
  have htake : (stream.filter (fun e =>
      decide (e.d_name ≠ ['.'] ∧ e.d_name ≠ ['.', '.']))).map
        (fun e => (e.d_name.take 255, decide (e.d_type = DT_DIR))) =
      (stream.filter (fun e => decide (e.d_name ≠ ['.'] ∧ e.d_name ≠ ['.', '.']))).map
        (fun e => (e.d_name, decide (e.d_type = DT_DIR))) := by
    apply List.map_congr_left
    intro e he
    rw [List.take_of_length_le (hname e (List.mem_of_mem_filter he))]
  rw [htake] at h
  have hn : d.entries.map (fun e => e.name) =
      (stream.filter (fun e => decide (e.d_name ≠ ['.'] ∧ e.d_name ≠ ['.', '.']))).map
        (fun e => e.d_name) := by
    have := congrArg (List.map Prod.fst) h
    simpa [List.map_map, Function.comp_def] using this
  have hd : d.entries.map (fun e => e.is_dir) =
      (stream.filter (fun e => decide (e.d_name ≠ ['.'] ∧ e.d_name ≠ ['.', '.']))).map
        (fun e => decide (e.d_type = DT_DIR)) := by
    have := congrArg (List.map Prod.snd) h
    simpa [List.map_map, Function.comp_def] using this
  refine ⟨d, rfl, hn, hd, ?_, ?_⟩
  · have := congrArg List.length hn
    simp only [List.length_map] at this
    simp only [FsDirectory.count, this]
  · intro e he
    have hm : e.name ∈ d.entries.map (fun e => e.name) := List.mem_map_of_mem _ he
    rw [hn] at hm
    obtain ⟨x, hx, hxe⟩ := List.mem_map.1 hm
    have := (List.mem_filter.1 hx).2
    simp only [decide_eq_true_eq] at this
    rw [← hxe]
    exact this

end ListingTheorems

theorem fs_list_directory_children_witness :
    ∃ d, (fs_list_directory Card.posix ['/'] sampleCard).1 = some d ∧
      d.entries.map (fun e => e.name) =
        (([⟨['.'], DT_DIR⟩, ⟨['.', '.'], DT_DIR⟩, ⟨['a'], DT_DIR⟩, ⟨['b'], DT_DIR⟩,
            ⟨['c'], DT_DIR⟩] : List Dirent).filter
          (fun e => decide (e.d_name ≠ ['.'] ∧ e.d_name ≠ ['.', '.']))).map
          (fun e => e.d_name) ∧
      d.entries.map (fun e => e.is_dir) =
        (([⟨['.'], DT_DIR⟩, ⟨['.', '.'], DT_DIR⟩, ⟨['a'], DT_DIR⟩, ⟨['b'], DT_DIR⟩,
            ⟨['c'], DT_DIR⟩] : List Dirent).filter
          (fun e => decide (e.d_name ≠ ['.'] ∧ e.d_name ≠ ['.', '.']))).map
          (fun e => decide (e.d_type = DT_DIR)) ∧
      d.count =
        ((([⟨['.'], DT_DIR⟩, ⟨['.', '.'], DT_DIR⟩, ⟨['a'], DT_DIR⟩, ⟨['b'], DT_DIR⟩,
            ⟨['c'], DT_DIR⟩] : List Dirent).filter
          (fun e => decide (e.d_name ≠ ['.'] ∧ e.d_name ≠ ['.', '.']))).length : Int) ∧
      (∀ e ∈ d.entries, e.name ≠ ['.'] ∧ e.name ≠ ['.', '.']) :=
  fs_list_directory_children Card.posix ['/'] sampleCard sampleCard
    [⟨['.'], DT_DIR⟩, ⟨['.', '.'], DT_DIR⟩, ⟨['a'], DT_DIR⟩, ⟨['b'], DT_DIR⟩, ⟨['c'], DT_DIR⟩]
    (by decide) (fun _ _ => rfl) (by decide)

/-! ## Rename -/

section RenameSteps
variable {σ δ φ : Type}

theorem rename_item_eq (api : Libnx σ δ φ) (path newname : CStr) (w : σ) :
    rename_item api path newname w =
      if (path_get_parent path).1 ≠ 0 then (-1, w)
      else if R_FAILED (api.fsOpenSdCardFileSystem w).1 = true then
        (-1, (api.fsOpenSdCardFileSystem w).2)
      else if R_SUCCEEDED (api.fsFsOpenDirectory (normalize_sd_path path 512)
                FsDirOpenMode_ReadDirs (api.fsOpenSdCardFileSystem w).2).1 = true then
        (if R_FAILED (api.fsFsRenameDirectory (normalize_sd_path path 512)
              (normalize_sd_path (snprintf_join 512 (path_get_parent path).2 newname) 512)
              (api.fsDirClose
                (api.fsFsOpenDirectory (normalize_sd_path path 512)
                  FsDirOpenMode_ReadDirs (api.fsOpenSdCardFileSystem w).2).2.1
                (api.fsFsOpenDirectory (normalize_sd_path path 512)
                  FsDirOpenMode_ReadDirs (api.fsOpenSdCardFileSystem w).2).2.2)).1 = true
         then (-1 : Int) else 0,
         api.fsFsClose (api.fsFsRenameDirectory (normalize_sd_path path 512)
              (normalize_sd_path (snprintf_join 512 (path_get_parent path).2 newname) 512)
              (api.fsDirClose
                (api.fsFsOpenDirectory (normalize_sd_path path 512)
                  FsDirOpenMode_ReadDirs (api.fsOpenSdCardFileSystem w).2).2.1
                (api.fsFsOpenDirectory (normalize_sd_path path 512)
                  FsDirOpenMode_ReadDirs (api.fsOpenSdCardFileSystem w).2).2.2)).2)
      else
        (if R_FAILED (api.fsFsRenameFile (normalize_sd_path path 512)
              (normalize_sd_path (snprintf_join 512 (path_get_parent path).2 newname) 512)
              (api.fsFsOpenDirectory (normalize_sd_path path 512)
                  FsDirOpenMode_ReadDirs (api.fsOpenSdCardFileSystem w).2).2.2).1 = true
         then (-1 : Int) else 0,
         api.fsFsClose (api.fsFsRenameFile (normalize_sd_path path 512)
              (normalize_sd_path (snprintf_join 512 (path_get_parent path).2 newname) 512)
              (api.fsFsOpenDirectory (normalize_sd_path path 512)
                  FsDirOpenMode_ReadDirs (api.fsOpenSdCardFileSystem w).2).2.2).2) := by
  unfold rename_item
  by_cases h0 : (path_get_parent path).1 ≠ 0
  · simp only [h0, if_true, ne_eq, not_false_eq_true]
  · rw [if_neg h0]
    simp only [h0, if_false]
    by_cases h1 : R_FAILED (api.fsOpenSdCardFileSystem w).1 = true
    · simp only [h1, if_true]
    · simp only [h1, if_false]
      by_cases h2 : R_SUCCEEDED (api.fsFsOpenDirectory (normalize_sd_path path 512)
                FsDirOpenMode_ReadDirs (api.fsOpenSdCardFileSystem w).2).1 = true
      · simp only [h2, if_true]
        split_ifs <;> rfl
      · simp only [h2, if_false]
        split_ifs <;> rfl

theorem rename_item_step (api : Libnx σ δ φ) (path newname : CStr) (w : σ)
    (parent : CStr) (hp : path_get_parent path = (0, parent))
    (rc1 : Result) (w1 : σ) (ho : api.fsOpenSdCardFileSystem w = (rc1, w1))
    (rc2 : Result) (dir : δ) (w2 : σ)
    (hod : api.fsFsOpenDirectory (normalize_sd_path path 512) FsDirOpenMode_ReadDirs w1
      = (rc2, dir, w2))
    (rc3 : Result) (w3 : σ)
    (hrd : api.fsFsRenameDirectory (normalize_sd_path path 512)
      (normalize_sd_path (snprintf_join 512 parent newname) 512) (api.fsDirClose dir w2)
      = (rc3, w3))
    (rc4 : Result) (w4 : σ)
    (hrf : api.fsFsRenameFile (normalize_sd_path path 512)
      (normalize_sd_path (snprintf_join 512 parent newname) 512) w2 = (rc4, w4)) :
    rename_item api path newname w =
      if R_FAILED rc1 = true then (-1, w1)
      else if R_SUCCEEDED rc2 = true then
        (if R_FAILED rc3 = true then (-1 : Int) else 0, api.fsFsClose w3)
      else (if R_FAILED rc4 = true then (-1 : Int) else 0, api.fsFsClose w4) := by
  have e := rename_item_eq api path newname w
  rw [hp] at e
  dsimp only at e
  rw [ho] at e
  dsimp only at e
  rw [hod] at e
  dsimp only at e
  rw [hrd, hrf] at e
  simpa using e

theorem rename_item_no_parent (api : Libnx σ δ φ) (path newname : CStr) (w : σ)
    (hp : (path_get_parent path).1 ≠ 0) : rename_item api path newname w = (-1, w) := by
  rw [rename_item_eq, if_pos hp]

end RenameSteps

namespace Card

theorem renameFile_spec (a b : CStr) (c : Card) :
    ∃ rc c1, api.fsFsRenameFile a b c = (rc, c1) ∧ c1.streams = c.streams ∧
      ((R_FAILED rc = true ∧ c1.nodes = c.nodes) ∨
       (R_FAILED rc = false ∧ (∃ d, find (components a) c.nodes = some (.file d)) ∧
         canCreate (components b) c.nodes = true ∧
         c1.nodes = rekey (components a) (components b) c.nodes)) := by
  have hp := popFault_spec c
  show ∃ rc c1, (match popFault c with
    | (true, c) => ((1 : Result), c)
    | (false, c) =>
      match find (components a) c.nodes with
      | some (.file _) =>
        if canCreate (components b) c.nodes
        then (0, { c with nodes := rekey (components a) (components b) c.nodes })
        else (1, c)
      | _ => (1, c)) = (rc, c1) ∧ _
  rcases hpf : popFault c with ⟨f, c0⟩
  rw [hpf] at hp
  obtain ⟨hp1, hp2⟩ := hp
  simp only at hp1 hp2
  cases f
  · simp only
    cases hf : find (components a) c0.nodes with
    | none => exact ⟨1, c0, rfl, hp2, Or.inl ⟨rfl, hp1⟩⟩
    | some nd =>
      cases nd with
      | dir => exact ⟨1, c0, rfl, hp2, Or.inl ⟨rfl, hp1⟩⟩
      | file d =>
        simp only
        by_cases hcc : canCreate (components b) c0.nodes = true
        · rw [if_pos hcc]
          refine ⟨0, _, rfl, hp2, Or.inr ⟨rfl, ⟨d, ?_⟩, ?_, ?_⟩⟩
          · rw [← hp1]; exact hf
          · rw [← hp1]; exact hcc
          · simp [hp1]
        · rw [if_neg hcc]
          exact ⟨1, c0, rfl, hp2, Or.inl ⟨rfl, hp1⟩⟩
  · exact ⟨1, c0, rfl, hp2, Or.inl ⟨rfl, hp1⟩⟩

theorem renameDirectory_spec (a b : CStr) (c : Card) :
    ∃ rc c1, api.fsFsRenameDirectory a b c = (rc, c1) ∧ c1.streams = c.streams ∧
      ((R_FAILED rc = true ∧ c1.nodes = c.nodes) ∨
       (R_FAILED rc = false ∧ find (components a) c.nodes = some .dir ∧
         canCreate (components b) c.nodes = true ∧
         c1.nodes = rekey (components a) (components b) c.nodes)) := by
  have hp := popFault_spec c
  show ∃ rc c1, (match popFault c with
    | (true, c) => ((1 : Result), c)
    | (false, c) =>
      match find (components a) c.nodes with
      | some .dir =>
        if canCreate (components b) c.nodes && !(components a).isPrefixOf (components b)
        then (0, { c with nodes := rekey (components a) (components b) c.nodes })
        else (1, c)
      | _ => (1, c)) = (rc, c1) ∧ _
  rcases hpf : popFault c with ⟨f, c0⟩
  rw [hpf] at hp
  obtain ⟨hp1, hp2⟩ := hp
  simp only at hp1 hp2
  cases f
  · simp only
    cases hf : find (components a) c0.nodes with
    | none => exact ⟨1, c0, rfl, hp2, Or.inl ⟨rfl, hp1⟩⟩
    | some nd =>
      cases nd with
      | file d => exact ⟨1, c0, rfl, hp2, Or.inl ⟨rfl, hp1⟩⟩
      | dir =>
        simp only
        by_cases hcc : (canCreate (components b) c0.nodes &&
            !(components a).isPrefixOf (components b)) = true
        · rw [if_pos hcc]
          refine ⟨0, _, rfl, hp2, Or.inr ⟨rfl, ?_, ?_, ?_⟩⟩
          · rw [← hp1]; exact hf
          · rw [← hp1]
            simp only [Bool.and_eq_true] at hcc
            exact hcc.1
          · simp [hp1]
        · rw [if_neg hcc]
          exact ⟨1, c0, rfl, hp2, Or.inl ⟨rfl, hp1⟩⟩
  · exact ⟨1, c0, rfl, hp2, Or.inl ⟨rfl, hp1⟩⟩

theorem find_of_mem (key : Key) (n : Node) (nodes : List (Key × Node))
    (h : (key, n) ∈ nodes) : ∃ m, find key nodes = some m := by
  induction nodes with
  | nil => simp at h
  | cons e rest ih =>
    obtain ⟨k1, n1⟩ := e
    by_cases hk : k1 = key
    · exact ⟨n1, by simp [find, hk]⟩
    · have : (key, n) ∈ rest := by
        rcases List.mem_cons.1 h with h1 | h1
        · exact absurd (congrArg Prod.fst h1).symm hk
        · exact h1
      obtain ⟨m, hm⟩ := ih this
      exact ⟨m, by simp [find, hk, hm]⟩

/-- In a tree, where nothing exists nothing exists below either. -/
theorem Closed.nothing_below {nodes : List (Key × Node)} (hc : Closed nodes) (k : Key)
    (hk : find k nodes = none) : ∀ e ∈ nodes, ¬ k <+: e.1 := by
  have key : ∀ n (e : Key × Node), e ∈ nodes → e.1.length = n → ¬ k <+: e.1 := by
    intro n
    induction n using Nat.strong_induction_on with
    | _ n ih =>
      intro e he hlen hpre
      by_cases heq : e.1 = k
      · obtain ⟨m, hm⟩ := find_of_mem e.1 e.2 nodes he
        rw [heq, hk] at hm
        exact absurd hm (by simp)
      · have hne : e.1 ≠ [] := by
          intro h0
          rw [h0] at hpre heq
          exact heq (List.prefix_nil.1 hpre).symm
        have hpar := hc e he hne
        have hmem := find_mem _ _ _ hpar
        have hlt : e.1.dropLast.length < n := by
          rw [List.length_dropLast, hlen]
          have := List.length_pos.2 hne
          omega
        refine ih _ hlt (e.1.dropLast, Node.dir) hmem rfl ?_
        obtain ⟨t, ht⟩ := hpre
        have htne : t ≠ [] := by
          intro h0
          rw [h0, List.append_nil] at ht
          exact heq ht.symm
        rw [← ht, List.dropLast_append_of_ne_nil _ htne]
        exact List.prefix_append _ _
  intro e he
  exact key _ e he rfl

theorem rekey_rekey (k1 k2 : Key) (nodes : List (Key × Node))
    (h : ∀ e ∈ nodes, ¬ k1 <+: e.1 → ¬ k2 <+: e.1) :
    rekey k2 k1 (rekey k1 k2 nodes) = nodes := by
  unfold rekey
  rw [List.map_map]
  conv_rhs => rw [← List.map_id nodes]
  apply List.map_congr_left
  intro e he
  simp only [Function.comp_apply, id_eq]
  by_cases hp : k1.isPrefixOf e.1 = true
  · rw [if_pos hp]
    have hp2 : k2.isPrefixOf (k2 ++ e.1.drop k1.length) = true :=
      List.isPrefixOf_iff_prefix.2 (List.prefix_append _ _)
    rw [if_pos hp2]
    simp only [List.drop_left]
    obtain ⟨t, ht⟩ := List.isPrefixOf_iff_prefix.1 hp
    have : k1 ++ e.1.drop k1.length = e.1 := by
      rw [← ht, List.drop_left]
    rw [this]
  · rw [if_neg hp]
    have hn : ¬ k2.isPrefixOf e.1 = true := by
      intro h2
      exact h e he (fun h1 => hp (List.isPrefixOf_iff_prefix.2 h1))
        (List.isPrefixOf_iff_prefix.1 h2)
    rw [if_neg hn]

theorem mem_rekey_of_not_prefix (k1 k2 : Key) (nodes : List (Key × Node)) (e : Key × Node)
    (he : e ∈ nodes) (hp : ¬ k1 <+: e.1) : e ∈ rekey k1 k2 nodes := by
  unfold rekey
  refine List.mem_map.2 ⟨e, he, ?_⟩
  rw [if_neg (fun h => hp (List.isPrefixOf_iff_prefix.1 h))]

/-- What a successful `rename_item` did on the card. -/
theorem rename_item_ok (path newname : CStr) (c c1 : Card)
    (h : rename_item api path newname c = (0, c1)) :
    ∃ parent, path_get_parent path = (0, parent) ∧
      (∃ nd, find (components (normalize_sd_path path 512)) c.nodes = some nd) ∧
      canCreate (components (normalize_sd_path (snprintf_join 512 parent newname) 512))
        c.nodes = true ∧
      c1.nodes = rekey (components (normalize_sd_path path 512))
        (components (normalize_sd_path (snprintf_join 512 parent newname) 512)) c.nodes := by
  by_cases h0 : (path_get_parent path).1 ≠ 0
  · rw [rename_item_no_parent api path newname c h0] at h
    exact absurd (congrArg Prod.fst h) (by simp)
  · have h0' : (path_get_parent path).1 = 0 := not_not.1 h0
    refine ⟨(path_get_parent path).2, Prod.ext h0' rfl, ?_⟩
    obtain ⟨rc1, w1, ho, hn1, _⟩ := open_spec c
    obtain ⟨rc2, d, w2, hod, hn2, _⟩ := openDirectory_spec (normalize_sd_path path 512)
      FsDirOpenMode_ReadDirs w1
    obtain ⟨rc3, w3, hrd, _, hcase3⟩ := renameDirectory_spec (normalize_sd_path path 512)
      (normalize_sd_path (snprintf_join 512 (path_get_parent path).2 newname) 512)
      (api.fsDirClose d w2)
    obtain ⟨rc4, w4, hrf, _, hcase4⟩ := renameFile_spec (normalize_sd_path path 512)
      (normalize_sd_path (snprintf_join 512 (path_get_parent path).2 newname) 512) w2
    rw [rename_item_step api path newname c (path_get_parent path).2 (Prod.ext h0' rfl)
      rc1 w1 ho rc2 d w2 hod rc3 w3 hrd rc4 w4 hrf] at h
    rw [fsDirClose_eq] at hcase3
    rw [hn2, hn1] at hcase3 hcase4
    by_cases hf1 : R_FAILED rc1 = true
    · rw [if_pos hf1] at h
      exact absurd (congrArg Prod.fst h) (by simp)
    · rw [if_neg hf1] at h
      by_cases hs2 : R_SUCCEEDED rc2 = true
      · rw [if_pos hs2] at h
        rcases hcase3 with ⟨hf3, _⟩ | ⟨hf3, hfind, hcc, hn3⟩
        · rw [if_pos hf3] at h
          exact absurd (congrArg Prod.fst h) (by simp)
        · have hc1 : c1 = api.fsFsClose w3 := (congrArg Prod.snd h).symm
          rw [fsFsClose_eq] at hc1
          exact ⟨⟨_, hfind⟩, hcc, by rw [hc1, hn3]⟩
      · rw [if_neg hs2] at h
        rcases hcase4 with ⟨hf4, _⟩ | ⟨hf4, ⟨dd, hfind⟩, hcc, hn4⟩
        · rw [if_pos hf4] at h
          exact absurd (congrArg Prod.fst h) (by simp)
        · have hc1 : c1 = api.fsFsClose w4 := (congrArg Prod.snd h).symm
          rw [fsFsClose_eq] at hc1
          exact ⟨⟨_, hfind⟩, hcc, by rw [hc1, hn4]⟩

end Card

/-! ## Path strings around a rename -/

theorem path_get_filename_split (pre suf : CStr) (hn : '/' ∉ suf) :
    path_get_filename (pre ++ '/' :: suf) = suf := by
  unfold path_get_filename
  rw [find_last_slash_split pre suf hn]
  simp

/-- A path that fits the buffer and has a parent is the parent, a slash, a
last component, and possibly trailing slashes. -/
theorem path_get_parent_inv (P parent : CStr) (hlen : P.length ≤ 511)
    (hp : path_get_parent P = (0, parent)) :
    ∃ suf k, P = parent ++ '/' :: (suf ++ List.replicate k '/') ∧ suf ≠ [] ∧ '/' ∉ suf ∧
      parent ≠ [] := by
  unfold path_get_parent str_copy at hp
  simp only at hp
  rw [List.take_of_length_le (by omega)] at hp
  obtain ⟨k, hk, _, hs⟩ := path_normalize_spec P
  rcases last_slash_decomp (path_normalize P) with hno | ⟨pre, suf, hN, hns⟩
  · rw [find_last_slash_not_mem _ hno] at hp
    simp at hp
  · rw [hN, find_last_slash_split pre suf hns] at hp
    by_cases hpre : pre = []
    · subst hpre
      simp at hp
    · have hpos : 0 < pre.length := List.length_pos.2 hpre
      have hnle : ¬ ((pre.length : Int) ≤ 0) := by omega
      rw [if_neg hnle] at hp
      have hpar : parent = pre := by
        have := (congrArg Prod.snd hp).symm
        simpa using this
      subst hpar
      have hsuf : suf ≠ [] := by
        intro h0
        subst h0
        exact hpre (hs parent hN)
      refine ⟨suf, k, ?_, hsuf, hns, hpre⟩
      rw [hk, hN]
      simp

theorem sdmc_prefix_after_slash (q t : CStr) :
    ("sdmc:/".toList).isPrefixOf (q ++ '/' :: t) = ("sdmc:/".toList).isPrefixOf (q ++ ['/']) := by
  rcases q with _ | ⟨c1, _ | ⟨c2, _ | ⟨c3, _ | ⟨c4, _ | ⟨c5, _ | ⟨c6, rest⟩⟩⟩⟩⟩⟩ <;>
    simp [List.isPrefixOf]

theorem components_append_slash (a b : CStr) :
    components (a ++ '/' :: b) = components a ++ components b := by
  simp [components, rawSplit_append_slash]

theorem components_replicate_slash (k : Nat) : components (List.replicate k '/') = [] := by
  induction k with
  | zero => simp [components, rawSplit]
  | succ k ih =>
    rw [List.replicate_succ, components_cons_slash, ih]

theorem components_trailing_slashes (x : CStr) (k : Nat) :
    components (x ++ List.replicate k '/') = components x := by
  cases k with
  | zero => simp
  | succ k =>
    rw [List.replicate_succ, components_append_slash, components_replicate_slash,
      List.append_nil]

theorem components_piece (n : CStr) (h1 : n ≠ []) (h2 : '/' ∉ n) : components n = [n] := by
  simp [components, rawSplit_noslash n h2, h1]

theorem components_after_slash (r n : CStr) (hr : r = [] ∨ ∃ r1, r = r1 ++ ['/'])
    (h1 : n ≠ []) (h2 : '/' ∉ n) : components (r ++ n) = components r ++ [n] := by
  rcases hr with h | ⟨r1, h⟩
  · subst h
    have e0 : components ([] : CStr) = [] := by simp [components, rawSplit]
    rw [List.nil_append, components_piece n h1 h2, e0, List.nil_append]
  · subst h
    have e : r1 ++ ['/'] ++ n = r1 ++ '/' :: n := by simp
    have e2 : r1 ++ ['/'] = r1 ++ '/' :: [] := rfl
    rw [e, components_append_slash, components_piece n h1 h2, e2, components_append_slash]
    simp [components, rawSplit]

/-- The node named by `q/n` followed by slashes is the child `n` of the node
named by `q/`. -/
theorem components_join (q n : CStr) (k : Nat) (h1 : n ≠ []) (h2 : '/' ∉ n)
    (hlen : (q ++ '/' :: (n ++ List.replicate k '/')).length ≤ 511) :
    components (normalize_sd_path (q ++ '/' :: (n ++ List.replicate k '/')) 512) =
      components (normalize_sd_path (q ++ ['/']) 512) ++ [n] := by
  have hlen0 : (q ++ ['/']).length ≤ 511 := by
    simp only [List.length_append, List.length_cons, List.length_replicate,
      List.length_nil] at hlen ⊢
    omega
  rw [normalize_sd_path_components _ hlen, normalize_sd_path_components _ hlen0,
    sdmc_prefix_after_slash]
  have e : q ++ '/' :: (n ++ List.replicate k '/') = (q ++ ['/']) ++ n ++ List.replicate k '/' := by
    simp
  by_cases hp : ("sdmc:/".toList).isPrefixOf (q ++ ['/']) = true
  · rw [if_pos hp, if_pos hp]
    have h6 : 6 ≤ (q ++ ['/']).length := by
      have := (List.isPrefixOf_iff_prefix.1 hp).length_le
      simpa using this
    rw [e, List.append_assoc, List.drop_append_of_le_length h6, ← List.append_assoc,
      components_trailing_slashes]
    apply components_after_slash _ _ _ h1 h2
    by_cases hq : 6 ≤ q.length
    · right
      exact ⟨q.drop 6, by rw [List.drop_append_of_le_length hq]⟩
    · left
      apply List.drop_eq_nil_of_le
      simp only [List.length_append, List.length_cons, List.length_nil] at h6 ⊢
      omega
  · rw [if_neg hp, if_neg hp, e, components_trailing_slashes]
    exact components_after_slash _ _ (Or.inr ⟨q, rfl⟩) h1 h2

/-- C12: on every card whose table is a tree, for a path `P` that fits the
512-byte buffer and a new base name (non-empty, without a slash) such that
`parent(P)/name` fits too: when `rename_item(P, name)` and then
`rename_item(parent(P)/name, filename(P))` both return 0, the second call's
`dest_full` is `P` and the table (names and file contents) is the one before
the first call. -/
theorem rename_item_round_trip (P name : CStr) (c c1 c2 : Card)
    (hne : name ≠ []) (hns : '/' ∉ name)
    (hP : P.length ≤ 511)
    (hQ : ((path_get_parent P).2 ++ '/' :: name).length ≤ 511)
    (hc : Card.Closed c.nodes)
    (h1 : rename_item Card.api P name c = (0, c1))
    (h2 : rename_item Card.api ((path_get_parent P).2 ++ '/' :: name) (path_get_filename P) c1
      = (0, c2)) :
    rename_dest_full ((path_get_parent P).2 ++ '/' :: name) (path_get_filename P) = some P ∧
    c2.nodes = c.nodes := by
  obtain ⟨parent, hp, _, hcc1, hn1⟩ := Card.rename_item_ok P name c c1 h1
  rw [hp] at hQ h2 ⊢
  simp only at hQ h2 ⊢
  obtain ⟨suf, k, hPeq, hsuf, hsns, hpne⟩ := path_get_parent_inv P parent hP hp
  have hp2 : path_get_parent (parent ++ '/' :: name) = (0, parent) := by
    rw [path_get_parent_split parent name hns hne hQ, if_neg hpne]
  obtain ⟨parent2, hp2', _, hcc2, hn2⟩ := Card.rename_item_ok _ _ c1 c2 h2
  rw [hp2] at hp2'
  have hpar : parent2 = parent := (congrArg Prod.snd hp2').symm
  subst hpar
  have hj1 : snprintf_join 512 parent2 name = parent2 ++ '/' :: name := by
    unfold snprintf_join
    exact List.take_of_length_le (by simpa using hQ)
  rw [hj1] at hcc1 hn1
  cases k with
  | zero =>
    have hPe : P = parent2 ++ '/' :: suf := by simpa using hPeq
    have hfn : path_get_filename P = suf := by
      rw [hPe]
      exact path_get_filename_split parent2 suf hsns
    have hj2 : snprintf_join 512 parent2 suf = P := by
      unfold snprintf_join
      rw [← hPe]
      exact List.take_of_length_le (by omega)
    rw [hfn, hj2] at hn2
    constructor
    · unfold rename_dest_full
      rw [hp2, hfn]
      simp [hj2]
    · rw [hn2, hn1]
      apply Card.rekey_rekey
      intro e he _
      have hnone : Card.find (components (normalize_sd_path (parent2 ++ '/' :: name) 512))
          c.nodes = none := by
        simp only [Card.canCreate, Bool.and_eq_true, decide_eq_true_eq] at hcc1
        exact hcc1.1.2
      exact hc.nothing_below _ hnone e he
  | succ k =>
    exfalso
    have hfn : path_get_filename P = [] := by
      have e : P = (parent2 ++ '/' :: (suf ++ List.replicate k '/')) ++ '/' :: [] := by
        rw [hPeq, List.replicate_succ']
        simp
      rw [e]
      exact path_get_filename_split _ [] (by simp)
    have hlenP : (parent2 ++ '/' :: (suf ++ List.replicate (k + 1) '/')).length ≤ 511 := by
      rw [← hPeq]; exact hP
    have hj2 : snprintf_join 512 parent2 [] = parent2 ++ ['/'] := by
      unfold snprintf_join
      apply List.take_of_length_le
      simp only [List.length_append, List.length_cons, List.length_replicate,
        List.length_nil] at hlenP ⊢
      omega
    rw [hfn, hj2] at hcc2
    have hK1 := components_join parent2 suf (k + 1) hsuf hsns hlenP
    rw [← hPeq] at hK1
    have hK2 := components_join parent2 name 0 hne hns (by simpa using hQ)
    simp only [List.replicate_zero, List.append_nil] at hK2
    rw [hK1, hK2] at hn1
    rw [hK2] at hcc1
    generalize components (normalize_sd_path (parent2 ++ ['/']) 512) = K at *
    simp only [Card.canCreate, Bool.and_eq_true, decide_eq_true_eq] at hcc1 hcc2
    have hdir : Card.find K c.nodes = some .dir := by
      have := hcc1.2
      rwa [List.dropLast_concat] at this
    have hmem := Card.find_mem _ _ _ hdir
    have hnp : ¬ (K ++ [suf]) <+: K := by
      intro h
      have := h.length_le
      simp at this
    have hmem1 : (K, Node.dir) ∈ c1.nodes := by
      rw [hn1]
      exact Card.mem_rekey_of_not_prefix _ _ _ _ hmem hnp
    obtain ⟨m, hm⟩ := Card.find_of_mem _ _ _ hmem1
    rw [hcc2.1.2] at hm
    exact absurd hm (by simp)

theorem rename_item_round_trip_witness :
    rename_dest_full ((path_get_parent "//a/f".toList).2 ++ '/' :: "h".toList)
        (path_get_filename "//a/f".toList) = some "//a/f".toList ∧
    (rename_item Card.api ((path_get_parent "//a/f".toList).2 ++ '/' :: "h".toList)
        (path_get_filename "//a/f".toList)
        (rename_item Card.api "//a/f".toList "h".toList sampleCard).2).2.nodes
      = sampleCard.nodes :=
  rename_item_round_trip "//a/f".toList "h".toList sampleCard
    (rename_item Card.api "//a/f".toList "h".toList sampleCard).2
    (rename_item Card.api ((path_get_parent "//a/f".toList).2 ++ '/' :: "h".toList)
        (path_get_filename "//a/f".toList)
        (rename_item Card.api "//a/f".toList "h".toList sampleCard).2).2
    (by decide) (by decide) (by decide) (by decide)
    (by unfold Card.Closed; decide)
    (Prod.ext (by decide) rfl) (Prod.ext (by decide) rfl)

set_option maxRecDepth 100000 in
theorem rename_long_parent : path_get_parent longName = (0, "/a".toList) := by
  decide!

theorem rename_long_filename : path_get_filename longName = List.replicate 597 'b' :=
  path_get_filename_split "/a".toList (List.replicate 597 'b') (fun h => absurd (List.eq_of_mem_replicate h) (by decide))

set_option maxRecDepth 100000 in
theorem rename_long_first_run :
    rename_item Card.api longName "c".toList renameCard = (0, renamedCard) := by
  decide!

set_option maxRecDepth 100000 in
theorem rename_long_second_run :
    rename_item Card.api ("/a".toList ++ '/' :: "c".toList) (List.replicate 597 'b') renamedCard
      = (0, renamedBackCard) := by
  decide!

set_option maxRecDepth 100000 in
theorem rename_long_dest_run :
    rename_dest_full ("/a".toList ++ '/' :: "c".toList) (List.replicate 597 'b')
      ≠ some longName := by
  decide!

set_option maxRecDepth 100000 in
theorem rename_long_nodes_differ : renamedBackCard.nodes ≠ renameCard.nodes := by
  decide!

/-- C12, as stated, fails for a path longer than the buffer: on `renameCard`
both calls return 0, the second call's `dest_full` is not the original
path, and the file ends under a shorter name than it had. -/
theorem rename_item_long_path_not_restored :
    Card.Closed renameCard.nodes ∧
    (rename_item Card.api longName "c".toList renameCard).1 = 0 ∧
    (rename_item Card.api ((path_get_parent longName).2 ++ '/' :: "c".toList)
        (path_get_filename longName)
        (rename_item Card.api longName "c".toList renameCard).2).1 = 0 ∧
    rename_dest_full ((path_get_parent longName).2 ++ '/' :: "c".toList)
        (path_get_filename longName) ≠ some longName ∧
    (rename_item Card.api ((path_get_parent longName).2 ++ '/' :: "c".toList)
        (path_get_filename longName)
        (rename_item Card.api longName "c".toList renameCard).2).2.nodes
      ≠ renameCard.nodes := by
  rw [rename_long_parent, rename_long_filename, rename_long_first_run]
  dsimp only
  rw [rename_long_second_run]
  exact ⟨by unfold Card.Closed; decide, rfl, rfl, rename_long_dest_run, rename_long_nodes_differ⟩

/-! ## The reference card: creating, opening, reading and writing files -/

namespace Card

theorem popFault_handles (c : Card) : (popFault c).2.handles = c.handles := by
  unfold popFault
  cases c.faults <;> simp

theorem createDirectory_spec (p : CStr) (c : Card) :
    ∃ rc c1, api.fsFsCreateDirectory p c = (rc, c1) ∧ c1.streams = c.streams ∧
      c1.handles = c.handles ∧
      (c1.nodes = c.nodes ∨
        (canCreate (components p) c.nodes = true ∧
          c1.nodes = c.nodes ++ [(components p, .dir)])) := by
  have hp := popFault_spec c
  have hh := popFault_handles c
  show ∃ rc c1, (match popFault c with
    | (true, c) => ((1 : Result), c)
    | (false, c) =>
      if canCreate (components p) c.nodes
      then (0, { c with nodes := c.nodes ++ [(components p, .dir)] })
      else (1, c)) = (rc, c1) ∧ _
  rcases hpf : popFault c with ⟨f, c0⟩
  rw [hpf] at hp hh
  obtain ⟨hp1, hp2⟩ := hp
  simp only at hp1 hp2 hh
  cases f
  · simp only
    by_cases hcc : canCreate (components p) c0.nodes = true
    · rw [if_pos hcc]
      refine ⟨0, _, rfl, hp2, hh, Or.inr ⟨?_, ?_⟩⟩
      · rw [← hp1]; exact hcc
      · simp [hp1]
    · rw [if_neg hcc]
      exact ⟨1, c0, rfl, hp2, hh, Or.inl hp1⟩
  · exact ⟨1, c0, rfl, hp2, hh, Or.inl hp1⟩

theorem createFile_spec (p : CStr) (c : Card) :
    ∃ rc c1, api.fsFsCreateFile p c = (rc, c1) ∧ c1.streams = c.streams ∧
      c1.handles = c.handles ∧
      (c1.nodes = c.nodes ∨
        (canCreate (components p) c.nodes = true ∧
          c1.nodes = c.nodes ++ [(components p, .file [])])) := by
  have hp := popFault_spec c
  have hh := popFault_handles c
  show ∃ rc c1, (match popFault c with
    | (true, c) => ((1 : Result), c)
    | (false, c) =>
      if canCreate (components p) c.nodes
      then (0, { c with nodes := c.nodes ++ [(components p, .file [])] })
      else (1, c)) = (rc, c1) ∧ _
  rcases hpf : popFault c with ⟨f, c0⟩
  rw [hpf] at hp hh
  obtain ⟨hp1, hp2⟩ := hp
  simp only at hp1 hp2 hh
  cases f
  · simp only
    by_cases hcc : canCreate (components p) c0.nodes = true
    · rw [if_pos hcc]
      refine ⟨0, _, rfl, hp2, hh, Or.inr ⟨?_, ?_⟩⟩
      · rw [← hp1]; exact hcc
      · simp [hp1]
    · rw [if_neg hcc]
      exact ⟨1, c0, rfl, hp2, hh, Or.inl hp1⟩
  · exact ⟨1, c0, rfl, hp2, hh, Or.inl hp1⟩

theorem openFile_spec (p : CStr) (m : Nat) (c : Card) :
    ∃ rc h c1, api.fsFsOpenFile p m c = (rc, h, c1) ∧ c1.nodes = c.nodes ∧
      c1.streams = c.streams ∧
      ((R_FAILED rc = true ∧ c1.handles = c.handles) ∨
       (R_FAILED rc = false ∧ (∃ d, find (components p) c.nodes = some (.file d)) ∧
         h = c.handles.length ∧ c1.handles = c.handles ++ [components p])) := by
  have hp := popFault_spec c
  have hh := popFault_handles c
  show ∃ rc h c1, (match popFault c with
    | (true, c) => ((1 : Result), (0 : Nat), c)
    | (false, c) =>
      match find (components p) c.nodes with
      | some (.file _) =>
        (0, c.handles.length, { c with handles := c.handles ++ [components p] })
      | _ => (1, 0, c)) = (rc, h, c1) ∧ _
  rcases hpf : popFault c with ⟨f, c0⟩
  rw [hpf] at hp hh
  obtain ⟨hp1, hp2⟩ := hp
  simp only at hp1 hp2 hh
  cases f
  · simp only
    cases hf : find (components p) c0.nodes with
    | none => exact ⟨1, 0, c0, rfl, hp1, hp2, Or.inl ⟨rfl, hh⟩⟩
    | some nd =>
      cases nd with
      | dir => exact ⟨1, 0, c0, rfl, hp1, hp2, Or.inl ⟨rfl, hh⟩⟩
      | file d =>
        refine ⟨0, c0.handles.length, _, rfl, hp1, hp2, Or.inr ⟨rfl, ⟨d, ?_⟩, ?_, ?_⟩⟩
        · rw [← hp1]; exact hf
        · rw [hh]
        · simp [hh]
  · exact ⟨1, 0, c0, rfl, hp1, hp2, Or.inl ⟨rfl, hh⟩⟩

theorem fileRead_spec (h off n : Nat) (c : Card) :
    ∃ rc buf c1, api.fsFileRead h off n c = (rc, buf, c1) ∧ c1.nodes = c.nodes ∧
      c1.streams = c.streams ∧ c1.handles = c.handles := by
  have hp := popFault_spec c
  have hh := popFault_handles c
  show ∃ rc buf c1, (match popFault c with
    | (true, c) => ((1 : Result), ([] : List Nat), c)
    | (false, c) =>
      match c.handles[h]? with
      | none => (1, [], c)
      | some k =>
        match find k c.nodes with
        | some (.file data) => (0, (data.drop off).take n, c)
        | _ => (1, [], c)) = (rc, buf, c1) ∧ _
  rcases hpf : popFault c with ⟨f, c0⟩
  rw [hpf] at hp hh
  obtain ⟨hp1, hp2⟩ := hp
  simp only at hp1 hp2 hh
  cases f
  · simp only
    cases c0.handles[h]? with
    | none => exact ⟨1, [], c0, rfl, hp1, hp2, hh⟩
    | some k =>
      simp only
      cases find k c0.nodes with
      | none => exact ⟨1, [], c0, rfl, hp1, hp2, hh⟩
      | some nd =>
        cases nd with
        | dir => exact ⟨1, [], c0, rfl, hp1, hp2, hh⟩
        | file d => exact ⟨0, _, c0, rfl, hp1, hp2, hh⟩
  · exact ⟨1, [], c0, rfl, hp1, hp2, hh⟩

theorem fileWrite_spec (h off : Nat) (buf : List Nat) (c : Card) :
    ∃ rc c1, api.fsFileWrite h off buf c = (rc, c1) ∧ c1.streams = c.streams ∧
      c1.handles = c.handles ∧
      (c1.nodes = c.nodes ∨
        ∃ k d data, c.handles[h]? = some k ∧ find k c.nodes = some (.file d) ∧
          c1.nodes = setData k data c.nodes) := by
  have hp := popFault_spec c
  have hh := popFault_handles c
  show ∃ rc c1, (match popFault c with
    | (true, c) => ((1 : Result), c)
    | (false, c) =>
      match c.handles[h]? with
      | none => (1, c)
      | some k =>
        match find k c.nodes with
        | some (.file data) =>
          if off ≤ data.length then
            let data1 := data.take off ++ buf ++ data.drop (off + buf.length)
            (0, { c with nodes := setData k data1 c.nodes })
          else (1, c)
        | _ => (1, c)) = (rc, c1) ∧ _
  rcases hpf : popFault c with ⟨f, c0⟩
  rw [hpf] at hp hh
  obtain ⟨hp1, hp2⟩ := hp
  simp only at hp1 hp2 hh
  cases f
  · simp only
    cases hk : c0.handles[h]? with
    | none => exact ⟨1, c0, rfl, hp2, hh, Or.inl hp1⟩
    | some k =>
      simp only
      cases hf : find k c0.nodes with
      | none => exact ⟨1, c0, rfl, hp2, hh, Or.inl hp1⟩
      | some nd =>
        cases nd with
        | dir => exact ⟨1, c0, rfl, hp2, hh, Or.inl hp1⟩
        | file d =>
          simp only
          by_cases ho : off ≤ d.length
          · rw [if_pos ho]
            refine ⟨0, _, rfl, hp2, hh, Or.inr ⟨k, d,
              d.take off ++ buf ++ d.drop (off + buf.length), ?_, ?_, ?_⟩⟩
            · rw [← hh]; exact hk
            · rw [← hp1]; exact hf
            · simp only [hp1]
          · rw [if_neg ho]
            exact ⟨1, c0, rfl, hp2, hh, Or.inl hp1⟩
  · exact ⟨1, c0, rfl, hp2, hh, Or.inl hp1⟩

theorem fsFileClose_eq (h : Nat) (c : Card) : api.fsFileClose h c = c := rfl

end Card

namespace Card

theorem SameOutside.outside_refl (k : Key) (a : List (Key × Node)) : SameOutside k a a := rfl

theorem SameOutside.outside_trans {k : Key} {a b c : List (Key × Node)}
    (h1 : SameOutside k a b) (h2 : SameOutside k b c) : SameOutside k a c := by
  unfold SameOutside at *
  rw [h2, h1]

theorem SameOutside.mem {k : Key} {a b : List (Key × Node)} (h : SameOutside k a b)
    (e : Key × Node) (hk : ¬ k <+: e.1) : e ∈ b ↔ e ∈ a := by
  have hp : (fun e : Key × Node => !k.isPrefixOf e.1) e = true := by
    show (!k.isPrefixOf e.1) = true
    cases hx : k.isPrefixOf e.1 with
    | false => rfl
    | true => exact absurd (List.isPrefixOf_iff_prefix.1 hx) hk
  constructor
  · intro he
    have : e ∈ b.filter (fun e => !k.isPrefixOf e.1) := List.mem_filter.2 ⟨he, hp⟩
    rw [h] at this
    exact List.mem_of_mem_filter this
  · intro he
    have : e ∈ a.filter (fun e => !k.isPrefixOf e.1) := List.mem_filter.2 ⟨he, hp⟩
    rw [← h] at this
    exact List.mem_of_mem_filter this

/-- Agreement outside a subtree gives agreement outside any larger subtree. -/
theorem SameOutside.widen {k k1 : Key} {a b : List (Key × Node)} (hk : k <+: k1)
    (h : SameOutside k1 a b) : SameOutside k a b := by
  unfold SameOutside at *
  have e : ∀ l : List (Key × Node), l.filter (fun e => !k.isPrefixOf e.1) =
      (l.filter (fun e => !k1.isPrefixOf e.1)).filter (fun e => !k.isPrefixOf e.1) := by
    intro l
    rw [List.filter_filter]
    apply List.filter_congr
    intro x _
    by_cases hx : k.isPrefixOf x.1 = true
    · simp [hx]
    · have hx1 : k1.isPrefixOf x.1 = false := by
        by_contra hc
        have h1 : k1 <+: x.1 := List.isPrefixOf_iff_prefix.1 (by simpa using hc)
        exact hx (List.isPrefixOf_iff_prefix.2 (hk.trans h1))
      simp [hx, hx1]
  rw [e b, e a, h]

theorem SameOutside.outside_append (k : Key) (a : List (Key × Node)) (nd : Node) :
    SameOutside k a (a ++ [(k, nd)]) := by
  unfold SameOutside
  rw [List.filter_append]
  have : k.isPrefixOf k = true := List.isPrefixOf_iff_prefix.2 (List.prefix_refl k)
  simp [this]

theorem SameOutside.outside_setData (k : Key) (data : List Nat) (a : List (Key × Node)) :
    SameOutside k a (setData k data a) := by
  unfold SameOutside Card.setData
  induction a with
  | nil => rfl
  | cons e rest ih =>
    by_cases he : e.1 = k
    · have hp : k.isPrefixOf e.1 = true := by
        rw [he]; exact List.isPrefixOf_iff_prefix.2 (List.prefix_refl k)
      simp only [List.map_cons, he, if_true, List.filter_cons]
      have hp2 : k.isPrefixOf k = true := List.isPrefixOf_iff_prefix.2 (List.prefix_refl k)
      simp only [hp2, Bool.not_true, Bool.false_eq_true, if_false]
      rw [← he] at hp2 ⊢
      simp only [he] at ih ⊢
      simpa [hp2] using ih
    · simp only [List.map_cons, he, if_false, List.filter_cons]
      rw [ih]

theorem find_append_some (key : Key) (m : Node) (a b : List (Key × Node))
    (h : find key a = some m) : find key (a ++ b) = some m := by
  induction a with
  | nil => simp [find] at h
  | cons e rest ih =>
    obtain ⟨k1, n1⟩ := e
    by_cases hk : k1 = key
    · simpa [find, hk] using h
    · simp only [find, hk, if_false, List.cons_append] at h ⊢
      exact ih h

theorem Closed.closed_append {a : List (Key × Node)} (h : Closed a) (k : Key) (nd : Node)
    (hc : canCreate k a = true) : Closed (a ++ [(k, nd)]) := by
  simp only [canCreate, Bool.and_eq_true, decide_eq_true_eq] at hc
  intro e he hne
  rcases List.mem_append.1 he with h1 | h1
  · exact find_append_some _ _ _ _ (h e h1 hne)
  · have : e = (k, nd) := by simpa using h1
    subst this
    exact find_append_some _ _ _ _ hc.2

theorem find_setData_ne (p k : Key) (data : List Nat) (a : List (Key × Node)) (h : p ≠ k) :
    find p (setData k data a) = find p a := by
  unfold Card.setData
  induction a with
  | nil => rfl
  | cons e rest ih =>
    obtain ⟨k1, n1⟩ := e
    rw [List.map_cons]
    by_cases hk : k1 = k
    · have e1 : (if (k1, n1).1 = k then ((k1, n1).1, Node.file data) else (k1, n1)) =
          (k1, Node.file data) := if_pos hk
      rw [e1]
      have hne : ¬ k1 = p := fun h1 => h (h1.symm.trans hk)
      show (if k1 = p then some (Node.file data) else find p _) =
        (if k1 = p then some n1 else find p rest)
      rw [if_neg hne, if_neg hne]
      exact ih
    · have e1 : (if (k1, n1).1 = k then ((k1, n1).1, Node.file data) else (k1, n1)) =
          (k1, n1) := if_neg hk
      rw [e1]
      show (if k1 = p then some n1 else find p _) =
        (if k1 = p then some n1 else find p rest)
      rw [ih]

theorem mem_setData_key (k : Key) (data : List Nat) (a : List (Key × Node))
    (e : Key × Node) (he : e ∈ setData k data a) : ∃ e0 ∈ a, e0.1 = e.1 := by
  unfold Card.setData at he
  obtain ⟨x, hx, hxe⟩ := List.mem_map.1 he
  refine ⟨x, hx, ?_⟩
  by_cases hk : x.1 = k
  · rw [if_pos hk] at hxe
    rw [← hxe]
  · rw [if_neg hk] at hxe
    rw [hxe]

theorem Closed.closed_setData {a : List (Key × Node)} (h : Closed a) (k : Key) (d data : List Nat)
    (hf : find k a = some (.file d)) : Closed (setData k data a) := by
  intro e he hne
  obtain ⟨e0, he0, hk0⟩ := mem_setData_key k data a e he
  have hpar := h e0 he0 (by rw [hk0]; exact hne)
  rw [hk0] at hpar
  have hpk : e.1.dropLast ≠ k := by
    intro heq
    rw [heq, hf] at hpar
    exact absurd hpar (by simp)
  rw [find_setData_ne _ _ _ _ hpk]
  exact hpar

theorem FitsLen.mono {L L1 : Nat} {k : Key} {a : List (Key × Node)} (h : FitsLen L k a)
    (hl : L1 ≤ L) : FitsLen L1 k a := by
  intro e he hk
  obtain ⟨hv, hlen⟩ := h e he hk
  refine ⟨hv, ?_⟩
  unfold assembledLength at *
  omega

theorem FitsLen.keys {L : Nat} {k : Key} {a b : List (Key × Node)} (h : FitsLen L k a)
    (hb : ∀ e ∈ b, ∃ e0 ∈ a, e0.1 = e.1) : FitsLen L k b := by
  intro e he hk
  obtain ⟨e0, he0, hk0⟩ := hb e he
  rw [← hk0] at hk ⊢
  exact h e0 he0 hk

theorem FitsLen.len_child {L : Nat} {k : Key} {a : List (Key × Node)} (h : FitsLen L k a)
    (n : CStr) : FitsLen (L + 1 + n.length) (k ++ [n]) a := by
  intro e he hk
  have hk1 : k <+: e.1 := (List.prefix_append k [n]).trans hk
  obtain ⟨hv, hl⟩ := h e he hk1
  obtain ⟨t, ht⟩ := hk
  have hd : e.1.drop k.length = n :: t := by
    rw [← ht]; simp
  have hd2 : e.1.drop (k ++ [n]).length = t := by
    rw [← ht]; simp
  rw [hd] at hv hl
  rw [hd2]
  refine ⟨fun x hx => hv x (List.mem_cons_of_mem _ hx), ?_⟩
  simp only [assembledLength, List.map_cons, List.sum_cons] at hl ⊢
  omega

theorem FitsLen.len_entry {L : Nat} {k : Key} {a : List (Key × Node)} (h : FitsLen L k a)
    (n : CStr) (nd : Node) (hmem : (k ++ [n], nd) ∈ a) :
    validName n = true ∧ L + 1 + n.length ≤ 511 := by
  obtain ⟨hv, hl⟩ := h _ hmem (List.prefix_append k [n])
  simp only [List.drop_left] at hv hl
  refine ⟨hv n (by simp), ?_⟩
  simp only [assembledLength, List.map_cons, List.map_nil, List.sum_cons, List.sum_nil] at hl
  omega

theorem FitsLen.self {L : Nat} {k : Key} {a : List (Key × Node)} (h : FitsLen L k a)
    (nd : Node) (hmem : (k, nd) ∈ a) : L ≤ 511 := by
  obtain ⟨_, hl⟩ := h _ hmem (List.prefix_refl k)
  simpa [assembledLength] using hl

/-- Nodes below `k ++ [n]` that are valid from there are valid from `k`. -/
theorem FitsLen.parent {L : Nat} {k : Key} {n : CStr} {a b : List (Key × Node)}
    (hv : validName n = true) (hb : FitsLen (L + 1 + n.length) (k ++ [n]) b)
    (ha : FitsLen L k a) (hs : SameOutside (k ++ [n]) a b) : FitsLen L k b := by
  intro e he hk
  by_cases hc : (k ++ [n]) <+: e.1
  · obtain ⟨hv1, hl1⟩ := hb e he hc
    obtain ⟨t, ht⟩ := hc
    have hd : e.1.drop k.length = n :: t := by
      rw [← ht]; simp
    have hd2 : e.1.drop (k ++ [n]).length = t := by
      rw [← ht]; simp
    rw [hd2] at hv1 hl1
    rw [hd]
    constructor
    · intro x hx
      rcases List.mem_cons.1 hx with h1 | h1
      · rw [h1]; exact hv
      · exact hv1 x h1
    · simp only [assembledLength, List.map_cons, List.sum_cons] at hl1 ⊢
      omega
  · exact ha e ((hs.mem e hc).1 he) hk

theorem fitsLen_iff (path : CStr) (k : Key) (a : List (Key × Node)) :
    Fits path k a ↔ FitsLen path.length k a := Iff.rfl

theorem Adds.adds_refl (k : Key) (L : Nat) (a : List (Key × Node)) : Adds k L a a :=
  ⟨SameOutside.outside_refl k a, id, id⟩

theorem Adds.adds_trans {k : Key} {L : Nat} {a b c : List (Key × Node)}
    (h1 : Adds k L a b) (h2 : Adds k L b c) : Adds k L a c :=
  ⟨h1.1.outside_trans h2.1, fun h => h2.2.1 (h1.2.1 h), fun h => h2.2.2 (h1.2.2 h)⟩

theorem Adds.of_eq {k : Key} {L : Nat} {a b : List (Key × Node)} (h : b = a) : Adds k L a b := by
  subst h
  exact Adds.adds_refl k L b

theorem Adds.create (k : Key) (L : Nat) (a : List (Key × Node)) (nd : Node)
    (hc : canCreate k a = true) (hL : L ≤ 511) : Adds k L a (a ++ [(k, nd)]) := by
  refine ⟨SameOutside.outside_append k a nd, fun h => h.closed_append k nd hc, ?_⟩
  intro h e he hk
  rcases List.mem_append.1 he with h1 | h1
  · exact h e h1 hk
  · have : e = (k, nd) := by simpa using h1
    subst this
    simp [assembledLength, hL]

theorem Adds.write (k : Key) (L : Nat) (a : List (Key × Node)) (d data : List Nat)
    (hf : find k a = some (.file d)) : Adds k L a (setData k data a) :=
  ⟨SameOutside.outside_setData k data a, fun h => h.closed_setData k d data hf,
    fun h => h.keys (mem_setData_key k data a)⟩

theorem Adds.lift {k : Key} {L : Nat} {n : CStr} {a b : List (Key × Node)}
    (hv : validName n = true) (h : Adds (k ++ [n]) (L + 1 + n.length) a b) : Adds k L a b :=
  ⟨h.1.widen (List.prefix_append k [n]), h.2.1,
    fun ha => FitsLen.parent hv (h.2.2 (ha.len_child n)) ha h.1⟩

end Card

/-! ## Copy: one step of each function -/

section CopySteps
variable {σ δ φ : Type}

theorem copy_file_loop_succ (api : Libnx σ δ φ) (inFile outFile : φ) (n off_in off_out : Nat)
    (w : σ) :
    copy_file_loop api inFile outFile (n + 1) off_in off_out w =
      if R_FAILED (api.fsFileRead inFile off_in 4096 w).1 = true then
        some (-1, api.fsFsClose (api.fsFileClose outFile
          (api.fsFileClose inFile (api.fsFileRead inFile off_in 4096 w).2.2)))
      else if (api.fsFileRead inFile off_in 4096 w).2.1.length = 0 then
        some (0, api.fsFsClose (api.fsFileClose outFile
          (api.fsFileClose inFile (api.fsFileRead inFile off_in 4096 w).2.2)))
      else if R_FAILED (api.fsFileWrite outFile off_out
          (api.fsFileRead inFile off_in 4096 w).2.1
          (api.fsFileRead inFile off_in 4096 w).2.2).1 = true then
        some (-1, api.fsFsClose (api.fsFileClose outFile (api.fsFileClose inFile
          (api.fsFileWrite outFile off_out (api.fsFileRead inFile off_in 4096 w).2.1
            (api.fsFileRead inFile off_in 4096 w).2.2).2)))
      else copy_file_loop api inFile outFile n
        (off_in + (api.fsFileRead inFile off_in 4096 w).2.1.length)
        (off_out + (api.fsFileRead inFile off_in 4096 w).2.1.length)
        (api.fsFileWrite outFile off_out (api.fsFileRead inFile off_in 4096 w).2.1
            (api.fsFileRead inFile off_in 4096 w).2.2).2 := rfl

theorem copy_file_contents_eq (api : Libnx σ δ φ) (n : Nat) (src dest : CStr) (w : σ) :
    copy_file_contents_libnx api n src dest w =
      if R_FAILED (api.fsOpenSdCardFileSystem w).1 = true then
        some (-1, (api.fsOpenSdCardFileSystem w).2)
      else if R_FAILED (api.fsFsOpenFile (normalize_sd_path src 512) FsOpenMode_Read
          (api.fsOpenSdCardFileSystem w).2).1 = true then
        some (-1, api.fsFsClose (api.fsFsOpenFile (normalize_sd_path src 512) FsOpenMode_Read
          (api.fsOpenSdCardFileSystem w).2).2.2)
      else if R_FAILED (api.fsFsOpenFile (normalize_sd_path dest 512) FsOpenMode_Write
          (api.fsFsCreateFile (normalize_sd_path dest 512)
            (api.fsFsOpenFile (normalize_sd_path src 512) FsOpenMode_Read
              (api.fsOpenSdCardFileSystem w).2).2.2).2).1 = true then
        some (-1, api.fsFsClose (api.fsFileClose
          (api.fsFsOpenFile (normalize_sd_path src 512) FsOpenMode_Read
            (api.fsOpenSdCardFileSystem w).2).2.1
          (api.fsFsOpenFile (normalize_sd_path dest 512) FsOpenMode_Write
            (api.fsFsCreateFile (normalize_sd_path dest 512)
              (api.fsFsOpenFile (normalize_sd_path src 512) FsOpenMode_Read
                (api.fsOpenSdCardFileSystem w).2).2.2).2).2.2))
      else copy_file_loop api
        (api.fsFsOpenFile (normalize_sd_path src 512) FsOpenMode_Read
          (api.fsOpenSdCardFileSystem w).2).2.1
        (api.fsFsOpenFile (normalize_sd_path dest 512) FsOpenMode_Write
          (api.fsFsCreateFile (normalize_sd_path dest 512)
            (api.fsFsOpenFile (normalize_sd_path src 512) FsOpenMode_Read
              (api.fsOpenSdCardFileSystem w).2).2.2).2).2.1
        n 0 0
        (api.fsFsOpenFile (normalize_sd_path dest 512) FsOpenMode_Write
          (api.fsFsCreateFile (normalize_sd_path dest 512)
            (api.fsFsOpenFile (normalize_sd_path src 512) FsOpenMode_Read
              (api.fsOpenSdCardFileSystem w).2).2.2).2).2.2 := rfl

theorem copy_dir_recursive_succ (api : Libnx σ δ φ) (n : Nat) (src dest : CStr) (w : σ) :
    copy_dir_recursive_libnx api (n + 1) src dest w =
      if R_FAILED (api.fsOpenSdCardFileSystem w).1 = true then
        some (-1, (api.fsOpenSdCardFileSystem w).2)
      else if R_FAILED (api.fsFsOpenDirectory (normalize_sd_path src 512)
          (FsDirOpenMode_ReadDirs ||| FsDirOpenMode_ReadFiles)
          (api.fsFsCreateDirectory (normalize_sd_path dest 512)
            (api.fsOpenSdCardFileSystem w).2).2).1 = true then
        some (-1, api.fsFsClose (api.fsFsOpenDirectory (normalize_sd_path src 512)
          (FsDirOpenMode_ReadDirs ||| FsDirOpenMode_ReadFiles)
          (api.fsFsCreateDirectory (normalize_sd_path dest 512)
            (api.fsOpenSdCardFileSystem w).2).2).2.2)
      else copy_children api n (normalize_sd_path src 512) (normalize_sd_path dest 512)
        (api.fsFsOpenDirectory (normalize_sd_path src 512)
          (FsDirOpenMode_ReadDirs ||| FsDirOpenMode_ReadFiles)
          (api.fsFsCreateDirectory (normalize_sd_path dest 512)
            (api.fsOpenSdCardFileSystem w).2).2).2.1
        (api.fsFsOpenDirectory (normalize_sd_path src 512)
          (FsDirOpenMode_ReadDirs ||| FsDirOpenMode_ReadFiles)
          (api.fsFsCreateDirectory (normalize_sd_path dest 512)
            (api.fsOpenSdCardFileSystem w).2).2).2.2 := rfl

theorem copy_item_eq (api : Libnx σ δ φ) (fuel : Nat) (src dest_dir : CStr) (w : σ) :
    copy_item api fuel src dest_dir w =
      if R_FAILED (api.fsOpenSdCardFileSystem w).1 = true then
        some (-1, (api.fsOpenSdCardFileSystem w).2)
      else if R_SUCCEEDED (api.fsFsOpenDirectory (normalize_sd_path src 512)
          (FsDirOpenMode_ReadDirs ||| FsDirOpenMode_ReadFiles)
          (api.fsOpenSdCardFileSystem w).2).1 = true then
        copy_dir_recursive_libnx api fuel src (snprintf_join 512 dest_dir (path_get_filename src))
          (api.fsFsClose (api.fsDirClose
            (api.fsFsOpenDirectory (normalize_sd_path src 512)
              (FsDirOpenMode_ReadDirs ||| FsDirOpenMode_ReadFiles)
              (api.fsOpenSdCardFileSystem w).2).2.1
            (api.fsFsOpenDirectory (normalize_sd_path src 512)
              (FsDirOpenMode_ReadDirs ||| FsDirOpenMode_ReadFiles)
              (api.fsOpenSdCardFileSystem w).2).2.2))
      else copy_file_contents_libnx api fuel src
        (snprintf_join 512 dest_dir (path_get_filename src))
        (api.fsFsClose (api.fsFsOpenDirectory (normalize_sd_path src 512)
              (FsDirOpenMode_ReadDirs ||| FsDirOpenMode_ReadFiles)
              (api.fsOpenSdCardFileSystem w).2).2.2) := rfl

theorem copy_file_loop_step (api : Libnx σ δ φ) (inFile outFile : φ) (n off_in off_out : Nat)
    (w : σ) (rc1 : Result) (buf : List Nat) (w1 : σ)
    (hread : api.fsFileRead inFile off_in 4096 w = (rc1, buf, w1))
    (rc2 : Result) (w2 : σ) (hwrite : api.fsFileWrite outFile off_out buf w1 = (rc2, w2)) :
    copy_file_loop api inFile outFile (n + 1) off_in off_out w =
      if R_FAILED rc1 = true then
        some (-1, api.fsFsClose (api.fsFileClose outFile (api.fsFileClose inFile w1)))
      else if buf.length = 0 then
        some (0, api.fsFsClose (api.fsFileClose outFile (api.fsFileClose inFile w1)))
      else if R_FAILED rc2 = true then
        some (-1, api.fsFsClose (api.fsFileClose outFile (api.fsFileClose inFile w2)))
      else copy_file_loop api inFile outFile n (off_in + buf.length) (off_out + buf.length) w2 := by
  have e := copy_file_loop_succ api inFile outFile n off_in off_out w
  rw [hread] at e
  dsimp only at e
  rw [hwrite] at e
  exact e

theorem copy_file_contents_step (api : Libnx σ δ φ) (n : Nat) (src dest : CStr) (w : σ)
    (rc1 : Result) (w1 : σ) (ho : api.fsOpenSdCardFileSystem w = (rc1, w1))
    (rc2 : Result) (inFile : φ) (w2 : σ)
    (hin : api.fsFsOpenFile (normalize_sd_path src 512) FsOpenMode_Read w1 = (rc2, inFile, w2))
    (rc3 : Result) (w3 : σ)
    (hcr : api.fsFsCreateFile (normalize_sd_path dest 512) w2 = (rc3, w3))
    (rc4 : Result) (outFile : φ) (w4 : σ)
    (hout : api.fsFsOpenFile (normalize_sd_path dest 512) FsOpenMode_Write w3
      = (rc4, outFile, w4)) :
    copy_file_contents_libnx api n src dest w =
      if R_FAILED rc1 = true then some (-1, w1)
      else if R_FAILED rc2 = true then some (-1, api.fsFsClose w2)
      else if R_FAILED rc4 = true then some (-1, api.fsFsClose (api.fsFileClose inFile w4))
      else copy_file_loop api inFile outFile n 0 0 w4 := by
  have e := copy_file_contents_eq api n src dest w
  rw [ho] at e
  dsimp only at e
  rw [hin] at e
  dsimp only at e
  rw [hcr] at e
  dsimp only at e
  rw [hout] at e
  exact e

theorem copy_dir_recursive_step (api : Libnx σ δ φ) (n : Nat) (src dest : CStr) (w : σ)
    (rc1 : Result) (w1 : σ) (ho : api.fsOpenSdCardFileSystem w = (rc1, w1))
    (rc2 : Result) (w2 : σ)
    (hcr : api.fsFsCreateDirectory (normalize_sd_path dest 512) w1 = (rc2, w2))
    (rc3 : Result) (dir : δ) (w3 : σ)
    (hod : api.fsFsOpenDirectory (normalize_sd_path src 512)
      (FsDirOpenMode_ReadDirs ||| FsDirOpenMode_ReadFiles) w2 = (rc3, dir, w3)) :
    copy_dir_recursive_libnx api (n + 1) src dest w =
      if R_FAILED rc1 = true then some (-1, w1)
      else if R_FAILED rc3 = true then some (-1, api.fsFsClose w3)
      else copy_children api n (normalize_sd_path src 512) (normalize_sd_path dest 512)
        dir w3 := by
  have e := copy_dir_recursive_succ api n src dest w
  rw [ho] at e
  dsimp only at e
  rw [hcr] at e
  dsimp only at e
  rw [hod] at e
  exact e

theorem copy_children_step (api : Libnx σ δ φ) (n : Nat) (src_n dest_n : CStr) (dir : δ)
    (w : σ) (rc1 : Result) (entry : Option FsDirectoryEntry) (w1 : σ)
    (hread : api.fsDirRead dir w = (rc1, entry, w1)) :
    copy_children api (n + 1) src_n dest_n dir w =
      if R_FAILED rc1 = true then some (-1, api.fsFsClose (api.fsDirClose dir w1))
      else
        match entry with
        | none => some (0, api.fsFsClose (api.fsDirClose dir w1))
        | some entry =>
          if is_dot_or_dotdot entry.name = true then copy_children api n src_n dest_n dir w1
          else
            match (if entry.type = FsDirEntryType_Dir then
                copy_dir_recursive_libnx api n (snprintf_join 512 src_n entry.name)
                  (snprintf_join 512 dest_n entry.name) w1
              else
                copy_file_contents_libnx api n (snprintf_join 512 src_n entry.name)
                  (snprintf_join 512 dest_n entry.name) w1) with
            | none => none
            | some (rc, w2) =>
              if rc ≠ 0 then some (-1, api.fsFsClose (api.fsDirClose dir w2))
              else copy_children api n src_n dest_n dir w2 := by
  have e := copy_children_succ api n src_n dest_n dir w
  rw [hread] at e
  exact e

theorem copy_item_step (api : Libnx σ δ φ) (fuel : Nat) (src dest_dir : CStr) (w : σ)
    (rc1 : Result) (w1 : σ) (ho : api.fsOpenSdCardFileSystem w = (rc1, w1))
    (rc2 : Result) (dir : δ) (w2 : σ)
    (hod : api.fsFsOpenDirectory (normalize_sd_path src 512)
      (FsDirOpenMode_ReadDirs ||| FsDirOpenMode_ReadFiles) w1 = (rc2, dir, w2)) :
    copy_item api fuel src dest_dir w =
      if R_FAILED rc1 = true then some (-1, w1)
      else if R_SUCCEEDED rc2 = true then
        copy_dir_recursive_libnx api fuel src (snprintf_join 512 dest_dir (path_get_filename src))
          (api.fsFsClose (api.fsDirClose dir w2))
      else copy_file_contents_libnx api fuel src
        (snprintf_join 512 dest_dir (path_get_filename src)) (api.fsFsClose w2) := by
  have e := copy_item_eq api fuel src dest_dir w
  rw [ho] at e
  dsimp only at e
  rw [hod] at e
  exact e

end CopySteps

/-! ## Path strings assembled during a copy -/

theorem normalize_sd_path_length_le (s : CStr) : (normalize_sd_path s 512).length ≤ s.length := by
  unfold normalize_sd_path
  simp only [List.length_take]
  have h1 : (if ("sdmc:/".toList).isPrefixOf s = true then s.drop 6 else s).length ≤ s.length := by
    split_ifs
    · simp only [List.length_drop]; omega
    · exact le_refl _
  generalize (if ("sdmc:/".toList).isPrefixOf s = true then s.drop 6 else s) = q at h1 ⊢
  have h2 : (if q.head? = some '/' then q.drop 1 else q).length ≤ q.length := by
    split_ifs
    · simp only [List.length_drop]; omega
    · exact le_refl _
  omega

theorem Card.plainKey_append (k : Key) (n : CStr) (h : Card.plainKey k = true) :
    Card.plainKey (k ++ [n]) = true := by
  cases k with
  | nil => simp [Card.plainKey] at h
  | cons a t => simpa [Card.plainKey] using h

theorem components_of_device_prefix (x : CStr) (h : ("sdmc:/".toList).isPrefixOf x = true) :
    Card.plainKey (components x) = false := by
  obtain ⟨t, ht⟩ := List.isPrefixOf_iff_prefix.1 h
  have e : x = "sdmc:".toList ++ '/' :: t := by
    rw [← ht]; rfl
  rw [e, components_append_slash, components_piece "sdmc:".toList (by decide) (by decide)]
  rfl

/-- The path string that a copy assembles for a child names the child of the
node that the parent string names, and normalising it again changes nothing
of that. -/
theorem copy_child_key (q n : CStr) (hplain : Card.plainKey (components q) = true)
    (h1 : n ≠ []) (h2 : '/' ∉ n) (hlen : (q ++ '/' :: n).length ≤ 511) :
    snprintf_join 512 q n = q ++ '/' :: n ∧
    components (normalize_sd_path (snprintf_join 512 q n) 512) = components q ++ [n] := by
  have hj : snprintf_join 512 q n = q ++ '/' :: n := by
    unfold snprintf_join
    exact List.take_of_length_le (by simpa using hlen)
  refine ⟨hj, ?_⟩
  rw [hj, normalize_sd_path_components _ hlen, sdmc_prefix_after_slash]
  have hnp : ("sdmc:/".toList).isPrefixOf (q ++ ['/']) = false := by
    by_contra hc
    have hp : ("sdmc:/".toList).isPrefixOf (q ++ ['/']) = true := by simpa using hc
    have := components_of_device_prefix _ hp
    have e : components (q ++ ['/']) = components q := by
      have := components_trailing_slashes q 1
      simpa using this
    rw [e, hplain] at this
    exact absurd this (by decide)
  rw [hnp]
  simp only [Bool.false_eq_true, if_false]
  rw [components_append_slash, components_piece n h1 h2]

theorem not_prefix_child (k1 k2 : Key) (n : CStr) (h : ¬ k1 <+: k2) :
    ¬ (k1 ++ [n]) <+: (k2 ++ [n]) := by
  intro hp
  have hlen := hp.length_le
  simp only [List.length_append, List.length_cons, List.length_nil] at hlen
  have h1 : k1 <+: k2 ++ [n] := (List.prefix_append k1 [n]).trans hp
  rw [List.prefix_concat_iff] at h1
  rcases h1 with h1 | h1
  · rw [h1] at hlen
    simp at hlen
  · exact h h1

namespace Card

theorem FitsLen.of_sameOutside {L : Nat} {ks kd : Key} {a b : List (Key × Node)}
    (h : FitsLen L ks a) (hs : SameOutside kd a b) (h1 : ¬ ks <+: kd) (h2 : ¬ kd <+: ks) :
    FitsLen L ks b := by
  intro e he hk
  have hnd : ¬ kd <+: e.1 := by
    intro hd
    rcases List.prefix_or_prefix_of_prefix hk hd with h3 | h3
    · exact h1 h3
    · exact h2 h3
  exact h e ((hs.mem e hnd).1 he) hk

/-- The read and write loop of a file copy changes nothing but the content of
the file that the output handle names. -/
theorem copy_file_loop_adds (inFile outFile : Nat) (kd : Key) (L : Nat) (n : Nat) :
    ∀ (off_in off_out : Nat) (c : Card) (rc : Int) (c1 : Card),
      c.handles[outFile]? = some kd →
      copy_file_loop api inFile outFile n off_in off_out c = some (rc, c1) →
      Adds kd L c.nodes c1.nodes ∧ c1.streams = c.streams := by
  induction n with
  | zero =>
    intro off_in off_out c rc c1 _ h
    simp [copy_file_loop] at h
  | succ n ih =>
    intro off_in off_out c rc c1 hh h
    obtain ⟨rc1, buf, w1, hread, hn1, hs1, hh1⟩ := fileRead_spec inFile off_in 4096 c
    obtain ⟨rc2, w2, hwrite, hs2, hh2, hcase⟩ := fileWrite_spec outFile off_out buf w1
    rw [copy_file_loop_step api inFile outFile n off_in off_out c rc1 buf w1 hread rc2 w2
      hwrite] at h
    simp only [fsFsClose_eq, fsFileClose_eq] at h
    have hA1 : Adds kd L c.nodes w1.nodes := Adds.of_eq hn1
    have hA2 : Adds kd L w1.nodes w2.nodes := by
      rcases hcase with h0 | ⟨k, d, data, hk, hf, hn2⟩
      · exact Adds.of_eq h0
      · rw [hh1, hh] at hk
        have hkk : kd = k := by simpa using hk
        subst hkk
        rw [hn2]
        exact Adds.write kd L _ d data hf
    by_cases hf1 : R_FAILED rc1 = true
    · rw [if_pos hf1] at h
      have e : c1 = w1 := by
        have := congrArg (fun o => o.map Prod.snd) h
        simpa using this.symm
      subst e
      exact ⟨hA1, hs1⟩
    · rw [if_neg hf1] at h
      by_cases hb : buf.length = 0
      · rw [if_pos hb] at h
        have e : c1 = w1 := by
          have := congrArg (fun o => o.map Prod.snd) h
          simpa using this.symm
        subst e
        exact ⟨hA1, hs1⟩
      · rw [if_neg hb] at h
        by_cases hf2 : R_FAILED rc2 = true
        · rw [if_pos hf2] at h
          have e : c1 = w2 := by
            have := congrArg (fun o => o.map Prod.snd) h
            simpa using this.symm
          subst e
          exact ⟨hA1.adds_trans hA2, by rw [hs2, hs1]⟩
        · rw [if_neg hf2] at h
          obtain ⟨hA3, hs3⟩ := ih _ _ w2 rc c1 (by rw [hh2, hh1]; exact hh) h
          exact ⟨(hA1.adds_trans hA2).adds_trans hA3, by rw [hs3, hs2, hs1]⟩

/-- A file copy touches only the destination node; when it returns 0 the
source was a file. -/
theorem copy_file_contents_adds (s d : CStr) (L : Nat) (hL : L ≤ 511) (n : Nat)
    (c : Card) (rc : Int) (c1 : Card)
    (h : copy_file_contents_libnx api n s d c = some (rc, c1)) :
    Adds (components (normalize_sd_path d 512)) L c.nodes c1.nodes ∧
    c1.streams = c.streams ∧
    (rc = 0 → ∃ dd, find (components (normalize_sd_path s 512)) c.nodes = some (.file dd)) := by
  obtain ⟨rc1, w1, ho, hn1, hs1⟩ := open_spec c
  obtain ⟨rc2, inFile, w2, hin, hn2, hs2, hcase2⟩ :=
    openFile_spec (normalize_sd_path s 512) FsOpenMode_Read w1
  obtain ⟨rc3, w3, hcr, hs3, hh3, hcase3⟩ := createFile_spec (normalize_sd_path d 512) w2
  obtain ⟨rc4, outFile, w4, hout, hn4, hs4, hcase4⟩ :=
    openFile_spec (normalize_sd_path d 512) FsOpenMode_Write w3
  rw [copy_file_contents_step api n s d c rc1 w1 ho rc2 inFile w2 hin rc3 w3 hcr rc4 outFile w4
    hout] at h
  simp only [fsFsClose_eq, fsFileClose_eq] at h
  generalize hkd : components (normalize_sd_path d 512) = kd at *
  have hA3 : Adds kd L c.nodes w3.nodes := by
    rcases hcase3 with h0 | ⟨hcc, h0⟩
    · exact Adds.of_eq (by rw [h0, hn2, hn1])
    · rw [h0, hn2, hn1]
      rw [hn2, hn1] at hcc
      exact Adds.create kd L _ _ hcc hL
  have hA4 : Adds kd L c.nodes w4.nodes := hA3.adds_trans (Adds.of_eq hn4)
  by_cases hf1 : R_FAILED rc1 = true
  · rw [if_pos hf1] at h
    have e : c1 = w1 := by
      have := congrArg (fun o => o.map Prod.snd) h
      simpa using this.symm
    have e0 : rc = -1 := by
      have := congrArg (fun o => o.map Prod.fst) h
      simpa using this.symm
    subst e e0
    exact ⟨Adds.of_eq hn1, hs1, fun h0 => absurd h0 (by decide)⟩
  · rw [if_neg hf1] at h
    by_cases hf2 : R_FAILED rc2 = true
    · rw [if_pos hf2] at h
      have e : c1 = w2 := by
        have := congrArg (fun o => o.map Prod.snd) h
        simpa using this.symm
      have e0 : rc = -1 := by
        have := congrArg (fun o => o.map Prod.fst) h
        simpa using this.symm
      subst e e0
      exact ⟨Adds.of_eq (by rw [hn2, hn1]), by rw [hs2, hs1], fun h0 => absurd h0 (by decide)⟩
    · rw [if_neg hf2] at h
      have hsrc : ∃ dd, find (components (normalize_sd_path s 512)) c.nodes
          = some (.file dd) := by
        rcases hcase2 with ⟨hx, _⟩ | ⟨_, hx, _⟩
        · exact absurd hx hf2
        · rw [hn1] at hx
          exact hx
      by_cases hf4 : R_FAILED rc4 = true
      · rw [if_pos hf4] at h
        have e : c1 = w4 := by
          have := congrArg (fun o => o.map Prod.snd) h
          simpa using this.symm
        subst e
        exact ⟨hA4, by rw [hs4, hs3, hs2, hs1], fun _ => hsrc⟩
      · rw [if_neg hf4] at h
        have hhandle : w4.handles[outFile]? = some kd := by
          rcases hcase4 with ⟨hx, _⟩ | ⟨_, _, hidx, hhs⟩
          · exact absurd hx hf4
          · rw [hhs, hidx]
            simp
        obtain ⟨hA5, hs5⟩ := copy_file_loop_adds inFile outFile kd L n 0 0 w4 rc c1 hhandle h
        exact ⟨hA4.adds_trans hA5, by rw [hs5, hs4, hs3, hs2, hs1], fun _ => hsrc⟩

end Card

namespace Card

/-- A directory copy on the card, whatever it returns, changes the table only
inside the destination subtree and keeps it a valid tree; the statement for
the loop carries the directory handle and the entries still to be read. -/
theorem copy_adds (n : Nat) :
    (∀ (s d : CStr) (L : Nat) (c : Card) (rc : Int) (c1 : Card),
      L ≤ 511 → s.length ≤ L → d.length ≤ L →
      plainKey (components (normalize_sd_path s 512)) = true →
      plainKey (components (normalize_sd_path d 512)) = true →
      ¬ components (normalize_sd_path s 512) <+: components (normalize_sd_path d 512) →
      ¬ components (normalize_sd_path d 512) <+: components (normalize_sd_path s 512) →
      FitsLen L (components (normalize_sd_path s 512)) c.nodes →
      copy_dir_recursive_libnx api n s d c = some (rc, c1) →
      Adds (components (normalize_sd_path d 512)) L c.nodes c1.nodes ∧
        ∃ ext, c1.streams = c.streams ++ ext) ∧
    (∀ (sn dn : CStr) (h : Nat) (L : Nat) (c : Card) (rest : List FsDirectoryEntry)
      (rc : Int) (c1 : Card),
      L ≤ 511 → sn.length ≤ L → dn.length ≤ L →
      plainKey (components sn) = true → plainKey (components dn) = true →
      ¬ components sn <+: components dn → ¬ components dn <+: components sn →
      FitsLen L (components sn) c.nodes →
      c.streams[h]? = some rest →
      (∀ x ∈ rest, validName x.name = true ∧ L + 1 + x.name.length ≤ 511) →
      copy_children api n sn dn h c = some (rc, c1) →
      Adds (components dn) L c.nodes c1.nodes ∧
        ∃ r ext, c1.streams = c.streams.set h r ++ ext) := by
  induction n with
  | zero =>
    constructor
    · intro s d L c rc c1 _ _ _ _ _ _ _ _ h
      simp [copy_dir_recursive_libnx] at h
    · intro sn dn h L c rest rc c1 _ _ _ _ _ _ _ _ _ _ hrun
      simp [copy_children] at hrun
  | succ n ih =>
    obtain ⟨ihr, ihc⟩ := ih
    constructor
    · intro s d L c rc c1 hL hsl hdl hps hpd hd1 hd2 hfit h
      obtain ⟨rc1, w1, ho, hn1, hs1⟩ := open_spec c
      obtain ⟨rc2, w2, hcr, hs2, _, hcase2⟩ := createDirectory_spec (normalize_sd_path d 512) w1
      obtain ⟨rc3, dir, w3, hod, hn3, hcase3⟩ := openDirectory_spec (normalize_sd_path s 512)
        (FsDirOpenMode_ReadDirs ||| FsDirOpenMode_ReadFiles) w2
      rw [copy_dir_recursive_step api n s d c rc1 w1 ho rc2 w2 hcr rc3 dir w3 hod] at h
      simp only [fsFsClose_eq] at h
      generalize hks : components (normalize_sd_path s 512) = ks at *
      generalize hkd : components (normalize_sd_path d 512) = kd at *
      have hA2 : Adds kd L c.nodes w2.nodes := by
        rcases hcase2 with h0 | ⟨hcc, h0⟩
        · exact Adds.of_eq (by rw [h0, hn1])
        · rw [h0, hn1]
          rw [hn1] at hcc
          exact Adds.create kd L _ _ hcc hL
      have hA3 : Adds kd L c.nodes w3.nodes := hA2.adds_trans (Adds.of_eq hn3)
      by_cases hf1 : R_FAILED rc1 = true
      · rw [if_pos hf1] at h
        have e : c1 = w1 := by
          have := congrArg (fun o => o.map Prod.snd) h
          simpa using this.symm
        subst e
        exact ⟨Adds.of_eq hn1, [], by rw [hs1, List.append_nil]⟩
      · rw [if_neg hf1] at h
        by_cases hf3 : R_FAILED rc3 = true
        · rw [if_pos hf3] at h
          have e : c1 = w3 := by
            have := congrArg (fun o => o.map Prod.snd) h
            simpa using this.symm
          subst e
          refine ⟨hA3, ?_⟩
          rcases hcase3 with ⟨_, hs3⟩ | ⟨_, _, _, hs3⟩
          · exact ⟨[], by rw [hs3, hs2, hs1, List.append_nil]⟩
          · exact ⟨_, by rw [hs3, hs2, hs1]⟩
        · rw [if_neg hf3] at h
          rcases hcase3 with ⟨hx, _⟩ | ⟨_, _, hidx, hs3⟩
          · have : R_FAILED rc3 = true := by
              cases rc3 with
              | zero => simp [R_SUCCEEDED] at hx
              | succ m => simp [R_FAILED]
            exact absurd this hf3
          · have hfit3 : FitsLen L ks w3.nodes := hfit.of_sameOutside hA3.1 hd1 hd2
            have hstream : w3.streams[dir]? = some (listing ks
                (FsDirOpenMode_ReadDirs ||| FsDirOpenMode_ReadFiles) w2.nodes) := by
              rw [hs3, hidx]
              simp
            have hfit2 : FitsLen L ks w2.nodes := hfit.of_sameOutside hA2.1 hd1 hd2
            have hent : ∀ x ∈ listing ks (FsDirOpenMode_ReadDirs ||| FsDirOpenMode_ReadFiles)
                w2.nodes, validName x.name = true ∧ L + 1 + x.name.length ≤ 511 := by
              intro x hx
              obtain ⟨nd, hmem, hkey⟩ := mem_listing ks _ w2.nodes x hx
              have hmem2 : (ks ++ [x.name], nd.2) ∈ w2.nodes := by
                rw [← hkey]; exact hmem
              exact hfit2.len_entry x.name nd.2 hmem2
            have hsn : (normalize_sd_path s 512).length ≤ L :=
              le_trans (normalize_sd_path_length_le s) hsl
            have hdn : (normalize_sd_path d 512).length ≤ L :=
              le_trans (normalize_sd_path_length_le d) hdl
            obtain ⟨hA4, r, ext, hs4⟩ := ihc (normalize_sd_path s 512) (normalize_sd_path d 512)
              dir L w3 _ rc c1 hL hsn hdn (by rw [hks]; exact hps) (by rw [hkd]; exact hpd)
              (by rw [hks, hkd]; exact hd1) (by rw [hks, hkd]; exact hd2)
              (by rw [hks]; exact hfit3) hstream (by rw [hks] at *; exact hent) h
            rw [hkd] at hA4
            refine ⟨hA3.adds_trans hA4, ?_⟩
            have hlt : dir < w3.streams.length := lt_of_getElem?_eq_some hstream
            rw [hs3] at hs4 hlt
            rw [hs2, hs1] at hs4 hlt
            refine ⟨[r] ++ ext, ?_⟩
            rw [hs4, hidx, hs2, hs1]
            simp
    · intro sn dn h L c rest rc c1 hL hsl hdl hps hpd hd1 hd2 hfit hstream hent hrun
      have hlt := lt_of_getElem?_eq_some hstream
      have hsame : c.streams = c.streams.set h rest := set_self hstream
      obtain ⟨rc1, entry, w1, hread, hn1, hcase1⟩ := dirRead_spec h c
      rw [copy_children_step api n sn dn h c rc1 entry w1 hread] at hrun
      simp only [fsFsClose_eq, fsDirClose_eq] at hrun
      by_cases hf1 : R_FAILED rc1 = true
      · rw [if_pos hf1] at hrun
        have e : c1 = w1 := by
          have := congrArg (fun o => o.map Prod.snd) hrun
          simpa using this.symm
        subst e
        refine ⟨Adds.of_eq hn1, rest, [], ?_⟩
        rcases hcase1 with ⟨_, hs1⟩ | ⟨hx, _⟩
        · rw [hs1, List.append_nil]
          exact hsame
        · exact absurd hf1 (by rw [hx]; decide)
      · rw [if_neg hf1] at hrun
        rcases hcase1 with ⟨hx, _⟩ | ⟨_, hcase1⟩
        · exact absurd hx hf1
        · rcases hcase1 with ⟨he, hs1, _⟩ | ⟨x, rest1, he, hsx, hs1⟩
          · subst he
            simp only at hrun
            have e : c1 = w1 := by
              have := congrArg (fun o => o.map Prod.snd) hrun
              simpa using this.symm
            subst e
            refine ⟨Adds.of_eq hn1, rest, [], ?_⟩
            rw [hs1, List.append_nil]
            exact hsame
          · subst he
            simp only at hrun
            rw [hstream] at hsx
            simp only [Option.some.injEq] at hsx
            subst hsx
            obtain ⟨hv, hl⟩ := hent x (by simp)
            obtain ⟨hv1, hv2, hdot⟩ := validName_spec x.name hv
            rw [if_neg (by rw [hdot]; decide)] at hrun
            have hstream1 : w1.streams[h]? = some rest1 := by
              rw [hs1]
              simp [hlt]
            have hfit1 : FitsLen L (components sn) w1.nodes := by rw [hn1]; exact hfit
            have hent1 : ∀ y ∈ rest1, validName y.name = true ∧ L + 1 + y.name.length ≤ 511 :=
              fun y hy => hent y (List.mem_cons_of_mem _ hy)
            obtain ⟨hjs, hcs⟩ := copy_child_key sn x.name hps hv1 hv2
              (by simp only [List.length_append, List.length_cons]; omega)
            obtain ⟨hjd, hcd⟩ := copy_child_key dn x.name hpd hv1 hv2
              (by simp only [List.length_append, List.length_cons]; omega)
            have hchild : ∀ (rcc : Int) (c2 : Card),
                (if x.type = FsDirEntryType_Dir then
                  copy_dir_recursive_libnx api n (snprintf_join 512 sn x.name)
                    (snprintf_join 512 dn x.name) w1
                else
                  copy_file_contents_libnx api n (snprintf_join 512 sn x.name)
                    (snprintf_join 512 dn x.name) w1) = some (rcc, c2) →
                Adds (components dn) L w1.nodes c2.nodes ∧
                  ∃ ext, c2.streams = w1.streams ++ ext := by
              intro rcc c2 hc
              have hL1 : L + 1 + x.name.length ≤ 511 := hl
              have hsl1 : (snprintf_join 512 sn x.name).length ≤ L + 1 + x.name.length := by
                rw [hjs]
                simp only [List.length_append, List.length_cons]
                omega
              have hdl1 : (snprintf_join 512 dn x.name).length ≤ L + 1 + x.name.length := by
                rw [hjd]
                simp only [List.length_append, List.length_cons]
                omega
              by_cases ht : x.type = FsDirEntryType_Dir
              · rw [if_pos ht] at hc
                obtain ⟨hA, ext, hse⟩ := ihr _ _ (L + 1 + x.name.length) w1 rcc c2 hL1 hsl1 hdl1
                  (by rw [hcs]; exact plainKey_append _ _ hps)
                  (by rw [hcd]; exact plainKey_append _ _ hpd)
                  (by rw [hcs, hcd]; exact not_prefix_child _ _ _ hd1)
                  (by rw [hcs, hcd]; exact not_prefix_child _ _ _ hd2)
                  (by rw [hcs]; exact hfit1.len_child x.name) hc
                rw [hcd] at hA
                exact ⟨Adds.lift hv hA, ext, hse⟩
              · rw [if_neg ht] at hc
                obtain ⟨hA, hse, _⟩ := copy_file_contents_adds _ _ (L + 1 + x.name.length) hL1 n
                  w1 rcc c2 hc
                rw [hcd] at hA
                exact ⟨Adds.lift hv hA, [], by rw [hse, List.append_nil]⟩
            generalize hres : (if x.type = FsDirEntryType_Dir then
                  copy_dir_recursive_libnx api n (snprintf_join 512 sn x.name)
                    (snprintf_join 512 dn x.name) w1
                else
                  copy_file_contents_libnx api n (snprintf_join 512 sn x.name)
                    (snprintf_join 512 dn x.name) w1) = res at hrun hchild
            cases res with
            | none => simp at hrun
            | some p =>
              obtain ⟨rcc, c2⟩ := p
              simp only at hrun
              obtain ⟨hA2, ext1, hs2⟩ := hchild rcc c2 rfl
              have hA12 : Adds (components dn) L c.nodes c2.nodes := (Adds.of_eq hn1).adds_trans hA2
              by_cases hz : rcc ≠ 0
              · rw [if_pos hz] at hrun
                have e : c1 = c2 := by
                  have := congrArg (fun o => o.map Prod.snd) hrun
                  simpa using this.symm
                subst e
                exact ⟨hA12, rest1, ext1, by rw [hs2, hs1]⟩
              · rw [if_neg hz] at hrun
                have hstream2 : c2.streams[h]? = some rest1 := by
                  rw [hs2, hs1]
                  exact getElem?_set_append _ _ _ _ hlt
                have hfit2 : FitsLen L (components sn) c2.nodes :=
                  hfit1.of_sameOutside hA2.1 hd1 hd2
                obtain ⟨hA3, r, ext2, hs3⟩ := ihc sn dn h L c2 rest1 rc c1 hL hsl hdl hps hpd
                  hd1 hd2 hfit2 hstream2 hent1 hrun
                refine ⟨hA12.adds_trans hA3, r, ext1 ++ ext2, ?_⟩
                rw [hs3, hs2, hs1, set_append_set _ _ _ _ _ hlt, List.append_assoc]

end Card

/-! ## Delete: more fuel changes nothing -/

section DeleteFuel
variable {σ δ φ : Type}

theorem delete_fuel_succ (api : Libnx σ δ φ) (n : Nat) :
    (∀ (path : CStr) (w : σ) (r : Int × σ),
      delete_recursive_libnx api n path w = some r →
      delete_recursive_libnx api (n + 1) path w = some r) ∧
    (∀ (path path_n : CStr) (dir : δ) (w : σ) (r : Int × σ),
      delete_children api n path path_n dir w = some r →
      delete_children api (n + 1) path path_n dir w = some r) := by
  induction n with
  | zero =>
    constructor
    · intro path w r h
      simp [delete_recursive_libnx] at h
    · intro path path_n dir w r h
      simp [delete_children] at h
  | succ n ih =>
    obtain ⟨ihr, ihc⟩ := ih
    constructor
    · intro path w r h
      rw [delete_recursive_succ] at h ⊢
      by_cases c1 : R_FAILED (api.fsOpenSdCardFileSystem w).1 = true
      · rw [if_pos c1] at h ⊢
        exact h
      · rw [if_neg c1] at h ⊢
        by_cases c2 : R_SUCCEEDED (api.fsFsOpenDirectory (normalize_sd_path path 512)
            (FsDirOpenMode_ReadDirs ||| FsDirOpenMode_ReadFiles)
            (api.fsOpenSdCardFileSystem w).2).1 = true
        · rw [if_pos c2] at h ⊢
          exact ihc _ _ _ _ _ h
        · rw [if_neg c2] at h ⊢
          exact h
    · intro path path_n dir w r h
      rw [delete_children_succ] at h ⊢
      by_cases c1 : R_FAILED (api.fsDirRead dir w).1 = true
      · rw [if_pos c1] at h ⊢
        exact h
      · rw [if_neg c1] at h ⊢
        generalize (api.fsDirRead dir w).2.1 = entry at h ⊢
        generalize (api.fsDirRead dir w).2.2 = w1 at h ⊢
        cases entry with
        | none => exact h
        | some e =>
          simp only at h ⊢
          by_cases c2 : is_dot_or_dotdot e.name = true
          · rw [if_pos c2] at h ⊢
            exact ihc _ _ _ _ _ h
          · rw [if_neg c2] at h ⊢
            cases hr : delete_recursive_libnx api n (snprintf_join 512 path e.name) w1 with
            | none =>
              rw [hr] at h
              simp at h
            | some p =>
              rw [hr] at h
              rw [ihr _ _ _ hr]
              obtain ⟨rc, w2⟩ := p
              simp only at h ⊢
              by_cases c3 : rc ≠ 0
              · rw [if_pos c3] at h ⊢
                exact h
              · rw [if_neg c3] at h ⊢
                exact ihc _ _ _ _ _ h

theorem delete_fuel_le (api : Libnx σ δ φ) (n m : Nat) (hnm : n ≤ m) (path : CStr) (w : σ)
    (r : Int × σ) (h : delete_recursive_libnx api n path w = some r) :
    delete_recursive_libnx api m path w = some r := by
  induction m with
  | zero =>
    have : n = 0 := by omega
    subst this
    exact h
  | succ m ih =>
    by_cases hm : n ≤ m
    · exact (delete_fuel_succ api m).1 path w r (ih hm)
    · have : n = m + 1 := by omega
      subst this
      exact h

end DeleteFuel

namespace Card

/-- In a tree, whatever has something below it is a directory. -/
theorem Closed.ancestor_dir {nodes : List (Key × Node)} (hc : Closed nodes) (k : Key) :
    ∀ e ∈ nodes, k <+: e.1 → e.1 ≠ k → find k nodes = some .dir := by
  have key : ∀ n (e : Key × Node), e ∈ nodes → e.1.length = n → k <+: e.1 → e.1 ≠ k →
      find k nodes = some .dir := by
    intro n
    induction n using Nat.strong_induction_on with
    | _ n ih =>
      intro e he hlen hpre hne
      have hne0 : e.1 ≠ [] := by
        intro h0
        rw [h0] at hpre hne
        exact hne (List.prefix_nil.1 hpre).symm
      have hpar := hc e he hne0
      obtain ⟨t, ht⟩ := hpre
      have htne : t ≠ [] := by
        intro h0
        rw [h0, List.append_nil] at ht
        exact hne ht.symm
      have hdl : e.1.dropLast = k ++ t.dropLast := by
        rw [← ht, List.dropLast_append_of_ne_nil _ htne]
      by_cases hp : e.1.dropLast = k
      · rw [hp] at hpar
        exact hpar
      · have hmem := find_mem _ _ _ hpar
        have hlt : e.1.dropLast.length < n := by
          rw [List.length_dropLast, hlen]
          have := List.length_pos.2 hne0
          omega
        exact ih _ hlt (e.1.dropLast, Node.dir) hmem rfl
          (by rw [hdl]; exact List.prefix_append _ _) hp
  intro e he
  exact key _ e he rfl

theorem filter_eq_self_of_nothing_below (k : Key) (nodes : List (Key × Node))
    (h : ∀ e ∈ nodes, ¬ k <+: e.1) :
    nodes.filter (fun e => !k.isPrefixOf e.1) = nodes := by
  apply List.filter_eq_self.2
  intro e he
  cases hx : k.isPrefixOf e.1 with
  | false => rfl
  | true => exact absurd (List.isPrefixOf_iff_prefix.1 hx) (h e he)

end Card

namespace Card

/-- What `copy_item` does to a card on which nothing exists at or below the
destination path. -/
theorem copy_item_adds (A D : CStr) (L fuel : Nat) (c : Card) (rc : Int) (c1 : Card)
    (hL : L ≤ 511) (hA : A.length ≤ L)
    (hP : (D ++ '/' :: path_get_filename A).length ≤ L)
    (hps : plainKey (components (normalize_sd_path A 512)) = true)
    (hpd : plainKey (components (normalize_sd_path (D ++ '/' :: path_get_filename A) 512)) = true)
    (hout : ¬ components (normalize_sd_path A 512) <+:
      components (normalize_sd_path (D ++ '/' :: path_get_filename A) 512))
    (hno : ∀ e ∈ c.nodes,
      ¬ components (normalize_sd_path (D ++ '/' :: path_get_filename A) 512) <+: e.1)
    (hfit : FitsLen L (components (normalize_sd_path A 512)) c.nodes)
    (h : copy_item api fuel A D c = some (rc, c1)) :
    Adds (components (normalize_sd_path (D ++ '/' :: path_get_filename A) 512)) L
      c.nodes c1.nodes := by
  have hj : snprintf_join 512 D (path_get_filename A) = D ++ '/' :: path_get_filename A := by
    unfold snprintf_join
    exact List.take_of_length_le (by omega)
  obtain ⟨rc1, w1, ho, hn1, _⟩ := open_spec c
  obtain ⟨rc2, dir, w2, hod, hn2, hcase2⟩ := openDirectory_spec (normalize_sd_path A 512)
    (FsDirOpenMode_ReadDirs ||| FsDirOpenMode_ReadFiles) w1
  rw [copy_item_step api fuel A D c rc1 w1 ho rc2 dir w2 hod, hj] at h
  simp only [fsFsClose_eq, fsDirClose_eq] at h
  have hw2 : w2.nodes = c.nodes := by rw [hn2, hn1]
  by_cases hf1 : R_FAILED rc1 = true
  · rw [if_pos hf1] at h
    have e : c1 = w1 := by
      have := congrArg (fun o => o.map Prod.snd) h
      simpa using this.symm
    subst e
    exact Adds.of_eq hn1
  · rw [if_neg hf1] at h
    by_cases hs2 : R_SUCCEEDED rc2 = true
    · rw [if_pos hs2] at h
      rcases hcase2 with ⟨hx, _⟩ | ⟨_, hdir, _, _⟩
      · rw [hx] at hs2
        exact absurd hs2 (by decide)
      · rw [hn1] at hdir
        have hmem := find_mem _ _ _ hdir
        have hd2 := hno _ hmem
        cases fuel with
        | zero => simp [copy_dir_recursive_libnx] at h
        | succ n =>
          obtain ⟨hAdd, _⟩ := (copy_adds (n + 1)).1 A (D ++ '/' :: path_get_filename A) L
            w2 rc c1 hL hA hP hps hpd hout hd2 (by rw [hw2]; exact hfit) h
          rw [hw2] at hAdd
          exact hAdd
    · rw [if_neg hs2] at h
      obtain ⟨hAdd, _, _⟩ := copy_file_contents_adds A (D ++ '/' :: path_get_filename A) L hL
        fuel w2 rc c1 h
      rw [hw2] at hAdd
      exact hAdd

end Card

/-- C11: on every card whose table is a tree, for a source `A` and a
destination directory `D` such that `D/filename(A)` lies outside the subtree
of `A` and nothing exists there before the copy, both paths have at most 511
characters, neither runs through a top-level entry called `sdmc:`, and every
node at or below `A` has a valid name and a path that fits the 512-byte
buffers when assembled from `A` and from `D/filename(A)`: when
`copy_item(A, D)` returns 0 and then `delete_item(D/filename(A))` returns 0,
the table is the one before the copy, so the subtree under `D` is unchanged. -/
theorem copy_then_delete_restores (A D : CStr) (fuel1 fuel2 : Nat) (c c1 c2 : Card)
    (hclosed : Card.Closed c.nodes)
    (hlenA : A.length ≤ 511)
    (hlenP : (D ++ '/' :: path_get_filename A).length ≤ 511)
    (hps : Card.plainKey (components (normalize_sd_path A 512)) = true)
    (hpd : Card.plainKey
      (components (normalize_sd_path (D ++ '/' :: path_get_filename A) 512)) = true)
    (hout : ¬ components (normalize_sd_path A 512) <+:
      components (normalize_sd_path (D ++ '/' :: path_get_filename A) 512))
    (hfree : Card.find
      (components (normalize_sd_path (D ++ '/' :: path_get_filename A) 512)) c.nodes = none)
    (hfitA : Card.Fits A (components (normalize_sd_path A 512)) c.nodes)
    (hfitD : Card.Fits (D ++ '/' :: path_get_filename A)
      (components (normalize_sd_path A 512)) c.nodes)
    (hcopy : copy_item Card.api fuel1 A D c = some (0, c1))
    (hdel : delete_item Card.api fuel2 (D ++ '/' :: path_get_filename A) c1 = some (0, c2)) :
    c2.nodes = c.nodes ∧
    Card.below (components (normalize_sd_path D 512)) c2.nodes =
      Card.below (components (normalize_sd_path D 512)) c.nodes := by
  generalize hPdef : D ++ '/' :: path_get_filename A = P at *
  generalize hkd : components (normalize_sd_path P 512) = kd at *
  generalize hks : components (normalize_sd_path A 512) = ks at *
  have hno : ∀ e ∈ c.nodes, ¬ kd <+: e.1 := hclosed.nothing_below kd hfree
  -- the copy
  have hfitL : Card.FitsLen (max A.length P.length) ks c.nodes := by
    intro e he hk
    obtain ⟨hv, h1⟩ := hfitA e he hk
    obtain ⟨_, h2⟩ := hfitD e he hk
    refine ⟨hv, ?_⟩
    unfold assembledLength at *
    rcases le_total A.length P.length with hle | hle
    · rw [max_eq_right hle]; exact h2
    · rw [max_eq_left hle]; exact h1
  have hAdd : Card.Adds kd (max A.length P.length) c.nodes c1.nodes := by
    have := Card.copy_item_adds A D (max A.length P.length) fuel1 c 0 c1
      (max_le hlenA hlenP) (le_max_left _ _) (by rw [hPdef]; exact le_max_right _ _)
      (by rw [hks]; exact hps) (by rw [hPdef, hkd]; exact hpd)
      (by rw [hks, hPdef, hkd]; exact hout) (by rw [hPdef, hkd]; exact hno)
      (by rw [hks]; exact hfitL) hcopy
    rw [hPdef, hkd] at this
    exact this
  obtain ⟨hsame, hcl, hfl⟩ := hAdd
  have hclosed1 : Card.Closed c1.nodes := hcl hclosed
  have hfit1 : Card.Fits P kd c1.nodes := by
    have h0 : Card.FitsLen (max A.length P.length) kd c.nodes :=
      fun e he hk => absurd hk (hno e he)
    exact (hfl h0).mono (le_max_right _ _)
  -- the delete
  have habs : bareDevice P = false := by
    rw [← hPdef]
    exact bareDevice_child D (path_get_filename A)
  obtain ⟨rc2, c3, _, Dl, hrun, _, _, hD, hn3, hgone⟩ :=
    (Card.delete_aux (max fuel2 ((c1.nodes.length + 1) * (c1.nodes.length + 2)))).1 P c1
      c1.nodes.length habs (by rw [hkd]; exact hfit1) le_rfl
      (le_trans (Nat.mul_le_mul_right _
        (Nat.add_le_add_right (Card.below_length_le _ _) 1)) (le_max_right _ _))
  have hrun2 := delete_fuel_le Card.api fuel2
    (max fuel2 ((c1.nodes.length + 1) * (c1.nodes.length + 2))) (le_max_left _ _) P c1
    (0, c2) hdel
  rw [hrun2] at hrun
  have e1 : rc2 = 0 := by
    have := congrArg (fun o => o.map Prod.fst) hrun
    simpa using this.symm
  have e2 : c3 = c2 := by
    have := congrArg (fun o => o.map Prod.snd) hrun
    simpa using this.symm
  subst e1 e2
  rw [hkd] at hD hgone
  obtain ⟨hgone1, hgone2⟩ := hgone rfl
  have hnone : ∀ e ∈ c3.nodes, ¬ kd <+: e.1 := by
    intro e he hk
    have he1 : e ∈ c1.nodes := by
      rw [hn3] at he
      exact List.mem_of_mem_filter he
    have hdir := hclosed1.ancestor_dir kd e he1 hk (hgone1 e he)
    exact hgone2 hdir e he hk
  have hfilter : c3.nodes = c1.nodes.filter (fun e => !kd.isPrefixOf e.1) := by
    rw [hn3]
    apply List.filter_congr
    intro e he
    by_cases hk : kd <+: e.1
    · have hin : e.1 ∈ Dl := by
        by_contra hc
        have : e ∈ c3.nodes := by
          rw [hn3]
          exact List.mem_filter.2 ⟨he, by simpa using hc⟩
        exact hnone e this hk
      simp [hin, List.isPrefixOf_iff_prefix.2 hk]
    · have hin : e.1 ∉ Dl := fun hc => hk (hD _ hc)
      have hp : kd.isPrefixOf e.1 = false := by
        cases hx : kd.isPrefixOf e.1 with
        | false => rfl
        | true => exact absurd (List.isPrefixOf_iff_prefix.1 hx) hk
      simp [hin, hp]
  have hall : c3.nodes = c.nodes := by
    rw [hfilter, hsame, Card.filter_eq_self_of_nothing_below kd c.nodes hno]
  exact ⟨hall, by rw [hall]⟩

theorem sample_copy_runs :
    copy_item Card.api 60 "//a".toList "//b".toList sampleCard = some (0, sampleCopied) := by
  decide!

theorem sample_delete_runs :
    delete_item Card.api 60 ("//b".toList ++ '/' :: path_get_filename "//a".toList) sampleCopied
      = some (0, sampleRestored) := by
  decide!

theorem copy_then_delete_restores_witness :
    Card.find [['b'], ['a'], ['f']] sampleCopied.nodes = some (.file [1, 2, 3]) ∧
    sampleRestored.nodes = sampleCard.nodes ∧
    Card.below (components (normalize_sd_path "//b".toList 512)) sampleRestored.nodes =
      Card.below (components (normalize_sd_path "//b".toList 512)) sampleCard.nodes :=
  ⟨by decide!,
    copy_then_delete_restores "//a".toList "//b".toList 60 60 sampleCard sampleCopied
      sampleRestored (by unfold Card.Closed; decide) (by decide) (by decide) (by decide)
      (by decide) (by decide) (by decide) (by unfold Card.Fits; decide)
      (by unfold Card.Fits; decide) sample_copy_runs sample_delete_runs⟩

theorem collide_run :
    (copy_then_delete Card.api 20 "//a/f".toList "//b".toList collideCard).map
      (fun r => (r.1, r.2.1)) = some (0, 0) ∧
    (copy_then_delete Card.api 20 "//a/f".toList "//b".toList collideCard).map
      (fun r => Card.below (components (normalize_sd_path "//b".toList 512)) r.2.2.nodes)
      = some [] ∧
    Card.below (components (normalize_sd_path "//b".toList 512)) collideCard.nodes
      = [([['b'], ['f']], .file [9])] := by
  decide!

set_option maxRecDepth 100000 in
theorem shift_run :
    (copy_then_delete Card.api 20 "/fgh".toList truncDest shiftCard).map
      (fun r => (r.1, r.2.1)) = some (0, 0) ∧
    (copy_then_delete Card.api 20 "/fgh".toList truncDest shiftCard).map
      (fun r => Card.below (components (normalize_sd_path truncDest 512)) r.2.2.nodes) =
      some [([List.replicate 508 'a', ['f']], Node.file [1, 2])] ∧
    Card.below (components (normalize_sd_path truncDest 512)) shiftCard.nodes
      = [([List.replicate 508 'a', ['f', 'g']], .file [5])] := by
  decide!

theorem device_run :
    (copy_then_delete Card.api 20 "/t/sdmc:".toList "/sdmc:/sdmc:".toList deviceCard).map
      (fun r => (r.1, r.2.1)) = some (0, 0) ∧
    (copy_then_delete Card.api 20 "/t/sdmc:".toList "/sdmc:/sdmc:".toList deviceCard).map
      (fun r => Card.below (components (normalize_sd_path "/sdmc:/sdmc:".toList 512))
        r.2.2.nodes)
      = some [(["sdmc:".toList, "sdmc:".toList, ['n']], .file [3])] ∧
    Card.below (components (normalize_sd_path "/sdmc:/sdmc:".toList 512)) deviceCard.nodes
      = [] := by
  decide!

/-- C11, as stated, fails in three ways.  When `D` already holds an entry with
the name of `A`, the copy writes into it and the delete removes it: on
`collideCard` both calls return 0 and `/b` loses its file `f`.  When
`D/filename(A)` is longer than the buffer, the copy and the delete cut the
string at different places: on `shiftCard` both calls return 0, the copy
leaves a new file `f` in `D` and the delete removes the older file `fg`.
When the destination runs through directories called `sdmc:`, the copy strips
that name again from the paths of the children: on `deviceCard` both calls
return 0 and the file `n` is left directly in `D`. -/
theorem copy_then_delete_changes_destination :
    ((copy_then_delete Card.api 20 "//a/f".toList "//b".toList collideCard).map
        (fun r => (r.1, r.2.1)) = some (0, 0) ∧
      (copy_then_delete Card.api 20 "//a/f".toList "//b".toList collideCard).map
        (fun r => Card.below (components (normalize_sd_path "//b".toList 512)) r.2.2.nodes)
        = some [] ∧
      Card.below (components (normalize_sd_path "//b".toList 512)) collideCard.nodes
        = [([['b'], ['f']], .file [9])]) ∧
    ((copy_then_delete Card.api 20 "/fgh".toList truncDest shiftCard).map
        (fun r => (r.1, r.2.1)) = some (0, 0) ∧
      (copy_then_delete Card.api 20 "/fgh".toList truncDest shiftCard).map
        (fun r => Card.below (components (normalize_sd_path truncDest 512)) r.2.2.nodes) =
        some [([List.replicate 508 'a', ['f']], Node.file [1, 2])] ∧
      Card.below (components (normalize_sd_path truncDest 512)) shiftCard.nodes
        = [([List.replicate 508 'a', ['f', 'g']], .file [5])]) ∧
    ((copy_then_delete Card.api 20 "/t/sdmc:".toList "/sdmc:/sdmc:".toList deviceCard).map
        (fun r => (r.1, r.2.1)) = some (0, 0) ∧
      (copy_then_delete Card.api 20 "/t/sdmc:".toList "/sdmc:/sdmc:".toList deviceCard).map
        (fun r => Card.below (components (normalize_sd_path "/sdmc:/sdmc:".toList 512))
          r.2.2.nodes)
        = some [(["sdmc:".toList, "sdmc:".toList, ['n']], .file [3])] ∧
      Card.below (components (normalize_sd_path "/sdmc:/sdmc:".toList 512)) deviceCard.nodes
        = []) :=
  ⟨collide_run, shift_run, device_run⟩

/-! ## The scroll window and the end of the listing -/

theorem NavOp.apply_scroll_le (op : NavOp) (s : UIState) (d : FsDirectory)
    (hd : s.current_dir = some d) (h : s.scroll_offset ≤ max 0 (d.count - 20)) :
    (op.apply s).scroll_offset ≤ max 0 (d.count - 20) := by
  cases op
  · simp only [NavOp.apply, ui_select_next, hd, MAX_VISIBLE_ENTRIES]
    split_ifs <;> first | exact h | (dsimp only at *; omega)
  · simp only [NavOp.apply, ui_select_prev, hd]
    split_ifs <;> first | exact h | (dsimp only at *; omega)

theorem NavOp.apply_scrollInv (op : NavOp) (s : UIState) (h : ScrollInv s) :
    ScrollInv (op.apply s) := by
  cases op
  · exact (scroll_invariant_preserved s h).1
  · exact (scroll_invariant_preserved s h).2

theorem runNav_scroll (ops : List NavOp) (s : UIState) (d : FsDirectory)
    (hd : s.current_dir = some d) (hinv : ScrollInv s)
    (h : s.scroll_offset ≤ max 0 (d.count - 20)) :
    ScrollInv (runNav ops s) ∧ (runNav ops s).scroll_offset ≤ max 0 (d.count - 20) := by
  induction ops generalizing s with
  | nil => exact ⟨hinv, h⟩
  | cons op ops ih =>
    have hd1 : (op.apply s).current_dir = some d := by rw [NavOp.apply_dir, hd]
    exact ih (op.apply s) hd1 (NavOp.apply_scrollInv op s hinv)
      (NavOp.apply_scroll_le op s d hd h)

/-- C30: in every state reached from `selected_index = 0`, `scroll_offset = 0`
by `ui_select_next` / `ui_select_prev` on a listing of `count` entries,
`scroll_offset <= max(0, count - 20)`; so the 20-row window ends at or before
the end of a listing of at least 20 entries, and `scroll_offset` is 0 for a
listing of at most 20 entries. -/
theorem scroll_window_within_listing (ui : UIState) (d : FsDirectory) (ops : List NavOp)
    (hdir : ui.current_dir = some d)
    (hsel : ui.selected_index = 0) (hscroll : ui.scroll_offset = 0) :
    (runNav ops ui).scroll_offset ≤ max 0 (d.count - 20) ∧
    (20 ≤ d.count → (runNav ops ui).scroll_offset + 20 ≤ d.count) ∧
    (d.count ≤ 20 → (runNav ops ui).scroll_offset = 0) := by
  have hinv : ScrollInv ui := by unfold ScrollInv; omega
  have hc : 0 ≤ d.count := by unfold FsDirectory.count; omega
  obtain ⟨h1, h2⟩ := runNav_scroll ops ui d hdir hinv (by omega)
  unfold ScrollInv at h1
  refine ⟨h2, fun h => by omega, fun h => by omega⟩

/-- Witness of C30: thirty presses of Down on a listing of 25 entries leave
the window on the last 20 entries. -/
theorem scroll_window_within_listing_witness :
    (runNav (List.replicate 30 .next) longUI).scroll_offset = 5 ∧
    ((runNav (List.replicate 30 .next) longUI).scroll_offset ≤ max 0 (longDir.count - 20) ∧
      (20 ≤ longDir.count →
        (runNav (List.replicate 30 .next) longUI).scroll_offset + 20 ≤ longDir.count) ∧
      (longDir.count ≤ 20 → (runNav (List.replicate 30 .next) longUI).scroll_offset = 0)) :=
  ⟨by decide, scroll_window_within_listing longUI longDir (List.replicate 30 .next) rfl rfl rfl⟩

/-! ## Joining a path and a name -/

/-- C21: the string that `fs_build_path` leaves in `dest` has at most 511
characters, is a prefix of `current_path + "/" + entry_name`, and is that
whole string exactly when the whole string has at most 511 characters; with
a NULL argument it is the empty string. -/
theorem fs_build_path_bounded (current_path entry_name : CStr) :
    (fs_build_path_ptr (some current_path) (some entry_name)).length ≤ 511 ∧
    fs_build_path_ptr (some current_path) (some entry_name)
      <+: current_path ++ '/' :: entry_name ∧
    (fs_build_path_ptr (some current_path) (some entry_name)
        = current_path ++ '/' :: entry_name ↔
      (current_path ++ '/' :: entry_name).length ≤ 511) ∧
    fs_build_path_ptr none (some entry_name) = [] ∧
    fs_build_path_ptr (some current_path) none = [] ∧
    fs_build_path_ptr none none = [] := by
  refine ⟨?_, ?_, ?_, rfl, rfl, rfl⟩
  · simp only [fs_build_path_ptr, fs_build_path, snprintf_join, List.length_take]
    omega
  · simp only [fs_build_path_ptr, fs_build_path, snprintf_join]
    exact List.take_prefix _ _
  · simp only [fs_build_path_ptr, fs_build_path, snprintf_join]
    constructor
    · intro h
      have := congrArg List.length h
      rw [List.length_take] at this
      omega
    · intro h
      exact List.take_of_length_le (by omega)

/-! ## The device prefix of a path -/

/-- C22: for a suffix `r` that does not begin with a slash,
`normalize_sd_path` gives the same string for `"sdmc:/" + r` and for
`"/" + r`, namely the first `outlen - 1` characters of `r`, and that string
has no leading slash. -/
theorem normalize_sd_path_device_form (r : CStr) (outlen : Nat)
    (hr : r.head? ≠ some '/') :
    normalize_sd_path ("sdmc:/".toList ++ r) outlen = normalize_sd_path ('/' :: r) outlen ∧
    normalize_sd_path ('/' :: r) outlen = r.take (outlen - 1) ∧
    (normalize_sd_path ('/' :: r) outlen).head? ≠ some '/' := by
  have h1 : normalize_sd_path ("sdmc:/".toList ++ r) outlen = r.take (outlen - 1) := by
    unfold normalize_sd_path
    have hp : ("sdmc:/".toList).isPrefixOf ("sdmc:/".toList ++ r) = true :=
      List.isPrefixOf_iff_prefix.2 (List.prefix_append _ _)
    rw [if_pos hp]
    have hd : ("sdmc:/".toList ++ r).drop 6 = r := List.drop_left' rfl
    simp only [hd, if_neg hr]
  have h2 : normalize_sd_path ('/' :: r) outlen = r.take (outlen - 1) := by
    unfold normalize_sd_path
    have hp : ¬ ("sdmc:/".toList).isPrefixOf ('/' :: r) = true := by
      simp [List.isPrefixOf]
    rw [if_neg hp]
    simp
  refine ⟨by rw [h1, h2], h2, ?_⟩
  rw [h2]
  cases r with
  | nil => simp
  | cons c t =>
    cases hn : outlen - 1 with
    | zero => simp
    | succ n => simpa using hr

/-- Witness of C22: the suffix `switch/foo`. -/
theorem normalize_sd_path_device_form_witness :
    normalize_sd_path ("sdmc:/".toList ++ "switch/foo".toList) 512
      = normalize_sd_path ('/' :: "switch/foo".toList) 512 ∧
    normalize_sd_path ('/' :: "switch/foo".toList) 512 = ("switch/foo".toList).take (512 - 1) ∧
    (normalize_sd_path ('/' :: "switch/foo".toList) 512).head? ≠ some '/' :=
  normalize_sd_path_device_form "switch/foo".toList 512 (by decide)

/-- C22, as stated, fails for a suffix that begins with a slash: the prefixed
form loses two slashes and the unprefixed form one, so the results differ and
the second keeps a leading slash. -/
theorem normalize_sd_path_second_slash :
    normalize_sd_path ("sdmc:/".toList ++ "/x".toList) 512 = "x".toList ∧
    normalize_sd_path ('/' :: "/x".toList) 512 = "/x".toList ∧
    normalize_sd_path ("sdmc:/".toList ++ "/x".toList) 512
      ≠ normalize_sd_path ('/' :: "/x".toList) 512 ∧
    (normalize_sd_path ('/' :: "/x".toList) 512).head? = some '/' := by
  decide

/-! ## Popup -/

theorem popup_step_wait (s : UIState) (h1 : s.popup_active ≠ 0)
    (h2 : s.popup_type = POPUP_MESSAGE) (h3 : 1 < s.popup_timer) :
    ui_process_popup_input noInput s = (1, { s with popup_timer := s.popup_timer - 1 }) := by
  unfold ui_process_popup_input
  rw [if_neg h1, if_pos h2, if_pos (by omega : s.popup_timer > 0)]
  dsimp only
  rw [if_neg (by omega)]
  rfl

theorem popup_step_last (s : UIState) (h1 : s.popup_active ≠ 0)
    (h2 : s.popup_type = POPUP_MESSAGE) (h3 : s.popup_timer = 1) :
    ui_process_popup_input noInput s =
      (0, { s with popup_timer := 0, popup_active := 0, popup_type := POPUP_NONE }) := by
  unfold ui_process_popup_input
  rw [if_neg h1, if_pos h2, if_pos (by omega : s.popup_timer > 0)]
  dsimp only
  rw [if_pos (by omega), h3]
  rfl

theorem popup_step_idle (s : UIState) (h1 : s.popup_active ≠ 0)
    (h2 : s.popup_type = POPUP_MESSAGE) (h3 : s.popup_timer ≤ 0) :
    ui_process_popup_input noInput s = (1, s) := by
  unfold ui_process_popup_input
  rw [if_neg h1, if_pos h2, if_neg (by omega)]
  rfl

theorem popup_calls_cons (a : Input) (l : List Input) (s : UIState) :
    popup_calls (a :: l) s =
      ((ui_process_popup_input a s).1 :: (popup_calls l (ui_process_popup_input a s).2).1,
        (popup_calls l (ui_process_popup_input a s).2).2) := rfl

theorem popup_calls_append (l1 l2 : List Input) (s : UIState) :
    popup_calls (l1 ++ l2) s =
      ((popup_calls l1 s).1 ++ (popup_calls l2 (popup_calls l1 s).2).1,
        (popup_calls l2 (popup_calls l1 s).2).2) := by
  induction l1 generalizing s with
  | nil => rfl
  | cons a l1 ih =>
    rw [List.cons_append, popup_calls_cons, popup_calls_cons, ih]
    rfl

theorem popup_calls_wait (k : Nat) (s : UIState) (h1 : s.popup_active ≠ 0)
    (h2 : s.popup_type = POPUP_MESSAGE) (h3 : (k : Int) < s.popup_timer) :
    popup_calls (List.replicate k noInput) s =
      (List.replicate k 1, { s with popup_timer := s.popup_timer - k }) := by
  induction k generalizing s with
  | zero => simp [popup_calls]
  | succ k ih =>
    have hs := popup_step_wait s h1 h2 (by omega)
    have hi := ih { s with popup_timer := s.popup_timer - 1 } h1 h2 (by dsimp only; omega)
    rw [List.replicate_succ, popup_calls_cons, hs]
    dsimp only
    rw [hi]
    dsimp only
    have e : s.popup_timer - 1 - (k : Int) = s.popup_timer - ((k + 1 : Nat) : Int) := by
      push_cast
      omega
    rw [e]
    rfl

theorem popup_calls_idle (k : Nat) (s : UIState) (h1 : s.popup_active ≠ 0)
    (h2 : s.popup_type = POPUP_MESSAGE) (h3 : s.popup_timer ≤ 0) :
    popup_calls (List.replicate k noInput) s = (List.replicate k 1, s) := by
  induction k with
  | zero => rfl
  | succ k ih =>
    rw [List.replicate_succ, popup_calls_cons, popup_step_idle s h1 h2 h3]
    dsimp only
    rw [ih]
    rfl

/-- C24: after `ui_show_message(state, msg, d)` and with no button pressed,
for `d > 0` each of the first `k < d` calls of `ui_process_popup_input`
returns 1 and leaves the popup active, and the `d`-th call returns 0 and
leaves it dismissed; for `d = 0` every call returns 1 and the popup stays
active. -/
theorem popup_timer_counts_down (ui : UIState) (msg : CStr) (d k : Nat) :
    (k < d →
      (popup_calls (List.replicate k noInput) (ui_show_message ui msg d)).1
        = List.replicate k 1 ∧
      (popup_calls (List.replicate k noInput) (ui_show_message ui msg d)).2.popup_active = 1) ∧
    (0 < d →
      (popup_calls (List.replicate d noInput) (ui_show_message ui msg d)).1
        = List.replicate (d - 1) 1 ++ [0] ∧
      (popup_calls (List.replicate d noInput) (ui_show_message ui msg d)).2.popup_active = 0 ∧
      (popup_calls (List.replicate d noInput) (ui_show_message ui msg d)).2.popup_type
        = POPUP_NONE) ∧
    (d = 0 →
      popup_calls (List.replicate k noInput) (ui_show_message ui msg d)
        = (List.replicate k 1, ui_show_message ui msg d)) := by
  have ha : (ui_show_message ui msg d).popup_active ≠ 0 := by
    simp [ui_show_message]
  have ht : (ui_show_message ui msg d).popup_type = POPUP_MESSAGE := rfl
  have hd : (ui_show_message ui msg d).popup_timer = d := rfl
  refine ⟨fun hk => ?_, fun hpos => ?_, fun hz => ?_⟩
  · rw [popup_calls_wait k _ ha ht (by rw [hd]; omega)]
    exact ⟨rfl, rfl⟩
  · obtain ⟨n, rfl⟩ : ∃ n, d = n + 1 := ⟨d - 1, by omega⟩
    rw [List.replicate_succ', popup_calls_append,
      popup_calls_wait n _ ha ht (by rw [hd]; push_cast; omega)]
    dsimp only
    have hl := popup_step_last
      { ui_show_message ui msg ((n + 1 : Nat) : Int) with
        popup_timer := (ui_show_message ui msg ((n + 1 : Nat) : Int)).popup_timer - n }
      ha ht (by dsimp only; rw [hd]; push_cast; omega)
    rw [popup_calls_cons, hl]
    refine ⟨?_, rfl, rfl⟩
    simp [popup_calls]
  · subst hz
    exact popup_calls_idle k _ ha ht (by rw [hd]; simp)

/-- C25: on an active message popup, whatever its timer, a call of
`ui_process_popup_input` with one of the eight buttons newly pressed returns
0 and leaves `popup_active = 0`, `popup_type = POPUP_NONE`; every call on
such a popup returns 0 or 1, 0 exactly when the popup is inactive after
the call and 1 exactly when it is still active. -/
theorem popup_input_dismisses (inp : Input) (ui : UIState)
    (hact : ui.popup_active ≠ 0) (htype : ui.popup_type = POPUP_MESSAGE) :
    ((inp.input_up || inp.input_down || inp.input_left || inp.input_right ||
        inp.input_select || inp.input_back || inp.input_fileops || inp.input_exit) = true →
      (ui_process_popup_input inp ui).1 = 0 ∧
      (ui_process_popup_input inp ui).2.popup_active = 0 ∧
      (ui_process_popup_input inp ui).2.popup_type = POPUP_NONE) ∧
    ((ui_process_popup_input inp ui).1 = 0 ↔
      (ui_process_popup_input inp ui).2.popup_active = 0) ∧
    ((ui_process_popup_input inp ui).1 = 1 ↔
      (ui_process_popup_input inp ui).2.popup_active ≠ 0) ∧
    ((ui_process_popup_input inp ui).1 = 0 ∨ (ui_process_popup_input inp ui).1 = 1) := by
  unfold ui_process_popup_input
  rw [if_neg hact, if_pos htype]
  by_cases hb : (inp.input_up || inp.input_down || inp.input_left || inp.input_right ||
        inp.input_select || inp.input_back || inp.input_fileops || inp.input_exit) = true
  · simp only [popup_check_input, hb, if_true, popup_dismiss]
    split_ifs <;> simp
  · simp only [popup_check_input, hb, if_false, popup_dismiss]
    split_ifs <;> simp [hact]

/-- Witness of C25: the button A on a message that has 120 ticks left. -/
theorem popup_input_dismisses_witness :
    (ui_process_popup_input { noInput with input_select := true }
        (ui_show_message sampleUI "Copied: a".toList 120)).1 = 0 ∧
    (ui_process_popup_input { noInput with input_select := true }
        (ui_show_message sampleUI "Copied: a".toList 120)).2.popup_active = 0 ∧
    (ui_process_popup_input { noInput with input_select := true }
        (ui_show_message sampleUI "Copied: a".toList 120)).2.popup_type = POPUP_NONE :=
  (popup_input_dismisses { noInput with input_select := true }
    (ui_show_message sampleUI "Copied: a".toList 120) (by decide) (by decide)).1 (by decide)

/-! ## Size shown for a file -/

theorem to_int_small (n : Nat) (h : n < 2 ^ 31) : to_int n = (n : Int) := by
  unfold to_int
  have e : n % 2 ^ 32 = n := Nat.mod_eq_of_lt (by omega)
  rw [e, if_pos h]

/-- C27, with the thresholds of the code: `ui_render` shows `s` with unit B
when `s <= 1024`, `s / 1024` with unit KB when `1024 < s <= 1024*1024`, and
otherwise the unit MB with `s / (1024*1024)` as long as `s < 2^51`; from
`2^51` on the quotient does not fit the `int` that is printed. -/
theorem ui_render_size_cases (s : Nat) :
    ui_render_size s =
      if s ≤ 1024 then ((s : Int), "B".toList)
      else if s ≤ 1024 * 1024 then (((s / 1024 : Nat) : Int), "KB".toList)
      else if s < 2 ^ 51 then (((s / (1024 * 1024) : Nat) : Int), "MB".toList)
      else (to_int (s / (1024 * 1024)), "MB".toList) := by
  unfold ui_render_size
  by_cases h1 : s ≤ 1024
  · rw [if_pos h1, if_neg (by omega), if_neg (by omega)]
    rw [to_int_small s (by omega)]
  · rw [if_neg h1]
    by_cases h2 : s ≤ 1024 * 1024
    · rw [if_pos h2, if_neg (by omega), if_pos (by omega)]
      rw [to_int_small _ (by omega)]
    · rw [if_neg h2, if_pos (by omega)]
      by_cases h3 : s < 2 ^ 51
      · rw [if_pos h3, to_int_small _ (by omega)]
      · rw [if_neg h3]

/-- C27, as stated, fails at both thresholds and for very large files: 1024
bytes are shown as `1024B`, not `1KB`; `1024*1024` bytes as `1024KB`, not
`1MB`; and for `2^51` bytes the number printed is not `2^31`. -/
theorem ui_render_size_at_thresholds :
    ui_render_size 1024 = (1024, "B".toList) ∧
    ui_render_size (1024 * 1024) = (1024, "KB".toList) ∧
    2 ^ 51 < 2 ^ 64 ∧
    (ui_render_size (2 ^ 51)).1 ≠ ((2 ^ 51 / (1024 * 1024) : Nat) : Int) ∧
    ui_render_size (2 ^ 51) = (-2147483648, "MB".toList) := by
  decide

/-! ## Entering a directory and coming back -/

/-- C29: when the current path `P` is not empty and the selected entry has a
non-empty name without a slash such that `P + "/" + name` has at most 511
characters, `path_get_parent` applied to `fs_build_path(P, name)` returns 0
and yields `P`, and a `ui_enter_directory` that returns 0 followed by a
`ui_go_back` that returns 0 leaves `current_path` equal to `P`; the root
`"/"` is one such `P`. -/
theorem enter_then_back_restores_path {σ : Type} (px : Posix σ) (ui ui1 ui2 : UIState)
    (w w1 w2 : σ) (e : FsEntry)
    (hP : ui.current_path ≠ []) (hsel : ui_get_selected_entry ui = some e)
    (hne : e.name ≠ []) (hns : '/' ∉ e.name)
    (hlen : (ui.current_path ++ '/' :: e.name).length ≤ 511)
    (henter : ui_enter_directory px ui w = (0, ui1, w1))
    (hback : ui_go_back px ui1 w1 = (0, ui2, w2)) :
    path_get_parent (fs_build_path ui.current_path e.name) = (0, ui.current_path) ∧
    ui1.current_path = fs_build_path ui.current_path e.name ∧
    ui2.current_path = ui.current_path := by
  have hb : fs_build_path ui.current_path e.name = ui.current_path ++ '/' :: e.name := by
    unfold fs_build_path snprintf_join
    exact List.take_of_length_le (by omega)
  have hpar : path_get_parent (fs_build_path ui.current_path e.name) = (0, ui.current_path) := by
    rw [hb, path_get_parent_split ui.current_path e.name hns hne hlen, if_neg hP]
  have h1 : ui1.current_path = fs_build_path ui.current_path e.name := by
    rcases ui_enter_directory_spec px ui w with h | ⟨_, entry, new_dir, he, _, _, _, hu⟩
    · rw [henter] at h
      exact absurd h.1 (by simp)
    · rw [henter] at hu
      rw [hsel] at he
      cases he
      have := congrArg UIState.current_path hu
      exact this
  refine ⟨hpar, h1, ?_⟩
  rcases ui_go_back_spec px ui1 w1 with h | ⟨_, parent_dir, _, _, hu⟩
  · rw [hback] at h
    exact absurd h.1 (by simp)
  · rw [hback] at hu
    have := congrArg UIState.current_path hu
    dsimp only at this
    rw [this, h1, hpar]

/-- Witness of C29: from the root of the sample card into `a` and back. -/
theorem enter_then_back_restores_path_witness :
    path_get_parent (fs_build_path sampleUI.current_path "a".toList)
      = (0, sampleUI.current_path) ∧
    (ui_enter_directory Card.posix sampleUI sampleCard).2.1.current_path
      = fs_build_path sampleUI.current_path "a".toList ∧
    (ui_go_back Card.posix (ui_enter_directory Card.posix sampleUI sampleCard).2.1
        (ui_enter_directory Card.posix sampleUI sampleCard).2.2).2.1.current_path
      = sampleUI.current_path :=
  enter_then_back_restores_path Card.posix sampleUI
    (ui_enter_directory Card.posix sampleUI sampleCard).2.1
    (ui_go_back Card.posix (ui_enter_directory Card.posix sampleUI sampleCard).2.1
        (ui_enter_directory Card.posix sampleUI sampleCard).2.2).2.1
    sampleCard (ui_enter_directory Card.posix sampleUI sampleCard).2.2
    (ui_go_back Card.posix (ui_enter_directory Card.posix sampleUI sampleCard).2.1
        (ui_enter_directory Card.posix sampleUI sampleCard).2.2).2.2
    ⟨"a".toList, true, 0⟩ (by decide) (by decide) (by decide) (by decide) (by decide)
    (by decide) (by decide)

/-! ## The main loop: a popup comes first -/

theorem ui_process_popup_input_frame (inp : Input) (ui : UIState) :
    (ui_process_popup_input inp ui).2 =
      { ui with popup_active := (ui_process_popup_input inp ui).2.popup_active,
                popup_type := (ui_process_popup_input inp ui).2.popup_type,
                popup_timer := (ui_process_popup_input inp ui).2.popup_timer } := by
  unfold ui_process_popup_input popup_check_input popup_dismiss
  dsimp only
  split_ifs <;> rfl

section MainLoopTheorems
variable {σ δ φ : Type}

/-- C26: in a pass through the loop body that starts with `popup_active`
set, whatever buttons are pressed, the loop goes on and the state left is the
one left by `ui_process_popup_input`: the clipboard and the world behind the
system calls are untouched, and of `ui_state` only `popup_active`,
`popup_type` and `popup_timer` can differ; the path, the listing, the
selection, the scroll offset and the overlay fields are the same. -/
theorem popup_tick_changes_popup_only (api : Libnx σ δ φ) (px : Posix σ) (host : Host σ)
    (fuel : Nat) (inp : Input) (s : App σ) (h : s.ui_state.popup_active ≠ 0) :
    ∃ s1 : App σ, main_tick api px host fuel inp s = some (true, s1) ∧
      s1.ui_state = (ui_process_popup_input inp s.ui_state).2 ∧
      s1.clipboard = s.clipboard ∧ s1.world = s.world ∧
      s1.ui_state.current_path = s.ui_state.current_path ∧
      s1.ui_state.current_dir = s.ui_state.current_dir ∧
      s1.ui_state.selected_index = s.ui_state.selected_index ∧
      s1.ui_state.scroll_offset = s.ui_state.scroll_offset ∧
      s1.ui_state.overlay_active = s.ui_state.overlay_active ∧
      s1.ui_state.overlay_selected = s.ui_state.overlay_selected ∧
      s1.ui_state.overlay_count = s.ui_state.overlay_count ∧
      s1.ui_state.overlay_codes = s.ui_state.overlay_codes ∧
      s1.ui_state.overlay_labels = s.ui_state.overlay_labels ∧
      s1.ui_state.popup_message = s.ui_state.popup_message := by
  refine ⟨{ s with ui_state := (ui_process_popup_input inp s.ui_state).2 }, ?_, rfl, rfl, rfl, ?_⟩
  · unfold main_tick
    rw [if_pos h]
  · dsimp only
    rw [ui_process_popup_input_frame]
    exact ⟨rfl, rfl, rfl, rfl, rfl, rfl, rfl, rfl, rfl, rfl⟩

end MainLoopTheorems

/-- Witness of C26: every button pressed at once while the message of a copy
is shown; the message is dismissed and nothing else happens. -/
theorem popup_tick_changes_popup_only_witness :
    ∃ s1 : App Card, main_tick Card.api Card.posix sampleHost 20 pressAll popupApp
        = some (true, s1) ∧
      s1.ui_state = (ui_process_popup_input pressAll popupApp.ui_state).2 ∧
      s1.clipboard = popupApp.clipboard ∧ s1.world = popupApp.world ∧
      s1.ui_state.current_path = popupApp.ui_state.current_path ∧
      s1.ui_state.current_dir = popupApp.ui_state.current_dir ∧
      s1.ui_state.selected_index = popupApp.ui_state.selected_index ∧
      s1.ui_state.scroll_offset = popupApp.ui_state.scroll_offset ∧
      s1.ui_state.overlay_active = popupApp.ui_state.overlay_active ∧
      s1.ui_state.overlay_selected = popupApp.ui_state.overlay_selected ∧
      s1.ui_state.overlay_count = popupApp.ui_state.overlay_count ∧
      s1.ui_state.overlay_codes = popupApp.ui_state.overlay_codes ∧
      s1.ui_state.overlay_labels = popupApp.ui_state.overlay_labels ∧
      s1.ui_state.popup_message = popupApp.ui_state.popup_message :=
  popup_tick_changes_popup_only Card.api Card.posix sampleHost 20 pressAll popupApp
    (by decide)

/-! ## The main loop: confirming Paste in the overlay -/

theorem overlay_keys_frame (inp : Input) (ui : UIState) :
    overlay_keys inp ui = { ui with overlay_selected := (overlay_keys inp ui).overlay_selected } := by
  unfold overlay_keys ui_overlay_select_next ui_overlay_select_prev
  dsimp only
  split_ifs <;> rfl

section ReloadTheorems
variable {σ : Type}

theorem reload_directory_frame (px : Posix σ) (ui : UIState) (w : σ) :
    (reload_directory px ui w).1 =
        { ui with current_dir := (reload_directory px ui w).1.current_dir } ∧
      (reload_directory px ui w).1.current_dir =
        (match (fs_list_directory px ui.current_path w).1 with
         | none => ui.current_dir
         | some new_dir => some new_dir) ∧
      (reload_directory px ui w).2 = (fs_list_directory px ui.current_path w).2 := by
  unfold reload_directory
  rcases fs_list_directory px ui.current_path w with ⟨_ | new_dir, w1⟩
  · exact ⟨rfl, rfl, rfl⟩
  · exact ⟨rfl, rfl, rfl⟩

/-- The reload after Paste and after Rename leaves `selected_index` as it
was. -/
theorem reload_directory_keeps_index (px : Posix σ) (ui : UIState) (w : σ) :
    (reload_directory px ui w).1.selected_index = ui.selected_index := by
  rw [(reload_directory_frame px ui w).1]

/-- The reload after Delete leaves the selection inside the new listing. -/
theorem reload_directory_clamped_bounds (px : Posix σ) (ui : UIState) (w w1 : σ)
    (d : FsDirectory) (hsel : 0 ≤ ui.selected_index)
    (hlist : fs_list_directory px ui.current_path w = (some d, w1)) :
    (reload_directory_clamped px ui w).1.current_dir = some d ∧
    (d.count > 0 → 0 ≤ (reload_directory_clamped px ui w).1.selected_index ∧
      (reload_directory_clamped px ui w).1.selected_index < d.count) ∧
    (d.count = 0 → (reload_directory_clamped px ui w).1.selected_index = 0) := by
  unfold reload_directory_clamped
  rw [hlist]
  dsimp only
  split_ifs with h1 h2
  · dsimp only
    exact ⟨rfl, fun _ => by omega, fun h => by omega⟩
  · dsimp only
    exact ⟨rfl, fun h => by omega, fun _ => rfl⟩
  · dsimp only
    exact ⟨rfl, fun h => by omega, fun h => absurd h h2⟩

end ReloadTheorems

theorem paste_feedback_frame (rc : Int) (clip : Clipboard) (ui : UIState) :
    paste_feedback rc clip ui =
      { ui with popup_active := (paste_feedback rc clip ui).popup_active,
                popup_type := (paste_feedback rc clip ui).popup_type,
                popup_message := (paste_feedback rc clip ui).popup_message,
                popup_timer := (paste_feedback rc clip ui).popup_timer } := by
  unfold paste_feedback ui_show_message
  dsimp only
  split_ifs <;> rfl

section OverlayTheorems
variable {σ δ φ : Type}

/-- A pass through the loop body with the overlay open and the button A
pressed on a selected entry, for an option code other than -1. -/
theorem main_tick_overlay_select (api : Libnx σ δ φ) (px : Posix σ) (host : Host σ)
    (fuel : Nat) (inp : Input) (s : App σ) (e : FsEntry)
    (hpop : s.ui_state.popup_active = 0) (hov : s.ui_state.overlay_active ≠ 0)
    (hselect : inp.input_select = true)
    (hop : overlay_selected_op (overlay_keys inp s.ui_state) ≠ -1)
    (hent : ui_get_selected_entry (overlay_keys inp s.ui_state) = some e) :
    main_tick api px host fuel inp s =
      (overlay_confirm api px host fuel (overlay_selected_op (overlay_keys inp s.ui_state)) e
          (ui_get_selected_path (overlay_keys inp s.ui_state))
          { s with ui_state := overlay_keys inp s.ui_state }).map
        (fun s2 => (true, { s2 with ui_state := ui_close_overlay s2.ui_state })) := by
  unfold main_tick
  rw [if_neg (not_not.2 hpop), if_pos hov]
  unfold overlay_tick
  dsimp only
  rw [if_pos hselect]
  unfold overlay_select
  dsimp only
  rw [hent]
  dsimp only
  rw [if_pos hop]
  cases overlay_confirm api px host fuel (overlay_selected_op (overlay_keys inp s.ui_state)) e
      (ui_get_selected_path (overlay_keys inp s.ui_state))
      { s with ui_state := overlay_keys inp s.ui_state } with
  | none => rfl
  | some s2 =>
    dsimp only [Option.map]
    cases inp.input_back <;> rfl

/-- A pass through the loop body that confirms Paste on a selected
directory: the state left, from what `paste_item` returned. -/
theorem main_tick_paste (api : Libnx σ δ φ) (px : Posix σ) (host : Host σ)
    (fuel : Nat) (inp : Input) (s : App σ) (e : FsEntry) (rc : Int) (clip : Clipboard) (w : σ)
    (hpop : s.ui_state.popup_active = 0) (hov : s.ui_state.overlay_active ≠ 0)
    (hselect : inp.input_select = true)
    (hop : overlay_selected_op (overlay_keys inp s.ui_state) = UI_OP_PASTE)
    (hent : ui_get_selected_entry (overlay_keys inp s.ui_state) = some e)
    (hdir : e.is_dir = true)
    (hpaste : paste_item api fuel (some (ui_get_selected_path (overlay_keys inp s.ui_state)))
      s.clipboard s.world = some (rc, clip, w)) :
    main_tick api px host fuel inp s = some (true,
      { ui_state := ui_close_overlay
          (reload_directory px (paste_feedback rc clip (overlay_keys inp s.ui_state)) w).1,
        clipboard := clip,
        world := (reload_directory px (paste_feedback rc clip (overlay_keys inp s.ui_state)) w).2 }) := by
  rw [main_tick_overlay_select api px host fuel inp s e hpop hov hselect
    (by rw [hop]; decide) hent, hop]
  unfold overlay_confirm
  rw [if_neg (by decide), if_pos rfl, if_pos hdir]
  dsimp only
  rw [hpaste]
  rfl

end OverlayTheorems

section PasteFeedback
variable {σ δ φ : Type}

/-- C28: in a pass through the loop body that confirms Paste on a selected
directory, when `paste_item` returns 0 for a Copy entry the popup reads
`Pasted: <name>` (its first 255 characters) for 120 ticks, and when
`paste_item` fails it reads `Paste failed`; when `paste_item` returns 0 for
a Move entry, no popup is shown: the clipboard is already cleared when the
loop reads it, and the popup fields are left as they were. -/
theorem paste_confirm_popup (api : Libnx σ δ φ) (px : Posix σ) (host : Host σ)
    (fuel : Nat) (inp : Input) (s : App σ) (e : FsEntry) (rc : Int) (clip : Clipboard) (w : σ)
    (hpop : s.ui_state.popup_active = 0) (hov : s.ui_state.overlay_active ≠ 0)
    (hselect : inp.input_select = true)
    (hop : overlay_selected_op (overlay_keys inp s.ui_state) = UI_OP_PASTE)
    (hent : ui_get_selected_entry (overlay_keys inp s.ui_state) = some e)
    (hdir : e.is_dir = true)
    (hpaste : paste_item api fuel (some (ui_get_selected_path (overlay_keys inp s.ui_state)))
      s.clipboard s.world = some (rc, clip, w)) :
    ∃ s1 : App σ, main_tick api px host fuel inp s = some (true, s1) ∧
      (rc = 0 ∧ s.clipboard.g_clipboard_op = .COPY →
        s1.ui_state.popup_active = 1 ∧ s1.ui_state.popup_type = POPUP_MESSAGE ∧
        s1.ui_state.popup_message =
          ("Pasted: ".toList ++ path_get_filename s.clipboard.g_clipboard_path).take 255 ∧
        s1.ui_state.popup_timer = 120) ∧
      (rc = 0 ∧ s.clipboard.g_clipboard_op = .MOVE →
        s1.ui_state.popup_active = 0 ∧ s1.ui_state.popup_type = s.ui_state.popup_type ∧
        s1.ui_state.popup_message = s.ui_state.popup_message ∧
        s1.ui_state.popup_timer = s.ui_state.popup_timer) ∧
      (rc ≠ 0 →
        s1.ui_state.popup_active = 1 ∧ s1.ui_state.popup_type = POPUP_MESSAGE ∧
        s1.ui_state.popup_message = "Paste failed".toList ∧
        s1.ui_state.popup_timer = 120) := by
  refine ⟨_, main_tick_paste api px host fuel inp s e rc clip w hpop hov hselect hop hent hdir
    hpaste, ?_⟩
  obtain ⟨_, _, hclip⟩ := paste_item_clip api fuel _ s.clipboard s.world rc clip w hpaste
  have hr := (reload_directory_frame px
    (paste_feedback rc clip (overlay_keys inp s.ui_state)) w).1
  have hk := overlay_keys_frame inp s.ui_state
  dsimp only
  rw [hr]
  unfold ui_close_overlay
  dsimp only
  refine ⟨?_, ?_, ?_⟩
  · rintro ⟨h0, hc⟩
    have e1 : clip = s.clipboard := by
      rw [hclip, if_neg (by rw [hc]; simp)]
    subst e1
    unfold paste_feedback
    rw [if_pos h0]
    simp only [clipboard_get_operation, clipboard_get_path, hc, path_get_filename_ptr,
      if_true, ui_show_message]
    simp
  · rintro ⟨h0, hm⟩
    have e1 : clip = clipboard_clear s.clipboard := by
      rw [hclip, if_pos ⟨hm, h0⟩]
    subst e1
    unfold paste_feedback
    rw [if_pos h0]
    simp only [clipboard_get_operation, clipboard_clear]
    rw [hk]
    exact ⟨hpop, rfl, rfl, rfl⟩
  · intro hne
    unfold paste_feedback
    rw [if_neg hne]
    exact ⟨rfl, rfl, rfl, rfl⟩

end PasteFeedback

theorem move_paste_runs :
    paste_item Card.api 20 (some (ui_get_selected_path (overlay_keys pressSelect pasteUI)))
      moveApp.clipboard moveCard = some (0, ⟨[], .NONE⟩, movedCard) := by
  decide

theorem move_paste_reload :
    fs_list_directory Card.posix pasteUI.current_path movedCard
      = (some { entries := [⟨['d'], true, 0⟩], capacity := 32 }, movedCard) := by
  decide

/-- Witness of C28: `/f`, marked to move, is pasted into the selected
directory `/d`; `paste_item` returns 0 and the pass ends with no popup. -/
theorem paste_confirm_popup_witness :
    ∃ s1 : App Card, main_tick Card.api Card.posix sampleHost 20 pressSelect moveApp
        = some (true, s1) ∧
      s1.ui_state.popup_active = 0 ∧ s1.ui_state.popup_message = [] :=
  (paste_confirm_popup Card.api Card.posix sampleHost 20 pressSelect moveApp
    ⟨['d'], true, 0⟩ 0 ⟨[], .NONE⟩ movedCard (by decide) (by decide) (by decide) (by decide)
    (by decide) (by decide) move_paste_runs).imp
    (fun _ h => ⟨h.1, (h.2.2.1 ⟨rfl, rfl⟩).1, (h.2.2.1 ⟨rfl, rfl⟩).2.2.1⟩)

section PasteReload
variable {σ δ φ : Type}

/-- C23 for Paste: the pass through the loop body that confirms Paste
replaces the listing by the one just read and leaves `selected_index` as it
was, whatever the size of the new listing. -/
theorem paste_reload_keeps_selected_index (api : Libnx σ δ φ) (px : Posix σ) (host : Host σ)
    (fuel : Nat) (inp : Input) (s : App σ) (e : FsEntry) (rc : Int) (clip : Clipboard)
    (w w1 : σ) (d : FsDirectory)
    (hpop : s.ui_state.popup_active = 0) (hov : s.ui_state.overlay_active ≠ 0)
    (hselect : inp.input_select = true)
    (hop : overlay_selected_op (overlay_keys inp s.ui_state) = UI_OP_PASTE)
    (hent : ui_get_selected_entry (overlay_keys inp s.ui_state) = some e)
    (hdir : e.is_dir = true)
    (hpaste : paste_item api fuel (some (ui_get_selected_path (overlay_keys inp s.ui_state)))
      s.clipboard s.world = some (rc, clip, w))
    (hlist : fs_list_directory px s.ui_state.current_path w = (some d, w1)) :
    ∃ s1 : App σ, main_tick api px host fuel inp s = some (true, s1) ∧
      s1.ui_state.current_dir = some d ∧
      s1.ui_state.selected_index = s.ui_state.selected_index := by
  refine ⟨_, main_tick_paste api px host fuel inp s e rc clip w hpop hov hselect hop hent hdir
    hpaste, ?_⟩
  obtain ⟨hr1, hr2, _⟩ := reload_directory_frame px
    (paste_feedback rc clip (overlay_keys inp s.ui_state)) w
  have hk := overlay_keys_frame inp s.ui_state
  have hf := paste_feedback_frame rc clip (overlay_keys inp s.ui_state)
  have hpath : (paste_feedback rc clip (overlay_keys inp s.ui_state)).current_path
      = s.ui_state.current_path := by
    rw [hf, hk]
  have hidx : (paste_feedback rc clip (overlay_keys inp s.ui_state)).selected_index
      = s.ui_state.selected_index := by
    rw [hf, hk]
  dsimp only
  unfold ui_close_overlay
  dsimp only
  constructor
  · rw [hr2, hpath, hlist]
  · rw [hr1]
    exact hidx

end PasteReload

/-- Witness of C23: `/f`, marked to move, is pasted into `/d`, the last entry
of the listing; the listing read afterwards has one entry and
`selected_index` is still 1. -/
theorem paste_reload_keeps_selected_index_witness :
    ∃ s1 : App Card, main_tick Card.api Card.posix sampleHost 20 pressSelect moveApp
        = some (true, s1) ∧
      s1.ui_state.current_dir = some { entries := [⟨['d'], true, 0⟩], capacity := 32 } ∧
      s1.ui_state.selected_index = 1 :=
  paste_reload_keeps_selected_index Card.api Card.posix sampleHost 20 pressSelect moveApp
    ⟨['d'], true, 0⟩ 0 ⟨[], .NONE⟩ movedCard movedCard
    { entries := [⟨['d'], true, 0⟩], capacity := 32 }
    (by decide) (by decide) (by decide) (by decide) (by decide) (by decide)
    move_paste_runs move_paste_reload

end DBFM
